import Mathlib

/-!
# MeMALC: a boundary-tag allocator with segregated free lists

A shallow embedding of `src/MeMALC.c`.  Every C function of the block manager is
translated statement by statement; each assignment reads the memory left by the
previous one.  Loops whose trip count is not known in advance take a fuel
argument.

A store through `NULL` crashes the process.  The model records this in the flag
`crashed` of the memory, which is never reset: the run of a call counts as a run
of the C function only when the flag is still off at its end.  Memory that
`sbrk` has not handed out yet reads as zero.

`myMalloc.h` (the `header` type, its accessors and the compile-time constants)
is not part of the sources, so the constants are the fields of `Config` and the
header is modelled from the specification's data model.
-/

namespace MeMALC

set_option linter.unusedVariables false

/-- Modelled from the spec: the compile-time constants of `myMalloc.h`
(`ALLOC_HEADER_SIZE`, `N_LISTS`, `ARENA_SIZE`, `MAX_OS_CHUNKS`), which is not
under src/. -/
structure Config where
  ALLOC_HEADER_SIZE : Nat
  N_LISTS : Nat
  ARENA_SIZE : Nat
  MAX_OS_CHUNKS : Nat
  deriving DecidableEq, Repr

/-- Modelled from the spec: the `state` field of a header (`myMalloc.h` is not
under src/). -/
inductive BlockState where
  | UNALLOCATED
  | ALLOCATED
  | FENCEPOST
  deriving DecidableEq, Repr

open BlockState

/-- A `header *`.  The sentinels live in the global array `freelistSentinels`,
the blocks in the memory obtained from `sbrk`; `heap a` is the byte address `a`
of that memory. -/
inductive Ptr where
  | null
  | sentinel (i : Nat)
  | heap (a : Nat)
  deriving DecidableEq, Repr

/-- Modelled from the spec: the header fields (`size`, `state`, `left_size`,
`next`, `prev`) of `myMalloc.h`, which is not under src/.  The memory is one map
per field, from the address of a header to the value of that field. -/
structure Memory where
  size : Ptr → Nat
  state : Ptr → BlockState
  left_size : Ptr → Nat
  next : Ptr → Ptr
  prev : Ptr → Ptr
  crashed : Bool

/-- The global variables of `MeMALC.c` together with the memory and the program
break that `sbrk` moves. -/
structure Heap where
  mem : Memory
  lastFencePost : Ptr
  base : Ptr
  osChunkList : List Ptr
  brk : Nat

/-- A store of one field at one address. -/
def upd {α : Type} (f : Ptr → α) (p : Ptr) (v : α) : Ptr → α :=
  fun q => if q = p then v else f q

/-- The process dereferenced `NULL`. -/
def crash (m : Memory) : Memory := { m with crashed := true }

/-- Modelled from the spec: accessor `get_block_size` of `myMalloc.h`. -/
def get_block_size (m : Memory) (h : Ptr) : Nat := m.size h

/-- Modelled from the spec: accessor `get_block_state` of `myMalloc.h`. -/
def get_block_state (m : Memory) (h : Ptr) : BlockState := m.state h

/-- Modelled from the spec: accessor `set_block_size` of `myMalloc.h`. -/
def set_block_size (m : Memory) (h : Ptr) (v : Nat) : Memory :=
  if h = Ptr.null then crash m else { m with size := upd m.size h v }

/-- Modelled from the spec: accessor `set_block_state` of `myMalloc.h`. -/
def set_block_state (m : Memory) (h : Ptr) (v : BlockState) : Memory :=
  if h = Ptr.null then crash m else { m with state := upd m.state h v }

/-- The assignment `h->left_size = v`. -/
def set_left_size (m : Memory) (h : Ptr) (v : Nat) : Memory :=
  if h = Ptr.null then crash m else { m with left_size := upd m.left_size h v }

/-- The assignment `h->next = v`. -/
def set_next (m : Memory) (h : Ptr) (v : Ptr) : Memory :=
  if h = Ptr.null then crash m else { m with next := upd m.next h v }

/-- The assignment `h->prev = v`. -/
def set_prev (m : Memory) (h : Ptr) (v : Ptr) : Memory :=
  if h = Ptr.null then crash m else { m with prev := upd m.prev h v }

/-- Pointer arithmetic of `get_header_from_offset`: `(header *)((char *) ptr + off)`.
Arithmetic on a pointer that is not a heap address gives no object. -/
def get_header_from_offset (ptr : Ptr) (off : Int) : Ptr :=
  match ptr with
  | Ptr.heap a => Ptr.heap (Int.toNat ((a : Int) + off))
  | _ => Ptr.null

def get_right_header (m : Memory) (h : Ptr) : Ptr :=
  get_header_from_offset h (get_block_size m h)

def get_left_header (m : Memory) (h : Ptr) : Ptr :=
  get_header_from_offset h (-(m.left_size h : Int))

def initialize_fencepost (cfg : Config) (m : Memory) (fp : Ptr) (left_size : Nat) : Memory :=
  let m := set_block_state m fp FENCEPOST
  let m := set_block_size m fp cfg.ALLOC_HEADER_SIZE
  set_left_size m fp left_size

def insert_os_chunk (cfg : Config) (s : Heap) (hdr : Ptr) : Heap :=
  if s.osChunkList.length < cfg.MAX_OS_CHUNKS then
    { s with osChunkList := s.osChunkList ++ [hdr] }
  else s

def insert_fenceposts (cfg : Config) (m : Memory) (raw_mem : Ptr) (size : Nat) : Memory :=
  let leftFencePost := raw_mem
  let m := initialize_fencepost cfg m leftFencePost cfg.ALLOC_HEADER_SIZE
  let rightFencePost := get_header_from_offset raw_mem ((size - cfg.ALLOC_HEADER_SIZE : Nat) : Int)
  initialize_fencepost cfg m rightFencePost (size - 2 * cfg.ALLOC_HEADER_SIZE)

/-- The OS primitive `sbrk(size)`: it returns the old break and moves the break
up by `size`. -/
def sbrk (s : Heap) (size : Nat) : Ptr × Heap :=
  (Ptr.heap s.brk, { s with brk := s.brk + size })

def allocate_chunk (cfg : Config) (s : Heap) (size : Nat) : Ptr × Heap :=
  let mem := (sbrk s size).1
  let s := (sbrk s size).2
  let m := insert_fenceposts cfg s.mem mem size
  let hdr := get_header_from_offset mem cfg.ALLOC_HEADER_SIZE
  let m := set_block_state m hdr UNALLOCATED
  let m := set_block_size m hdr (size - 2 * cfg.ALLOC_HEADER_SIZE)
  let m := set_left_size m hdr cfg.ALLOC_HEADER_SIZE
  (hdr, { s with mem := m })

/-- The two stores `blk->next->prev = blk->prev; blk->prev->next = blk->next;`
that take `blk` out of its list (lines 194-195, 224-225, 367-368). -/
def list_unlink (m : Memory) (blk : Ptr) : Memory :=
  let m := set_prev m (m.next blk) (m.prev blk)
  set_next m (m.prev blk) (m.next blk)

/-- Insertion of `blk` right after `start_ptr` as written in
`LARGER_SIZE_ALLOCATOR` (lines 227-239). -/
def larger_insert (m : Memory) (start_ptr blk : Ptr) : Memory :=
  if m.next start_ptr = start_ptr ∧ m.prev start_ptr = start_ptr then
    let m := set_next m start_ptr blk
    let m := set_prev m start_ptr blk
    let m := set_next m blk start_ptr
    set_prev m blk start_ptr
  else
    let m := set_next m blk (m.next start_ptr)
    let m := set_next m start_ptr blk
    let m := set_prev m (m.next blk) blk
    set_prev m blk start_ptr

def SAME_SIZE_ALLOCATOR (cfg : Config) (m : Memory) (block_ptr : Ptr) : Ptr × Memory :=
  let m := list_unlink m block_ptr
  let m := set_block_state m block_ptr ALLOCATED
  (get_header_from_offset block_ptr cfg.ALLOC_HEADER_SIZE, m)

def LARGER_SIZE_ALLOCATOR (cfg : Config) (m : Memory) (block_ptr : Ptr) (actual_size : Nat) :
    Ptr × Memory :=
  let diff := get_block_size m block_ptr - actual_size
  if diff < 2 * cfg.ALLOC_HEADER_SIZE then
    SAME_SIZE_ALLOCATOR cfg m block_ptr
  else
    let return_ptr := get_header_from_offset block_ptr
      ((get_block_size m block_ptr - actual_size : Nat) : Int)
    let m := set_block_state m return_ptr ALLOCATED
    let m := set_block_size m return_ptr actual_size
    let m := set_block_size m block_ptr diff
    let m := set_left_size m return_ptr diff
    let diff := (diff - cfg.ALLOC_HEADER_SIZE) / 8 - 1
    let m :=
      if diff < cfg.N_LISTS - 1 then
        let start_ptr := Ptr.sentinel diff
        let m := list_unlink m block_ptr
        larger_insert m start_ptr block_ptr
      else m
    let right_block := get_header_from_offset return_ptr (get_block_size m return_ptr)
    let m := set_left_size m right_block (get_block_size m return_ptr)
    (get_header_from_offset return_ptr cfg.ALLOC_HEADER_SIZE, m)

/-- The `for (i = i; i < N_LISTS - 1; i++)` loop of `allocate_object`; `cnt`
bounds the number of iterations left.  `none`: the loop ended without a
`return`.  Reading the size of the first node through `NULL` is a crash. -/
def exact_lists_loop (cfg : Config) (m : Memory) (actual_size : Nat) :
    Nat → Nat → Option (Ptr × Memory)
  | 0, _ => none
  | cnt + 1, i =>
    if i < cfg.N_LISTS - 1 then
      let freelist_ptr := Ptr.sentinel i
      if m.next freelist_ptr ≠ freelist_ptr ∧ m.prev freelist_ptr ≠ freelist_ptr then
        let freelist_ptr := m.next freelist_ptr
        if freelist_ptr = Ptr.null then some (Ptr.null, crash m)
        else if get_block_size m freelist_ptr = actual_size then
          some (SAME_SIZE_ALLOCATOR cfg m freelist_ptr)
        else if get_block_size m freelist_ptr > actual_size then
          some (LARGER_SIZE_ALLOCATOR cfg m freelist_ptr actual_size)
        else exact_lists_loop cfg m actual_size cnt (i + 1)
      else exact_lists_loop cfg m actual_size cnt (i + 1)
    else none

/-- The `while (freelist_ptr != start_ptr)` loop of `allocate_object` over the
last list.  Outer `none`: out of fuel; `some none`: the loop ended without a
`return`.  Reading the size of a node through `NULL` is a crash. -/
def last_list_loop (cfg : Config) (m : Memory) (actual_size : Nat) (start_ptr : Ptr) :
    Nat → Ptr → Option (Option (Ptr × Memory))
  | 0, _ => none
  | fuel + 1, freelist_ptr =>
    if freelist_ptr ≠ start_ptr then
      if freelist_ptr = Ptr.null then some (some (Ptr.null, crash m))
      else if get_block_size m freelist_ptr = actual_size then
        some (some (SAME_SIZE_ALLOCATOR cfg m freelist_ptr))
      else if get_block_size m freelist_ptr > actual_size then
        some (some (LARGER_SIZE_ALLOCATOR cfg m freelist_ptr actual_size))
      else last_list_loop cfg m actual_size start_ptr fuel (m.next freelist_ptr)
    else some none

/-- The `while (numChunks < actual_size + 2 * ALLOC_HEADER_SIZE)` loop of
`NEW_CHUNK_ADDER`. -/
def num_chunks_loop (cfg : Config) (target : Nat) : Nat → Nat → Nat
  | 0, numChunks => numChunks
  | fuel + 1, numChunks =>
    if numChunks < target then num_chunks_loop cfg target fuel (numChunks + cfg.ARENA_SIZE)
    else numChunks

/-- The `for (int i = 1; i < numChunks; i++)` loop of `NEW_CHUNK_ADDER`, run
`n` times. -/
def remaining_chunks_loop (cfg : Config) : Nat → Heap → Ptr → Heap × Ptr
  | 0, s, right_FP => (s, right_FP)
  | n + 1, s, right_FP =>
    remaining_chunks_loop cfg n (allocate_chunk cfg s cfg.ARENA_SIZE).2
      (get_header_from_offset right_FP cfg.ARENA_SIZE)

/-- Insertion of `blk` right after the sentinel `sent_ptr`, as written three
times in `NEW_CHUNK_ADDER` (lines 370-381, 401-412, 430-442; the emptiness test
reads `next` only). -/
def chunk_list_insert (m : Memory) (sent_ptr blk : Ptr) : Memory :=
  if m.next sent_ptr = sent_ptr then
    let m := set_next m sent_ptr blk
    let m := set_prev m sent_ptr blk
    let m := set_next m blk sent_ptr
    set_prev m blk sent_ptr
  else
    let m := set_next m blk (m.next sent_ptr)
    let m := set_prev m blk sent_ptr
    let m := set_prev m (m.next blk) blk
    set_next m sent_ptr blk

def NEW_CHUNK_ADDER (cfg : Config) (s : Heap) (raw_size actual_size : Nat) : Heap :=
  let H := cfg.ALLOC_HEADER_SIZE
  let numChunks := num_chunks_loop cfg (actual_size + 2 * H) (actual_size + 2 * H) cfg.ARENA_SIZE
  let numChunks := numChunks / cfg.ARENA_SIZE
  let chunk_hdr := (allocate_chunk cfg s cfg.ARENA_SIZE).1
  let s := (allocate_chunk cfg s cfg.ARENA_SIZE).2
  let left_FP := get_header_from_offset chunk_hdr (-(H : Int))
  let right_FP := get_header_from_offset chunk_hdr (get_block_size s.mem chunk_hdr)
  let last_block := get_header_from_offset s.lastFencePost (-(s.mem.left_size s.lastFencePost : Int))
  let last_block_size := get_block_size s.mem last_block
  let MERGE : Bool := decide (get_header_from_offset s.lastFencePost H = left_FP)
  let s := if MERGE then { s with lastFencePost := right_FP } else s
  let r := remaining_chunks_loop cfg (numChunks - 1) s right_FP
  let s := r.1
  let right_FP := r.2
  if MERGE then
    let s := { s with lastFencePost := right_FP }
    let m := set_block_state s.mem s.lastFencePost FENCEPOST
    let m := set_block_size m s.lastFencePost H
    if get_block_state m last_block = UNALLOCATED then
      let init_index := (last_block_size - H) / 8 - 1
      let last_block_size := last_block_size + numChunks * cfg.ARENA_SIZE
      let m := set_block_size m last_block last_block_size
      let last_block_size := (last_block_size - H) / 8 - 1
      let last_block_size :=
        if last_block_size ≥ cfg.N_LISTS - 1 then cfg.N_LISTS - 1 else last_block_size
      if init_index ≠ last_block_size then
        let m := list_unlink m last_block
        let sent_ptr := Ptr.sentinel last_block_size
        { s with mem := chunk_list_insert m sent_ptr last_block }
      else { s with mem := m }
    else
      let chunk_hdr := get_header_from_offset chunk_hdr (-(2 * H : Nat) : Int)
      let m := set_block_size m chunk_hdr (numChunks * cfg.ARENA_SIZE)
      let m := set_block_state m chunk_hdr UNALLOCATED
      let m := set_left_size m chunk_hdr last_block_size
      let index := (get_block_size m chunk_hdr - H) / 8 - 1
      let sent_ptr :=
        if index < cfg.N_LISTS - 1 then Ptr.sentinel index else Ptr.sentinel (cfg.N_LISTS - 1)
      { s with mem := chunk_list_insert m sent_ptr chunk_hdr }
  else
    let m := set_block_size s.mem chunk_hdr (numChunks * cfg.ARENA_SIZE - 2 * H)
    let m := set_block_state m chunk_hdr UNALLOCATED
    let m := set_left_size m chunk_hdr H
    let m := set_block_size m left_FP H
    let m := set_block_size m right_FP H
    let m := set_block_state m left_FP FENCEPOST
    let m := set_block_state m right_FP FENCEPOST
    let m := set_left_size m left_FP H
    let m := set_left_size m right_FP (get_block_size m chunk_hdr)
    let s := insert_os_chunk cfg { s with mem := m } left_FP
    let sent_ptr := Ptr.sentinel (cfg.N_LISTS - 1)
    { s with mem := chunk_list_insert s.mem sent_ptr chunk_hdr }

/-- Lines 258-270 of `allocate_object`: the block size `actual_size` computed
from a non-zero `raw_size`.  The `size_t` sum is taken in `Nat`; it is the value
the code computes as long as it stays below `2^64`, which holds for every
request within `request_in_range`. -/
def actual_size_of (cfg : Config) (raw_size : Nat) : Nat :=
  let raw_size := if raw_size < cfg.ALLOC_HEADER_SIZE then cfg.ALLOC_HEADER_SIZE else raw_size
  let actual_size := raw_size + cfg.ALLOC_HEADER_SIZE
  let remainder := actual_size % 8
  if remainder ≠ 0 then actual_size + (8 - remainder) else actual_size

/-- The function `allocate_object`.  `fuel` bounds the scan of the last list and
the depth of the recursive calls; `none` means the fuel ran out.  The start index
of the search, `int i` in the source (lines 271-277), is taken in `Nat`: the two
agree for a request within `request_in_range`; for a larger request the `int`
of the source can be negative, which this definition does not follow. -/
def allocate_object (cfg : Config) : Nat → Heap → Nat → Option (Ptr × Heap)
  | fuel, s, raw_size =>
    if raw_size = 0 then some (Ptr.null, s)
    else
      match fuel with
      | 0 => none
      | fuel + 1 =>
        let actual_size := actual_size_of cfg raw_size
        let raw_size := if raw_size < cfg.ALLOC_HEADER_SIZE then cfg.ALLOC_HEADER_SIZE else raw_size
        let i := (actual_size - cfg.ALLOC_HEADER_SIZE) / 8 - 1
        match exact_lists_loop cfg s.mem actual_size cfg.N_LISTS i with
        | some r => some (r.1, { s with mem := r.2 })
        | none =>
          let freelist_ptr := Ptr.sentinel (cfg.N_LISTS - 1)
          if s.mem.next freelist_ptr = freelist_ptr ∧ s.mem.prev freelist_ptr = freelist_ptr then
            allocate_object cfg fuel (NEW_CHUNK_ADDER cfg s raw_size actual_size) raw_size
          else
            match last_list_loop cfg s.mem actual_size freelist_ptr fuel
                (s.mem.next freelist_ptr) with
            | none => none
            | some (some r) => some (r.1, { s with mem := r.2 })
            | some none =>
              allocate_object cfg fuel (NEW_CHUNK_ADDER cfg s raw_size actual_size) raw_size

def ptr_to_header (cfg : Config) (p : Ptr) : Ptr :=
  get_header_from_offset p (-(cfg.ALLOC_HEADER_SIZE : Int))

/-- How a call of `deallocate_object` ends: it returns, or it prints
"Double Free Detected" and `assert(0)` terminates the process; `double_free s`
carries the heap at the moment of the termination. -/
inductive FreeResult where
  | returned (s : Heap)
  | double_free (s : Heap)

/-- Unlinking of `blk` from its list as written in the coalescing branches of
`deallocate_object`, with the special case `blk->next == blk->prev`. -/
def free_unlink (m : Memory) (blk : Ptr) : Memory :=
  if m.next blk ≠ m.prev blk then
    let m := set_prev m (m.next blk) (m.prev blk)
    set_next m (m.prev blk) (m.next blk)
  else
    let m := set_prev m (m.prev blk) (m.prev blk)
    set_next m (m.prev blk) (m.prev blk)

/-- The same unlinking with the two assignments of the first branch in the
other order (lines 555-556). -/
def free_unlink_rev (m : Memory) (blk : Ptr) : Memory :=
  if m.next blk ≠ m.prev blk then
    let m := set_next m (m.prev blk) (m.next blk)
    set_prev m (m.next blk) (m.prev blk)
  else
    let m := set_prev m (m.prev blk) (m.prev blk)
    set_next m (m.prev blk) (m.prev blk)

/-- Insertion of `blk` right after `head_ptr` as written in the first branch of
`deallocate_object` (lines 491-502). -/
def free_first_insert (m : Memory) (head_ptr blk : Ptr) : Memory :=
  if m.next head_ptr = head_ptr ∧ m.prev head_ptr = head_ptr then
    let m := set_next m head_ptr blk
    let m := set_prev m head_ptr blk
    let m := set_prev m blk head_ptr
    set_next m blk head_ptr
  else
    let m := set_next m blk (m.next head_ptr)
    let m := set_prev m blk head_ptr
    let m := set_prev m (m.next head_ptr) blk
    set_next m head_ptr blk

/-- Insertion of `blk` right after `head_ptr` as written in the coalescing
branches of `deallocate_object` (the emptiness test reads `prev` only). -/
def free_insert (m : Memory) (head_ptr blk : Ptr) : Memory :=
  if m.prev head_ptr = head_ptr then
    let m := set_next m head_ptr blk
    let m := set_prev m head_ptr blk
    let m := set_prev m blk head_ptr
    set_next m blk head_ptr
  else
    let m := set_next m blk (m.next head_ptr)
    let m := set_next m head_ptr blk
    let m := set_prev m (m.next blk) blk
    set_prev m blk head_ptr

def deallocate_object (cfg : Config) (s : Heap) (p : Ptr) : FreeResult :=
  let H := cfg.ALLOC_HEADER_SIZE
  if p = Ptr.null then FreeResult.returned s
  else
    let block_ptr := get_header_from_offset p (-(H : Int))
    if get_block_state s.mem block_ptr = UNALLOCATED then FreeResult.double_free s
    else
      let m := set_block_state s.mem block_ptr UNALLOCATED
      let left_block := get_header_from_offset block_ptr (-(m.left_size block_ptr : Int))
      let right_block := get_header_from_offset block_ptr (get_block_size m block_ptr)
      let sl := get_block_state m left_block
      let sr := get_block_state m right_block
      if (sl = ALLOCATED ∧ sr = ALLOCATED) ∨ (sl = FENCEPOST ∧ sr = ALLOCATED)
          ∨ (sl = ALLOCATED ∧ sr = FENCEPOST) ∨ (sl = FENCEPOST ∧ sr = FENCEPOST) then
        let size := (get_block_size m block_ptr - H) / 8 - 1
        let head_ptr :=
          if size < cfg.N_LISTS - 1 then Ptr.sentinel size else Ptr.sentinel (cfg.N_LISTS - 1)
        let m := free_first_insert m head_ptr block_ptr
        let m := set_block_state m block_ptr UNALLOCATED
        FreeResult.returned { s with mem := m }
      else if (sl = UNALLOCATED ∧ sr = ALLOCATED) ∨ (sl = UNALLOCATED ∧ sr = FENCEPOST) then
        let size := get_block_size m block_ptr
        let left_size := m.left_size block_ptr
        let size := size + left_size
        let m := set_left_size m right_block size
        let m := set_block_size m left_block size
        let size := (size - H) / 8 - 1
        if size < cfg.N_LISTS - 1 then
          let m := free_unlink m left_block
          FreeResult.returned { s with mem := free_insert m (Ptr.sentinel size) left_block }
        else FreeResult.returned { s with mem := m }
      else if (sl = ALLOCATED ∧ sr = UNALLOCATED) ∨ (sl = FENCEPOST ∧ sr = UNALLOCATED) then
        let size := get_block_size m block_ptr
        let right_size := get_block_size m right_block
        let size := size + right_size
        let m := set_block_state m block_ptr UNALLOCATED
        let m := set_block_size m block_ptr size
        let right_to_right := get_header_from_offset right_block right_size
        let m := set_left_size m right_to_right size
        let size := (size - H) / 8 - 1
        if size < cfg.N_LISTS - 1 then
          let m := free_unlink_rev m right_block
          FreeResult.returned { s with mem := free_insert m (Ptr.sentinel size) block_ptr }
        else
          let m := set_next m (m.prev right_block) block_ptr
          let m := set_next m block_ptr (m.next right_block)
          let m := set_prev m block_ptr (m.prev right_block)
          let m := set_prev m (m.next block_ptr) block_ptr
          FreeResult.returned { s with mem := m }
      else if sl = UNALLOCATED ∧ sr = UNALLOCATED then
        let size := get_block_size m left_block
        let size := size + get_block_size m block_ptr
        let size := size + get_block_size m right_block
        let m := set_block_size m left_block size
        let right_to_right := get_header_from_offset right_block (get_block_size m right_block)
        let m := set_left_size m right_to_right size
        let size := (size - H) / 8 - 1
        let m := free_unlink m right_block
        if size < cfg.N_LISTS - 1 then
          let m := free_unlink m left_block
          FreeResult.returned { s with mem := free_insert m (Ptr.sentinel size) left_block }
        else FreeResult.returned { s with mem := m }
      else FreeResult.returned { s with mem := m }

/-- The list walk of `detect_cycles` for one list. Outer `none`: out of fuel;
`some none`: `fast` reached the sentinel; `some (some p)`: the node returned. -/
def detect_cycles_list (m : Memory) (freelist : Ptr) : Nat → Ptr → Ptr → Option (Option Ptr)
  | 0, _, _ => none
  | fuel + 1, slow, fast =>
    if fast ≠ freelist then
      if slow = fast then some (some slow)
      else detect_cycles_list m freelist fuel (m.next slow) (m.next (m.next fast))
    else some none

/-- The outer loop of `detect_cycles` over the lists `i, i+1, ...`, `cnt` of
them. The result `Ptr.null` is the C `NULL`. -/
def detect_cycles_from (m : Memory) (fuel : Nat) : Nat → Nat → Option Ptr
  | 0, _ => some Ptr.null
  | cnt + 1, i =>
    let freelist := Ptr.sentinel i
    match detect_cycles_list m freelist fuel (m.next freelist) (m.next (m.next freelist)) with
    | none => none
    | some (some p) => some p
    | some none => detect_cycles_from m fuel cnt (i + 1)

def detect_cycles (cfg : Config) (m : Memory) (fuel : Nat) : Option Ptr :=
  detect_cycles_from m fuel cfg.N_LISTS 0

/-- The inner loop of `verify_pointers` for one list. -/
def verify_pointers_list (m : Memory) (freelist : Ptr) : Nat → Ptr → Option (Option Ptr)
  | 0, _ => none
  | fuel + 1, cur =>
    if cur ≠ freelist then
      if m.prev (m.next cur) ≠ cur ∨ m.next (m.prev cur) ≠ cur then some (some cur)
      else verify_pointers_list m freelist fuel (m.next cur)
    else some none

def verify_pointers_from (m : Memory) (fuel : Nat) : Nat → Nat → Option Ptr
  | 0, _ => some Ptr.null
  | cnt + 1, i =>
    let freelist := Ptr.sentinel i
    match verify_pointers_list m freelist fuel (m.next freelist) with
    | none => none
    | some (some p) => some p
    | some none => verify_pointers_from m fuel cnt (i + 1)

def verify_pointers (cfg : Config) (m : Memory) (fuel : Nat) : Option Ptr :=
  verify_pointers_from m fuel cfg.N_LISTS 0

def verify_freelist (cfg : Config) (m : Memory) (fuel : Nat) : Option Bool :=
  match detect_cycles cfg m fuel with
  | none => none
  | some cycle =>
    if cycle ≠ Ptr.null then some false
    else
      match verify_pointers cfg m fuel with
      | none => none
      | some invalid => if invalid ≠ Ptr.null then some false else some true

/-- The `for` loop of `verify_chunk`. -/
def verify_chunk_loop (m : Memory) : Nat → Ptr → Option Ptr
  | 0, _ => none
  | fuel + 1, chunk =>
    if get_block_state m chunk ≠ FENCEPOST then
      if get_block_size m chunk ≠ m.left_size (get_right_header m chunk) then some chunk
      else verify_chunk_loop m fuel (get_right_header m chunk)
    else some Ptr.null

def verify_chunk (m : Memory) (fuel : Nat) (chunk : Ptr) : Option Ptr :=
  if get_block_state m chunk ≠ FENCEPOST then some chunk
  else verify_chunk_loop m fuel chunk

/-- The loop of `verify_tags` over the recorded chunks; the `bool` result is the
conversion of the returned pointer: `return invalid` is true, `return NULL` is
false. -/
def verify_tags_loop (m : Memory) (fuel : Nat) : List Ptr → Option Bool
  | [] => some false
  | c :: rest =>
    match verify_chunk m fuel c with
    | none => none
    | some invalid => if invalid ≠ Ptr.null then some true else verify_tags_loop m fuel rest

def verify_tags (s : Heap) (fuel : Nat) : Option Bool :=
  verify_tags_loop s.mem fuel s.osChunkList

/-- The memory before `init`: no field has been written. -/
def blank_memory : Memory :=
  { size := fun _ => 0, state := fun _ => UNALLOCATED, left_size := fun _ => 0,
    next := fun _ => Ptr.null, prev := fun _ => Ptr.null, crashed := false }

/-- The loop of `init` that makes every sentinel an empty list, for the lists
`i, i+1, ...`, `cnt` of them. -/
def init_sentinels (m : Memory) : Nat → Nat → Memory
  | 0, _ => m
  | cnt + 1, i =>
    let freelist := Ptr.sentinel i
    let m := set_next m freelist freelist
    let m := set_prev m freelist freelist
    init_sentinels m cnt (i + 1)

/-- The function `init`, run on the untouched memory with the program break at
`brk0`. -/
def init (cfg : Config) (brk0 : Nat) : Heap :=
  let s : Heap := { mem := blank_memory, lastFencePost := Ptr.null, base := Ptr.null,
                    osChunkList := [], brk := brk0 }
  let block := (allocate_chunk cfg s cfg.ARENA_SIZE).1
  let s := (allocate_chunk cfg s cfg.ARENA_SIZE).2
  let prevFencePost := get_header_from_offset block (-(cfg.ALLOC_HEADER_SIZE : Int))
  let s := insert_os_chunk cfg s prevFencePost
  let s := { s with lastFencePost := get_header_from_offset block (get_block_size s.mem block) }
  let s := { s with base := get_header_from_offset block (-(cfg.ALLOC_HEADER_SIZE : Int)) }
  let m := init_sentinels s.mem cfg.N_LISTS 0
  let freelist := Ptr.sentinel (cfg.N_LISTS - 1)
  let m := set_next m freelist block
  let m := set_prev m freelist block
  let m := set_next m block freelist
  let m := set_prev m block freelist
  { s with mem := m }

def my_malloc (cfg : Config) (fuel : Nat) (s : Heap) (size : Nat) : Option (Ptr × Heap) :=
  allocate_object cfg fuel s size

def my_free (cfg : Config) (s : Heap) (p : Ptr) : FreeResult :=
  deallocate_object cfg s p

/-- The function `verify`: `verify_freelist() && verify_tags()`. -/
def verify (cfg : Config) (s : Heap) (fuel : Nat) : Option Bool :=
  match verify_freelist cfg s.mem fuel with
  | none => none
  | some false => some false
  | some true => verify_tags s fuel

/-! ## Traces and well-formedness -/

/-- The constraints on the constants under which the heap is analysed: the
header size and the arena size are multiples of the alignment 8, and the
interior of a fresh arena is larger than every exact size class. -/
structure Config.WF (cfg : Config) : Prop where
  header_pos : 0 < cfg.ALLOC_HEADER_SIZE
  header_aligned : 8 ∣ cfg.ALLOC_HEADER_SIZE
  lists_pos : 0 < cfg.N_LISTS
  arena_aligned : 8 ∣ cfg.ARENA_SIZE
  arena_large : 4 * cfg.ALLOC_HEADER_SIZE + 8 * cfg.N_LISTS + 8 ≤ cfg.ARENA_SIZE

/-- The constants of the usual build: 16-byte allocated header, 59 lists, 4096-byte
arenas. -/
def cfg16 : Config :=
  { ALLOC_HEADER_SIZE := 16, N_LISTS := 59, ARENA_SIZE := 4096, MAX_OS_CHUNKS := 1024 }

/-- The typical constants listed in the specification (header size 32). -/
def cfg32 : Config :=
  { ALLOC_HEADER_SIZE := 32, N_LISTS := 59, ARENA_SIZE := 4096, MAX_OS_CHUNKS := 1024 }

/-- A request size for which the `int` arithmetic of `allocate_object` and
`NEW_CHUNK_ADDER` (`int i`, `int numChunks`) stays below `2^31`. -/
def request_in_range (cfg : Config) (n : Nat) : Prop :=
  n + cfg.ARENA_SIZE + 4 * cfg.ALLOC_HEADER_SIZE + 8 ≤ 2 ^ 31

/-- The list index the specification assigns to a block of size `size`:
`min(N_LISTS - 1, (size - ALLOC_HEADER_SIZE)/8 - 1)`. -/
def list_index (cfg : Config) (size : Nat) : Nat :=
  min (cfg.N_LISTS - 1) ((size - cfg.ALLOC_HEADER_SIZE) / 8 - 1)

/-- The blocks of the chunk whose left fencepost is at `lo`: the addresses met
when walking right from `lo` by the `size` fields, up to and including the first
fencepost after `lo`. -/
inductive InChunk (m : Memory) (lo : Nat) : Nat → Prop where
  | left : InChunk m lo lo
  | step {b : Nat} : InChunk m lo b → (b = lo ∨ m.state (Ptr.heap b) ≠ FENCEPOST) →
      InChunk m lo (b + m.size (Ptr.heap b))

/-- The chunks after a call of `allocate_object` that took the heap from `s` to
`t`: a chunk that was not glued to the last fencepost starts a new entry. -/
def chunks_after (cfg : Config) (s t : Heap) (chunks : List Nat) : List Nat :=
  if t.brk = s.brk then chunks
  else if get_header_from_offset s.lastFencePost cfg.ALLOC_HEADER_SIZE = Ptr.heap s.brk then chunks
  else chunks ++ [s.brk]

/-- The states reached from the initialised heap by calls of `my_malloc` and
`my_free` that return without a crash.  `chunks` lists the left fenceposts of
the chunks, `live` the pointers returned by `my_malloc` and not freed since,
each with the size that was requested.  Another part of the process may move the
program break between two calls. -/
inductive Reachable (cfg : Config) (brk0 : Nat) : Heap → List Nat → List (Nat × Nat) → Prop where
  | init : Reachable cfg brk0 (init cfg brk0) [brk0] []
  | malloc {s t : Heap} {chunks : List Nat} {live : List (Nat × Nat)} (n fuel a : Nat) :
      Reachable cfg brk0 s chunks live → request_in_range cfg n →
      my_malloc cfg fuel s n = some (Ptr.heap a, t) → t.mem.crashed = false →
      Reachable cfg brk0 t (chunks_after cfg s t chunks) ((a, n) :: live)
  | malloc_zero {s t : Heap} {chunks : List Nat} {live : List (Nat × Nat)} (fuel : Nat) :
      Reachable cfg brk0 s chunks live →
      my_malloc cfg fuel s 0 = some (Ptr.null, t) →
      Reachable cfg brk0 t chunks live
  | free {s t : Heap} {chunks : List Nat} {live : List (Nat × Nat)} (a n : Nat) :
      Reachable cfg brk0 s chunks live → (a, n) ∈ live →
      my_free cfg s (Ptr.heap a) = FreeResult.returned t → t.mem.crashed = false →
      Reachable cfg brk0 t chunks (live.erase (a, n))
  | free_null {s t : Heap} {chunks : List Nat} {live : List (Nat × Nat)} :
      Reachable cfg brk0 s chunks live →
      my_free cfg s Ptr.null = FreeResult.returned t →
      Reachable cfg brk0 t chunks live
  | os_break {s : Heap} {chunks : List Nat} {live : List (Nat × Nat)} (g : Nat) :
      Reachable cfg brk0 s chunks live →
      Reachable cfg brk0 { s with brk := s.brk + g } chunks live

/-- The memory after `x` has been taken out of its list: the two stores
`x->next->prev = x->prev` and `x->prev->next = x->next`. -/
def mem_unlink (m : Memory) (x : Ptr) : Memory :=
  { m with next := upd m.next (m.prev x) (m.next x), prev := upd m.prev (m.next x) (m.prev x) }

/-- The memory after `x` has been put right after the sentinel `S`. -/
def mem_insert (m : Memory) (S x : Ptr) : Memory :=
  { m with next := upd (upd m.next x (m.next S)) S x,
           prev := upd (upd m.prev (m.next S) x) x S }

/-- The list label of a pointer: a sentinel is labelled by its index, a block by
`lab`. -/
def plab (lab : Nat → Nat) : Ptr → Nat
  | Ptr.sentinel i => i
  | Ptr.heap a => lab a
  | Ptr.null => 0

/-- The nodes of the free lists: the sentinels and the `UNALLOCATED` blocks. -/
def IsNode (cfg : Config) (m : Memory) (B : Nat → Prop) (p : Ptr) : Prop :=
  (∃ i, i < cfg.N_LISTS ∧ p = Ptr.sentinel i) ∨
    (∃ a, p = Ptr.heap a ∧ B a ∧ m.state (Ptr.heap a) = UNALLOCATED)

/-- The links `nx`, `pv` form doubly linked cycles on the nodes `Nd`, and the
label `lb` is constant along them. -/
def Linked (Nd : Ptr → Prop) (lb : Ptr → Nat) (nx pv : Ptr → Ptr) : Prop :=
  ∀ p, Nd p → Nd (nx p) ∧ Nd (pv p) ∧ pv (nx p) = p ∧ nx (pv p) = p ∧ lb (nx p) = lb p

/-- The layout of the blocks: `B` is the set of block addresses, `sz`, `ls` and
`fp` give the size, the left size and the fencepost state of a block, `f` is the
address of the last fencepost.  `hole` names the one block, if any, whose size
the `left_size` of its right neighbour may disagree with (the state between
`NEW_CHUNK_ADDER` and the split that follows it). -/
structure Layout (cfg : Config) (sz ls : Nat → Nat) (fp : Nat → Prop) (B : Nat → Prop)
    (brk : Nat) (chunks : List Nat) (f : Nat) (hole : Option Nat) : Prop where
  in_brk : ∀ b, B b → b + sz b ≤ brk
  fp_size : ∀ b, B b → fp b → sz b = cfg.ALLOC_HEADER_SIZE
  blk_size : ∀ b, B b → ¬ fp b → 2 * cfg.ALLOC_HEADER_SIZE ≤ sz b ∧ 8 ∣ sz b
  right : ∀ b, B b → ¬ fp b → B (b + sz b) ∧ (hole ≠ some b → ls (b + sz b) = sz b)
  left : ∀ b, B b → ¬ fp b → ls b ≤ b ∧ B (b - ls b) ∧ sz (b - ls b) = ls b
  disj : ∀ b c, B b → B c → b < c → b + sz b ≤ c
  chunk : ∀ lo, lo ∈ chunks → B lo ∧ fp lo ∧ B (lo + cfg.ALLOC_HEADER_SIZE) ∧
    ls (lo + cfg.ALLOC_HEADER_SIZE) = cfg.ALLOC_HEADER_SIZE
  last : B f ∧ fp f ∧ f + cfg.ALLOC_HEADER_SIZE ≤ brk ∧ ∃ l, B l ∧ ¬ fp l ∧ l + sz l = f
  fp_kind : ∀ b, B b → fp b → b ∈ chunks ∨ ∃ l, B l ∧ ¬ fp l ∧ l + sz l = b
  left_fp : ∀ b, B b → ¬ fp b → fp (b - ls b) → b - ls b ∈ chunks

/-- Well-formedness of a heap with respect to the set `B` of its block addresses
and the labelling `lab` of its free blocks by list index. -/
structure WellFormed (cfg : Config) (s : Heap) (chunks : List Nat) (B : Nat → Prop)
    (lab : Nat → Nat) (hole : Option Nat) : Prop where
  not_crashed : s.mem.crashed = false
  fresh : ∀ a, s.brk ≤ a → s.mem.next (Ptr.heap a) = Ptr.null
  layout : ∃ f, s.lastFencePost = Ptr.heap f ∧
    Layout cfg (fun a => s.mem.size (Ptr.heap a)) (fun a => s.mem.left_size (Ptr.heap a))
      (fun a => s.mem.state (Ptr.heap a) = FENCEPOST) B s.brk chunks f hole
  coal : ∀ b, B b → s.mem.state (Ptr.heap b) = UNALLOCATED →
    s.mem.state (Ptr.heap (b + s.mem.size (Ptr.heap b))) ≠ UNALLOCATED
  links : Linked (IsNode cfg s.mem B) (plab lab) s.mem.next s.mem.prev
  cls : ∀ a, B a → s.mem.state (Ptr.heap a) = UNALLOCATED → lab a < cfg.N_LISTS - 1 →
    cfg.ALLOC_HEADER_SIZE + 8 * (lab a + 1) ≤ s.mem.size (Ptr.heap a)

/-- The live pointers are distinct and each is the payload of an `ALLOCATED`
block that is large enough for the request. -/
def LiveOK (cfg : Config) (m : Memory) (B : Nat → Prop) (live : List (Nat × Nat)) : Prop :=
  (live.map Prod.fst).Nodup ∧
    ∀ x, x ∈ live → cfg.ALLOC_HEADER_SIZE ≤ x.1 ∧ B (x.1 - cfg.ALLOC_HEADER_SIZE) ∧
      m.state (Ptr.heap (x.1 - cfg.ALLOC_HEADER_SIZE)) = ALLOCATED ∧
      actual_size_of cfg x.2 ≤ m.size (Ptr.heap (x.1 - cfg.ALLOC_HEADER_SIZE))

/-- The invariant of the reachable states. -/
def Inv (cfg : Config) (s : Heap) (chunks : List Nat) (live : List (Nat × Nat)) : Prop :=
  ∃ B lab, WellFormed cfg s chunks B lab none ∧ LiveOK cfg s.mem B live

/-! ## Auxiliary predicates and the example heaps -/

/-- The outcome of freeing a live block: the frame for the other allocated
blocks. -/
def FreeFrame (s t : Heap) (B B2 : Nat → Prop) (b : Nat) : Prop :=
  ∀ c, B c → c ≠ b → s.mem.state (Ptr.heap c) = ALLOCATED →
    B2 c ∧ t.mem.state (Ptr.heap c) = ALLOCATED ∧
      t.mem.size (Ptr.heap c) = s.mem.size (Ptr.heap c)

/-- What a successful allocation leaves for the blocks that were `ALLOCATED`
before: they keep their state and size, and the block handed out is not one of
them. -/
def AllocFrame (s : Heap) (m2 : Memory) (B B2 : Nat → Prop) (a : Nat) : Prop :=
  (∀ c, B c → s.mem.state (Ptr.heap c) = ALLOCATED →
    B2 c ∧ m2.state (Ptr.heap c) = ALLOCATED ∧ m2.size (Ptr.heap c) = s.mem.size (Ptr.heap c))
  ∧ ¬ (B a ∧ s.mem.state (Ptr.heap a) = ALLOCATED)

/-- The memory `m2` differs from `m` only in the size, state and left-size
fields at addresses from `b0` on. -/
structure ChunkFrame (m m2 : Memory) (b0 : Nat) : Prop where
  next_eq : m2.next = m.next
  prev_eq : m2.prev = m.prev
  crashed_eq : m2.crashed = m.crashed
  size_eq : ∀ c, c < b0 → m2.size (Ptr.heap c) = m.size (Ptr.heap c)
  state_eq : ∀ c, c < b0 → m2.state (Ptr.heap c) = m.state (Ptr.heap c)
  left_eq : ∀ c, c < b0 → m2.left_size (Ptr.heap c) = m.left_size (Ptr.heap c)

/-- The last arena of a run of arenas: its right fencepost and its interior
header as `allocate_chunk` leaves them. -/
structure LastArena (cfg : Config) (m : Memory) (brk : Nat) : Prop where
  fp_state : m.state (Ptr.heap (brk - cfg.ALLOC_HEADER_SIZE)) = FENCEPOST
  fp_size : m.size (Ptr.heap (brk - cfg.ALLOC_HEADER_SIZE)) = cfg.ALLOC_HEADER_SIZE
  fp_left : m.left_size (Ptr.heap (brk - cfg.ALLOC_HEADER_SIZE))
    = cfg.ARENA_SIZE - 2 * cfg.ALLOC_HEADER_SIZE
  hdr_state : m.state (Ptr.heap (brk - cfg.ARENA_SIZE + cfg.ALLOC_HEADER_SIZE)) = UNALLOCATED
  hdr_size : m.size (Ptr.heap (brk - cfg.ARENA_SIZE + cfg.ALLOC_HEADER_SIZE))
    = cfg.ARENA_SIZE - 2 * cfg.ALLOC_HEADER_SIZE

/-- The number of arenas that `NEW_CHUNK_ADDER` acquires for a block size. -/
def arena_count (cfg : Config) (actual_size : Nat) : Nat :=
  num_chunks_loop cfg (actual_size + 2 * cfg.ALLOC_HEADER_SIZE)
    (actual_size + 2 * cfg.ALLOC_HEADER_SIZE) cfg.ARENA_SIZE / cfg.ARENA_SIZE

/-- What the glued branch of `NEW_CHUNK_ADDER` leaves at the end of the heap
when it does not re-link the block it extended: the left size of the last
fencepost names the interior header of the last arena, which is `UNALLOCATED`
and in no list. -/
def Stale (cfg : Config) (s : Heap) : Prop :=
  ∃ f, s.lastFencePost = Ptr.heap f ∧ f + cfg.ALLOC_HEADER_SIZE = s.brk ∧
    s.mem.left_size (Ptr.heap f) = cfg.ARENA_SIZE - 2 * cfg.ALLOC_HEADER_SIZE ∧
    cfg.ARENA_SIZE - 2 * cfg.ALLOC_HEADER_SIZE ≤ f ∧
    s.mem.state (Ptr.heap (f - (cfg.ARENA_SIZE - 2 * cfg.ALLOC_HEADER_SIZE))) = UNALLOCATED ∧
    s.mem.size (Ptr.heap (f - (cfg.ARENA_SIZE - 2 * cfg.ALLOC_HEADER_SIZE)))
      = cfg.ARENA_SIZE - 2 * cfg.ALLOC_HEADER_SIZE ∧
    s.mem.next (Ptr.heap (f - (cfg.ARENA_SIZE - 2 * cfg.ALLOC_HEADER_SIZE))) = Ptr.null

/-- The blocks that were `ALLOCATED` in `s` are blocks of `s1` with the same
state and size. -/
def KeepsAllocated (s s1 : Heap) (B B1 : Nat → Prop) : Prop :=
  ∀ c, B c → s.mem.state (Ptr.heap c) = ALLOCATED →
    B1 c ∧ s1.mem.state (Ptr.heap c) = ALLOCATED ∧
      s1.mem.size (Ptr.heap c) = s.mem.size (Ptr.heap c)

/-- After `NEW_CHUNK_ADDER` the free block `x` at the head of the last list
covers the request; if the left size of its right neighbour is stale, the
block is large enough to be split. -/
def Refilled (cfg : Config) (s s1 : Heap) (req : Nat) (chunks1 : List Nat) (B : Nat → Prop) :
    Prop :=
  ∃ x hole1 B1 lab1, WellFormed cfg s1 chunks1 B1 lab1 hole1 ∧
    (hole1 = none ∨ (hole1 = some x ∧
      req + 2 * cfg.ALLOC_HEADER_SIZE ≤ s1.mem.size (Ptr.heap x))) ∧
    B1 x ∧ s1.mem.state (Ptr.heap x) = UNALLOCATED ∧ req ≤ s1.mem.size (Ptr.heap x) ∧
    s1.mem.next (Ptr.sentinel (cfg.N_LISTS - 1)) = Ptr.heap x ∧
    (∀ j, j < cfg.N_LISTS - 1 → s.mem.next (Ptr.sentinel j) = Ptr.sentinel j →
      s1.mem.next (Ptr.sentinel j) = Ptr.sentinel j) ∧
    KeepsAllocated s s1 B B1

/-- The outcome of a successful allocation that took the heap from `s` to `t`
without moving the break. -/
def AllocGood (cfg : Config) (s t : Heap) (p : Ptr) (req : Nat) (chunks1 : List Nat)
    (B : Nat → Prop) : Prop :=
  ∃ a B2 lab2, p = Ptr.heap (a + cfg.ALLOC_HEADER_SIZE) ∧
    WellFormed cfg t chunks1 B2 lab2 none ∧ B2 a ∧
    t.mem.state (Ptr.heap a) = ALLOCATED ∧ req ≤ t.mem.size (Ptr.heap a) ∧
    AllocFrame s t.mem B B2 a ∧ t.brk = s.brk

/-- What a successful call of `allocate_object` establishes. -/
def AllocResult (cfg : Config) (s t : Heap) (p : Ptr) (req : Nat) (chunks : List Nat)
    (B : Nat → Prop) : Prop :=
  ∃ a B2 lab2, p = Ptr.heap (a + cfg.ALLOC_HEADER_SIZE) ∧
    WellFormed cfg t (chunks_after cfg s t chunks) B2 lab2 none ∧ B2 a ∧
    t.mem.state (Ptr.heap a) = ALLOCATED ∧ req ≤ t.mem.size (Ptr.heap a) ∧
    AllocFrame s t.mem B B2 a

/-- The nodes of a well-formed heap are finitely many: a code below
`N_LISTS + brk` tells them apart. -/
def node_code (cfg : Config) : Ptr → Nat
  | Ptr.sentinel i => i
  | Ptr.heap a => cfg.N_LISTS + a
  | Ptr.null => 0

/-- The heap carried by the outcome of a call of `my_free`. -/
def FreeResult.heap : FreeResult → Heap
  | FreeResult.returned s => s
  | FreeResult.double_free s => s

/-- The heap of the usual build after `init` with the break at 4096 and
`p = my_malloc(24)`; `p` is 8152. -/
def ex_one : Heap := ((my_malloc cfg16 2 (init cfg16 4096) 24).getD (Ptr.null, init cfg16 4096)).2

/-- The heap `ex_one` after `q = my_malloc(24)`; `q` is 8112. -/
def ex_two : Heap := ((my_malloc cfg16 2 ex_one 24).getD (Ptr.null, ex_one)).2

/-- The heap `ex_two` after `my_free(p)`. -/
def ex_three : Heap := (my_free cfg16 ex_two (Ptr.heap 8152)).heap

/-- The heap after `init` and `p = my_malloc(8)`; `p` is 8160. -/
def ex_small : Heap := ((my_malloc cfg16 2 (init cfg16 4096) 8).getD (Ptr.null, init cfg16 4096)).2

/-- The heap `ex_small` after `my_free(p)`. -/
def ex_small_free : Heap := (my_free cfg16 ex_small (Ptr.heap 8160)).heap

/-- The heap after `init` and `p = my_malloc(ARENA_SIZE - 6 * ALLOC_HEADER_SIZE)`;
`p` is 4176. -/
def ex_big : Heap := ((my_malloc cfg16 2 (init cfg16 4096) 4000).getD (Ptr.null, init cfg16 4096)).2

/-- The heap `ex_big` after `my_free(p)`. -/
def ex_big_free : Heap := (my_free cfg16 ex_big (Ptr.heap 4176)).heap

/-- The same two calls with a 32-byte header: `p = my_malloc(3904)` is 4256. -/
def ex_big32 : Heap :=
  ((my_malloc cfg32 2 (init cfg32 4096) 3904).getD (Ptr.null, init cfg32 4096)).2

/-- The heap `ex_big32` after `my_free(p)`. -/
def ex_big32_free : Heap := (my_free cfg32 ex_big32 (Ptr.heap 4256)).heap

/-- The heap `ex_big_free` after a second `my_malloc(4000)`; the pointer is
8272. -/
def ex_big_again : Heap :=
  ((my_malloc cfg16 3 ex_big_free 4000).getD (Ptr.null, ex_big_free)).2

/-- The heap after `init` and `a = my_malloc(440)`; `a` is 7736. -/
def ex_mix1 : Heap :=
  ((my_malloc cfg16 2 (init cfg16 4096) 440).getD (Ptr.null, init cfg16 4096)).2

/-- The heap `ex_mix1` after `b = my_malloc(16)`; `b` is 7704. -/
def ex_mix2 : Heap := ((my_malloc cfg16 2 ex_mix1 16).getD (Ptr.null, ex_mix1)).2

/-- The heap `ex_mix2` after `c = my_malloc(16)`; `c` is 7672. -/
def ex_mix3 : Heap := ((my_malloc cfg16 2 ex_mix2 16).getD (Ptr.null, ex_mix2)).2

/-- The heap `ex_mix3` after `my_free(b)`. -/
def ex_mix4 : Heap := (my_free cfg16 ex_mix3 (Ptr.heap 7704)).heap

/-- The heap `ex_mix4` after `my_free(a)`. -/
def ex_mix5 : Heap := (my_free cfg16 ex_mix4 (Ptr.heap 7736)).heap

/-- The heap `ex_mix5` after the first call of `NEW_CHUNK_ADDER` made by
`my_malloc(4000)`. -/
def ex_mix6 : Heap := NEW_CHUNK_ADDER cfg16 ex_mix5 4000 4016

/-- The address at which the block freed by `free(b + ALLOC_HEADER_SIZE)` starts
after coalescing: the left neighbour of `b` if that was `UNALLOCATED`, else `b`. -/
def merged_start (m : Memory) (b : Nat) : Nat :=
  if m.state (Ptr.heap (b - m.left_size (Ptr.heap b))) = UNALLOCATED then
    b - m.left_size (Ptr.heap b)
  else b

/-- The size of that block: the size of `b`, plus the size of the left
neighbour if it was `UNALLOCATED`, plus the size of the right neighbour if it was
`UNALLOCATED`. -/
def merged_size (m : Memory) (b : Nat) : Nat :=
  m.size (Ptr.heap b)
    + (if m.state (Ptr.heap (b - m.left_size (Ptr.heap b))) = UNALLOCATED then
        m.size (Ptr.heap (b - m.left_size (Ptr.heap b))) else 0)
    + (if m.state (Ptr.heap (b + m.size (Ptr.heap b))) = UNALLOCATED then
        m.size (Ptr.heap (b + m.size (Ptr.heap b))) else 0)

/-- Every header that reads `ALLOCATED` is at an address in `Q`. -/
def AllocIn (Q : Nat → Prop) (m : Memory) : Prop :=
  ∀ c, m.state (Ptr.heap c) = ALLOCATED → Q c

/-- The heap after `init` and `p = my_malloc(4032)`, a request of
`ARENA_SIZE - 4*ALLOC_HEADER_SIZE` bytes; `p` is 4128. -/
def ex_cc1 : Heap :=
  ((my_malloc cfg16 2 (init cfg16 4096) 4032).getD (Ptr.null, init cfg16 4096)).2

/-- The heap `ex_cc1` after `q = my_malloc(4032)`, which extends the heap by one
arena; `q` is 8240. -/
def ex_cc2 : Heap := ((my_malloc cfg16 3 ex_cc1 4032).getD (Ptr.null, ex_cc1)).2

/-- The heap `ex_cc2` after `my_free(p)`. -/
def ex_cc3 : Heap := (my_free cfg16 ex_cc2 (Ptr.heap 4128)).heap

/-- The heap `ex_cc3` after `my_free(q)`. -/
def ex_cc4 : Heap := (my_free cfg16 ex_cc3 (Ptr.heap 8240)).heap

/-- The initialised heap after another part of the process has moved the
program break up by 64 bytes. -/
def ex_gap : Heap := { init cfg16 4096 with brk := (init cfg16 4096).brk + 64 }

/-- The heap `ex_gap` after the call of `NEW_CHUNK_ADDER` made by
`my_malloc(5000)`: two arenas that are not glued to the first chunk. -/
def ex_gap_added : Heap := NEW_CHUNK_ADDER cfg16 ex_gap 5000 5016

/-- The heap `ex_gap` after `p = my_malloc(5000)`; `p` is 11432. -/
def ex_gap1 : Heap := ((my_malloc cfg16 3 ex_gap 5000).getD (Ptr.null, ex_gap)).2

/-- The initialised heap after the call of `NEW_CHUNK_ADDER` made by
`my_malloc(5000)`: two arenas glued to the first chunk, whose last block is
`UNALLOCATED`. -/
def ex_glue : Heap := NEW_CHUNK_ADDER cfg16 (init cfg16 4096) 5000 5016

/-- The heap `ex_cc1`, whose one block is `ALLOCATED`, after the call of
`NEW_CHUNK_ADDER` made by `my_malloc(4032)`: one arena glued to the first
chunk. -/
def ex_glue2 : Heap := NEW_CHUNK_ADDER cfg16 ex_cc1 4032 4048

/-- The initialised heap after a stray store of 0 into the `left_size` of its
right fencepost. -/
def ex_bad : Heap :=
  { init cfg16 4096 with mem := set_left_size (init cfg16 4096).mem (Ptr.heap 8176) 0 }

/-! ## Stores -/

theorem upd_same {α : Type} (f : Ptr → α) (p : Ptr) (v : α) : upd f p v p = v := by
  simp [upd]

theorem upd_other {α : Type} (f : Ptr → α) (p q : Ptr) (v : α) (h : q ≠ p) :
    upd f p v q = f q := by
  simp [upd, h]

theorem set_next_ok (m : Memory) (h v : Ptr) (hn : h ≠ Ptr.null) :
    set_next m h v = { m with next := upd m.next h v } := by
  simp [set_next, hn]

theorem set_prev_ok (m : Memory) (h v : Ptr) (hn : h ≠ Ptr.null) :
    set_prev m h v = { m with prev := upd m.prev h v } := by
  simp [set_prev, hn]

theorem set_block_size_ok (m : Memory) (h : Ptr) (v : Nat) (hn : h ≠ Ptr.null) :
    set_block_size m h v = { m with size := upd m.size h v } := by
  simp [set_block_size, hn]

theorem set_block_state_ok (m : Memory) (h : Ptr) (v : BlockState) (hn : h ≠ Ptr.null) :
    set_block_state m h v = { m with state := upd m.state h v } := by
  simp [set_block_state, hn]

theorem set_left_size_ok (m : Memory) (h : Ptr) (v : Nat) (hn : h ≠ Ptr.null) :
    set_left_size m h v = { m with left_size := upd m.left_size h v } := by
  simp [set_left_size, hn]

theorem heap_ne_null (a : Nat) : Ptr.heap a ≠ Ptr.null := by simp

theorem sentinel_ne_null (i : Nat) : Ptr.sentinel i ≠ Ptr.null := by simp

theorem offset_heap_nat (a n : Nat) :
    get_header_from_offset (Ptr.heap a) (n : Int) = Ptr.heap (a + n) := by
  simp only [get_header_from_offset]
  congr 1

theorem offset_heap_neg (a n : Nat) (h : n ≤ a) :
    get_header_from_offset (Ptr.heap a) (-(n : Int)) = Ptr.heap (a - n) := by
  simp only [get_header_from_offset]
  congr 1
  omega

/-! ## Doubly linked cycles -/

theorem isNode_ne_null {cfg : Config} {m : Memory} {B : Nat → Prop} {p : Ptr}
    (h : IsNode cfg m B p) : p ≠ Ptr.null := by
  rcases h with ⟨i, _, rfl⟩ | ⟨a, rfl, _, _⟩ <;> simp

theorem Linked.congr {Nd P : Ptr → Prop} {lb g : Ptr → Nat} {nx pv : Ptr → Ptr}
    (h : Linked Nd lb nx pv) (hN : ∀ p, P p ↔ Nd p) (hl : ∀ p, Nd p → g p = lb p) :
    Linked P g nx pv := by
  intro p hp
  have hp1 := (hN p).1 hp
  obtain ⟨h1, h2, h3, h4, h5⟩ := h p hp1
  refine ⟨(hN _).2 h1, (hN _).2 h2, h3, h4, ?_⟩
  rw [hl _ h1, hl _ hp1, h5]

/-- Both links of a node have its label. -/
theorem Linked.lab_prev {Nd : Ptr → Prop} {lb : Ptr → Nat} {nx pv : Ptr → Ptr}
    (h : Linked Nd lb nx pv) {p : Ptr} (hp : Nd p) : lb (pv p) = lb p := by
  obtain ⟨_, h2, _, h4, _⟩ := h p hp
  have := (h (pv p) h2).2.2.2.2
  rw [h4] at this
  exact this.symm

theorem Linked.next_self_iff {Nd : Ptr → Prop} {lb : Ptr → Nat} {nx pv : Ptr → Ptr}
    (h : Linked Nd lb nx pv) {p : Ptr} (hp : Nd p) : nx p = p ↔ pv p = p := by
  obtain ⟨_, _, h3, h4, _⟩ := h p hp
  constructor
  · intro e; rw [e] at h3; exact h3
  · intro e; rw [e] at h4; exact h4

/-- The links after `x` has been taken out of its cycle. -/
theorem Linked.unlink {Nd : Ptr → Prop} {lb : Ptr → Nat} {nx pv : Ptr → Ptr}
    (h : Linked Nd lb nx pv) {x : Ptr} (hx : Nd x) :
    Linked (fun p => Nd p ∧ p ≠ x) lb (upd nx (pv x) (nx x)) (upd pv (nx x) (pv x)) := by
  obtain ⟨x1, x2, x3, x4, x5⟩ := h x hx
  have x6 := h.lab_prev hx
  intro p ⟨hp, hpx⟩
  obtain ⟨p1, p2, p3, p4, p5⟩ := h p hp
  have p6 := h.lab_prev hp
  refine ⟨⟨?_, ?_⟩, ⟨?_, ?_⟩, ?_, ?_, ?_⟩
  · unfold upd; split <;> assumption
  · unfold upd; split
    · rename_i e; intro e2; rw [e2] at x3; rw [x3] at e; exact hpx e
    · rename_i e; intro e2; rw [e2] at p3; exact e p3.symm
  · unfold upd; split <;> assumption
  · unfold upd; split
    · rename_i e; intro e2; rw [e2] at x4; rw [x4] at e; exact hpx e
    · rename_i e; intro e2; rw [e2] at p4; exact e p4.symm
  · by_cases e : p = pv x
    · subst e; simp [upd, x4]
    · have e2 : nx p ≠ nx x := fun e2 => hpx (by rw [← p3, e2, x3])
      simp [upd, e, e2, p3]
  · by_cases e : p = nx x
    · subst e; simp [upd]
    · have e2 : pv p ≠ pv x := fun e2 => hpx (by rw [← p4, e2, x4])
      simp [upd, e, e2, p4]
  · by_cases e : p = pv x
    · subst e; simp [upd, x5, x6]
    · simp [upd, e, p5]

/-- The links after `x`, which is not a node, has been put right after the node
`S`. -/
theorem Linked.insert {Nd : Ptr → Prop} {lb : Ptr → Nat} {nx pv : Ptr → Ptr}
    (h : Linked Nd lb nx pv) {S x : Ptr} (hS : Nd S) (hx : ¬ Nd x) {g : Ptr → Nat}
    (hl : ∀ p, Nd p → g p = lb p) (hlx : g x = lb S) :
    Linked (fun p => Nd p ∨ p = x) g (upd (upd nx x (nx S)) S x)
      (upd (upd pv (nx S) x) x S) := by
  obtain ⟨s1, s2, s3, s4, s5⟩ := h S hS
  have hSx : S ≠ x := fun e => hx (e ▸ hS)
  have hnSx : nx S ≠ x := fun e => hx (e ▸ s1)
  intro p hp
  rcases hp with hp | rfl
  · obtain ⟨p1, p2, p3, p4, p5⟩ := h p hp
    have hpx : p ≠ x := fun e => hx (e ▸ hp)
    have hnpx : nx p ≠ x := fun e => hx (e ▸ p1)
    have hppx : pv p ≠ x := fun e => hx (e ▸ p2)
    by_cases e : p = S
    · subst e
      have e3 : pv p = p ↔ nx p = p := (h.next_self_iff hp).symm
      refine ⟨?_, ?_, ?_, ?_, ?_⟩
      · simp [upd]
      · by_cases e2 : nx p = p
        · simp [upd, hpx, e2]
        · simp [upd, hpx, Ne.symm e2, p2]
      · simp [upd]
      · by_cases e2 : nx p = p
        · simp [upd, hpx, e2]
        · have e4 : pv p ≠ p := fun e4 => e2 (e3.1 e4)
          simp [upd, hpx, Ne.symm e2, e4, hppx, p4]
      · simp [upd, hlx, hl p hp]
    · have e5 : nx p ≠ nx S := fun e2 => e (by rw [← p3, e2, s3])
      refine ⟨?_, ?_, ?_, ?_, ?_⟩
      · simp [upd, e, hpx, p1]
      · by_cases e2 : p = nx S
        · right; subst e2; simp [upd, hnSx]
        · left; simp [upd, hpx, e2, p2]
      · simp [upd, e, hpx, hnpx, e5, p3]
      · by_cases e2 : p = nx S
        · subst e2; simp [upd, hnSx, hSx, hSx.symm]
        · have e3 : pv p ≠ S := fun e3 => e2 (by rw [← p4, e3])
          simp [upd, hpx, e2, e3, hppx, p4]
      · simp [upd, e, hpx, hl _ p1, hl _ hp, p5]
  · refine ⟨?_, ?_, ?_, ?_, ?_⟩
    · left; simp [upd, hSx.symm, s1]
    · left; simp [upd, hS]
    · simp [upd, hSx.symm, hnSx]
    · simp [upd, hSx]
    · simp [upd, hSx.symm, hlx, hl _ s1, s5]

theorem Linked.congr_links {Nd : Ptr → Prop} {lb : Ptr → Nat} {nx pv nx2 pv2 : Ptr → Ptr}
    (h : Linked Nd lb nx pv) (hn : ∀ p, Nd p → nx2 p = nx p) (hp : ∀ p, Nd p → pv2 p = pv p) :
    Linked Nd lb nx2 pv2 := by
  intro p hp1
  obtain ⟨h1, h2, h3, h4, h5⟩ := h p hp1
  rw [hn p hp1, hp p hp1, hp _ h1, hn _ h2]
  exact ⟨h1, h2, h3, h4, h5⟩

/-- A node is moved to the place right after the node `S`. -/
theorem Linked.move_after {Nd : Ptr → Prop} {lb : Ptr → Nat} {nx pv : Ptr → Ptr}
    (h : Linked Nd lb nx pv) {S x : Ptr} (hS : Nd S) (hx : Nd x) (hSx : S ≠ x)
    {g : Ptr → Nat} (hl : ∀ p, Nd p → p ≠ x → g p = lb p) (hlx : g x = lb S) :
    Linked Nd g
      (upd (upd (upd nx (pv x) (nx x)) x (upd nx (pv x) (nx x) S)) S x)
      (upd (upd (upd pv (nx x) (pv x)) (upd nx (pv x) (nx x) S) x) x S) := by
  have h1 := h.unlink hx
  have h2 := h1.insert (S := S) (x := x) (g := g) ⟨hS, hSx⟩ (fun hh => hh.2 rfl)
    (fun p hp => hl p hp.1 hp.2) hlx
  refine h2.congr ?_ (fun _ _ => rfl)
  intro p
  constructor
  · intro hp
    by_cases e : p = x
    · exact Or.inr e
    · exact Or.inl ⟨hp, e⟩
  · intro hp
    rcases hp with hp | rfl
    · exact hp.1
    · exact hx

/-- The node `R` is replaced in its cycle by `b`, which was not a node. -/
theorem Linked.replace {Nd : Ptr → Prop} {lb : Ptr → Nat} {nx pv : Ptr → Ptr}
    (h : Linked Nd lb nx pv) {R b : Ptr} (hR : Nd R) (hb : ¬ Nd b)
    {g : Ptr → Nat} (hl : ∀ p, Nd p → g p = lb p) (hlb : g b = lb R) :
    Linked (fun p => (Nd p ∧ p ≠ R) ∨ p = b) g
      (upd (upd nx (pv R) b) b (upd nx (pv R) b R))
      (upd (upd pv b (pv R)) (upd nx (pv R) b R) b) := by
  obtain ⟨r1, r2, r3, r4, r5⟩ := h R hR
  have hRb : R ≠ b := fun e => hb (e ▸ hR)
  have hpb : pv R ≠ b := fun e => hb (e ▸ r2)
  have hnb : nx R ≠ b := fun e => hb (e ▸ r1)
  have h1 := h.insert (S := pv R) (x := b) (g := g) r2 hb hl
    (by rw [hlb]; exact (h.lab_prev hR).symm)
  have h2 := h1.unlink (x := R) (Or.inl hR)
  rw [r4] at h2
  have e1 : upd (upd pv R b) b (pv R) R = b := by simp [upd, hRb]
  rw [e1] at h2
  have h3 := h2.congr (P := fun p => (Nd p ∧ p ≠ R) ∨ p = b) (g := g) ?_ (fun _ _ => rfl)
  · refine h3.congr_links ?_ ?_
    · intro p hp
      have hpR : p ≠ R := by
        rcases hp with hp | hp
        · exact hp.2
        · rw [hp]; exact hRb.symm
      unfold upd
      by_cases e : p = b
      · simp [e, hRb, hRb.symm]
      · simp [e, hRb, hRb.symm]
    · intro p hp
      have hpR : p ≠ R := by
        rcases hp with hp | hp
        · exact hp.2
        · rw [hp]; exact hRb.symm
      unfold upd
      by_cases e2 : R = pv R
      · by_cases e : p = b
        · simp [e, ← e2, hRb, hRb.symm]
        · simp [e, ← e2, hRb, hRb.symm, hpR]
      · by_cases e : p = b
        · simp [e, e2, hRb, hRb.symm, hnb, hnb.symm]
        · simp [e, e2, hRb, hRb.symm, hnb, hnb.symm, hpR]
  · intro p
    constructor
    · intro hp
      rcases hp with hp | hp
      · exact ⟨Or.inl hp.1, hp.2⟩
      · exact ⟨Or.inr hp, by rw [hp]; exact hRb.symm⟩
    · intro hp
      rcases hp.1 with h4 | h4
      · exact Or.inl ⟨h4, hp.2⟩
      · exact Or.inr h4

/-! ## Arithmetic of the layout -/

section layout
variable {cfg : Config} {sz ls : Nat → Nat} {fp B : Nat → Prop} {brk : Nat}
  {chunks : List Nat} {f : Nat} {hole : Option Nat}

theorem Layout.size_ge (L : Layout cfg sz ls fp B brk chunks f hole) {b : Nat} (hb : B b) :
    cfg.ALLOC_HEADER_SIZE ≤ sz b := by
  by_cases h : fp b
  · rw [L.fp_size b hb h]
  · have := (L.blk_size b hb h).1
    omega

/-- Two blocks whose extents meet are the same block. -/
theorem Layout.overlap_eq (L : Layout cfg sz ls fp B brk chunks f hole) (hc : cfg.WF)
    {b c : Nat} (hb : B b) (hc2 : B c) (h1 : b < c + sz c) (h2 : c < b + sz b) : b = c := by
  by_contra hne
  rcases Nat.lt_or_gt_of_ne hne with h | h
  · have := L.disj b c hb hc2 h; omega
  · have := L.disj c b hc2 hb h; omega

/-- The left neighbour of an address is unique. -/
theorem Layout.left_unique (L : Layout cfg sz ls fp B brk chunks f hole) (hc : cfg.WF)
    {b c : Nat} (hb : B b) (hc2 : B c) (h : b + sz b = c + sz c) : b = c := by
  have h1 := L.size_ge hb
  have h2 := L.size_ge hc2
  have := hc.header_pos
  exact L.overlap_eq hc hb hc2 (by omega) (by omega)

theorem Layout.congr_fields {sz2 ls2 : Nat → Nat} {fp2 B2 : Nat → Prop}
    (L : Layout cfg sz ls fp B brk chunks f hole)
    (hB : ∀ b, B2 b ↔ B b) (hsz : ∀ b, B b → sz2 b = sz b) (hls : ∀ b, B b → ls2 b = ls b)
    (hfp : ∀ b, B b → (fp2 b ↔ fp b)) :
    Layout cfg sz2 ls2 fp2 B2 brk chunks f hole := by
  have hB1 : ∀ b, B2 b → B b := fun b => (hB b).1
  have hB2 : ∀ b, B b → B2 b := fun b => (hB b).2
  refine ⟨?_, ?_, ?_, ?_, ?_, ?_, ?_, ?_, ?_, ?_⟩
  · intro b hb
    rw [hsz b (hB1 b hb)]; exact L.in_brk b (hB1 b hb)
  · intro b hb h
    rw [hsz b (hB1 b hb)]; exact L.fp_size b (hB1 b hb) ((hfp b (hB1 b hb)).1 h)
  · intro b hb h
    rw [hsz b (hB1 b hb)]
    exact L.blk_size b (hB1 b hb) (fun h2 => h ((hfp b (hB1 b hb)).2 h2))
  · intro b hb h
    have hb1 := hB1 b hb
    have := L.right b hb1 (fun h2 => h ((hfp b hb1).2 h2))
    rw [hsz b hb1]
    refine ⟨hB2 _ this.1, fun hh => ?_⟩
    rw [hls _ this.1]; exact this.2 hh
  · intro b hb h
    have hb1 := hB1 b hb
    have := L.left b hb1 (fun h2 => h ((hfp b hb1).2 h2))
    rw [hls b hb1]
    refine ⟨this.1, hB2 _ this.2.1, ?_⟩
    rw [hsz _ this.2.1]; exact this.2.2
  · intro b c hb hc h
    rw [hsz b (hB1 b hb)]; exact L.disj b c (hB1 b hb) (hB1 c hc) h
  · intro lo hlo
    obtain ⟨h1, h2, h3, h4⟩ := L.chunk lo hlo
    exact ⟨hB2 _ h1, (hfp _ h1).2 h2, hB2 _ h3, by rw [hls _ h3]; exact h4⟩
  · obtain ⟨h1, h2, h3, l, h4, h5, h6⟩ := L.last
    refine ⟨hB2 _ h1, (hfp _ h1).2 h2, h3, l, hB2 _ h4, fun h => h5 ((hfp _ h4).1 h), ?_⟩
    rw [hsz _ h4]; exact h6
  · intro b hb h
    have hb1 := hB1 b hb
    rcases L.fp_kind b hb1 ((hfp b hb1).1 h) with h1 | ⟨l, h1, h2, h3⟩
    · exact Or.inl h1
    · exact Or.inr ⟨l, hB2 _ h1, fun h4 => h2 ((hfp _ h1).1 h4), by rw [hsz _ h1]; exact h3⟩
  · intro b hb h h2
    have hb1 := hB1 b hb
    have hnf : ¬ fp b := fun h3 => h ((hfp b hb1).2 h3)
    have h4 := (L.left b hb1 hnf).2.1
    rw [hls b hb1] at h2 ⊢
    exact L.left_fp b hb1 hnf ((hfp _ h4).1 h2)

/-- The program break moves up. -/
theorem Layout.os_break (L : Layout cfg sz ls fp B brk chunks f hole) (g : Nat) :
    Layout cfg sz ls fp B (brk + g) chunks f hole := by
  refine ⟨?_, L.fp_size, L.blk_size, L.right, L.left, L.disj, L.chunk, ?_, L.fp_kind,
    L.left_fp⟩
  · intro b hb; have := L.in_brk b hb; omega
  · obtain ⟨h1, h2, h3, h4⟩ := L.last
    exact ⟨h1, h2, by omega, h4⟩

/-- The block `x` absorbs its right neighbour `y`. -/
theorem Layout.merge (L : Layout cfg sz ls fp B brk chunks f none) (hc : cfg.WF)
    {x : Nat} (hx : B x) (hfx : ¬ fp x) (hfy : ¬ fp (x + sz x)) :
    Layout cfg (fun a => if a = x then sz x + sz (x + sz x) else sz a)
      (fun a => if a = x + sz x + sz (x + sz x) then sz x + sz (x + sz x) else ls a)
      fp (fun a => B a ∧ a ≠ x + sz x) brk chunks f none := by
  have hH := hc.header_pos
  obtain ⟨hy, hyl⟩ := L.right x hx hfx
  obtain ⟨hz, hzl⟩ := L.right _ hy hfy
  have hsx := L.size_ge hx
  have hsy := L.size_ge hy
  have hsz := L.size_ge hz
  have hxs := (L.blk_size x hx hfx)
  have hys := (L.blk_size _ hy hfy)
  refine ⟨?_, ?_, ?_, ?_, ?_, ?_, ?_, ?_, ?_, ?_⟩
  · intro b ⟨hb, hby⟩
    have := L.in_brk b hb
    have := L.in_brk _ hy
    show b + (if b = x then sz x + sz (x + sz x) else sz b) ≤ brk
    split <;> omega
  · intro b ⟨hb, hby⟩ h
    have : b ≠ x := fun e => hfx (e ▸ h)
    simp only [this, if_false]
    exact L.fp_size b hb h
  · intro b ⟨hb, hby⟩ h
    have := L.blk_size b hb h
    split
    · constructor
      · omega
      · exact Nat.dvd_add hxs.2 hys.2
    · exact this
  · intro b ⟨hb, hby⟩ h
    by_cases e : b = x
    · subst e
      simp only [if_true]
      refine ⟨⟨?_, ?_⟩, fun _ => ?_⟩
      · rw [← Nat.add_assoc]; exact hz
      · omega
      · rw [← Nat.add_assoc]; simp
    · simp only [e, if_false]
      obtain ⟨h1, h2⟩ := L.right b hb h
      refine ⟨⟨h1, ?_⟩, fun _ => ?_⟩
      · intro e2
        exact e (L.left_unique hc hb hx e2)
      · have : b + sz b ≠ x + sz x + sz (x + sz x) := by
          intro e2
          exact hby (L.left_unique hc hb hy e2)
        simp only [this, if_false]
        exact h2 (by simp)
  · intro b ⟨hb, hby⟩ h
    obtain ⟨h1, h2, h3⟩ := L.left b hb h
    by_cases e : b = x + sz x + sz (x + sz x)
    · have e1 : b - (sz x + sz (x + sz x)) = x := by omega
      simp only [e, if_true]
      simp only [← e, e1, if_true]
      refine ⟨by omega, ⟨hx, by omega⟩, trivial⟩
    · simp only [e, if_false]
      have e2 : b - ls b ≠ x + sz x := by
        intro e2
        have : b - ls b + sz (b - ls b) = b := by omega
        rw [e2] at this
        exact e this.symm
      have e3 : b - ls b ≠ x := by
        intro e3
        have : b - ls b + sz (b - ls b) = b := by omega
        rw [e3] at this
        exact hby this.symm
      simp only [e3, if_false]
      exact ⟨h1, ⟨h2, e2⟩, h3⟩
  · intro b c ⟨hb, hby⟩ ⟨hc2, hcy⟩ h
    have h1 := L.disj b c hb hc2 h
    split
    · rename_i e
      rw [e] at h h1
      by_contra hlt
      have h2 : x + sz x < c := by omega
      have := L.disj _ c hy hc2 h2
      omega
    · exact h1
  · intro lo hlo
    obtain ⟨h1, h2, h3, h4⟩ := L.chunk lo hlo
    have e1 : lo ≠ x + sz x := fun e => hfy (e ▸ h2)
    have e0 : sz lo = cfg.ALLOC_HEADER_SIZE := L.fp_size lo h1 h2
    have e2 : lo + cfg.ALLOC_HEADER_SIZE ≠ x + sz x := by
      intro e
      have : lo = x := L.left_unique hc h1 hx (by omega)
      exact hfx (this ▸ h2)
    have e3 : lo + cfg.ALLOC_HEADER_SIZE ≠ x + sz x + sz (x + sz x) := by
      intro e
      have : lo = x + sz x := L.left_unique hc h1 hy (by omega)
      exact e1 this
    refine ⟨⟨h1, e1⟩, h2, ⟨h3, e2⟩, ?_⟩
    simp only [e3, if_false]
    exact h4
  · obtain ⟨h1, h2, h3, l, h4, h5, h6⟩ := L.last
    have e1 : f ≠ x + sz x := fun e => hfy (e ▸ h2)
    refine ⟨⟨h1, e1⟩, h2, h3, ?_⟩
    by_cases e : l = x + sz x
    · refine ⟨x, ⟨hx, by omega⟩, hfx, ?_⟩
      simp only [if_true]
      rw [← h6, e]; omega
    · refine ⟨l, ⟨h4, e⟩, h5, ?_⟩
      have : l ≠ x := by
        intro e2
        rw [e2] at h6
        exact e1 h6.symm
      simp only [this, if_false]
      exact h6
  · intro b ⟨hb, hby⟩ h
    rcases L.fp_kind b hb h with h1 | ⟨l, h1, h2, h3⟩
    · exact Or.inl h1
    · right
      by_cases e : l = x + sz x
      · refine ⟨x, ⟨hx, by omega⟩, hfx, ?_⟩
        simp only [if_true]
        rw [← h3, e]; omega
      · refine ⟨l, ⟨h1, e⟩, h2, ?_⟩
        have : l ≠ x := by
          intro e2
          rw [e2] at h3
          exact hby h3.symm
        simp only [this, if_false]
        exact h3
  · intro b ⟨hb, hby⟩ h h2
    obtain ⟨h3, h4, h5⟩ := L.left b hb h
    by_cases e : b = x + sz x + sz (x + sz x)
    · have e1 : b - (sz x + sz (x + sz x)) = x := by omega
      simp only [e, if_true] at h2
      simp only [← e, e1] at h2
      exact absurd h2 hfx
    · simp only [e, if_false] at h2 ⊢
      exact L.left_fp b hb h h2

end layout

section layout
variable {cfg : Config} {sz ls : Nat → Nat} {fp B : Nat → Prop} {brk : Nat}
  {chunks : List Nat} {f : Nat} {hole : Option Nat}

/-- The right `req` bytes of the block `F` become a block of their own. -/
theorem Layout.split_block (L : Layout cfg sz ls fp B brk chunks f hole) (hc : cfg.WF)
    {F d req : Nat} (hF : B F) (hfF : ¬ fp F) (hsum : d + req = sz F)
    (hd : 2 * cfg.ALLOC_HEADER_SIZE ≤ d) (hr : 2 * cfg.ALLOC_HEADER_SIZE ≤ req)
    (hd8 : 8 ∣ d) (hr8 : 8 ∣ req) :
    Layout cfg (fun a => if a = F then d else if a = F + d then req else sz a)
      (fun a => if a = F + d then d else if a = F + sz F then req else ls a)
      (fun a => a ≠ F + d ∧ fp a) (fun a => B a ∨ a = F + d) brk chunks f
      (if hole = some F then none else hole) := by
  have hH := hc.header_pos
  obtain ⟨hR, -⟩ := L.right F hF hfF
  have hnew : ¬ B (F + d) := fun h => by
    have := L.overlap_eq hc hF h (by omega) (by omega)
    omega
  have hsR := L.size_ge hR
  refine ⟨?_, ?_, ?_, ?_, ?_, ?_, ?_, ?_, ?_, ?_⟩
  · intro b hb
    have h1 := L.in_brk F hF
    rcases hb with hb | rfl
    · have := L.in_brk b hb
      show b + (if b = F then d else if b = F + d then req else sz b) ≤ brk
      split_ifs <;> omega
    · show F + d + (if F + d = F then d else if F + d = F + d then req else sz (F + d)) ≤ brk
      split_ifs <;> omega
  · intro b hb ⟨h1, h2⟩
    rcases hb with hb | rfl
    · have e : b ≠ F := fun e => hfF (e ▸ h2)
      simp only [e, h1, if_false]
      exact L.fp_size b hb h2
    · exact absurd rfl h1
  · intro b hb h
    rcases hb with hb | rfl
    · by_cases e : b = F
      · simp only [e, if_true]; exact ⟨hd, hd8⟩
      · have e2 : b ≠ F + d := fun e2 => hnew (e2 ▸ hb)
        simp only [e, e2, if_false]
        exact L.blk_size b hb (fun h2 => h ⟨e2, h2⟩)
    · have e : F + d ≠ F := by omega
      simp only [e, if_false, if_true]; exact ⟨hr, hr8⟩
  · intro b hb h
    rcases hb with hb | rfl
    · by_cases e : b = F
      · subst e
        refine ⟨Or.inr (by simp), fun _ => by simp⟩
      · have e2 : b ≠ F + d := fun e2 => hnew (e2 ▸ hb)
        have hfb : ¬ fp b := fun h2 => h ⟨e2, h2⟩
        obtain ⟨h1, h2⟩ := L.right b hb hfb
        simp only [e, e2, if_false]
        refine ⟨Or.inl h1, fun hh => ?_⟩
        have e3 : b + sz b ≠ F + d := fun e3 => hnew (e3 ▸ h1)
        have e4 : b + sz b ≠ F + sz F := fun e4 => e (L.left_unique hc hb hF e4)
        simp only [e3, e4, if_false]
        apply h2
        intro e5
        apply hh
        split
        · rename_i e6
          rw [e6] at e5
          exact absurd (Option.some.inj e5).symm e
        · exact e5
    · have e : F + d ≠ F := by omega
      have e2 : F + d + req = F + sz F := by omega
      have e3 : F + sz F ≠ F + d := by omega
      simp only [e, if_false, if_true, e2, e3]
      exact ⟨Or.inl hR, fun _ => trivial⟩
  · intro b hb h
    rcases hb with hb | rfl
    · have e2 : b ≠ F + d := fun e2 => hnew (e2 ▸ hb)
      have hfb : ¬ fp b := fun h2 => h ⟨e2, h2⟩
      obtain ⟨h1, h2, h3⟩ := L.left b hb hfb
      have h4 := L.size_ge h2
      by_cases e : b = F + sz F
      · subst e
        have e3 : F + sz F - req = F + d := by omega
        have e4 : F + d ≠ F := by omega
        simp only [e2, if_false, if_true, e3, e4]
        exact ⟨by omega, Or.inr trivial, trivial⟩
      · simp only [e2, e, if_false]
        have e5 : b - ls b ≠ F := by
          intro e5
          rw [e5] at h3
          omega
        have e6 : b - ls b ≠ F + d := fun e6 => hnew (e6 ▸ h2)
        simp only [e5, e6, if_false]
        exact ⟨h1, Or.inl h2, h3⟩
    · have e4 : F + d ≠ F := by omega
      have e5 : F + d - d = F := by omega
      simp only [if_true, e5]
      exact ⟨by omega, Or.inl hF, trivial⟩
  · intro b c hb hc2 h
    have h0 := L.size_ge hF
    rcases hb with hb | rfl
    · have e2 : b ≠ F + d := fun e2 => hnew (e2 ▸ hb)
      rcases hc2 with hc2 | rfl
      · have := L.disj b c hb hc2 h
        by_cases e : b = F
        · subst e; simp only [if_true]; omega
        · simp only [e, e2, if_false]; exact this
      · by_cases e : b = F
        · simp only [e, if_true]; omega
        · simp only [e, e2, if_false]
          by_contra hlt
          exact e (L.overlap_eq hc hb hF (by omega) (by omega))
    · rcases hc2 with hc2 | rfl
      · show F + d + (if F + d = F then d else if F + d = F + d then req else sz (F + d)) ≤ c
        have e : F + d ≠ F := by omega
        simp only [e, if_false, if_true]
        by_contra hlt
        have : F = c := L.overlap_eq hc hF hc2 (by omega) (by omega)
        omega
      · omega
  · intro lo hlo
    obtain ⟨h1, h2, h3, h4⟩ := L.chunk lo hlo
    have e0 : sz lo = cfg.ALLOC_HEADER_SIZE := L.fp_size lo h1 h2
    have e1 : lo ≠ F + d := fun e => hnew (e ▸ h1)
    have e2 : lo + cfg.ALLOC_HEADER_SIZE ≠ F + d := fun e => hnew (e ▸ h3)
    have e3 : lo + cfg.ALLOC_HEADER_SIZE ≠ F + sz F := by
      intro e
      have : lo = F := L.left_unique hc h1 hF (by omega)
      exact hfF (this ▸ h2)
    refine ⟨Or.inl h1, ⟨e1, h2⟩, Or.inl h3, ?_⟩
    simp only [e2, e3, if_false]
    exact h4
  · obtain ⟨h1, h2, h3, l, h4, h5, h6⟩ := L.last
    have e1 : f ≠ F + d := fun e => hnew (e ▸ h1)
    refine ⟨Or.inl h1, ⟨e1, h2⟩, h3, ?_⟩
    by_cases e : l = F
    · refine ⟨F + d, Or.inr rfl, fun h => h.1 rfl, ?_⟩
      have e4 : F + d ≠ F := by omega
      simp only [e4, if_false, if_true]
      rw [← h6, e]; omega
    · have e2 : l ≠ F + d := fun e => hnew (e ▸ h4)
      refine ⟨l, Or.inl h4, fun h => h5 h.2, ?_⟩
      simp only [e, e2, if_false]
      exact h6
  · intro b hb ⟨hb1, hb2⟩
    have hb : B b := hb.resolve_right hb1
    rcases L.fp_kind b hb hb2 with h1 | ⟨l, h1, h2, h3⟩
    · exact Or.inl h1
    · right
      by_cases e : l = F
      · refine ⟨F + d, Or.inr rfl, fun h => h.1 rfl, ?_⟩
        have e4 : F + d ≠ F := by omega
        simp only [e4, if_false, if_true]
        rw [← h3, e]; omega
      · have e2 : l ≠ F + d := fun e => hnew (e ▸ h1)
        refine ⟨l, Or.inl h1, fun h => h2 h.2, ?_⟩
        simp only [e, e2, if_false]
        exact h3
  · intro b hb h h2
    rcases hb with hb | rfl
    · have e2 : b ≠ F + d := fun e2 => hnew (e2 ▸ hb)
      have hfb : ¬ fp b := fun h2 => h ⟨e2, h2⟩
      by_cases e : b = F + sz F
      · subst e
        have e3 : F + sz F - req = F + d := by omega
        simp only [e2, if_false, if_true, e3] at h2
        exact absurd rfl h2.1
      · simp only [e2, e, if_false] at h2 ⊢
        exact L.left_fp b hb hfb h2.2
    · have e5 : F + d - d = F := by omega
      simp only [if_true, e5] at h2
      exact absurd h2.2 hfF

/-- Every block lies at or below the last fencepost when the break is right
after it. -/
theorem Layout.le_last (L : Layout cfg sz ls fp B brk chunks f hole) (hc : cfg.WF)
    (hbrk : f + cfg.ALLOC_HEADER_SIZE = brk) {b : Nat} (hb : B b) (hne : b ≠ f) :
    b + sz b ≤ f := by
  have hH := hc.header_pos
  obtain ⟨h1, h2, h3, l, h4, h5, h6⟩ := L.last
  have hs := L.size_ge hb
  have hf := L.fp_size f h1 h2
  rcases Nat.lt_or_gt_of_ne hne with h | h
  · exact L.disj b f hb h1 h
  · have := L.disj f b h1 hb h
    have := L.in_brk b hb
    omega

end layout

section layout
variable {cfg : Config} {sz ls : Nat → Nat} {fp B : Nat → Prop} {brk : Nat}
  {chunks : List Nat} {f : Nat} {hole : Option Nat}

/-- No left fencepost of a chunk is the last fencepost. -/
theorem Layout.chunk_ne_last (L : Layout cfg sz ls fp B brk chunks f hole) (hc : cfg.WF)
    (hbrk : f + cfg.ALLOC_HEADER_SIZE = brk) {lo : Nat} (hlo : lo ∈ chunks) : lo ≠ f := by
  have hH := hc.header_pos
  obtain ⟨h1, h2, h3, h4⟩ := L.chunk lo hlo
  intro e
  subst e
  have := L.le_last hc hbrk h3 (by omega)
  omega

/-- The glued arenas extend the last block `T` of the old chunk. -/
theorem Layout.extendT (L : Layout cfg sz ls fp B brk chunks f none) (hc : cfg.WF)
    (hbrk : f + cfg.ALLOC_HEADER_SIZE = brk) {T E : Nat} (hT : B T) (hfT : ¬ fp T)
    (hTf : T + sz T = f) (hE : 0 < E) (hE8 : 8 ∣ E) {z : Nat → Nat}
    (hls : ∀ b, B b → z b = ls b) :
    Layout cfg (fun a => if a = T then sz T + E else if a = f + E then cfg.ALLOC_HEADER_SIZE
        else sz a)
      z (fun a => a = f + E ∨ fp a) (fun a => (B a ∧ a ≠ f) ∨ a = f + E) (brk + E) chunks
      (f + E) (some T) := by
  have hH := hc.header_pos
  obtain ⟨hf1, hf2, hf3, -⟩ := L.last
  have hsT := L.size_ge hT
  have hTne : T ≠ f := fun e => hfT (e ▸ hf2)
  have hTE : T ≠ f + E := by omega
  have hnew : ¬ B (f + E) := fun h => by
    have := L.le_last hc hbrk h (by omega)
    omega
  have hTs := L.blk_size T hT hfT
  refine ⟨?_, ?_, ?_, ?_, ?_, ?_, ?_, ?_, ?_, ?_⟩
  · intro b hb
    rcases hb with ⟨hb, hbf⟩ | rfl
    · have := L.in_brk b hb
      by_cases e : b = T
      · subst e; simp only [if_true]; omega
      · have e2 : b ≠ f + E := fun e2 => hnew (e2 ▸ hb)
        simp only [e, e2, if_false]; omega
    · simp only [Ne.symm hTE, if_false, if_true]; omega
  · intro b hb h
    rcases hb with ⟨hb, hbf⟩ | rfl
    · have e2 : b ≠ f + E := fun e2 => hnew (e2 ▸ hb)
      have h2 : fp b := h.resolve_left e2
      have e : b ≠ T := fun e => hfT (e ▸ h2)
      simp only [e, e2, if_false]
      exact L.fp_size b hb h2
    · simp only [Ne.symm hTE, if_false, if_true]
  · intro b hb h
    rcases hb with ⟨hb, hbf⟩ | rfl
    · have e2 : b ≠ f + E := fun e2 => hnew (e2 ▸ hb)
      have h2 : ¬ fp b := fun h2 => h (Or.inr h2)
      by_cases e : b = T
      · subst e; simp only [if_true]
        exact ⟨by omega, Nat.dvd_add hTs.2 hE8⟩
      · simp only [e, e2, if_false]
        exact L.blk_size b hb h2
    · exact absurd (Or.inl rfl) h
  · intro b hb h
    rcases hb with ⟨hb, hbf⟩ | rfl
    · have e2 : b ≠ f + E := fun e2 => hnew (e2 ▸ hb)
      have h2 : ¬ fp b := fun h2 => h (Or.inr h2)
      by_cases e : b = T
      · subst e; simp only [if_true]
        refine ⟨Or.inr (by omega), fun hh => absurd rfl hh⟩
      · simp only [e, e2, if_false]
        obtain ⟨h3, h4⟩ := L.right b hb h2
        have e3 : b + sz b ≠ f := by
          intro e3
          exact e (L.left_unique hc hb hT (by omega))
        refine ⟨Or.inl ⟨h3, e3⟩, fun _ => ?_⟩
        rw [hls _ h3]; exact h4 (by simp)
    · exact absurd (Or.inl rfl) h
  · intro b hb h
    rcases hb with ⟨hb, hbf⟩ | rfl
    · have e2 : b ≠ f + E := fun e2 => hnew (e2 ▸ hb)
      have h2 : ¬ fp b := fun h2 => h (Or.inr h2)
      obtain ⟨h3, h4, h5⟩ := L.left b hb h2
      have h6 := L.size_ge h4
      have h7 := L.size_ge hb
      have h8 := L.in_brk b hb
      have h9 := L.fp_size f hf1 hf2
      rw [hls b hb]
      have e3 : b - ls b ≠ f := by
        intro e3; rw [e3] at h5; omega
      have e4 : b - ls b ≠ T := by
        intro e4; rw [e4] at h5; omega
      have e5 : b - ls b ≠ f + E := fun e5 => hnew (e5 ▸ h4)
      simp only [e4, e5, if_false]
      exact ⟨h3, Or.inl ⟨h4, e3⟩, h5⟩
    · exact absurd (Or.inl rfl) h
  · intro b c hb hc2 h
    rcases hb with ⟨hb, hbf⟩ | rfl
    · have e2 : b ≠ f + E := fun e2 => hnew (e2 ▸ hb)
      have h3 := L.le_last hc hbrk hb hbf
      rcases hc2 with ⟨hc2, hcf⟩ | rfl
      · have h4 := L.le_last hc hbrk hc2 hcf
        have h5 := L.disj b c hb hc2 h
        have h6 := L.size_ge hc2
        by_cases e : b = T
        · subst e; omega
        · simp only [e, e2, if_false]; exact h5
      · by_cases e : b = T
        · subst e; simp only [if_true]; omega
        · simp only [e, e2, if_false]; omega
    · rcases hc2 with ⟨hc2, hcf⟩ | rfl
      · have h4 := L.le_last hc hbrk hc2 hcf
        omega
      · omega
  · intro lo hlo
    obtain ⟨h1, h2, h3, h4⟩ := L.chunk lo hlo
    have e1 := L.chunk_ne_last hc hbrk hlo
    have e0 := L.fp_size lo h1 h2
    have e2 : lo + cfg.ALLOC_HEADER_SIZE ≠ f := by
      intro e
      have : lo = T := L.left_unique hc h1 hT (by omega)
      exact hfT (this ▸ h2)
    exact ⟨Or.inl ⟨h1, e1⟩, Or.inr h2, Or.inl ⟨h3, e2⟩, by rw [hls _ h3]; exact h4⟩
  · refine ⟨Or.inr rfl, Or.inl rfl, by omega, T, Or.inl ⟨hT, hTne⟩, ?_, ?_⟩
    · intro h
      rcases h with h | h
      · exact hTE h
      · exact hfT h
    · simp only [if_true]; omega
  · intro b hb h
    rcases hb with ⟨hb, hbf⟩ | rfl
    · have e2 : b ≠ f + E := fun e2 => hnew (e2 ▸ hb)
      have h2 : fp b := h.resolve_left e2
      rcases L.fp_kind b hb h2 with h1 | ⟨l, h1, h3, h4⟩
      · exact Or.inl h1
      · right
        have e3 : l ≠ T := by
          intro e3; rw [e3] at h4; omega
        have e4 : l ≠ f := fun e => h3 (e ▸ hf2)
        have e5 : l ≠ f + E := fun e => hnew (e ▸ h1)
        refine ⟨l, Or.inl ⟨h1, e4⟩, ?_, ?_⟩
        · intro h5
          rcases h5 with h5 | h5
          · exact e5 h5
          · exact h3 h5
        · simp only [e3, e5, if_false]; exact h4
    · right
      refine ⟨T, Or.inl ⟨hT, hTne⟩, ?_, ?_⟩
      · intro h
        rcases h with h | h
        · exact hTE h
        · exact hfT h
      · simp only [if_true]; omega
  · intro b hb h h2
    rcases hb with ⟨hb, hbf⟩ | rfl
    · have h3 : ¬ fp b := fun h3 => h (Or.inr h3)
      obtain ⟨h4, h5, h6⟩ := L.left b hb h3
      rw [hls b hb] at h2 ⊢
      have e5 : b - ls b ≠ f + E := fun e5 => hnew (e5 ▸ h5)
      exact L.left_fp b hb h3 (h2.resolve_left e5)
    · exact absurd (Or.inl rfl) h

/-- The glued arenas become a fresh block at the address of the old last
fencepost. -/
theorem Layout.extendC (L : Layout cfg sz ls fp B brk chunks f none) (hc : cfg.WF)
    (hbrk : f + cfg.ALLOC_HEADER_SIZE = brk) {E : Nat} (hE : 2 * cfg.ALLOC_HEADER_SIZE ≤ E)
    (hE8 : 8 ∣ E) {z : Nat → Nat} (hls : ∀ b, B b → z b = ls b) :
    Layout cfg (fun a => if a = f then E else if a = f + E then cfg.ALLOC_HEADER_SIZE else sz a)
      z (fun a => a = f + E ∨ (a ≠ f ∧ fp a)) (fun a => B a ∨ a = f + E) (brk + E) chunks
      (f + E) (some f) := by
  have hH := hc.header_pos
  obtain ⟨hf1, hf2, hf3, l, hl1, hl2, hl3⟩ := L.last
  have hfE : f ≠ f + E := by omega
  have hnew : ¬ B (f + E) := fun h => by
    have := L.le_last hc hbrk h (by omega)
    omega
  have hsf := L.fp_size f hf1 hf2
  have hlf : l ≠ f := fun e => hl2 (e ▸ hf2)
  refine ⟨?_, ?_, ?_, ?_, ?_, ?_, ?_, ?_, ?_, ?_⟩
  · intro b hb
    rcases hb with hb | rfl
    · have := L.in_brk b hb
      by_cases e : b = f
      · subst e; simp only [if_true]; omega
      · have e2 : b ≠ f + E := fun e2 => hnew (e2 ▸ hb)
        simp only [e, e2, if_false]; omega
    · simp only [Ne.symm hfE, if_false, if_true]; omega
  · intro b hb h
    rcases hb with hb | rfl
    · have e2 : b ≠ f + E := fun e2 => hnew (e2 ▸ hb)
      obtain ⟨h1, h2⟩ := h.resolve_left e2
      simp only [h1, e2, if_false]
      exact L.fp_size b hb h2
    · simp only [Ne.symm hfE, if_false, if_true]
  · intro b hb h
    rcases hb with hb | rfl
    · have e2 : b ≠ f + E := fun e2 => hnew (e2 ▸ hb)
      by_cases e : b = f
      · subst e; simp only [if_true]
        exact ⟨hE, hE8⟩
      · simp only [e, e2, if_false]
        exact L.blk_size b hb (fun h2 => h (Or.inr ⟨e, h2⟩))
    · exact absurd (Or.inl rfl) h
  · intro b hb h
    rcases hb with hb | rfl
    · have e2 : b ≠ f + E := fun e2 => hnew (e2 ▸ hb)
      by_cases e : b = f
      · subst e
        exact ⟨Or.inr (by simp), fun hh => absurd rfl hh⟩
      · simp only [e, e2, if_false]
        obtain ⟨h3, h4⟩ := L.right b hb (fun h2 => h (Or.inr ⟨e, h2⟩))
        refine ⟨Or.inl h3, fun _ => ?_⟩
        rw [hls _ h3]; exact h4 (by simp)
    · exact absurd (Or.inl rfl) h
  · intro b hb h
    rcases hb with hb | rfl
    · have e2 : b ≠ f + E := fun e2 => hnew (e2 ▸ hb)
      rw [hls b hb]
      by_cases e : b = f
      · subst e
        have h4 := (L.right l hl1 hl2).2 (by simp)
        rw [hl3] at h4
        have e3 : b - ls b = l := by omega
        have e4 : l ≠ b + E := by omega
        rw [e3]
        simp only [hlf, e4, if_false]
        exact ⟨by omega, Or.inl hl1, h4.symm⟩
      · obtain ⟨h3, h4, h5⟩ := L.left b hb (fun h2 => h (Or.inr ⟨e, h2⟩))
        have h7 := L.size_ge hb
        have h8 := L.in_brk b hb
        have e3 : b - ls b ≠ f := by
          intro e3; rw [e3] at h5; omega
        have e5 : b - ls b ≠ f + E := fun e5 => hnew (e5 ▸ h4)
        simp only [e3, e5, if_false]
        exact ⟨h3, Or.inl h4, h5⟩
    · exact absurd (Or.inl rfl) h
  · intro b c hb hc2 h
    rcases hb with hb | rfl
    · have e2 : b ≠ f + E := fun e2 => hnew (e2 ▸ hb)
      rcases hc2 with hc2 | rfl
      · have h5 := L.disj b c hb hc2 h
        have h6 := L.size_ge hc2
        by_cases e : b = f
        · subst e
          have := L.le_last hc hbrk hc2 (by omega)
          omega
        · simp only [e, e2, if_false]; exact h5
      · by_cases e : b = f
        · subst e; simp only [if_true]; omega
        · have h3 := L.le_last hc hbrk hb e
          simp only [e, e2, if_false]; omega
    · rcases hc2 with hc2 | rfl
      · by_cases e : c = f
        · omega
        · have h4 := L.le_last hc hbrk hc2 e
          omega
      · omega
  · intro lo hlo
    obtain ⟨h1, h2, h3, h4⟩ := L.chunk lo hlo
    have e1 := L.chunk_ne_last hc hbrk hlo
    exact ⟨Or.inl h1, Or.inr ⟨e1, h2⟩, Or.inl h3, by rw [hls _ h3]; exact h4⟩
  · refine ⟨Or.inr rfl, Or.inl rfl, by omega, f, Or.inl hf1, ?_, ?_⟩
    · intro h
      rcases h with h | h
      · exact hfE h
      · exact h.1 rfl
    · simp only [if_true]
  · intro b hb h
    rcases hb with hb | rfl
    · have e2 : b ≠ f + E := fun e2 => hnew (e2 ▸ hb)
      obtain ⟨h1, h2⟩ := h.resolve_left e2
      rcases L.fp_kind b hb h2 with h3 | ⟨l2, h3, h4, h5⟩
      · exact Or.inl h3
      · right
        have e4 : l2 ≠ f := fun e => h4 (e ▸ hf2)
        have e5 : l2 ≠ f + E := fun e => hnew (e ▸ h3)
        refine ⟨l2, Or.inl h3, ?_, ?_⟩
        · intro h6
          rcases h6 with h6 | h6
          · exact e5 h6
          · exact h4 h6.2
        · simp only [e4, e5, if_false]; exact h5
    · right
      refine ⟨f, Or.inl hf1, ?_, ?_⟩
      · intro h
        rcases h with h | h
        · exact hfE h
        · exact h.1 rfl
      · simp only [if_true]
  · intro b hb h h2
    rcases hb with hb | rfl
    · have e2 : b ≠ f + E := fun e2 => hnew (e2 ▸ hb)
      rw [hls b hb] at h2 ⊢
      by_cases e : b = f
      · subst e
        have h4 := (L.right l hl1 hl2).2 (by simp)
        rw [hl3] at h4
        have e3 : b - ls b = l := by omega
        rw [e3] at h2
        rcases h2 with h2 | h2
        · omega
        · exact absurd h2.2 hl2
      · have h3 : ¬ fp b := fun h3 => h (Or.inr ⟨e, h3⟩)
        obtain ⟨h4, h5, h6⟩ := L.left b hb h3
        have e5 : b - ls b ≠ f + E := fun e5 => hnew (e5 ▸ h5)
        exact L.left_fp b hb h3 (h2.resolve_left e5).2
    · exact absurd (Or.inl rfl) h

/-- The arenas that are not glued to the last fencepost form a chunk of their
own, starting at the old break. -/
theorem Layout.island (L : Layout cfg sz ls fp B brk chunks f hole) (hc : cfg.WF)
    {E : Nat} (hE : 4 * cfg.ALLOC_HEADER_SIZE ≤ E) (hE8 : 8 ∣ E) {z : Nat → Nat}
    (hls : ∀ b, B b → z b = ls b)
    (hl1 : z (brk + cfg.ALLOC_HEADER_SIZE) = cfg.ALLOC_HEADER_SIZE)
    (hl2 : z (brk + E - cfg.ALLOC_HEADER_SIZE) = E - 2 * cfg.ALLOC_HEADER_SIZE) :
    Layout cfg
      (fun a => if a = brk then cfg.ALLOC_HEADER_SIZE
        else if a = brk + cfg.ALLOC_HEADER_SIZE then E - 2 * cfg.ALLOC_HEADER_SIZE
        else if a = brk + E - cfg.ALLOC_HEADER_SIZE then cfg.ALLOC_HEADER_SIZE else sz a)
      z
      (fun a => a = brk ∨ a = brk + E - cfg.ALLOC_HEADER_SIZE ∨
        (a ≠ brk + cfg.ALLOC_HEADER_SIZE ∧ fp a))
      (fun a => B a ∨ a = brk ∨ a = brk + cfg.ALLOC_HEADER_SIZE ∨
        a = brk + E - cfg.ALLOC_HEADER_SIZE)
      (brk + E) (chunks ++ [brk]) f hole := by
  have hH := hc.header_pos
  have hH8 := hc.header_aligned
  have hold : ∀ b, B b → b < brk := fun b hb => by
    have := L.in_brk b hb
    have := L.size_ge hb
    omega
  have hszo : ∀ b, B b → (if b = brk then cfg.ALLOC_HEADER_SIZE
        else if b = brk + cfg.ALLOC_HEADER_SIZE then E - 2 * cfg.ALLOC_HEADER_SIZE
        else if b = brk + E - cfg.ALLOC_HEADER_SIZE then cfg.ALLOC_HEADER_SIZE else sz b) = sz b := by
    intro b hb
    have := hold b hb
    have e1 : b ≠ brk := by omega
    have e2 : b ≠ brk + cfg.ALLOC_HEADER_SIZE := by omega
    have e3 : b ≠ brk + E - cfg.ALLOC_HEADER_SIZE := by omega
    simp only [e1, e2, e3, if_false]
  have hfpo : ∀ b, B b → ((b = brk ∨ b = brk + E - cfg.ALLOC_HEADER_SIZE ∨
        (b ≠ brk + cfg.ALLOC_HEADER_SIZE ∧ fp b)) ↔ fp b) := by
    intro b hb
    have := hold b hb
    constructor
    · intro h
      rcases h with h | h | h
      · omega
      · omega
      · exact h.2
    · intro h
      exact Or.inr (Or.inr ⟨by omega, h⟩)
  have e12 : brk + cfg.ALLOC_HEADER_SIZE ≠ brk := by omega
  have e32 : brk + E - cfg.ALLOC_HEADER_SIZE ≠ brk := by omega
  have e31 : brk + E - cfg.ALLOC_HEADER_SIZE ≠ brk + cfg.ALLOC_HEADER_SIZE := by omega
  refine ⟨?_, ?_, ?_, ?_, ?_, ?_, ?_, ?_, ?_, ?_⟩
  · intro b hb
    rcases hb with hb | rfl | rfl | rfl
    · have := L.in_brk b hb
      show b + _ ≤ _
      rw [hszo b hb]; omega
    · simp only [if_true]; omega
    · simp only [e12, if_false, if_true]; omega
    · simp only [e32, e31, if_false, if_true]; omega
  · intro b hb h
    rcases hb with hb | rfl | rfl | rfl
    · show (if b = brk then _ else _) = _
      rw [hszo b hb]
      exact L.fp_size b hb ((hfpo b hb).1 h)
    · simp only [if_true]
    · rcases h with h | h | h
      · omega
      · omega
      · exact absurd rfl h.1
    · simp only [e32, e31, if_false, if_true]
  · intro b hb h
    rcases hb with hb | rfl | rfl | rfl
    · show _ ≤ (if b = brk then _ else _) ∧ _ ∣ (if b = brk then _ else _)
      rw [hszo b hb]
      exact L.blk_size b hb (fun h2 => h ((hfpo b hb).2 h2))
    · exact absurd (Or.inl rfl) h
    · simp only [e12, if_false, if_true]
      refine ⟨by omega, ?_⟩
      exact (Nat.dvd_sub (by omega) hE8 (Dvd.dvd.mul_left hH8 2))
    · exact absurd (Or.inr (Or.inl rfl)) h
  · intro b hb h
    rcases hb with hb | rfl | rfl | rfl
    · show (_ ∨ _) ∧ _
      rw [hszo b hb]
      obtain ⟨h3, h4⟩ := L.right b hb (fun h2 => h ((hfpo b hb).2 h2))
      refine ⟨Or.inl h3, fun hh => ?_⟩
      rw [hls _ h3]; exact h4 hh
    · exact absurd (Or.inl rfl) h
    · simp only [e12, if_false, if_true]
      have e : brk + cfg.ALLOC_HEADER_SIZE + (E - 2 * cfg.ALLOC_HEADER_SIZE)
          = brk + E - cfg.ALLOC_HEADER_SIZE := by omega
      rw [e]
      exact ⟨Or.inr (Or.inr (Or.inr rfl)), fun _ => hl2⟩
    · exact absurd (Or.inr (Or.inl rfl)) h
  · intro b hb h
    rcases hb with hb | rfl | rfl | rfl
    · obtain ⟨h3, h4, h5⟩ := L.left b hb (fun h2 => h ((hfpo b hb).2 h2))
      rw [hls b hb]
      refine ⟨h3, Or.inl h4, ?_⟩
      show (if b - ls b = brk then _ else _) = _
      rw [hszo _ h4]; exact h5
    · exact absurd (Or.inl rfl) h
    · rw [hl1]
      have e : brk + cfg.ALLOC_HEADER_SIZE - cfg.ALLOC_HEADER_SIZE = brk := by omega
      rw [e]
      exact ⟨by omega, Or.inr (Or.inl rfl), by simp⟩
    · exact absurd (Or.inr (Or.inl rfl)) h
  · intro b c hb hc2 h
    rcases hb with hb | rfl | rfl | rfl
    · have hb2 := hold b hb
      have hb3 := L.in_brk b hb
      show b + (if b = brk then _ else _) ≤ c
      rw [hszo b hb]
      rcases hc2 with hc2 | rfl | rfl | rfl
      · exact L.disj b c hb hc2 h
      · omega
      · omega
      · omega
    · simp only [if_true]
      rcases hc2 with hc2 | rfl | rfl | rfl
      · have := hold c hc2; omega
      · omega
      · omega
      · omega
    · simp only [e12, if_false, if_true]
      rcases hc2 with hc2 | rfl | rfl | rfl
      · have := hold c hc2; omega
      · omega
      · omega
      · omega
    · simp only [e32, e31, if_false, if_true]
      rcases hc2 with hc2 | rfl | rfl | rfl
      · have := hold c hc2; omega
      · omega
      · omega
      · omega
  · intro lo hlo
    rcases List.mem_append.1 hlo with hlo | hlo
    · obtain ⟨h1, h2, h3, h4⟩ := L.chunk lo hlo
      exact ⟨Or.inl h1, (hfpo lo h1).2 h2, Or.inl h3, by rw [hls _ h3]; exact h4⟩
    · have : lo = brk := by simpa using hlo
      rw [this]
      exact ⟨by simp, by simp, by simp, hl1⟩
  · obtain ⟨h1, h2, h3, l, h4, h5, h6⟩ := L.last
    refine ⟨Or.inl h1, (hfpo f h1).2 h2, by omega, l, Or.inl h4,
      fun h => h5 ((hfpo l h4).1 h), ?_⟩
    show l + (if l = brk then _ else _) = f
    rw [hszo l h4]; exact h6
  · intro b hb h
    rcases hb with hb | rfl | rfl | rfl
    · rcases L.fp_kind b hb ((hfpo b hb).1 h) with h1 | ⟨l, h1, h2, h3⟩
      · exact Or.inl (List.mem_append.2 (Or.inl h1))
      · right
        refine ⟨l, Or.inl h1, fun h4 => h2 ((hfpo l h1).1 h4), ?_⟩
        show l + (if l = brk then _ else _) = b
        rw [hszo l h1]; exact h3
    · exact Or.inl (by simp)
    · rcases h with h | h | h
      · omega
      · omega
      · exact absurd rfl h.1
    · right
      refine ⟨brk + cfg.ALLOC_HEADER_SIZE, by simp, ?_, ?_⟩
      · intro h4
        rcases h4 with h4 | h4 | h4
        · omega
        · omega
        · exact h4.1 rfl
      · simp only [e12, if_false, if_true]; omega
  · intro b hb h h2
    rcases hb with hb | rfl | rfl | rfl
    · have h3 : ¬ fp b := fun h3 => h ((hfpo b hb).2 h3)
      obtain ⟨h4, h5, h6⟩ := L.left b hb h3
      rw [hls b hb] at h2 ⊢
      exact List.mem_append.2 (Or.inl (L.left_fp b hb h3 ((hfpo _ h5).1 h2)))
    · exact absurd (Or.inl rfl) h
    · rw [hl1]
      have e : brk + cfg.ALLOC_HEADER_SIZE - cfg.ALLOC_HEADER_SIZE = brk := by omega
      rw [e]; simp
    · exact absurd (Or.inr (Or.inl rfl)) h

end layout

/-! ## The list code in normal form -/

theorem list_unlink_eq (m : Memory) (x : Ptr) (h1 : m.next x ≠ Ptr.null)
    (h2 : m.prev x ≠ Ptr.null) : list_unlink m x = mem_unlink m x := by
  simp only [list_unlink, mem_unlink, set_prev_ok _ _ _ h1]
  by_cases e : x = m.next x
  · rw [set_next_ok]
    · simp [upd, ← e]
    · simp [upd, ← e, h2]
  · rw [set_next_ok]
    · simp [upd, e]
    · simp [upd, e, h2]

theorem free_unlink_eq (m : Memory) (x : Ptr) (h1 : m.next x ≠ Ptr.null)
    (h2 : m.prev x ≠ Ptr.null) : free_unlink m x = mem_unlink m x := by
  unfold free_unlink
  split
  · exact list_unlink_eq m x h1 h2
  · rename_i e
    have e : m.next x = m.prev x := by simpa using e
    simp only [mem_unlink, set_prev_ok _ _ _ h2]
    rw [set_next_ok]
    · by_cases e2 : x = m.prev x
      · simp [upd, ← e2, e]
      · simp [upd, e2, e]
    · by_cases e2 : x = m.prev x
      · have hx : x ≠ Ptr.null := fun h => h2 (by rw [← e2]; exact h)
        simp [upd, ← e2, hx]
      · simp [upd, e2, h2]

theorem free_unlink_rev_eq (m : Memory) (x : Ptr) (h1 : m.next x ≠ Ptr.null)
    (h2 : m.prev x ≠ Ptr.null) : free_unlink_rev m x = mem_unlink m x := by
  unfold free_unlink_rev
  split
  · simp only [mem_unlink, set_next_ok _ _ _ h2]
    by_cases e : x = m.prev x
    · rw [set_prev_ok]
      · simp [upd, ← e]
      · simp [upd, ← e, h1]
    · rw [set_prev_ok]
      · simp [upd, e]
      · simp [upd, e, h1]
  · rename_i e
    have e : m.next x = m.prev x := by simpa using e
    simp only [mem_unlink, set_prev_ok _ _ _ h2]
    rw [set_next_ok]
    · by_cases e2 : x = m.prev x
      · simp [upd, ← e2, e]
      · simp [upd, e2, e]
    · by_cases e2 : x = m.prev x
      · have hx : x ≠ Ptr.null := fun h => h2 (by rw [← e2]; exact h)
        simp [upd, ← e2, hx]
      · simp [upd, e2, h2]

theorem upd_comm {α : Type} (f : Ptr → α) (p q : Ptr) (v w : α) (h : p ≠ q) :
    upd (upd f p v) q w = upd (upd f q w) p v := by
  funext r
  unfold upd
  by_cases e1 : r = q
  · have : r ≠ p := fun e => h (e ▸ e1 ▸ rfl)
    simp [e1, h.symm]
  · simp [e1]

theorem larger_insert_eq (m : Memory) (S x : Ptr) (hS : S ≠ Ptr.null) (hx : x ≠ Ptr.null)
    (hn : m.next S ≠ Ptr.null) (hxS : x ≠ S) (hnx : m.next S ≠ x)
    (hiff : m.next S = S ↔ m.prev S = S) :
    larger_insert m S x = mem_insert m S x := by
  unfold larger_insert mem_insert
  split
  · rename_i e
    simp only [set_next_ok _ _ _ hS, set_prev_ok _ _ _ hS, set_next_ok _ _ _ hx,
      set_prev_ok _ _ _ hx, e.1]
    rw [upd_comm m.next S x x S hxS.symm]
  · rename_i e
    have e1 : upd (upd m.next x (m.next S)) S x x = m.next S := by simp [upd, hxS]
    simp only [set_next_ok _ _ _ hS, set_next_ok _ _ _ hx, set_prev_ok _ _ _ hx]
    rw [set_prev_ok]
    · simp only [e1]
    · simp only [e1]; exact hn

theorem free_first_insert_eq (m : Memory) (S x : Ptr) (hS : S ≠ Ptr.null) (hx : x ≠ Ptr.null)
    (hn : m.next S ≠ Ptr.null) (hxS : x ≠ S) (hnx : m.next S ≠ x)
    (hiff : m.next S = S ↔ m.prev S = S) :
    free_first_insert m S x = mem_insert m S x := by
  unfold free_first_insert mem_insert
  split
  · rename_i e
    simp only [set_next_ok _ _ _ hS, set_prev_ok _ _ _ hS, set_next_ok _ _ _ hx,
      set_prev_ok _ _ _ hx, e.1]
    rw [upd_comm m.next S x x S hxS.symm]
  · rename_i e
    have e1 : upd m.next x (m.next S) S = m.next S := by simp [upd, hxS.symm]
    simp only [set_next_ok _ _ _ hS, set_next_ok _ _ _ hx, set_prev_ok _ _ _ hx]
    rw [set_prev_ok]
    · simp only [e1]
      rw [upd_comm m.prev x (m.next S) S x hnx.symm]
    · simp only [e1]; exact hn

theorem chunk_list_insert_eq (m : Memory) (S x : Ptr) (hS : S ≠ Ptr.null)
    (hx : x ≠ Ptr.null) (hn : m.next S ≠ Ptr.null) (hxS : x ≠ S) (hnx : m.next S ≠ x)
    (hiff : m.next S = S ↔ m.prev S = S) :
    chunk_list_insert m S x = mem_insert m S x := by
  unfold chunk_list_insert mem_insert
  split
  · rename_i e
    simp only [set_next_ok _ _ _ hS, set_prev_ok _ _ _ hS, set_next_ok _ _ _ hx,
      set_prev_ok _ _ _ hx, e]
    rw [upd_comm m.next S x x S hxS.symm]
  · rename_i e
    have e1 : upd m.next x (m.next S) x = m.next S := by simp [upd]
    simp only [set_next_ok _ _ _ hS, set_next_ok _ _ _ hx, set_prev_ok _ _ _ hx]
    rw [set_prev_ok]
    · simp only [e1]
      rw [upd_comm m.prev x (m.next S) S x hnx.symm]
    · simp only [e1]; exact hn

theorem free_insert_eq (m : Memory) (S x : Ptr) (hS : S ≠ Ptr.null) (hx : x ≠ Ptr.null)
    (hn : m.next S ≠ Ptr.null) (hxS : x ≠ S) (hnx : m.next S ≠ x)
    (hiff : m.next S = S ↔ m.prev S = S) :
    free_insert m S x = mem_insert m S x := by
  unfold free_insert mem_insert
  split
  · rename_i e
    have e2 := hiff.2 e
    simp only [set_next_ok _ _ _ hS, set_prev_ok _ _ _ hS, set_next_ok _ _ _ hx,
      set_prev_ok _ _ _ hx, e2]
    rw [upd_comm m.next S x x S hxS.symm]
  · rename_i e
    have e1 : upd (upd m.next x (m.next S)) S x x = m.next S := by simp [upd, hxS]
    simp only [set_next_ok _ _ _ hS, set_next_ok _ _ _ hx, set_prev_ok _ _ _ hx]
    rw [set_prev_ok]
    · simp only [e1]
    · simp only [e1]; exact hn

/-! ## Facts read off a well-formed heap -/

section wf
variable {cfg : Config} {s : Heap} {chunks : List Nat} {B : Nat → Prop} {lab : Nat → Nat}
  {hole : Option Nat}

theorem isNode_sentinel {m : Memory} {i : Nat} (h : i < cfg.N_LISTS) :
    IsNode cfg m B (Ptr.sentinel i) := Or.inl ⟨i, h, rfl⟩

theorem isNode_heap {m : Memory} {a : Nat} (h1 : B a) (h2 : m.state (Ptr.heap a) = UNALLOCATED) :
    IsNode cfg m B (Ptr.heap a) := Or.inr ⟨a, rfl, h1, h2⟩

theorem isNode_heap_iff {m : Memory} {a : Nat} :
    IsNode cfg m B (Ptr.heap a) ↔ B a ∧ m.state (Ptr.heap a) = UNALLOCATED := by
  constructor
  · intro h
    rcases h with ⟨i, _, h⟩ | ⟨c, h, h1, h2⟩
    · cases h
    · cases h; exact ⟨h1, h2⟩
  · intro h; exact isNode_heap h.1 h.2

theorem isNode_sentinel_iff {m : Memory} {i : Nat} :
    IsNode cfg m B (Ptr.sentinel i) ↔ i < cfg.N_LISTS := by
  constructor
  · intro h
    rcases h with ⟨j, h1, h⟩ | ⟨c, h, h1, h2⟩
    · cases h; exact h1
    · cases h
  · intro h; exact isNode_sentinel h

theorem WellFormed.next_ne_null (hw : WellFormed cfg s chunks B lab hole) {p : Ptr}
    (hp : IsNode cfg s.mem B p) : s.mem.next p ≠ Ptr.null :=
  isNode_ne_null (hw.links p hp).1

theorem WellFormed.prev_ne_null (hw : WellFormed cfg s chunks B lab hole) {p : Ptr}
    (hp : IsNode cfg s.mem B p) : s.mem.prev p ≠ Ptr.null :=
  isNode_ne_null (hw.links p hp).2.1

/-- A node next to a sentinel, other than the sentinel itself, is a free block
with the label of the sentinel. -/
theorem WellFormed.first_node (hw : WellFormed cfg s chunks B lab hole) {i : Nat}
    (hi : i < cfg.N_LISTS) (hne : s.mem.next (Ptr.sentinel i) ≠ Ptr.sentinel i) :
    ∃ a, s.mem.next (Ptr.sentinel i) = Ptr.heap a ∧ B a ∧
      s.mem.state (Ptr.heap a) = UNALLOCATED ∧ lab a = i := by
  obtain ⟨h1, -, -, -, h5⟩ := hw.links _ (isNode_sentinel (B := B) (m := s.mem) hi)
  rcases h1 with ⟨j, hj, e⟩ | ⟨a, e, ha, hs⟩
  · rw [e] at h5 hne
    simp only [plab] at h5
    exact absurd (by rw [h5]) hne
  · rw [e] at h5
    exact ⟨a, e, ha, hs, h5⟩

/-- The same for any node of a list that is not a sentinel of another list. -/
theorem WellFormed.node_cases (hw : WellFormed cfg s chunks B lab hole) {p : Ptr}
    (hp : IsNode cfg s.mem B p) :
    p = Ptr.sentinel (plab lab p) ∨ ∃ a, p = Ptr.heap a ∧ B a ∧
      s.mem.state (Ptr.heap a) = UNALLOCATED := by
  rcases hp with ⟨j, hj, e⟩ | ⟨a, e, ha, hs⟩
  · left; rw [e]; rfl
  · right; exact ⟨a, e, ha, hs⟩

/-- The facts about a block that is not a fencepost and its two neighbours. -/
theorem WellFormed.neighbours (hw : WellFormed cfg s chunks B lab none) (hc : cfg.WF)
    {b : Nat} (hb : B b) (hst : s.mem.state (Ptr.heap b) ≠ FENCEPOST) :
    s.mem.left_size (Ptr.heap b) ≤ b ∧
    cfg.ALLOC_HEADER_SIZE ≤ s.mem.left_size (Ptr.heap b) ∧
    B (b - s.mem.left_size (Ptr.heap b)) ∧
    s.mem.size (Ptr.heap (b - s.mem.left_size (Ptr.heap b))) = s.mem.left_size (Ptr.heap b) ∧
    2 * cfg.ALLOC_HEADER_SIZE ≤ s.mem.size (Ptr.heap b) ∧
    B (b + s.mem.size (Ptr.heap b)) ∧
    s.mem.left_size (Ptr.heap (b + s.mem.size (Ptr.heap b))) = s.mem.size (Ptr.heap b) ∧
    b + s.mem.size (Ptr.heap b) + cfg.ALLOC_HEADER_SIZE ≤ s.brk := by
  obtain ⟨f, -, L⟩ := hw.layout
  obtain ⟨h1, h2, h3⟩ := L.left b hb hst
  obtain ⟨h4, h5⟩ := L.right b hb hst
  have h6 := L.size_ge h2
  have h7 := (L.blk_size b hb hst).1
  have h8 := L.in_brk _ h4
  have h9 := L.size_ge h4
  refine ⟨h1, ?_, h2, h3, h7, h4, h5 (by simp), ?_⟩
  · show _ ≤ s.mem.left_size (Ptr.heap b)
    rw [← h3]; exact h6
  · have h8 : b + s.mem.size (Ptr.heap b) + s.mem.size (Ptr.heap (b + s.mem.size (Ptr.heap b)))
        ≤ s.brk := h8
    have h9 : cfg.ALLOC_HEADER_SIZE ≤ s.mem.size (Ptr.heap (b + s.mem.size (Ptr.heap b))) := h9
    omega

/-- Every address met on the walk through a chunk is a block. -/
theorem WellFormed.inChunk_block (hw : WellFormed cfg s chunks B lab hole) {lo b : Nat}
    (hlo : lo ∈ chunks) (h : InChunk s.mem lo b) : B b := by
  obtain ⟨f, -, L⟩ := hw.layout
  induction h with
  | left => exact (L.chunk lo hlo).1
  | step hb hs ih =>
    rename_i c
    by_cases e : s.mem.state (Ptr.heap c) = FENCEPOST
    · have e2 : c = lo := hs.resolve_right (fun h => h e)
      subst e2
      have := L.fp_size c ih e
      have h2 := (L.chunk c hlo).2.2.1
      show B (c + s.mem.size (Ptr.heap c))
      have this : s.mem.size (Ptr.heap c) = cfg.ALLOC_HEADER_SIZE := this
      rw [this]; exact h2
    · exact (L.right c ih e).1

/-- Every block is met on the walk through one of the chunks. -/
theorem WellFormed.block_inChunk (hw : WellFormed cfg s chunks B lab hole) (hc : cfg.WF)
    (b : Nat) (hb : B b) : ∃ lo, lo ∈ chunks ∧ InChunk s.mem lo b := by
  obtain ⟨f, -, L⟩ := hw.layout
  have hH := hc.header_pos
  induction b using Nat.strong_induction_on with
  | _ b ih =>
    by_cases e : s.mem.state (Ptr.heap b) = FENCEPOST
    · rcases L.fp_kind b hb e with h1 | ⟨l, h1, h2, h3⟩
      · exact ⟨b, h1, InChunk.left⟩
      · have hs := L.size_ge h1
        have h3 : l + s.mem.size (Ptr.heap l) = b := h3
        have hs : cfg.ALLOC_HEADER_SIZE ≤ s.mem.size (Ptr.heap l) := hs
        obtain ⟨lo, hlo, hw2⟩ := ih l (by omega) h1
        refine ⟨lo, hlo, ?_⟩
        rw [← h3]
        exact InChunk.step hw2 (Or.inr h2)
    · obtain ⟨h1, h2, h3⟩ := L.left b hb e
      have hs := L.size_ge h2
      have h3 : s.mem.size (Ptr.heap (b - s.mem.left_size (Ptr.heap b)))
          = s.mem.left_size (Ptr.heap b) := h3
      have hs : cfg.ALLOC_HEADER_SIZE ≤
          s.mem.size (Ptr.heap (b - s.mem.left_size (Ptr.heap b))) := hs
      have h1 : s.mem.left_size (Ptr.heap b) ≤ b := h1
      have e2 : b - s.mem.left_size (Ptr.heap b)
          + s.mem.size (Ptr.heap (b - s.mem.left_size (Ptr.heap b))) = b := by omega
      by_cases e3 : s.mem.state (Ptr.heap (b - s.mem.left_size (Ptr.heap b))) = FENCEPOST
      · have h4 := L.left_fp b hb e e3
        refine ⟨_, h4, ?_⟩
        have : InChunk s.mem (b - s.mem.left_size (Ptr.heap b))
            (b - s.mem.left_size (Ptr.heap b)
              + s.mem.size (Ptr.heap (b - s.mem.left_size (Ptr.heap b)))) :=
          InChunk.step InChunk.left (Or.inl rfl)
        rw [e2] at this
        exact this
      · obtain ⟨lo, hlo, hw2⟩ := ih _ (by omega) h2
        refine ⟨lo, hlo, ?_⟩
        have := InChunk.step hw2 (Or.inr e3)
        rw [e2] at this
        exact this

end wf

/-! ## The branches of `deallocate_object` -/

theorem state_cases (x : BlockState) : x = UNALLOCATED ∨ x = ALLOCATED ∨ x = FENCEPOST := by
  cases x <;> simp

/-- The head of the list in which the first branch of `deallocate_object` puts a
block of size `size`. -/
theorem free_head_eq (cfg : Config) (size : Nat) :
    (if (size - cfg.ALLOC_HEADER_SIZE) / 8 - 1 < cfg.N_LISTS - 1
      then Ptr.sentinel ((size - cfg.ALLOC_HEADER_SIZE) / 8 - 1)
      else Ptr.sentinel (cfg.N_LISTS - 1)) = Ptr.sentinel (list_index cfg size) := by
  unfold list_index
  split
  · rw [Nat.min_eq_right (by omega)]
  · rw [Nat.min_eq_left (by omega)]

theorem free_case1 (cfg : Config) (s : Heap) (b : Nat)
    (hst : s.mem.state (Ptr.heap b) ≠ UNALLOCATED)
    (hls : s.mem.left_size (Ptr.heap b) ≤ b)
    (hLb : b - s.mem.left_size (Ptr.heap b) ≠ b)
    (hRb : b + s.mem.size (Ptr.heap b) ≠ b)
    (hL : s.mem.state (Ptr.heap (b - s.mem.left_size (Ptr.heap b))) ≠ UNALLOCATED)
    (hR : s.mem.state (Ptr.heap (b + s.mem.size (Ptr.heap b))) ≠ UNALLOCATED) :
    deallocate_object cfg s (Ptr.heap (b + cfg.ALLOC_HEADER_SIZE)) =
      FreeResult.returned { s with mem :=
        (set_block_state (free_first_insert (set_block_state s.mem (Ptr.heap b) UNALLOCATED)
          (Ptr.sentinel (list_index cfg (s.mem.size (Ptr.heap b)))) (Ptr.heap b))
          (Ptr.heap b) UNALLOCATED) } := by
  have e1 : get_header_from_offset (Ptr.heap (b + cfg.ALLOC_HEADER_SIZE))
      (-(cfg.ALLOC_HEADER_SIZE : Int)) = Ptr.heap b := by
    rw [offset_heap_neg _ _ (by omega)]; simp
  have e2 : Ptr.heap (b - s.mem.left_size (Ptr.heap b)) ≠ Ptr.heap b := by simpa using hLb
  have e3 : Ptr.heap (b + s.mem.size (Ptr.heap b)) ≠ Ptr.heap b := by simpa using hRb
  unfold deallocate_object
  simp only [e1, get_block_state, get_block_size, set_block_state_ok _ _ _ (heap_ne_null b),
    offset_heap_neg _ _ hls, offset_heap_nat, upd_other _ _ _ _ e2, upd_other _ _ _ _ e3,
    free_head_eq]
  rcases state_cases (s.mem.state (Ptr.heap (b - s.mem.left_size (Ptr.heap b)))) with h1 | h1 | h1
  · exact absurd h1 hL
  all_goals
    rcases state_cases (s.mem.state (Ptr.heap (b + s.mem.size (Ptr.heap b)))) with h2 | h2 | h2
    · exact absurd h2 hR
    all_goals simp [h1, h2, hst]

section free1
variable {cfg : Config} {s : Heap} {chunks : List Nat} {B : Nat → Prop} {lab : Nat → Nat}

theorem free_first_mem_eq (hw : WellFormed cfg s chunks B lab none) {b : Nat}
    (hst : s.mem.state (Ptr.heap b) = ALLOCATED) (hidx : list_index cfg (s.mem.size (Ptr.heap b)) < cfg.N_LISTS) :
    (set_block_state (free_first_insert (set_block_state s.mem (Ptr.heap b) UNALLOCATED)
          (Ptr.sentinel (list_index cfg (s.mem.size (Ptr.heap b)))) (Ptr.heap b))
          (Ptr.heap b) UNALLOCATED) =
      { mem_insert s.mem (Ptr.sentinel (list_index cfg (s.mem.size (Ptr.heap b)))) (Ptr.heap b)
        with state := upd s.mem.state (Ptr.heap b) UNALLOCATED } := by
  have hS : IsNode cfg s.mem B (Ptr.sentinel (list_index cfg (s.mem.size (Ptr.heap b)))) :=
    isNode_sentinel hidx
  have hbn : ¬ IsNode cfg s.mem B (Ptr.heap b) := by
    rw [isNode_heap_iff, hst]; simp
  obtain ⟨s1, s2, s3, s4, s5⟩ := hw.links _ hS
  have hnb : s.mem.next (Ptr.sentinel (list_index cfg (s.mem.size (Ptr.heap b)))) ≠ Ptr.heap b :=
    fun e => hbn (e ▸ s1)
  rw [set_block_state_ok _ _ _ (heap_ne_null b), free_first_insert_eq _ _ _
    (sentinel_ne_null _) (heap_ne_null b)]
  · simp only [set_block_state_ok _ _ _ (heap_ne_null b), mem_insert]
    congr 1
    funext q; unfold upd; split <;> rfl
  · simp only [set_block_state_ok _ _ _ (heap_ne_null b)]; exact isNode_ne_null s1
  · simp
  · simp only [set_block_state_ok _ _ _ (heap_ne_null b)]; exact hnb
  · simp only [set_block_state_ok _ _ _ (heap_ne_null b)]
    exact hw.links.next_self_iff hS

theorem free_case1_wf (hc : cfg.WF) (hw : WellFormed cfg s chunks B lab none) {b : Nat}
    (hb : B b) (hst : s.mem.state (Ptr.heap b) = ALLOCATED)
    (hL : s.mem.state (Ptr.heap (b - s.mem.left_size (Ptr.heap b))) ≠ UNALLOCATED)
    (hR : s.mem.state (Ptr.heap (b + s.mem.size (Ptr.heap b))) ≠ UNALLOCATED) :
    WellFormed cfg { s with mem :=
        (set_block_state (free_first_insert (set_block_state s.mem (Ptr.heap b) UNALLOCATED)
          (Ptr.sentinel (list_index cfg (s.mem.size (Ptr.heap b)))) (Ptr.heap b))
          (Ptr.heap b) UNALLOCATED) } chunks B
      (fun a => if a = b then list_index cfg (s.mem.size (Ptr.heap b)) else lab a) none := by
  have hH := hc.header_pos
  have hH8 := hc.header_aligned
  have hN := hc.lists_pos
  obtain ⟨f, hf, L⟩ := hw.layout
  have hnf : s.mem.state (Ptr.heap b) ≠ FENCEPOST := by rw [hst]; simp
  obtain ⟨n1, n2, n3, n4, n5, n6, n7, n8⟩ := hw.neighbours hc hb hnf
  have hidx : list_index cfg (s.mem.size (Ptr.heap b)) < cfg.N_LISTS := by
    unfold list_index; omega
  have hS : IsNode cfg s.mem B (Ptr.sentinel (list_index cfg (s.mem.size (Ptr.heap b)))) :=
    isNode_sentinel hidx
  have hbn : ¬ IsNode cfg s.mem B (Ptr.heap b) := by
    rw [isNode_heap_iff, hst]; simp
  obtain ⟨s1, s2, s3, s4, s5⟩ := hw.links _ hS
  have hnb : s.mem.next (Ptr.sentinel (list_index cfg (s.mem.size (Ptr.heap b)))) ≠ Ptr.heap b :=
    fun e => hbn (e ▸ s1)
  have em := free_first_mem_eq hw hst hidx
  rw [em]
  have estate : ∀ c, upd s.mem.state (Ptr.heap b) UNALLOCATED (Ptr.heap c) =
      if c = b then UNALLOCATED else s.mem.state (Ptr.heap c) := by
    intro c; simp [upd]
  refine ⟨hw.not_crashed, ?_, ⟨f, hf, ?_⟩, ?_, ?_, ?_⟩
  · intro a ha
    have ha : s.brk ≤ a := ha
    have := L.in_brk b hb
    have hab : a ≠ b := by
      have : b + s.mem.size (Ptr.heap b) ≤ s.brk := this
      omega
    simp only [mem_insert, upd, Ptr.heap.injEq, hab, if_false]
    simp only [reduceCtorEq, if_false]
    exact hw.fresh a ha
  · refine L.congr_fields (fun _ => Iff.rfl) (fun _ _ => rfl) (fun _ _ => rfl) ?_
    intro c hc2
    show upd s.mem.state (Ptr.heap b) UNALLOCATED (Ptr.heap c) = FENCEPOST ↔ _
    rw [estate]
    split
    · rename_i e; subst e; rw [hst]; simp
    · rfl
  · intro c hc2 hcs
    have hcs : upd s.mem.state (Ptr.heap b) UNALLOCATED (Ptr.heap c) = UNALLOCATED := hcs
    show upd s.mem.state (Ptr.heap b) UNALLOCATED (Ptr.heap (c + s.mem.size (Ptr.heap c)))
      ≠ UNALLOCATED
    rw [estate] at hcs ⊢
    by_cases e : c = b
    · subst e
      have : c + s.mem.size (Ptr.heap c) ≠ c := by omega
      simp only [this, if_false]
      exact hR
    · simp only [e, if_false] at hcs
      have hcf : s.mem.state (Ptr.heap c) ≠ FENCEPOST := by rw [hcs]; simp
      have e2 : c + s.mem.size (Ptr.heap c) ≠ b := by
        intro e2
        have e3 : c = b - s.mem.left_size (Ptr.heap b) := by
          apply L.left_unique hc hc2 n3
          show c + s.mem.size (Ptr.heap c) = _ + s.mem.size (Ptr.heap _)
          rw [n4]; omega
        rw [← e3] at hL
        exact hL hcs
      simp only [e2, if_false]
      exact hw.coal c hc2 hcs
  · have h1 := hw.links.insert (S := Ptr.sentinel (list_index cfg (s.mem.size (Ptr.heap b))))
      (x := Ptr.heap b)
      (g := plab (fun a => if a = b then list_index cfg (s.mem.size (Ptr.heap b)) else lab a))
      hS hbn ?_ ?_
    · refine h1.congr ?_ (fun _ _ => rfl)
      intro p
      constructor
      · intro hp
        rcases hp with ⟨i, hi, e⟩ | ⟨a, e, ha, hs⟩
        · exact Or.inl (Or.inl ⟨i, hi, e⟩)
        · have hs : upd s.mem.state (Ptr.heap b) UNALLOCATED (Ptr.heap a) = UNALLOCATED := hs
          rw [estate] at hs
          by_cases e2 : a = b
          · right; rw [e, e2]
          · simp only [e2, if_false] at hs
            exact Or.inl (Or.inr ⟨a, e, ha, hs⟩)
      · intro hp
        rcases hp with hp | hp
        · rcases hp with ⟨i, hi, e⟩ | ⟨a, e, ha, hs⟩
          · exact Or.inl ⟨i, hi, e⟩
          · refine Or.inr ⟨a, e, ha, ?_⟩
            show upd s.mem.state (Ptr.heap b) UNALLOCATED (Ptr.heap a) = UNALLOCATED
            rw [estate]; split
            · rfl
            · exact hs
        · refine Or.inr ⟨b, hp, hb, ?_⟩
          show upd s.mem.state (Ptr.heap b) UNALLOCATED (Ptr.heap b) = UNALLOCATED
          rw [estate]; simp
    · intro p hp
      rcases hp with ⟨i, hi, e⟩ | ⟨a, e, ha, hs⟩
      · rw [e]; rfl
      · rw [e]
        have : a ≠ b := fun e2 => by rw [e2, hst] at hs; cases hs
        simp [plab, this]
    · simp [plab]
  · intro a ha has hlt
    have has : upd s.mem.state (Ptr.heap b) UNALLOCATED (Ptr.heap a) = UNALLOCATED := has
    show _ ≤ s.mem.size (Ptr.heap a)
    rw [estate] at has
    by_cases e : a = b
    · subst e
      simp only [if_true] at hlt ⊢
      unfold list_index at hlt ⊢
      have h8 : 8 ∣ s.mem.size (Ptr.heap a) := (L.blk_size a hb hnf).2
      omega
    · simp only [e, if_false] at has hlt ⊢
      exact hw.cls a ha has hlt

end free1

section steps
variable {cfg : Config} {s : Heap} {chunks : List Nat} {B : Nat → Prop} {lab : Nat → Nat}
  {hole : Option Nat}

theorem WellFormed.lt_brk (hw : WellFormed cfg s chunks B lab hole) (hc : cfg.WF) {a : Nat}
    (ha : B a) : a < s.brk := by
  obtain ⟨f, -, L⟩ := hw.layout
  have h1 := L.in_brk a ha
  have h2 := L.size_ge ha
  have := hc.header_pos
  have h1 : a + s.mem.size (Ptr.heap a) ≤ s.brk := h1
  have h2 : cfg.ALLOC_HEADER_SIZE ≤ s.mem.size (Ptr.heap a) := h2
  omega

/-- A node is not an address at or above the break. -/
theorem WellFormed.node_below (hw : WellFormed cfg s chunks B lab hole) (hc : cfg.WF) {p : Ptr}
    (hp : IsNode cfg s.mem B p) {a : Nat} (ha : s.brk ≤ a) : Ptr.heap a ≠ p := by
  rcases hp with ⟨i, _, e⟩ | ⟨c, e, hc2, _⟩
  · rw [e]; simp
  · rw [e]
    have := hw.lt_brk hc hc2
    simp only [ne_eq, Ptr.heap.injEq]
    omega

/-- The free block `a` is moved to the front of list `j`. -/
theorem WellFormed.rebucket (hw : WellFormed cfg s chunks B lab hole) (hc : cfg.WF) {a j : Nat}
    (ha : B a) (hs : s.mem.state (Ptr.heap a) = UNALLOCATED) (hj : j < cfg.N_LISTS)
    (hcls : j < cfg.N_LISTS - 1 → cfg.ALLOC_HEADER_SIZE + 8 * (j + 1) ≤ s.mem.size (Ptr.heap a)) :
    WellFormed cfg { s with mem := (mem_insert (mem_unlink s.mem (Ptr.heap a)) (Ptr.sentinel j)
        (Ptr.heap a)) } chunks B (fun c => if c = a then j else lab c) hole := by
  have hx : IsNode cfg s.mem B (Ptr.heap a) := isNode_heap ha hs
  have hS : IsNode cfg s.mem B (Ptr.sentinel j) := isNode_sentinel hj
  obtain ⟨x1, x2, x3, x4, x5⟩ := hw.links _ hx
  obtain ⟨s1, s2, s3, s4, s5⟩ := hw.links _ hS
  refine ⟨hw.not_crashed, ?_, hw.layout, hw.coal, ?_, ?_⟩
  · intro c hc2
    have hc2 : s.brk ≤ c := hc2
    have e1 := hw.node_below hc hx hc2
    have e2 := hw.node_below hc hS hc2
    have e3 := hw.node_below hc x2 hc2
    simp only [mem_insert, mem_unlink, upd, e1, e2, e3, if_false]
    exact hw.fresh c hc2
  · have h1 := hw.links.move_after (S := Ptr.sentinel j) (x := Ptr.heap a)
      (g := plab (fun c => if c = a then j else lab c)) hS hx (by simp) ?_ ?_
    · exact h1
    · intro p hp hpa
      rcases hp with ⟨i, _, e⟩ | ⟨c, e, _, _⟩
      · rw [e]; rfl
      · rw [e] at hpa ⊢
        have : c ≠ a := fun e2 => hpa (by rw [e2])
        simp [plab, this]
    · simp [plab]
  · intro c hc2 hcs hlt
    by_cases e : c = a
    · subst e
      simp only [if_true] at hlt ⊢
      exact hcls hlt
    · simp only [e, if_false] at hlt ⊢
      exact hw.cls c hc2 hcs hlt

/-- The free block `a` is taken out of its list and becomes `ALLOCATED`. -/
theorem WellFormed.take (hw : WellFormed cfg s chunks B lab hole) (hc : cfg.WF) {a : Nat}
    (ha : B a) (hs : s.mem.state (Ptr.heap a) = UNALLOCATED) :
    WellFormed cfg { s with mem := { mem_unlink s.mem (Ptr.heap a) with
        state := upd s.mem.state (Ptr.heap a) ALLOCATED } } chunks B lab hole := by
  have hx : IsNode cfg s.mem B (Ptr.heap a) := isNode_heap ha hs
  obtain ⟨x1, x2, x3, x4, x5⟩ := hw.links _ hx
  obtain ⟨f, hf, L⟩ := hw.layout
  have estate : ∀ c, upd s.mem.state (Ptr.heap a) ALLOCATED (Ptr.heap c) =
      if c = a then ALLOCATED else s.mem.state (Ptr.heap c) := by
    intro c; simp [upd]
  refine ⟨hw.not_crashed, ?_, ⟨f, hf, ?_⟩, ?_, ?_, ?_⟩
  · intro c hc2
    have hc2 : s.brk ≤ c := hc2
    have e3 := hw.node_below hc x2 hc2
    simp only [mem_unlink, upd, e3, if_false]
    exact hw.fresh c hc2
  · refine L.congr_fields (fun _ => Iff.rfl) (fun _ _ => rfl) (fun _ _ => rfl) ?_
    intro c hc2
    show upd s.mem.state (Ptr.heap a) ALLOCATED (Ptr.heap c) = FENCEPOST ↔ _
    rw [estate]
    split
    · rename_i e; subst e; rw [hs]; simp
    · rfl
  · intro c hc2 hcs
    have hcs : upd s.mem.state (Ptr.heap a) ALLOCATED (Ptr.heap c) = UNALLOCATED := hcs
    show upd s.mem.state (Ptr.heap a) ALLOCATED (Ptr.heap (c + s.mem.size (Ptr.heap c)))
      ≠ UNALLOCATED
    rw [estate] at hcs ⊢
    by_cases e : c = a
    · simp [e] at hcs
    · simp only [e, if_false] at hcs
      split
      · simp
      · exact hw.coal c hc2 hcs
  · have h1 := hw.links.unlink hx
    refine h1.congr ?_ (fun _ _ => rfl)
    intro p
    constructor
    · intro hp
      rcases hp with ⟨i, hi, e⟩ | ⟨c, e, hc2, hcs⟩
      · exact ⟨Or.inl ⟨i, hi, e⟩, by rw [e]; simp⟩
      · have hcs : upd s.mem.state (Ptr.heap a) ALLOCATED (Ptr.heap c) = UNALLOCATED := hcs
        rw [estate] at hcs
        by_cases e2 : c = a
        · simp [e2] at hcs
        · simp only [e2, if_false] at hcs
          exact ⟨Or.inr ⟨c, e, hc2, hcs⟩, by rw [e]; simpa using e2⟩
    · intro ⟨hp, hpa⟩
      rcases hp with ⟨i, hi, e⟩ | ⟨c, e, hc2, hcs⟩
      · exact Or.inl ⟨i, hi, e⟩
      · refine Or.inr ⟨c, e, hc2, ?_⟩
        show upd s.mem.state (Ptr.heap a) ALLOCATED (Ptr.heap c) = UNALLOCATED
        rw [estate]
        have : c ≠ a := fun e2 => hpa (by rw [e, e2])
        simp only [this, if_false]
        exact hcs
  · intro c hc2 hcs hlt
    have hcs : upd s.mem.state (Ptr.heap a) ALLOCATED (Ptr.heap c) = UNALLOCATED := hcs
    rw [estate] at hcs
    by_cases e : c = a
    · simp [e] at hcs
    · simp only [e, if_false] at hcs
      exact hw.cls c hc2 hcs hlt

end steps

theorem upd_heap {α : Type} (f : Ptr → α) (a c : Nat) (v : α) :
    upd f (Ptr.heap a) v (Ptr.heap c) = if c = a then v else f (Ptr.heap c) := by
  simp [upd]

section steps
variable {cfg : Config} {s : Heap} {chunks : List Nat} {B : Nat → Prop} {lab : Nat → Nat}
  {hole : Option Nat}

/-- The free left neighbour of the block `b` absorbs `b` (second branch of
`deallocate_object`, before the list is touched). -/
theorem WellFormed.merge_left (hw : WellFormed cfg s chunks B lab none) (hc : cfg.WF) {b : Nat}
    (hb : B b) (hst : s.mem.state (Ptr.heap b) = ALLOCATED)
    (hL : s.mem.state (Ptr.heap (b - s.mem.left_size (Ptr.heap b))) = UNALLOCATED)
    (hR : s.mem.state (Ptr.heap (b + s.mem.size (Ptr.heap b))) ≠ UNALLOCATED) :
    WellFormed cfg { s with mem := { s.mem with
        state := upd s.mem.state (Ptr.heap b) UNALLOCATED,
        left_size := upd s.mem.left_size (Ptr.heap (b + s.mem.size (Ptr.heap b)))
          (s.mem.size (Ptr.heap b) + s.mem.left_size (Ptr.heap b)),
        size := upd s.mem.size (Ptr.heap (b - s.mem.left_size (Ptr.heap b)))
          (s.mem.size (Ptr.heap b) + s.mem.left_size (Ptr.heap b)) } }
      chunks (fun a => B a ∧ a ≠ b) lab none := by
  have hH := hc.header_pos
  obtain ⟨f, hf, L⟩ := hw.layout
  have hnf : s.mem.state (Ptr.heap b) ≠ FENCEPOST := by rw [hst]; simp
  obtain ⟨n1, n2, n3, n4, n5, n6, n7, n8⟩ := hw.neighbours hc hb hnf
  generalize hl : b - s.mem.left_size (Ptr.heap b) = l at *
  have hlb : l + s.mem.size (Ptr.heap l) = b := by omega
  have hlf : s.mem.state (Ptr.heap l) ≠ FENCEPOST := by rw [hL]; simp
  have hbf : ¬ (fun a => s.mem.state (Ptr.heap a) = FENCEPOST) (l + (fun a => s.mem.size (Ptr.heap a)) l) := by
    show ¬ s.mem.state (Ptr.heap (l + s.mem.size (Ptr.heap l))) = FENCEPOST
    rw [hlb]; exact hnf
  have hM := L.merge hc n3 hlf hbf
  have enew : s.mem.size (Ptr.heap b) + s.mem.left_size (Ptr.heap b)
      = s.mem.size (Ptr.heap l) + s.mem.size (Ptr.heap b) := by omega
  rw [enew]
  have hlne : l ≠ b := by omega
  have hRne : b + s.mem.size (Ptr.heap b) ≠ b := by omega
  refine ⟨hw.not_crashed, hw.fresh, ⟨f, hf, ?_⟩, ?_, ?_, ?_⟩
  · refine hM.congr_fields ?_ ?_ ?_ ?_
    · intro c
      show (B c ∧ c ≠ b) ↔ (B c ∧ c ≠ l + s.mem.size (Ptr.heap l))
      rw [hlb]
    · intro c _
      show upd s.mem.size (Ptr.heap l) _ (Ptr.heap c) = if c = l then _ else _
      rw [upd_heap, hlb]
    · intro c _
      show upd s.mem.left_size _ _ (Ptr.heap c) = if c = _ then _ else _
      rw [upd_heap]
      show _ = if c = l + s.mem.size (Ptr.heap l) + s.mem.size (Ptr.heap (l + s.mem.size (Ptr.heap l)))
        then s.mem.size (Ptr.heap l) + s.mem.size (Ptr.heap (l + s.mem.size (Ptr.heap l))) else _
      rw [hlb]
    · intro c hc2
      show upd s.mem.state (Ptr.heap b) UNALLOCATED (Ptr.heap c) = FENCEPOST ↔ _
      rw [upd_heap]
      have : c ≠ b := by
        have := hc2.2
        rw [hlb] at this
        exact this
      simp only [this, if_false]
  · intro c hc2 hcs
    obtain ⟨hc2, hcb⟩ := hc2
    have hcs : upd s.mem.state (Ptr.heap b) UNALLOCATED (Ptr.heap c) = UNALLOCATED := hcs
    rw [upd_heap] at hcs
    simp only [hcb, if_false] at hcs
    show upd s.mem.state (Ptr.heap b) UNALLOCATED (Ptr.heap (c + upd s.mem.size (Ptr.heap l) _
      (Ptr.heap c))) ≠ UNALLOCATED
    rw [upd_heap, upd_heap]
    by_cases e : c = l
    · subst e
      simp only [if_true]
      have e2 : c + (s.mem.size (Ptr.heap c) + s.mem.size (Ptr.heap b))
          = b + s.mem.size (Ptr.heap b) := by omega
      rw [e2]
      simp only [hRne, if_false]
      exact hR
    · simp only [e, if_false]
      have e2 : c + s.mem.size (Ptr.heap c) ≠ b := by
        intro e2
        apply e
        apply L.left_unique hc hc2 n3
        show c + s.mem.size (Ptr.heap c) = l + s.mem.size (Ptr.heap l)
        omega
      simp only [e2, if_false]
      exact hw.coal c hc2 hcs
  · refine hw.links.congr ?_ (fun _ _ => rfl)
    intro p
    constructor
    · intro hp
      rcases hp with ⟨i, hi, e⟩ | ⟨c, e, hc2, hcs⟩
      · exact Or.inl ⟨i, hi, e⟩
      · have hcs : upd s.mem.state (Ptr.heap b) UNALLOCATED (Ptr.heap c) = UNALLOCATED := hcs
        rw [upd_heap] at hcs
        simp only [hc2.2, if_false] at hcs
        exact Or.inr ⟨c, e, hc2.1, hcs⟩
    · intro hp
      rcases hp with ⟨i, hi, e⟩ | ⟨c, e, hc2, hcs⟩
      · exact Or.inl ⟨i, hi, e⟩
      · have hcb : c ≠ b := fun e2 => by rw [e2, hst] at hcs; cases hcs
        refine Or.inr ⟨c, e, ⟨hc2, hcb⟩, ?_⟩
        show upd s.mem.state (Ptr.heap b) UNALLOCATED (Ptr.heap c) = UNALLOCATED
        rw [upd_heap]
        simp only [hcb, if_false]
        exact hcs
  · intro c hc2 hcs hlt
    obtain ⟨hc2, hcb⟩ := hc2
    have hcs : upd s.mem.state (Ptr.heap b) UNALLOCATED (Ptr.heap c) = UNALLOCATED := hcs
    rw [upd_heap] at hcs
    simp only [hcb, if_false] at hcs
    have := hw.cls c hc2 hcs hlt
    show _ ≤ upd s.mem.size (Ptr.heap l) _ (Ptr.heap c)
    rw [upd_heap]
    split
    · rename_i e; subst e; omega
    · exact this

end steps

section steps
variable {cfg : Config} {s : Heap} {chunks : List Nat} {B : Nat → Prop} {lab : Nat → Nat}
  {hole : Option Nat}

/-- The block `b` absorbs its free right neighbour and takes a place in the
lists given by `nx`, `pv` (third branch of `deallocate_object`). -/
theorem WellFormed.merge_right (hw : WellFormed cfg s chunks B lab none) (hc : cfg.WF) {b : Nat}
    (hb : B b) (hst : s.mem.state (Ptr.heap b) = ALLOCATED)
    (hL : s.mem.state (Ptr.heap (b - s.mem.left_size (Ptr.heap b))) ≠ UNALLOCATED)
    (hR : s.mem.state (Ptr.heap (b + s.mem.size (Ptr.heap b))) = UNALLOCATED)
    {nx pv : Ptr → Ptr} {lab2 : Nat → Nat}
    (hlinks : Linked (fun p => (IsNode cfg s.mem B p ∧ p ≠ Ptr.heap (b + s.mem.size (Ptr.heap b)))
      ∨ p = Ptr.heap b) (plab lab2) nx pv)
    (hfresh : ∀ a, s.brk ≤ a → nx (Ptr.heap a) = Ptr.null)
    (hlab : ∀ c, c ≠ b → lab2 c = lab c)
    (hcls : lab2 b < cfg.N_LISTS - 1 → cfg.ALLOC_HEADER_SIZE + 8 * (lab2 b + 1) ≤
      s.mem.size (Ptr.heap b) + s.mem.size (Ptr.heap (b + s.mem.size (Ptr.heap b)))) :
    WellFormed cfg { s with mem := { s.mem with
        state := upd s.mem.state (Ptr.heap b) UNALLOCATED,
        size := upd s.mem.size (Ptr.heap b)
          (s.mem.size (Ptr.heap b) + s.mem.size (Ptr.heap (b + s.mem.size (Ptr.heap b)))),
        left_size := upd s.mem.left_size (Ptr.heap (b + s.mem.size (Ptr.heap b)
            + s.mem.size (Ptr.heap (b + s.mem.size (Ptr.heap b)))))
          (s.mem.size (Ptr.heap b) + s.mem.size (Ptr.heap (b + s.mem.size (Ptr.heap b)))),
        next := nx, prev := pv } }
      chunks (fun a => B a ∧ a ≠ b + s.mem.size (Ptr.heap b)) lab2 none := by
  have hH := hc.header_pos
  obtain ⟨f, hf, L⟩ := hw.layout
  have hnf : s.mem.state (Ptr.heap b) ≠ FENCEPOST := by rw [hst]; simp
  obtain ⟨n1, n2, n3, n4, n5, n6, n7, n8⟩ := hw.neighbours hc hb hnf
  have hRf : s.mem.state (Ptr.heap (b + s.mem.size (Ptr.heap b))) ≠ FENCEPOST := by
    rw [hR]; simp
  have hM := L.merge hc hb hnf hRf
  have hRR := hw.coal _ n6 hR
  obtain ⟨r1, r2, r3, r4, r5, r6, r7, r8⟩ := hw.neighbours hc n6 hRf
  generalize hr : b + s.mem.size (Ptr.heap b) = r at *
  have hbr : b ≠ r := by omega
  have hrr : r + s.mem.size (Ptr.heap r) ≠ b := by omega
  refine ⟨hw.not_crashed, hfresh, ⟨f, hf, ?_⟩, ?_, ?_, ?_⟩
  · refine hM.congr_fields ?_ ?_ ?_ ?_
    · intro c
      exact Iff.rfl
    · intro c _
      show upd s.mem.size (Ptr.heap b) _ (Ptr.heap c) = if c = b then _ else _
      rw [upd_heap]
    · intro c _
      show upd s.mem.left_size _ _ (Ptr.heap c) = if c = _ then _ else _
      rw [upd_heap]
    · intro c hc2
      show upd s.mem.state (Ptr.heap b) UNALLOCATED (Ptr.heap c) = FENCEPOST ↔ _
      rw [upd_heap]
      split
      · rename_i e
        subst e
        simp [hnf]
      · rfl
  · intro c hc2 hcs
    obtain ⟨hc2, hcb⟩ := hc2
    have hcs : upd s.mem.state (Ptr.heap b) UNALLOCATED (Ptr.heap c) = UNALLOCATED := hcs
    rw [upd_heap] at hcs
    show upd s.mem.state (Ptr.heap b) UNALLOCATED (Ptr.heap (c + upd s.mem.size (Ptr.heap b) _
      (Ptr.heap c))) ≠ UNALLOCATED
    rw [upd_heap, upd_heap]
    by_cases e : c = b
    · subst e
      simp only [if_true]
      have e2 : c + (s.mem.size (Ptr.heap c) + s.mem.size (Ptr.heap r))
          = r + s.mem.size (Ptr.heap r) := by omega
      rw [e2]
      simp only [hrr, if_false]
      exact hRR
    · simp only [e, if_false] at hcs ⊢
      have e2 : c + s.mem.size (Ptr.heap c) ≠ b := by
        intro e2
        have e3 : c = b - s.mem.left_size (Ptr.heap b) := by
          apply L.left_unique hc hc2 n3
          show c + s.mem.size (Ptr.heap c) = _ + s.mem.size (Ptr.heap _)
          rw [n4]; omega
        rw [← e3] at hL
        exact hL hcs
      simp only [e2, if_false]
      exact hw.coal c hc2 hcs
  · refine hlinks.congr ?_ (fun _ _ => rfl)
    intro p
    constructor
    · intro hp
      rcases hp with ⟨i, hi, e⟩ | ⟨c, e, hc2, hcs⟩
      · exact Or.inl ⟨Or.inl ⟨i, hi, e⟩, by rw [e]; simp⟩
      · have hcs : upd s.mem.state (Ptr.heap b) UNALLOCATED (Ptr.heap c) = UNALLOCATED := hcs
        rw [upd_heap] at hcs
        by_cases e2 : c = b
        · right; rw [e, e2]
        · simp only [e2, if_false] at hcs
          exact Or.inl ⟨Or.inr ⟨c, e, hc2.1, hcs⟩, by rw [e]; simpa using hc2.2⟩
    · intro hp
      rcases hp with ⟨hp, hpr⟩ | hp
      · rcases hp with ⟨i, hi, e⟩ | ⟨c, e, hc2, hcs⟩
        · exact Or.inl ⟨i, hi, e⟩
        · have hcb : c ≠ b := fun e2 => by rw [e2, hst] at hcs; cases hcs
          have hcr : c ≠ r := fun e2 => hpr (by rw [e, e2])
          refine Or.inr ⟨c, e, ⟨hc2, hcr⟩, ?_⟩
          show upd s.mem.state (Ptr.heap b) UNALLOCATED (Ptr.heap c) = UNALLOCATED
          rw [upd_heap]
          simp only [hcb, if_false]
          exact hcs
      · refine Or.inr ⟨b, hp, ⟨hb, hbr⟩, ?_⟩
        show upd s.mem.state (Ptr.heap b) UNALLOCATED (Ptr.heap b) = UNALLOCATED
        rw [upd_heap]; simp
  · intro c hc2 hcs hlt
    obtain ⟨hc2, hcb⟩ := hc2
    have hcs : upd s.mem.state (Ptr.heap b) UNALLOCATED (Ptr.heap c) = UNALLOCATED := hcs
    rw [upd_heap] at hcs
    show _ ≤ upd s.mem.size (Ptr.heap b) _ (Ptr.heap c)
    rw [upd_heap]
    by_cases e : c = b
    · subst e
      simp only [if_true]
      exact hcls hlt
    · simp only [e, if_false] at hcs ⊢
      rw [hlab c e] at hlt ⊢
      exact hw.cls c hc2 hcs hlt

/-- The free left neighbour of `b` absorbs `b` and the free right neighbour,
which leaves its list (fourth branch of `deallocate_object`, before the left
neighbour is moved). -/
theorem WellFormed.merge_both (hw : WellFormed cfg s chunks B lab none) (hc : cfg.WF) {b : Nat}
    (hb : B b) (hst : s.mem.state (Ptr.heap b) = ALLOCATED)
    (hL : s.mem.state (Ptr.heap (b - s.mem.left_size (Ptr.heap b))) = UNALLOCATED)
    (hR : s.mem.state (Ptr.heap (b + s.mem.size (Ptr.heap b))) = UNALLOCATED) :
    WellFormed cfg { s with mem := { mem_unlink s.mem (Ptr.heap (b + s.mem.size (Ptr.heap b))) with
        state := upd s.mem.state (Ptr.heap b) UNALLOCATED,
        size := upd s.mem.size (Ptr.heap (b - s.mem.left_size (Ptr.heap b)))
          (s.mem.size (Ptr.heap (b - s.mem.left_size (Ptr.heap b))) + s.mem.size (Ptr.heap b)
            + s.mem.size (Ptr.heap (b + s.mem.size (Ptr.heap b)))),
        left_size := upd s.mem.left_size (Ptr.heap (b + s.mem.size (Ptr.heap b)
            + s.mem.size (Ptr.heap (b + s.mem.size (Ptr.heap b)))))
          (s.mem.size (Ptr.heap (b - s.mem.left_size (Ptr.heap b))) + s.mem.size (Ptr.heap b)
            + s.mem.size (Ptr.heap (b + s.mem.size (Ptr.heap b)))) } }
      chunks (fun a => B a ∧ a ≠ b ∧ a ≠ b + s.mem.size (Ptr.heap b)) lab none := by
  have hH := hc.header_pos
  obtain ⟨f, hf, L⟩ := hw.layout
  have hnf : s.mem.state (Ptr.heap b) ≠ FENCEPOST := by rw [hst]; simp
  obtain ⟨n1, n2, n3, n4, n5, n6, n7, n8⟩ := hw.neighbours hc hb hnf
  have hRf : s.mem.state (Ptr.heap (b + s.mem.size (Ptr.heap b))) ≠ FENCEPOST := by
    rw [hR]; simp
  have hRR := hw.coal _ n6 hR
  obtain ⟨r1, r2, r3, r4, r5, r6, r7, r8⟩ := hw.neighbours hc n6 hRf
  generalize hr : b + s.mem.size (Ptr.heap b) = r at *
  generalize hl : b - s.mem.left_size (Ptr.heap b) = l at *
  have hlb : l + s.mem.size (Ptr.heap l) = b := by omega
  have hlf : s.mem.state (Ptr.heap l) ≠ FENCEPOST := by rw [hL]; simp
  have hbf : ¬ (fun a => s.mem.state (Ptr.heap a) = FENCEPOST)
      (l + (fun a => s.mem.size (Ptr.heap a)) l) := by
    show ¬ s.mem.state (Ptr.heap (l + s.mem.size (Ptr.heap l))) = FENCEPOST
    rw [hlb]; exact hnf
  have hM := L.merge hc n3 hlf hbf
  have hM2 := hM.merge hc (x := l) ⟨n3, by omega⟩ hlf (by
    show ¬ s.mem.state (Ptr.heap (l + (if l = l then s.mem.size (Ptr.heap l)
      + s.mem.size (Ptr.heap (l + s.mem.size (Ptr.heap l))) else s.mem.size (Ptr.heap l))))
      = FENCEPOST
    simp only [if_true]
    rw [hlb]
    have : l + (s.mem.size (Ptr.heap l) + s.mem.size (Ptr.heap b)) = r := by omega
    rw [this]; exact hRf)
  have hbr : b ≠ r := by omega
  have hlr : l ≠ r := by omega
  have hlne : l ≠ b := by omega
  have hrr : r + s.mem.size (Ptr.heap r) ≠ b := by omega
  have hxr : IsNode cfg s.mem B (Ptr.heap r) := isNode_heap n6 hR
  have e1 : l + (s.mem.size (Ptr.heap l) + s.mem.size (Ptr.heap b)) = r := by omega
  refine ⟨hw.not_crashed, ?_, ⟨f, hf, ?_⟩, ?_, ?_, ?_⟩
  · intro c hc2
    have hc2 : s.brk ≤ c := hc2
    have e3 := hw.node_below hc (hw.links _ hxr).2.1 hc2
    simp only [mem_unlink, upd, e3, if_false]
    exact hw.fresh c hc2
  · refine hM2.congr_fields ?_ ?_ ?_ ?_
    · intro c
      show (B c ∧ c ≠ b ∧ c ≠ r) ↔ ((B c ∧ c ≠ l + s.mem.size (Ptr.heap l)) ∧
        c ≠ l + (if l = l then s.mem.size (Ptr.heap l)
          + s.mem.size (Ptr.heap (l + s.mem.size (Ptr.heap l))) else s.mem.size (Ptr.heap l)))
      simp only [if_true, hlb, e1]
      tauto
    · intro c _
      show upd s.mem.size (Ptr.heap l) _ (Ptr.heap c) = if c = l then
        (if l = l then s.mem.size (Ptr.heap l)
          + s.mem.size (Ptr.heap (l + s.mem.size (Ptr.heap l))) else s.mem.size (Ptr.heap l))
        + (if (l + (if l = l then s.mem.size (Ptr.heap l)
          + s.mem.size (Ptr.heap (l + s.mem.size (Ptr.heap l))) else s.mem.size (Ptr.heap l))) = l
          then s.mem.size (Ptr.heap l)
          + s.mem.size (Ptr.heap (l + s.mem.size (Ptr.heap l))) else s.mem.size (Ptr.heap
           (l + (if l = l then s.mem.size (Ptr.heap l)
          + s.mem.size (Ptr.heap (l + s.mem.size (Ptr.heap l))) else s.mem.size (Ptr.heap l)))))
        else (if c = l then s.mem.size (Ptr.heap l)
          + s.mem.size (Ptr.heap (l + s.mem.size (Ptr.heap l))) else s.mem.size (Ptr.heap c))
      rw [upd_heap]
      simp only [if_true, hlb, e1, hlr.symm, if_false]
      split
      · rfl
      · rfl
    · intro c hc2
      obtain ⟨⟨hc3, hc4⟩, hc5⟩ := hc2
      have hc5 : c ≠ l + (if l = l then s.mem.size (Ptr.heap l)
          + s.mem.size (Ptr.heap (l + s.mem.size (Ptr.heap l))) else s.mem.size (Ptr.heap l)) := hc5
      simp only [if_true, hlb, e1] at hc5
      show upd s.mem.left_size _ _ (Ptr.heap c) = if c = l + (if l = l then s.mem.size (Ptr.heap l)
          + s.mem.size (Ptr.heap (l + s.mem.size (Ptr.heap l))) else s.mem.size (Ptr.heap l))
          + (if (l + (if l = l then s.mem.size (Ptr.heap l)
          + s.mem.size (Ptr.heap (l + s.mem.size (Ptr.heap l))) else s.mem.size (Ptr.heap l))) = l
          then s.mem.size (Ptr.heap l)
          + s.mem.size (Ptr.heap (l + s.mem.size (Ptr.heap l))) else s.mem.size (Ptr.heap
           (l + (if l = l then s.mem.size (Ptr.heap l)
          + s.mem.size (Ptr.heap (l + s.mem.size (Ptr.heap l))) else s.mem.size (Ptr.heap l)))))
        then (if l = l then s.mem.size (Ptr.heap l)
          + s.mem.size (Ptr.heap (l + s.mem.size (Ptr.heap l))) else s.mem.size (Ptr.heap l))
        + (if (l + (if l = l then s.mem.size (Ptr.heap l)
          + s.mem.size (Ptr.heap (l + s.mem.size (Ptr.heap l))) else s.mem.size (Ptr.heap l))) = l
          then s.mem.size (Ptr.heap l)
          + s.mem.size (Ptr.heap (l + s.mem.size (Ptr.heap l))) else s.mem.size (Ptr.heap
           (l + (if l = l then s.mem.size (Ptr.heap l)
          + s.mem.size (Ptr.heap (l + s.mem.size (Ptr.heap l))) else s.mem.size (Ptr.heap l)))))
        else (if c = l + s.mem.size (Ptr.heap l) + s.mem.size (Ptr.heap (l + s.mem.size (Ptr.heap l)))
          then s.mem.size (Ptr.heap l) + s.mem.size (Ptr.heap (l + s.mem.size (Ptr.heap l)))
          else s.mem.left_size (Ptr.heap c))
      rw [upd_heap]
      simp only [if_true, hlb, e1, hlr.symm, if_false, hr, hc5]
    · intro c hc2
      obtain ⟨⟨hc3, hc4⟩, hc5⟩ := hc2
      rw [hlb] at hc4
      show upd s.mem.state (Ptr.heap b) UNALLOCATED (Ptr.heap c) = FENCEPOST ↔ _
      rw [upd_heap]
      simp only [hc4, if_false]
  · intro c hc2 hcs
    obtain ⟨hc2, hcb, hcr⟩ := hc2
    have hcs : upd s.mem.state (Ptr.heap b) UNALLOCATED (Ptr.heap c) = UNALLOCATED := hcs
    rw [upd_heap] at hcs
    simp only [hcb, if_false] at hcs
    show upd s.mem.state (Ptr.heap b) UNALLOCATED (Ptr.heap (c + upd s.mem.size (Ptr.heap l) _
      (Ptr.heap c))) ≠ UNALLOCATED
    rw [upd_heap, upd_heap]
    by_cases e : c = l
    · subst e
      simp only [if_true]
      have e2 : c + (s.mem.size (Ptr.heap c) + s.mem.size (Ptr.heap b) + s.mem.size (Ptr.heap r))
          = r + s.mem.size (Ptr.heap r) := by omega
      rw [e2]
      simp only [hrr, if_false]
      exact hRR
    · simp only [e, if_false]
      have e2 : c + s.mem.size (Ptr.heap c) ≠ b := by
        intro e2
        apply e
        apply L.left_unique hc hc2 n3
        show c + s.mem.size (Ptr.heap c) = l + s.mem.size (Ptr.heap l)
        omega
      simp only [e2, if_false]
      exact hw.coal c hc2 hcs
  · have h1 := hw.links.unlink hxr
    refine h1.congr ?_ (fun _ _ => rfl)
    intro p
    constructor
    · intro hp
      rcases hp with ⟨i, hi, e⟩ | ⟨c, e, hc2, hcs⟩
      · exact ⟨Or.inl ⟨i, hi, e⟩, by rw [e]; simp⟩
      · have hcs : upd s.mem.state (Ptr.heap b) UNALLOCATED (Ptr.heap c) = UNALLOCATED := hcs
        rw [upd_heap] at hcs
        simp only [hc2.2.1, if_false] at hcs
        exact ⟨Or.inr ⟨c, e, hc2.1, hcs⟩, by rw [e]; simpa using hc2.2.2⟩
    · intro ⟨hp, hpr⟩
      rcases hp with ⟨i, hi, e⟩ | ⟨c, e, hc2, hcs⟩
      · exact Or.inl ⟨i, hi, e⟩
      · have hcb : c ≠ b := fun e2 => by rw [e2, hst] at hcs; cases hcs
        have hcr : c ≠ r := fun e2 => hpr (by rw [e, e2])
        refine Or.inr ⟨c, e, ⟨hc2, hcb, hcr⟩, ?_⟩
        show upd s.mem.state (Ptr.heap b) UNALLOCATED (Ptr.heap c) = UNALLOCATED
        rw [upd_heap]
        simp only [hcb, if_false]
        exact hcs
  · intro c hc2 hcs hlt
    obtain ⟨hc2, hcb, hcr⟩ := hc2
    have hcs : upd s.mem.state (Ptr.heap b) UNALLOCATED (Ptr.heap c) = UNALLOCATED := hcs
    rw [upd_heap] at hcs
    simp only [hcb, if_false] at hcs
    have := hw.cls c hc2 hcs hlt
    show _ ≤ upd s.mem.size (Ptr.heap l) _ (Ptr.heap c)
    rw [upd_heap]
    split
    · rename_i e; subst e; omega
    · exact this

end steps

/-! ## The other branches of `deallocate_object` in normal form -/

theorem free_case2 (cfg : Config) (s : Heap) (b : Nat)
    (hst : s.mem.state (Ptr.heap b) ≠ UNALLOCATED)
    (hls : s.mem.left_size (Ptr.heap b) ≤ b)
    (hLb : b - s.mem.left_size (Ptr.heap b) ≠ b)
    (hRb : b + s.mem.size (Ptr.heap b) ≠ b)
    (hL : s.mem.state (Ptr.heap (b - s.mem.left_size (Ptr.heap b))) = UNALLOCATED)
    (hR : s.mem.state (Ptr.heap (b + s.mem.size (Ptr.heap b))) ≠ UNALLOCATED) :
    deallocate_object cfg s (Ptr.heap (b + cfg.ALLOC_HEADER_SIZE)) =
      FreeResult.returned { s with mem :=
        (if (s.mem.size (Ptr.heap b) + s.mem.left_size (Ptr.heap b) - cfg.ALLOC_HEADER_SIZE) / 8 - 1
            < cfg.N_LISTS - 1 then
          free_insert (free_unlink { s.mem with
              state := upd s.mem.state (Ptr.heap b) UNALLOCATED,
              left_size := upd s.mem.left_size (Ptr.heap (b + s.mem.size (Ptr.heap b)))
                (s.mem.size (Ptr.heap b) + s.mem.left_size (Ptr.heap b)),
              size := upd s.mem.size (Ptr.heap (b - s.mem.left_size (Ptr.heap b)))
                (s.mem.size (Ptr.heap b) + s.mem.left_size (Ptr.heap b)) }
            (Ptr.heap (b - s.mem.left_size (Ptr.heap b))))
            (Ptr.sentinel ((s.mem.size (Ptr.heap b) + s.mem.left_size (Ptr.heap b)
              - cfg.ALLOC_HEADER_SIZE) / 8 - 1))
            (Ptr.heap (b - s.mem.left_size (Ptr.heap b)))
        else { s.mem with
              state := upd s.mem.state (Ptr.heap b) UNALLOCATED,
              left_size := upd s.mem.left_size (Ptr.heap (b + s.mem.size (Ptr.heap b)))
                (s.mem.size (Ptr.heap b) + s.mem.left_size (Ptr.heap b)),
              size := upd s.mem.size (Ptr.heap (b - s.mem.left_size (Ptr.heap b)))
                (s.mem.size (Ptr.heap b) + s.mem.left_size (Ptr.heap b)) }) } := by
  have e1 : get_header_from_offset (Ptr.heap (b + cfg.ALLOC_HEADER_SIZE))
      (-(cfg.ALLOC_HEADER_SIZE : Int)) = Ptr.heap b := by
    rw [offset_heap_neg _ _ (by omega)]; simp
  have e2 : Ptr.heap (b - s.mem.left_size (Ptr.heap b)) ≠ Ptr.heap b := by simpa using hLb
  have e3 : Ptr.heap (b + s.mem.size (Ptr.heap b)) ≠ Ptr.heap b := by simpa using hRb
  unfold deallocate_object
  simp only [e1, get_block_state, get_block_size, set_block_state_ok _ _ _ (heap_ne_null b),
    offset_heap_neg _ _ hls, offset_heap_nat, upd_other _ _ _ _ e2, upd_other _ _ _ _ e3,
    set_left_size_ok _ _ _ (heap_ne_null _), set_block_size_ok _ _ _ (heap_ne_null _)]
  rcases state_cases (s.mem.state (Ptr.heap (b + s.mem.size (Ptr.heap b)))) with h2 | h2 | h2
  · exact absurd h2 hR
  all_goals
    simp only [hL, h2, hst, reduceCtorEq, false_and, and_false, or_false, false_or, if_false,
      and_self, if_true, true_and, and_true, or_true, true_or, Ptr.heap.injEq, ne_eq,
      not_false_eq_true]
    split <;> rfl

theorem free_case3 (cfg : Config) (s : Heap) (b : Nat)
    (hst : s.mem.state (Ptr.heap b) ≠ UNALLOCATED)
    (hls : s.mem.left_size (Ptr.heap b) ≤ b)
    (hLb : b - s.mem.left_size (Ptr.heap b) ≠ b)
    (hRb : b + s.mem.size (Ptr.heap b) ≠ b)
    (hL : s.mem.state (Ptr.heap (b - s.mem.left_size (Ptr.heap b))) ≠ UNALLOCATED)
    (hR : s.mem.state (Ptr.heap (b + s.mem.size (Ptr.heap b))) = UNALLOCATED)
    (hpn : s.mem.prev (Ptr.heap (b + s.mem.size (Ptr.heap b))) ≠ Ptr.null)
    (hnn : s.mem.next (Ptr.heap (b + s.mem.size (Ptr.heap b))) ≠ Ptr.null)
    (hpb : s.mem.prev (Ptr.heap (b + s.mem.size (Ptr.heap b))) ≠ Ptr.heap b) :
    deallocate_object cfg s (Ptr.heap (b + cfg.ALLOC_HEADER_SIZE)) =
      FreeResult.returned { s with mem :=
        (if (s.mem.size (Ptr.heap b) + s.mem.size (Ptr.heap (b + s.mem.size (Ptr.heap b)))
            - cfg.ALLOC_HEADER_SIZE) / 8 - 1 < cfg.N_LISTS - 1 then
          free_insert (free_unlink_rev { s.mem with
              state := upd s.mem.state (Ptr.heap b) UNALLOCATED,
              size := upd s.mem.size (Ptr.heap b)
                (s.mem.size (Ptr.heap b) + s.mem.size (Ptr.heap (b + s.mem.size (Ptr.heap b)))),
              left_size := upd s.mem.left_size (Ptr.heap (b + s.mem.size (Ptr.heap b)
                  + s.mem.size (Ptr.heap (b + s.mem.size (Ptr.heap b)))))
                (s.mem.size (Ptr.heap b) + s.mem.size (Ptr.heap (b + s.mem.size (Ptr.heap b)))) }
            (Ptr.heap (b + s.mem.size (Ptr.heap b))))
            (Ptr.sentinel ((s.mem.size (Ptr.heap b)
              + s.mem.size (Ptr.heap (b + s.mem.size (Ptr.heap b))) - cfg.ALLOC_HEADER_SIZE) / 8 - 1))
            (Ptr.heap b)
        else { s.mem with
              state := upd s.mem.state (Ptr.heap b) UNALLOCATED,
              size := upd s.mem.size (Ptr.heap b)
                (s.mem.size (Ptr.heap b) + s.mem.size (Ptr.heap (b + s.mem.size (Ptr.heap b)))),
              left_size := upd s.mem.left_size (Ptr.heap (b + s.mem.size (Ptr.heap b)
                  + s.mem.size (Ptr.heap (b + s.mem.size (Ptr.heap b)))))
                (s.mem.size (Ptr.heap b) + s.mem.size (Ptr.heap (b + s.mem.size (Ptr.heap b)))),
              next := upd (upd s.mem.next (s.mem.prev (Ptr.heap (b + s.mem.size (Ptr.heap b))))
                  (Ptr.heap b)) (Ptr.heap b)
                (upd s.mem.next (s.mem.prev (Ptr.heap (b + s.mem.size (Ptr.heap b))))
                  (Ptr.heap b) (Ptr.heap (b + s.mem.size (Ptr.heap b)))),
              prev := upd (upd s.mem.prev (Ptr.heap b)
                  (s.mem.prev (Ptr.heap (b + s.mem.size (Ptr.heap b)))))
                (upd s.mem.next (s.mem.prev (Ptr.heap (b + s.mem.size (Ptr.heap b))))
                  (Ptr.heap b) (Ptr.heap (b + s.mem.size (Ptr.heap b)))) (Ptr.heap b) }) } := by
  have e1 : get_header_from_offset (Ptr.heap (b + cfg.ALLOC_HEADER_SIZE))
      (-(cfg.ALLOC_HEADER_SIZE : Int)) = Ptr.heap b := by
    rw [offset_heap_neg _ _ (by omega)]; simp
  have e2 : Ptr.heap (b - s.mem.left_size (Ptr.heap b)) ≠ Ptr.heap b := by simpa using hLb
  have e3 : Ptr.heap (b + s.mem.size (Ptr.heap b)) ≠ Ptr.heap b := by simpa using hRb
  have e4 : upd s.mem.next (s.mem.prev (Ptr.heap (b + s.mem.size (Ptr.heap b)))) (Ptr.heap b)
      (Ptr.heap (b + s.mem.size (Ptr.heap b))) ≠ Ptr.null := by
    unfold upd; split
    · simp
    · exact hnn
  unfold deallocate_object
  simp only [e1, get_block_state, get_block_size, set_block_state_ok _ _ _ (heap_ne_null b),
    offset_heap_neg _ _ hls, offset_heap_nat, upd_other _ _ _ _ e2, upd_other _ _ _ _ e3,
    set_left_size_ok _ _ _ (heap_ne_null _), set_block_size_ok _ _ _ (heap_ne_null _),
    upd_same]
  rcases state_cases (s.mem.state (Ptr.heap (b - s.mem.left_size (Ptr.heap b)))) with h2 | h2 | h2
  · exact absurd h2 hL
  all_goals
    simp only [hR, h2, hst, reduceCtorEq, false_and, and_false, or_false, false_or, if_false,
      and_self, if_true, true_and, and_true, or_true, true_or, Ptr.heap.injEq, ne_eq,
      not_false_eq_true]
    split
    · congr 2
      rw [show upd (upd s.mem.state (Ptr.heap b) UNALLOCATED) (Ptr.heap b) UNALLOCATED
        = upd s.mem.state (Ptr.heap b) UNALLOCATED from by
          funext q; unfold upd; split <;> rfl]
    · rw [show upd (upd s.mem.state (Ptr.heap b) UNALLOCATED) (Ptr.heap b) UNALLOCATED
        = upd s.mem.state (Ptr.heap b) UNALLOCATED from by
          funext q; unfold upd; split <;> rfl]
      simp only [set_next_ok _ _ _ hpn, set_next_ok _ _ _ (heap_ne_null b),
        set_prev_ok _ _ _ (heap_ne_null b), upd_same]
      rw [set_prev_ok _ _ _ e4]

theorem free_case4 (cfg : Config) (s : Heap) (b : Nat)
    (hst : s.mem.state (Ptr.heap b) ≠ UNALLOCATED)
    (hls : s.mem.left_size (Ptr.heap b) ≤ b)
    (hLb : b - s.mem.left_size (Ptr.heap b) ≠ b)
    (hRb : b + s.mem.size (Ptr.heap b) ≠ b)
    (hLR : b + s.mem.size (Ptr.heap b) ≠ b - s.mem.left_size (Ptr.heap b))
    (hL : s.mem.state (Ptr.heap (b - s.mem.left_size (Ptr.heap b))) = UNALLOCATED)
    (hR : s.mem.state (Ptr.heap (b + s.mem.size (Ptr.heap b))) = UNALLOCATED) :
    deallocate_object cfg s (Ptr.heap (b + cfg.ALLOC_HEADER_SIZE)) =
      FreeResult.returned { s with mem :=
        (if (s.mem.size (Ptr.heap (b - s.mem.left_size (Ptr.heap b))) + s.mem.size (Ptr.heap b)
            + s.mem.size (Ptr.heap (b + s.mem.size (Ptr.heap b)))
            - cfg.ALLOC_HEADER_SIZE) / 8 - 1 < cfg.N_LISTS - 1 then
          free_insert (free_unlink (free_unlink { s.mem with
              state := upd s.mem.state (Ptr.heap b) UNALLOCATED,
              size := upd s.mem.size (Ptr.heap (b - s.mem.left_size (Ptr.heap b)))
                (s.mem.size (Ptr.heap (b - s.mem.left_size (Ptr.heap b)))
                  + s.mem.size (Ptr.heap b)
                  + s.mem.size (Ptr.heap (b + s.mem.size (Ptr.heap b)))),
              left_size := upd s.mem.left_size (Ptr.heap (b + s.mem.size (Ptr.heap b)
                  + s.mem.size (Ptr.heap (b + s.mem.size (Ptr.heap b)))))
                (s.mem.size (Ptr.heap (b - s.mem.left_size (Ptr.heap b)))
                  + s.mem.size (Ptr.heap b)
                  + s.mem.size (Ptr.heap (b + s.mem.size (Ptr.heap b)))) }
            (Ptr.heap (b + s.mem.size (Ptr.heap b))))
            (Ptr.heap (b - s.mem.left_size (Ptr.heap b))))
            (Ptr.sentinel ((s.mem.size (Ptr.heap (b - s.mem.left_size (Ptr.heap b)))
              + s.mem.size (Ptr.heap b)
              + s.mem.size (Ptr.heap (b + s.mem.size (Ptr.heap b))) - cfg.ALLOC_HEADER_SIZE) / 8 - 1))
            (Ptr.heap (b - s.mem.left_size (Ptr.heap b)))
        else free_unlink { s.mem with
              state := upd s.mem.state (Ptr.heap b) UNALLOCATED,
              size := upd s.mem.size (Ptr.heap (b - s.mem.left_size (Ptr.heap b)))
                (s.mem.size (Ptr.heap (b - s.mem.left_size (Ptr.heap b)))
                  + s.mem.size (Ptr.heap b)
                  + s.mem.size (Ptr.heap (b + s.mem.size (Ptr.heap b)))),
              left_size := upd s.mem.left_size (Ptr.heap (b + s.mem.size (Ptr.heap b)
                  + s.mem.size (Ptr.heap (b + s.mem.size (Ptr.heap b)))))
                (s.mem.size (Ptr.heap (b - s.mem.left_size (Ptr.heap b)))
                  + s.mem.size (Ptr.heap b)
                  + s.mem.size (Ptr.heap (b + s.mem.size (Ptr.heap b)))) }
            (Ptr.heap (b + s.mem.size (Ptr.heap b)))) } := by
  have e1 : get_header_from_offset (Ptr.heap (b + cfg.ALLOC_HEADER_SIZE))
      (-(cfg.ALLOC_HEADER_SIZE : Int)) = Ptr.heap b := by
    rw [offset_heap_neg _ _ (by omega)]; simp
  have e2 : Ptr.heap (b - s.mem.left_size (Ptr.heap b)) ≠ Ptr.heap b := by simpa using hLb
  have e3 : Ptr.heap (b + s.mem.size (Ptr.heap b)) ≠ Ptr.heap b := by simpa using hRb
  have e4 : Ptr.heap (b + s.mem.size (Ptr.heap b)) ≠
      Ptr.heap (b - s.mem.left_size (Ptr.heap b)) := by simpa using hLR
  unfold deallocate_object
  simp only [e1, get_block_state, get_block_size, set_block_state_ok _ _ _ (heap_ne_null b),
    offset_heap_neg _ _ hls, offset_heap_nat, upd_other _ _ _ _ e2, upd_other _ _ _ _ e3,
    upd_other _ _ _ _ e4, upd_other _ _ _ _ e2.symm,
    set_left_size_ok _ _ _ (heap_ne_null _), set_block_size_ok _ _ _ (heap_ne_null _),
    upd_same]
  simp only [hR, hL, hst, reduceCtorEq, false_and, and_false, or_false, false_or, if_false,
      and_self, if_true, true_and, and_true, or_true, true_or, Ptr.heap.injEq, ne_eq,
      not_false_eq_true]
  split <;> rfl

section rebucket
variable {cfg : Config} {s : Heap} {chunks : List Nat} {B : Nat → Prop} {lab : Nat → Nat}
  {hole : Option Nat}

/-- The facts about the memory after a node has been unlinked that the insertion
code needs. -/
theorem WellFormed.unlinked_facts (hw : WellFormed cfg s chunks B lab hole) {a j : Nat}
    (ha : B a) (hs : s.mem.state (Ptr.heap a) = UNALLOCATED) (hj : j < cfg.N_LISTS) :
    s.mem.next (Ptr.heap a) ≠ Ptr.null ∧ s.mem.prev (Ptr.heap a) ≠ Ptr.null ∧
    (mem_unlink s.mem (Ptr.heap a)).next (Ptr.sentinel j) ≠ Ptr.null ∧
    (mem_unlink s.mem (Ptr.heap a)).next (Ptr.sentinel j) ≠ Ptr.heap a ∧
    ((mem_unlink s.mem (Ptr.heap a)).next (Ptr.sentinel j) = Ptr.sentinel j ↔
      (mem_unlink s.mem (Ptr.heap a)).prev (Ptr.sentinel j) = Ptr.sentinel j) := by
  have hx : IsNode cfg s.mem B (Ptr.heap a) := isNode_heap ha hs
  have hS : IsNode cfg s.mem B (Ptr.sentinel j) := isNode_sentinel hj
  have h1 := hw.links.unlink hx
  have h2 := h1 (Ptr.sentinel j) ⟨hS, by simp⟩
  refine ⟨hw.next_ne_null hx, hw.prev_ne_null hx, isNode_ne_null h2.1.1, h2.1.2, ?_⟩
  exact h1.next_self_iff (p := Ptr.sentinel j) ⟨hS, by simp⟩

theorem WellFormed.free_rebucket_eq (hw : WellFormed cfg s chunks B lab hole) {a j : Nat}
    (ha : B a) (hs : s.mem.state (Ptr.heap a) = UNALLOCATED) (hj : j < cfg.N_LISTS) :
    free_insert (free_unlink s.mem (Ptr.heap a)) (Ptr.sentinel j) (Ptr.heap a) =
      mem_insert (mem_unlink s.mem (Ptr.heap a)) (Ptr.sentinel j) (Ptr.heap a) := by
  obtain ⟨h1, h2, h3, h4, h5⟩ := hw.unlinked_facts ha hs hj
  rw [free_unlink_eq _ _ h1 h2]
  exact free_insert_eq _ _ _ (sentinel_ne_null j) (heap_ne_null a) h3 (by simp) h4 h5

theorem WellFormed.larger_rebucket_eq (hw : WellFormed cfg s chunks B lab hole) {a j : Nat}
    (ha : B a) (hs : s.mem.state (Ptr.heap a) = UNALLOCATED) (hj : j < cfg.N_LISTS) :
    larger_insert (list_unlink s.mem (Ptr.heap a)) (Ptr.sentinel j) (Ptr.heap a) =
      mem_insert (mem_unlink s.mem (Ptr.heap a)) (Ptr.sentinel j) (Ptr.heap a) := by
  obtain ⟨h1, h2, h3, h4, h5⟩ := hw.unlinked_facts ha hs hj
  rw [list_unlink_eq _ _ h1 h2]
  exact larger_insert_eq _ _ _ (sentinel_ne_null j) (heap_ne_null a) h3 (by simp) h4 h5

theorem WellFormed.chunk_rebucket_eq (hw : WellFormed cfg s chunks B lab hole) {a j : Nat}
    (ha : B a) (hs : s.mem.state (Ptr.heap a) = UNALLOCATED) (hj : j < cfg.N_LISTS) :
    chunk_list_insert (list_unlink s.mem (Ptr.heap a)) (Ptr.sentinel j) (Ptr.heap a) =
      mem_insert (mem_unlink s.mem (Ptr.heap a)) (Ptr.sentinel j) (Ptr.heap a) := by
  obtain ⟨h1, h2, h3, h4, h5⟩ := hw.unlinked_facts ha hs hj
  rw [list_unlink_eq _ _ h1 h2]
  exact chunk_list_insert_eq _ _ _ (sentinel_ne_null j) (heap_ne_null a) h3 (by simp) h4 h5

end rebucket

section free
variable {cfg : Config} {s : Heap} {chunks : List Nat} {B : Nat → Prop} {lab : Nat → Nat}

theorem list_index_cls (hc : cfg.WF) {size : Nat} (h8 : 8 ∣ size)
    (hsz : 2 * cfg.ALLOC_HEADER_SIZE ≤ size) :
    list_index cfg size < cfg.N_LISTS - 1 →
      cfg.ALLOC_HEADER_SIZE + 8 * (list_index cfg size + 1) ≤ size := by
  have hH := hc.header_pos
  have hH8 := hc.header_aligned
  unfold list_index
  intro h
  omega

theorem class_index_cls (hc : cfg.WF) {size : Nat} (h8 : 8 ∣ size)
    (hsz : 2 * cfg.ALLOC_HEADER_SIZE ≤ size) :
    cfg.ALLOC_HEADER_SIZE + 8 * ((size - cfg.ALLOC_HEADER_SIZE) / 8 - 1 + 1) ≤ size := by
  have hH := hc.header_pos
  have hH8 := hc.header_aligned
  omega

theorem free_preserves_1 (hc : cfg.WF) (hw : WellFormed cfg s chunks B lab none) {b : Nat}
    (hb : B b) (hst : s.mem.state (Ptr.heap b) = ALLOCATED)
    (hL : s.mem.state (Ptr.heap (b - s.mem.left_size (Ptr.heap b))) ≠ UNALLOCATED)
    (hR : s.mem.state (Ptr.heap (b + s.mem.size (Ptr.heap b))) ≠ UNALLOCATED) :
    ∃ t B2 lab2, deallocate_object cfg s (Ptr.heap (b + cfg.ALLOC_HEADER_SIZE))
        = FreeResult.returned t ∧
      WellFormed cfg t chunks B2 lab2 none ∧ FreeFrame s t B B2 b ∧
      (∀ c, B2 c ↔ (B c ∧
        ¬ (c = b ∧ s.mem.state (Ptr.heap (b - s.mem.left_size (Ptr.heap b))) = UNALLOCATED) ∧
        ¬ (c = b + s.mem.size (Ptr.heap b) ∧
          s.mem.state (Ptr.heap (b + s.mem.size (Ptr.heap b))) = UNALLOCATED))) := by
  have hH := hc.header_pos
  have hN := hc.lists_pos
  have hnf : s.mem.state (Ptr.heap b) ≠ FENCEPOST := by rw [hst]; simp
  obtain ⟨n1, n2, n3, n4, n5, n6, n7, n8⟩ := hw.neighbours hc hb hnf
  have hidx : list_index cfg (s.mem.size (Ptr.heap b)) < cfg.N_LISTS := by
    unfold list_index; omega
  refine ⟨_, B, _, free_case1 cfg s b (by rw [hst]; simp) n1 (by omega) (by omega) hL hR,
    free_case1_wf hc hw hb hst hL hR, ?_,
    fun c => ⟨fun h => ⟨h, fun h2 => hL h2.2, fun h2 => hR h2.2⟩, fun h => h.1⟩⟩
  intro c hc2 hcb hcs
  refine ⟨hc2, ?_, ?_⟩
  · dsimp only
    rw [free_first_mem_eq hw hst hidx]
    show upd s.mem.state (Ptr.heap b) UNALLOCATED (Ptr.heap c) = ALLOCATED
    rw [upd_heap]; simp only [hcb, if_false]; exact hcs
  · dsimp only
    rw [free_first_mem_eq hw hst hidx]
    rfl

theorem free_preserves_2 (hc : cfg.WF) (hw : WellFormed cfg s chunks B lab none) {b : Nat}
    (hb : B b) (hst : s.mem.state (Ptr.heap b) = ALLOCATED)
    (hL : s.mem.state (Ptr.heap (b - s.mem.left_size (Ptr.heap b))) = UNALLOCATED)
    (hR : s.mem.state (Ptr.heap (b + s.mem.size (Ptr.heap b))) ≠ UNALLOCATED) :
    ∃ t B2 lab2, deallocate_object cfg s (Ptr.heap (b + cfg.ALLOC_HEADER_SIZE))
        = FreeResult.returned t ∧
      WellFormed cfg t chunks B2 lab2 none ∧ FreeFrame s t B B2 b ∧
      (∀ c, B2 c ↔ (B c ∧
        ¬ (c = b ∧ s.mem.state (Ptr.heap (b - s.mem.left_size (Ptr.heap b))) = UNALLOCATED) ∧
        ¬ (c = b + s.mem.size (Ptr.heap b) ∧
          s.mem.state (Ptr.heap (b + s.mem.size (Ptr.heap b))) = UNALLOCATED))) := by
  have hH := hc.header_pos
  have hN := hc.lists_pos
  obtain ⟨f, hf, L⟩ := hw.layout
  have hnf : s.mem.state (Ptr.heap b) ≠ FENCEPOST := by rw [hst]; simp
  obtain ⟨n1, n2, n3, n4, n5, n6, n7, n8⟩ := hw.neighbours hc hb hnf
  have hlf : s.mem.state (Ptr.heap (b - s.mem.left_size (Ptr.heap b))) ≠ FENCEPOST := by
    rw [hL]; simp
  have hl8 := L.blk_size _ n3 hlf
  have hb8 := L.blk_size _ hb hnf
  have hw2 := hw.merge_left hc hb hst hL hR
  have hcomp := free_case2 cfg s b (by rw [hst]; simp) n1 (by omega) (by omega) hL hR
  have hlne : b - s.mem.left_size (Ptr.heap b) ≠ b := by omega
  have hframe : ∀ c, B c → c ≠ b → s.mem.state (Ptr.heap c) = ALLOCATED →
      (B c ∧ c ≠ b) ∧ upd s.mem.state (Ptr.heap b) UNALLOCATED (Ptr.heap c) = ALLOCATED ∧
      upd s.mem.size (Ptr.heap (b - s.mem.left_size (Ptr.heap b)))
          (s.mem.size (Ptr.heap b) + s.mem.left_size (Ptr.heap b)) (Ptr.heap c)
        = s.mem.size (Ptr.heap c) := by
    intro c hc2 hcb hcs
    refine ⟨⟨hc2, hcb⟩, ?_, ?_⟩
    · rw [upd_heap]; simp only [hcb, if_false]; exact hcs
    · rw [upd_heap]
      have : c ≠ b - s.mem.left_size (Ptr.heap b) := fun e => by
        rw [e, hL] at hcs; cases hcs
      simp only [this, if_false]
  by_cases hi : (s.mem.size (Ptr.heap b) + s.mem.left_size (Ptr.heap b)
      - cfg.ALLOC_HEADER_SIZE) / 8 - 1 < cfg.N_LISTS - 1
  · rw [if_pos hi] at hcomp
    have hL2 : ({ s with mem := { s.mem with
        state := upd s.mem.state (Ptr.heap b) UNALLOCATED,
        left_size := upd s.mem.left_size (Ptr.heap (b + s.mem.size (Ptr.heap b)))
          (s.mem.size (Ptr.heap b) + s.mem.left_size (Ptr.heap b)),
        size := upd s.mem.size (Ptr.heap (b - s.mem.left_size (Ptr.heap b)))
          (s.mem.size (Ptr.heap b) + s.mem.left_size (Ptr.heap b)) } } : Heap).mem.state
          (Ptr.heap (b - s.mem.left_size (Ptr.heap b))) = UNALLOCATED := by
      show upd s.mem.state (Ptr.heap b) UNALLOCATED _ = UNALLOCATED
      rw [upd_heap]; simp only [hlne, if_false]; exact hL
    have heq := hw2.free_rebucket_eq (a := b - s.mem.left_size (Ptr.heap b))
      (j := (s.mem.size (Ptr.heap b) + s.mem.left_size (Ptr.heap b)
        - cfg.ALLOC_HEADER_SIZE) / 8 - 1) ⟨n3, hlne⟩ hL2 (by omega)
    have hw3 := hw2.rebucket hc (a := b - s.mem.left_size (Ptr.heap b))
      (j := (s.mem.size (Ptr.heap b) + s.mem.left_size (Ptr.heap b)
        - cfg.ALLOC_HEADER_SIZE) / 8 - 1) ⟨n3, hlne⟩ hL2 (by omega) (by
        intro _
        show _ ≤ upd s.mem.size _ _ _
        rw [upd_same]
        have h1 : 8 ∣ s.mem.size (Ptr.heap b) + s.mem.left_size (Ptr.heap b) := by
          rw [← n4]; exact Nat.dvd_add hb8.2 hl8.2
        exact class_index_cls hc h1 (by omega))
    rw [heq] at hcomp
    exact ⟨_, _, _, hcomp, hw3, fun c h1 h2 h3 => hframe c h1 h2 h3,
      fun c => ⟨fun h => ⟨h.1, fun h2 => h.2 h2.1, fun h2 => hR h2.2⟩,
      fun h => ⟨h.1, fun e => h.2.1 ⟨e, hL⟩⟩⟩⟩
  · rw [if_neg hi] at hcomp
    exact ⟨_, _, _, hcomp, hw2, fun c h1 h2 h3 => hframe c h1 h2 h3,
      fun c => ⟨fun h => ⟨h.1, fun h2 => h.2 h2.1, fun h2 => hR h2.2⟩,
      fun h => ⟨h.1, fun e => h.2.1 ⟨e, hL⟩⟩⟩⟩

theorem free_preserves_3 (hc : cfg.WF) (hw : WellFormed cfg s chunks B lab none) {b : Nat}
    (hb : B b) (hst : s.mem.state (Ptr.heap b) = ALLOCATED)
    (hL : s.mem.state (Ptr.heap (b - s.mem.left_size (Ptr.heap b))) ≠ UNALLOCATED)
    (hR : s.mem.state (Ptr.heap (b + s.mem.size (Ptr.heap b))) = UNALLOCATED) :
    ∃ t B2 lab2, deallocate_object cfg s (Ptr.heap (b + cfg.ALLOC_HEADER_SIZE))
        = FreeResult.returned t ∧
      WellFormed cfg t chunks B2 lab2 none ∧ FreeFrame s t B B2 b ∧
      (∀ c, B2 c ↔ (B c ∧
        ¬ (c = b ∧ s.mem.state (Ptr.heap (b - s.mem.left_size (Ptr.heap b))) = UNALLOCATED) ∧
        ¬ (c = b + s.mem.size (Ptr.heap b) ∧
          s.mem.state (Ptr.heap (b + s.mem.size (Ptr.heap b))) = UNALLOCATED))) := by
  have hH := hc.header_pos
  have hN := hc.lists_pos
  obtain ⟨f, hf, L⟩ := hw.layout
  have hnf : s.mem.state (Ptr.heap b) ≠ FENCEPOST := by rw [hst]; simp
  obtain ⟨n1, n2, n3, n4, n5, n6, n7, n8⟩ := hw.neighbours hc hb hnf
  have hrf : s.mem.state (Ptr.heap (b + s.mem.size (Ptr.heap b))) ≠ FENCEPOST := by
    rw [hR]; simp
  have hr8 := L.blk_size _ n6 hrf
  have hb8 := L.blk_size _ hb hnf
  have hxr : IsNode cfg s.mem B (Ptr.heap (b + s.mem.size (Ptr.heap b))) := isNode_heap n6 hR
  have hbn : ¬ IsNode cfg s.mem B (Ptr.heap b) := by
    rw [isNode_heap_iff, hst]; simp
  obtain ⟨r1, r2, r3, r4, r5⟩ := hw.links _ hxr
  have hpb : s.mem.prev (Ptr.heap (b + s.mem.size (Ptr.heap b))) ≠ Ptr.heap b :=
    fun e => hbn (e ▸ r2)
  have hcomp := free_case3 cfg s b (by rw [hst]; simp) n1 (by omega) (by omega) hL hR
    (isNode_ne_null r2) (isNode_ne_null r1) hpb
  have hrne : b + s.mem.size (Ptr.heap b) ≠ b := by omega
  have hframe : ∀ c, B c → c ≠ b → s.mem.state (Ptr.heap c) = ALLOCATED →
      (B c ∧ c ≠ b + s.mem.size (Ptr.heap b)) ∧
      upd s.mem.state (Ptr.heap b) UNALLOCATED (Ptr.heap c) = ALLOCATED ∧
      upd s.mem.size (Ptr.heap b)
          (s.mem.size (Ptr.heap b) + s.mem.size (Ptr.heap (b + s.mem.size (Ptr.heap b))))
          (Ptr.heap c) = s.mem.size (Ptr.heap c) := by
    intro c hc2 hcb hcs
    have : c ≠ b + s.mem.size (Ptr.heap b) := fun e => by
      rw [e, hR] at hcs; cases hcs
    refine ⟨⟨hc2, this⟩, ?_, ?_⟩
    · rw [upd_heap]; simp only [hcb, if_false]; exact hcs
    · rw [upd_heap]; simp only [hcb, if_false]
  by_cases hi : (s.mem.size (Ptr.heap b) + s.mem.size (Ptr.heap (b + s.mem.size (Ptr.heap b)))
      - cfg.ALLOC_HEADER_SIZE) / 8 - 1 < cfg.N_LISTS - 1
  · rw [if_pos hi] at hcomp
    generalize hj : (s.mem.size (Ptr.heap b) + s.mem.size (Ptr.heap (b + s.mem.size (Ptr.heap b)))
      - cfg.ALLOC_HEADER_SIZE) / 8 - 1 = j at *
    have hS : IsNode cfg s.mem B (Ptr.sentinel j) := isNode_sentinel (by omega)
    have h1 := hw.links.unlink hxr
    have hS2 := h1 (Ptr.sentinel j) ⟨hS, by simp⟩
    have h2 := h1.insert (S := Ptr.sentinel j) (x := Ptr.heap b)
      (g := plab (fun c => if c = b then j else lab c)) ⟨hS, by simp⟩ (fun h => hbn h.1)
      (by
        intro p hp
        rcases hp.1 with ⟨i, hi, e⟩ | ⟨c, e, hc2, hcs⟩
        · rw [e]; rfl
        · rw [e]
          have : c ≠ b := fun e2 => by rw [e2, hst] at hcs; cases hcs
          simp [plab, this])
      (by simp [plab])
    have hw3 := hw.merge_right hc hb hst hL hR h2 (by
        intro c hc2
        have e1 := hw.node_below hc r2 hc2
        have hbb : c ≠ b := by
          have := hw.lt_brk hc hb
          omega
        simp only [upd, e1, if_false, Ptr.heap.injEq, hbb, reduceCtorEq]
        exact hw.fresh c hc2)
      (fun c hcb => by simp only [hcb, if_false])
      (by
        intro _
        simp only [if_true]
        have h1 : 8 ∣ s.mem.size (Ptr.heap b)
            + s.mem.size (Ptr.heap (b + s.mem.size (Ptr.heap b))) :=
          Nat.dvd_add hb8.2 hr8.2
        rw [← hj]
        exact class_index_cls hc h1 (by omega))
    have hu : ∀ (st : Ptr → BlockState) (sz ls : Ptr → Nat),
        free_insert (free_unlink_rev { s.mem with state := st, size := sz, left_size := ls }
          (Ptr.heap (b + s.mem.size (Ptr.heap b)))) (Ptr.sentinel j) (Ptr.heap b) =
        mem_insert (mem_unlink { s.mem with state := st, size := sz, left_size := ls }
          (Ptr.heap (b + s.mem.size (Ptr.heap b)))) (Ptr.sentinel j) (Ptr.heap b) := by
      intro st sz ls
      rw [free_unlink_rev_eq { s.mem with state := st, size := sz, left_size := ls } _
        (isNode_ne_null r1) (isNode_ne_null r2)]
      refine free_insert_eq _ _ _ (sentinel_ne_null j) (heap_ne_null b) ?_ (by simp) ?_ ?_
      · exact isNode_ne_null hS2.1.1
      · exact fun e => hbn (e ▸ hS2.1.1)
      · exact h1.next_self_iff ⟨hS, by simp⟩
    rw [hu] at hcomp
    exact ⟨_, _, _, hcomp, hw3, fun c h1 h2 h3 => hframe c h1 h2 h3,
      fun c => ⟨fun h => ⟨h.1, fun h2 => hL h2.2, fun h2 => h.2 h2.1⟩,
      fun h => ⟨h.1, fun e => h.2.2 ⟨e, hR⟩⟩⟩⟩
  · rw [if_neg hi] at hcomp
    have h2 := hw.links.replace (R := Ptr.heap (b + s.mem.size (Ptr.heap b))) (b := Ptr.heap b)
      (g := plab (fun c => if c = b then lab (b + s.mem.size (Ptr.heap b)) else lab c))
      hxr hbn
      (by
        intro p hp
        rcases hp with ⟨i, hi, e⟩ | ⟨c, e, hc2, hcs⟩
        · rw [e]; rfl
        · rw [e]
          have : c ≠ b := fun e2 => by rw [e2, hst] at hcs; cases hcs
          simp [plab, this])
      (by simp [plab])
    have hw3 := hw.merge_right hc hb hst hL hR h2 (by
        intro c hc2
        have e1 := hw.node_below hc r2 hc2
        have hbb : c ≠ b := by
          have := hw.lt_brk hc hb
          omega
        simp only [upd, e1, if_false, Ptr.heap.injEq, hbb, reduceCtorEq]
        exact hw.fresh c hc2)
      (fun c hcb => by simp only [hcb, if_false])
      (by
        intro hlt
        simp only [if_true] at hlt ⊢
        have := hw.cls _ n6 hR hlt
        omega)
    exact ⟨_, _, _, hcomp, hw3, fun c h1 h2 h3 => hframe c h1 h2 h3,
      fun c => ⟨fun h => ⟨h.1, fun h2 => hL h2.2, fun h2 => h.2 h2.1⟩,
      fun h => ⟨h.1, fun e => h.2.2 ⟨e, hR⟩⟩⟩⟩

theorem free_preserves_4 (hc : cfg.WF) (hw : WellFormed cfg s chunks B lab none) {b : Nat}
    (hb : B b) (hst : s.mem.state (Ptr.heap b) = ALLOCATED)
    (hL : s.mem.state (Ptr.heap (b - s.mem.left_size (Ptr.heap b))) = UNALLOCATED)
    (hR : s.mem.state (Ptr.heap (b + s.mem.size (Ptr.heap b))) = UNALLOCATED) :
    ∃ t B2 lab2, deallocate_object cfg s (Ptr.heap (b + cfg.ALLOC_HEADER_SIZE))
        = FreeResult.returned t ∧
      WellFormed cfg t chunks B2 lab2 none ∧ FreeFrame s t B B2 b ∧
      (∀ c, B2 c ↔ (B c ∧
        ¬ (c = b ∧ s.mem.state (Ptr.heap (b - s.mem.left_size (Ptr.heap b))) = UNALLOCATED) ∧
        ¬ (c = b + s.mem.size (Ptr.heap b) ∧
          s.mem.state (Ptr.heap (b + s.mem.size (Ptr.heap b))) = UNALLOCATED))) := by
  have hH := hc.header_pos
  have hN := hc.lists_pos
  obtain ⟨f, hf, L⟩ := hw.layout
  have hnf : s.mem.state (Ptr.heap b) ≠ FENCEPOST := by rw [hst]; simp
  obtain ⟨n1, n2, n3, n4, n5, n6, n7, n8⟩ := hw.neighbours hc hb hnf
  have hrf : s.mem.state (Ptr.heap (b + s.mem.size (Ptr.heap b))) ≠ FENCEPOST := by
    rw [hR]; simp
  have hlf : s.mem.state (Ptr.heap (b - s.mem.left_size (Ptr.heap b))) ≠ FENCEPOST := by
    rw [hL]; simp
  have hr8 := L.blk_size _ n6 hrf
  have hb8 := L.blk_size _ hb hnf
  have hl8 := L.blk_size _ n3 hlf
  have hxr : IsNode cfg s.mem B (Ptr.heap (b + s.mem.size (Ptr.heap b))) := isNode_heap n6 hR
  obtain ⟨r1, r2, r3, r4, r5⟩ := hw.links _ hxr
  have hcomp := free_case4 cfg s b (by rw [hst]; simp) n1 (by omega) (by omega) (by omega) hL hR
  have hw2 := hw.merge_both hc hb hst hL hR
  have hlne : b - s.mem.left_size (Ptr.heap b) ≠ b := by omega
  have hlr : b - s.mem.left_size (Ptr.heap b) ≠ b + s.mem.size (Ptr.heap b) := by omega
  have hframe : ∀ c, B c → c ≠ b → s.mem.state (Ptr.heap c) = ALLOCATED →
      (B c ∧ c ≠ b ∧ c ≠ b + s.mem.size (Ptr.heap b)) ∧
      upd s.mem.state (Ptr.heap b) UNALLOCATED (Ptr.heap c) = ALLOCATED ∧
      upd s.mem.size (Ptr.heap (b - s.mem.left_size (Ptr.heap b)))
          (s.mem.size (Ptr.heap (b - s.mem.left_size (Ptr.heap b))) + s.mem.size (Ptr.heap b)
            + s.mem.size (Ptr.heap (b + s.mem.size (Ptr.heap b))))
          (Ptr.heap c) = s.mem.size (Ptr.heap c) := by
    intro c hc2 hcb hcs
    have h1 : c ≠ b + s.mem.size (Ptr.heap b) := fun e => by
      rw [e, hR] at hcs; cases hcs
    have h2 : c ≠ b - s.mem.left_size (Ptr.heap b) := fun e => by
      rw [e, hL] at hcs; cases hcs
    refine ⟨⟨hc2, hcb, h1⟩, ?_, ?_⟩
    · rw [upd_heap]; simp only [hcb, if_false]; exact hcs
    · rw [upd_heap]; simp only [h2, if_false]
  have hun : free_unlink { s.mem with
              state := upd s.mem.state (Ptr.heap b) UNALLOCATED,
              size := upd s.mem.size (Ptr.heap (b - s.mem.left_size (Ptr.heap b)))
                (s.mem.size (Ptr.heap (b - s.mem.left_size (Ptr.heap b)))
                  + s.mem.size (Ptr.heap b)
                  + s.mem.size (Ptr.heap (b + s.mem.size (Ptr.heap b)))),
              left_size := upd s.mem.left_size (Ptr.heap (b + s.mem.size (Ptr.heap b)
                  + s.mem.size (Ptr.heap (b + s.mem.size (Ptr.heap b)))))
                (s.mem.size (Ptr.heap (b - s.mem.left_size (Ptr.heap b)))
                  + s.mem.size (Ptr.heap b)
                  + s.mem.size (Ptr.heap (b + s.mem.size (Ptr.heap b)))) }
            (Ptr.heap (b + s.mem.size (Ptr.heap b))) =
        { mem_unlink s.mem (Ptr.heap (b + s.mem.size (Ptr.heap b))) with
          state := upd s.mem.state (Ptr.heap b) UNALLOCATED,
          size := upd s.mem.size (Ptr.heap (b - s.mem.left_size (Ptr.heap b)))
            (s.mem.size (Ptr.heap (b - s.mem.left_size (Ptr.heap b))) + s.mem.size (Ptr.heap b)
              + s.mem.size (Ptr.heap (b + s.mem.size (Ptr.heap b)))),
          left_size := upd s.mem.left_size (Ptr.heap (b + s.mem.size (Ptr.heap b)
              + s.mem.size (Ptr.heap (b + s.mem.size (Ptr.heap b)))))
            (s.mem.size (Ptr.heap (b - s.mem.left_size (Ptr.heap b))) + s.mem.size (Ptr.heap b)
              + s.mem.size (Ptr.heap (b + s.mem.size (Ptr.heap b)))) } := by
    refine (free_unlink_eq _ _ ?_ ?_).trans rfl
    · exact isNode_ne_null r1
    · exact isNode_ne_null r2
  rw [hun] at hcomp
  by_cases hi : (s.mem.size (Ptr.heap (b - s.mem.left_size (Ptr.heap b)))
      + s.mem.size (Ptr.heap b) + s.mem.size (Ptr.heap (b + s.mem.size (Ptr.heap b)))
      - cfg.ALLOC_HEADER_SIZE) / 8 - 1 < cfg.N_LISTS - 1
  · rw [if_pos hi] at hcomp
    have hL2 : ({ s with mem := { mem_unlink s.mem (Ptr.heap (b + s.mem.size (Ptr.heap b))) with
          state := upd s.mem.state (Ptr.heap b) UNALLOCATED,
          size := upd s.mem.size (Ptr.heap (b - s.mem.left_size (Ptr.heap b)))
            (s.mem.size (Ptr.heap (b - s.mem.left_size (Ptr.heap b))) + s.mem.size (Ptr.heap b)
              + s.mem.size (Ptr.heap (b + s.mem.size (Ptr.heap b)))),
          left_size := upd s.mem.left_size (Ptr.heap (b + s.mem.size (Ptr.heap b)
              + s.mem.size (Ptr.heap (b + s.mem.size (Ptr.heap b)))))
            (s.mem.size (Ptr.heap (b - s.mem.left_size (Ptr.heap b))) + s.mem.size (Ptr.heap b)
              + s.mem.size (Ptr.heap (b + s.mem.size (Ptr.heap b)))) } } : Heap).mem.state
          (Ptr.heap (b - s.mem.left_size (Ptr.heap b))) = UNALLOCATED := by
      show upd s.mem.state (Ptr.heap b) UNALLOCATED _ = UNALLOCATED
      rw [upd_heap]; simp only [hlne, if_false]; exact hL
    have heq := hw2.free_rebucket_eq (a := b - s.mem.left_size (Ptr.heap b))
      (j := (s.mem.size (Ptr.heap (b - s.mem.left_size (Ptr.heap b)))
        + s.mem.size (Ptr.heap b) + s.mem.size (Ptr.heap (b + s.mem.size (Ptr.heap b)))
        - cfg.ALLOC_HEADER_SIZE) / 8 - 1) ⟨n3, hlne, hlr⟩ hL2 (by omega)
    have hw3 := hw2.rebucket hc (a := b - s.mem.left_size (Ptr.heap b))
      (j := (s.mem.size (Ptr.heap (b - s.mem.left_size (Ptr.heap b)))
        + s.mem.size (Ptr.heap b) + s.mem.size (Ptr.heap (b + s.mem.size (Ptr.heap b)))
        - cfg.ALLOC_HEADER_SIZE) / 8 - 1) ⟨n3, hlne, hlr⟩ hL2 (by omega) (by
        intro _
        show _ ≤ upd s.mem.size _ _ _
        rw [upd_same]
        have h1 : 8 ∣ s.mem.size (Ptr.heap (b - s.mem.left_size (Ptr.heap b)))
            + s.mem.size (Ptr.heap b) + s.mem.size (Ptr.heap (b + s.mem.size (Ptr.heap b))) :=
          Nat.dvd_add (Nat.dvd_add hl8.2 hb8.2) hr8.2
        exact class_index_cls hc h1 (by omega))
    rw [heq] at hcomp
    exact ⟨_, _, _, hcomp, hw3, fun c h1 h2 h3 => hframe c h1 h2 h3,
      fun c => ⟨fun h => ⟨h.1, fun h2 => h.2.1 h2.1, fun h2 => h.2.2 h2.1⟩,
      fun h => ⟨h.1, fun e => h.2.1 ⟨e, hL⟩, fun e => h.2.2 ⟨e, hR⟩⟩⟩⟩
  · rw [if_neg hi] at hcomp
    exact ⟨_, _, _, hcomp, hw2, fun c h1 h2 h3 => hframe c h1 h2 h3,
      fun c => ⟨fun h => ⟨h.1, fun h2 => h.2.1 h2.1, fun h2 => h.2.2 h2.1⟩,
      fun h => ⟨h.1, fun e => h.2.1 ⟨e, hL⟩, fun e => h.2.2 ⟨e, hR⟩⟩⟩⟩

/-- Freeing an `ALLOCATED` block of a well-formed heap returns and gives a
well-formed heap again; the other `ALLOCATED` blocks keep their size. -/
theorem free_preserves (hc : cfg.WF) (hw : WellFormed cfg s chunks B lab none) {b : Nat}
    (hb : B b) (hst : s.mem.state (Ptr.heap b) = ALLOCATED) :
    ∃ t B2 lab2, deallocate_object cfg s (Ptr.heap (b + cfg.ALLOC_HEADER_SIZE))
        = FreeResult.returned t ∧
      WellFormed cfg t chunks B2 lab2 none ∧ FreeFrame s t B B2 b ∧
      (∀ c, B2 c ↔ (B c ∧
        ¬ (c = b ∧ s.mem.state (Ptr.heap (b - s.mem.left_size (Ptr.heap b))) = UNALLOCATED) ∧
        ¬ (c = b + s.mem.size (Ptr.heap b) ∧
          s.mem.state (Ptr.heap (b + s.mem.size (Ptr.heap b))) = UNALLOCATED))) := by
  by_cases hL : s.mem.state (Ptr.heap (b - s.mem.left_size (Ptr.heap b))) = UNALLOCATED
  · by_cases hR : s.mem.state (Ptr.heap (b + s.mem.size (Ptr.heap b))) = UNALLOCATED
    · exact free_preserves_4 hc hw hb hst hL hR
    · exact free_preserves_2 hc hw hb hst hL hR
  · by_cases hR : s.mem.state (Ptr.heap (b + s.mem.size (Ptr.heap b))) = UNALLOCATED
    · exact free_preserves_3 hc hw hb hst hL hR
    · exact free_preserves_1 hc hw hb hst hL hR

end free

section steps
variable {cfg : Config} {s : Heap} {chunks : List Nat} {B : Nat → Prop} {lab : Nat → Nat}
  {hole : Option Nat}

/-- The right `req` bytes of the free block `F` become an `ALLOCATED` block
(`LARGER_SIZE_ALLOCATOR`, the stores to the size, state and left-size fields). -/
theorem WellFormed.split (hw : WellFormed cfg s chunks B lab hole) (hc : cfg.WF)
    {F d req : Nat} (hF : B F) (hs : s.mem.state (Ptr.heap F) = UNALLOCATED)
    (hsum : d + req = s.mem.size (Ptr.heap F))
    (hd : 2 * cfg.ALLOC_HEADER_SIZE ≤ d) (hr : 2 * cfg.ALLOC_HEADER_SIZE ≤ req)
    (hd8 : 8 ∣ d) (hr8 : 8 ∣ req)
    (hcls : lab F < cfg.N_LISTS - 1 → cfg.ALLOC_HEADER_SIZE + 8 * (lab F + 1) ≤ d) :
    WellFormed cfg { s with mem := { s.mem with
        state := upd s.mem.state (Ptr.heap (F + d)) ALLOCATED,
        size := upd (upd s.mem.size (Ptr.heap (F + d)) req) (Ptr.heap F) d,
        left_size := upd (upd s.mem.left_size (Ptr.heap (F + d)) d)
          (Ptr.heap (F + d + req)) req } }
      chunks (fun a => B a ∨ a = F + d) lab (if hole = some F then none else hole) := by
  have hH := hc.header_pos
  obtain ⟨f, hf, L⟩ := hw.layout
  have hnf : s.mem.state (Ptr.heap F) ≠ FENCEPOST := by rw [hs]; simp
  have hS := L.split_block hc hF hnf hsum hd hr hd8 hr8
  have hnew : ¬ B (F + d) := fun h => by
    have := L.overlap_eq hc hF h (by omega) (by
      show F + d < F + s.mem.size (Ptr.heap F)
      omega)
    omega
  have hFd : F ≠ F + d := by omega
  refine ⟨hw.not_crashed, hw.fresh, ⟨f, hf, ?_⟩, ?_, ?_, ?_⟩
  · refine hS.congr_fields (fun _ => Iff.rfl) ?_ ?_ ?_
    · intro c _
      show upd (upd s.mem.size _ _) _ _ (Ptr.heap c) = if c = F then d else if c = F + d then req
        else s.mem.size (Ptr.heap c)
      rw [upd_heap, upd_heap]
    · intro c _
      show upd (upd s.mem.left_size _ _) _ _ (Ptr.heap c) = if c = F + d then d
        else if c = F + s.mem.size (Ptr.heap F) then req else s.mem.left_size (Ptr.heap c)
      rw [upd_heap, upd_heap, ← hsum, ← Nat.add_assoc]
      by_cases e : c = F + d
      · have : c ≠ F + d + req := by omega
        simp only [e, this, if_true, if_false]
        have : F + d ≠ F + d + req := by omega
        simp only [this, if_false]
      · simp only [e, if_false]
    · intro c _
      show upd s.mem.state _ _ (Ptr.heap c) = FENCEPOST ↔ (c ≠ F + d ∧ _)
      rw [upd_heap]
      split
      · rename_i e; simp [e]
      · rename_i e; simp [e]
  · intro c hc2 hcs
    have hcs : upd s.mem.state (Ptr.heap (F + d)) ALLOCATED (Ptr.heap c) = UNALLOCATED := hcs
    rw [upd_heap] at hcs
    show upd s.mem.state (Ptr.heap (F + d)) ALLOCATED (Ptr.heap (c +
      upd (upd s.mem.size (Ptr.heap (F + d)) req) (Ptr.heap F) d (Ptr.heap c))) ≠ UNALLOCATED
    rw [upd_heap, upd_heap, upd_heap]
    by_cases e : c = F + d
    · simp [e] at hcs
    · simp only [e, if_false] at hcs ⊢
      have hc3 : B c := hc2.resolve_right e
      by_cases e2 : c = F
      · simp [e2]
      · simp only [e2, if_false]
        have hcf : s.mem.state (Ptr.heap c) ≠ FENCEPOST := by rw [hcs]; simp
        have e3 : c + s.mem.size (Ptr.heap c) ≠ F + d := fun e3 =>
          hnew (e3 ▸ (L.right c hc3 hcf).1)
        simp only [e3, if_false]
        exact hw.coal c hc3 hcs
  · refine hw.links.congr ?_ (fun _ _ => rfl)
    intro p
    constructor
    · intro hp
      rcases hp with ⟨i, hi, e⟩ | ⟨c, e, hc2, hcs⟩
      · exact Or.inl ⟨i, hi, e⟩
      · have hcs : upd s.mem.state (Ptr.heap (F + d)) ALLOCATED (Ptr.heap c) = UNALLOCATED := hcs
        rw [upd_heap] at hcs
        by_cases e2 : c = F + d
        · simp [e2] at hcs
        · simp only [e2, if_false] at hcs
          exact Or.inr ⟨c, e, hc2.resolve_right e2, hcs⟩
    · intro hp
      rcases hp with ⟨i, hi, e⟩ | ⟨c, e, hc2, hcs⟩
      · exact Or.inl ⟨i, hi, e⟩
      · have e2 : c ≠ F + d := fun e2 => hnew (e2 ▸ hc2)
        refine Or.inr ⟨c, e, Or.inl hc2, ?_⟩
        show upd s.mem.state (Ptr.heap (F + d)) ALLOCATED (Ptr.heap c) = UNALLOCATED
        rw [upd_heap]
        simp only [e2, if_false]
        exact hcs
  · intro c hc2 hcs hlt
    have hcs : upd s.mem.state (Ptr.heap (F + d)) ALLOCATED (Ptr.heap c) = UNALLOCATED := hcs
    rw [upd_heap] at hcs
    show _ ≤ upd (upd s.mem.size (Ptr.heap (F + d)) req) (Ptr.heap F) d (Ptr.heap c)
    rw [upd_heap, upd_heap]
    by_cases e : c = F + d
    · simp [e] at hcs
    · simp only [e, if_false] at hcs ⊢
      by_cases e2 : c = F
      · subst e2
        simp only [if_true]
        exact hcls hlt
      · simp only [e2, if_false]
        exact hw.cls c (hc2.resolve_right e) hcs hlt

end steps

section alloc
variable {cfg : Config} {s : Heap} {chunks : List Nat} {B : Nat → Prop} {lab : Nat → Nat}
  {hole : Option Nat}

theorem same_eq (hw : WellFormed cfg s chunks B lab hole) {F : Nat} (hF : B F)
    (hs : s.mem.state (Ptr.heap F) = UNALLOCATED) :
    SAME_SIZE_ALLOCATOR cfg s.mem (Ptr.heap F) =
      (Ptr.heap (F + cfg.ALLOC_HEADER_SIZE),
        { mem_unlink s.mem (Ptr.heap F) with
          state := upd s.mem.state (Ptr.heap F) ALLOCATED }) := by
  have hx : IsNode cfg s.mem B (Ptr.heap F) := isNode_heap hF hs
  unfold SAME_SIZE_ALLOCATOR
  rw [list_unlink_eq _ _ (hw.next_ne_null hx) (hw.prev_ne_null hx)]
  simp only [set_block_state_ok _ _ _ (heap_ne_null F), offset_heap_nat]
  rfl

theorem same_ok (hc : cfg.WF) (hw : WellFormed cfg s chunks B lab hole) {F req : Nat}
    (hF : B F) (hs : s.mem.state (Ptr.heap F) = UNALLOCATED)
    (hreq : req ≤ s.mem.size (Ptr.heap F)) :
    ∃ a, (SAME_SIZE_ALLOCATOR cfg s.mem (Ptr.heap F)).1 = Ptr.heap (a + cfg.ALLOC_HEADER_SIZE) ∧
      WellFormed cfg { s with mem := (SAME_SIZE_ALLOCATOR cfg s.mem (Ptr.heap F)).2 }
        chunks B lab hole ∧ B a ∧
      (SAME_SIZE_ALLOCATOR cfg s.mem (Ptr.heap F)).2.state (Ptr.heap a) = ALLOCATED ∧
      req ≤ (SAME_SIZE_ALLOCATOR cfg s.mem (Ptr.heap F)).2.size (Ptr.heap a) ∧
      AllocFrame s (SAME_SIZE_ALLOCATOR cfg s.mem (Ptr.heap F)).2 B B a := by
  rw [same_eq hw hF hs]
  refine ⟨F, rfl, hw.take hc hF hs, hF, ?_, hreq, ?_, ?_⟩
  · show upd s.mem.state (Ptr.heap F) ALLOCATED (Ptr.heap F) = ALLOCATED
    rw [upd_same]
  · intro c hc2 hcs
    refine ⟨hc2, ?_, rfl⟩
    show upd s.mem.state (Ptr.heap F) ALLOCATED (Ptr.heap c) = ALLOCATED
    rw [upd_heap]; split
    · rfl
    · exact hcs
  · intro h
    rw [hs] at h
    cases h.2

theorem WellFormed.larger_rebucket_eq2 (hw : WellFormed cfg s chunks B lab hole) {a j : Nat}
    (ha : B a) (hs : s.mem.state (Ptr.heap a) = UNALLOCATED) (hj : j < cfg.N_LISTS)
    (st : Ptr → BlockState) (sz ls : Ptr → Nat) :
    larger_insert (list_unlink { s.mem with state := st, size := sz, left_size := ls }
        (Ptr.heap a)) (Ptr.sentinel j) (Ptr.heap a) =
      mem_insert (mem_unlink { s.mem with state := st, size := sz, left_size := ls }
        (Ptr.heap a)) (Ptr.sentinel j) (Ptr.heap a) := by
  obtain ⟨h1, h2, h3, h4, h5⟩ := hw.unlinked_facts ha hs hj
  rw [list_unlink_eq { s.mem with state := st, size := sz, left_size := ls } _ h1 h2]
  exact larger_insert_eq _ _ _ (sentinel_ne_null j) (heap_ne_null a) h3 (by simp) h4 h5

/-- The split branch of `LARGER_SIZE_ALLOCATOR` when the remainder changes
list. -/
theorem larger_eq_move (hw : WellFormed cfg s chunks B lab hole) {F req : Nat} (hF : B F)
    (hs : s.mem.state (Ptr.heap F) = UNALLOCATED)
    (hd : ¬ s.mem.size (Ptr.heap F) - req < 2 * cfg.ALLOC_HEADER_SIZE)
    (hreq : 0 < req) (hH : 0 < cfg.ALLOC_HEADER_SIZE)
    (hj : (s.mem.size (Ptr.heap F) - req - cfg.ALLOC_HEADER_SIZE) / 8 - 1 < cfg.N_LISTS - 1) :
    LARGER_SIZE_ALLOCATOR cfg s.mem (Ptr.heap F) req =
      (Ptr.heap (F + (s.mem.size (Ptr.heap F) - req) + cfg.ALLOC_HEADER_SIZE),
        { mem_insert (mem_unlink s.mem (Ptr.heap F))
            (Ptr.sentinel ((s.mem.size (Ptr.heap F) - req - cfg.ALLOC_HEADER_SIZE) / 8 - 1))
            (Ptr.heap F) with
          state := upd s.mem.state (Ptr.heap (F + (s.mem.size (Ptr.heap F) - req))) ALLOCATED,
          size := upd (upd s.mem.size (Ptr.heap (F + (s.mem.size (Ptr.heap F) - req))) req)
            (Ptr.heap F) (s.mem.size (Ptr.heap F) - req),
          left_size := upd (upd s.mem.left_size (Ptr.heap (F + (s.mem.size (Ptr.heap F) - req)))
              (s.mem.size (Ptr.heap F) - req))
            (Ptr.heap (F + (s.mem.size (Ptr.heap F) - req) + req)) req }) := by
  have e1 : Ptr.heap (F + (s.mem.size (Ptr.heap F) - req)) ≠ Ptr.heap F := by
    simp only [ne_eq, Ptr.heap.injEq]; omega
  unfold LARGER_SIZE_ALLOCATOR
  simp only [get_block_size, hd, if_false, offset_heap_nat,
    set_block_state_ok _ _ _ (heap_ne_null _), set_block_size_ok _ _ _ (heap_ne_null _),
    set_left_size_ok _ _ _ (heap_ne_null _), upd_same, hj, if_true]
  rw [hw.larger_rebucket_eq2 hF hs (by omega)]
  simp only [mem_insert, mem_unlink, upd_other _ _ _ _ e1, upd_same,
    set_left_size_ok _ _ _ (heap_ne_null _)]

/-- The split branch of `LARGER_SIZE_ALLOCATOR` when the remainder stays in its
list. -/
theorem larger_eq_stay (cfg : Config) (m : Memory) {F req : Nat}
    (hd : ¬ m.size (Ptr.heap F) - req < 2 * cfg.ALLOC_HEADER_SIZE)
    (hreq : 0 < req) (hH : 0 < cfg.ALLOC_HEADER_SIZE)
    (hj : ¬ (m.size (Ptr.heap F) - req - cfg.ALLOC_HEADER_SIZE) / 8 - 1 < cfg.N_LISTS - 1) :
    LARGER_SIZE_ALLOCATOR cfg m (Ptr.heap F) req =
      (Ptr.heap (F + (m.size (Ptr.heap F) - req) + cfg.ALLOC_HEADER_SIZE),
        { m with
          state := upd m.state (Ptr.heap (F + (m.size (Ptr.heap F) - req))) ALLOCATED,
          size := upd (upd m.size (Ptr.heap (F + (m.size (Ptr.heap F) - req))) req)
            (Ptr.heap F) (m.size (Ptr.heap F) - req),
          left_size := upd (upd m.left_size (Ptr.heap (F + (m.size (Ptr.heap F) - req)))
              (m.size (Ptr.heap F) - req))
            (Ptr.heap (F + (m.size (Ptr.heap F) - req) + req)) req }) := by
  have e1 : Ptr.heap (F + (m.size (Ptr.heap F) - req)) ≠ Ptr.heap F := by
    simp only [ne_eq, Ptr.heap.injEq]; omega
  unfold LARGER_SIZE_ALLOCATOR
  simp only [get_block_size, hd, if_false, offset_heap_nat,
    set_block_state_ok _ _ _ (heap_ne_null _), set_block_size_ok _ _ _ (heap_ne_null _),
    set_left_size_ok _ _ _ (heap_ne_null _), upd_same, hj, upd_other _ _ _ _ e1]

theorem WellFormed.inside_not_block (hw : WellFormed cfg s chunks B lab hole) (hc : cfg.WF)
    {F d : Nat} (hF : B F) (hd : 0 < d) (hd2 : d < s.mem.size (Ptr.heap F)) : ¬ B (F + d) := by
  obtain ⟨f, hf, L⟩ := hw.layout
  intro h
  have := L.overlap_eq hc hF h (by omega) (by
    show F + d < F + s.mem.size (Ptr.heap F)
    omega)
  omega

theorem larger_ok (hc : cfg.WF) (hw : WellFormed cfg s chunks B lab hole) {F req : Nat}
    (hF : B F) (hs : s.mem.state (Ptr.heap F) = UNALLOCATED)
    (hreq : req ≤ s.mem.size (Ptr.heap F)) (hr : 2 * cfg.ALLOC_HEADER_SIZE ≤ req)
    (hr8 : 8 ∣ req) :
    ∃ a B2 lab2,
      (LARGER_SIZE_ALLOCATOR cfg s.mem (Ptr.heap F) req).1
        = Ptr.heap (a + cfg.ALLOC_HEADER_SIZE) ∧
      WellFormed cfg { s with mem := (LARGER_SIZE_ALLOCATOR cfg s.mem (Ptr.heap F) req).2 }
        chunks B2 lab2
        (if 2 * cfg.ALLOC_HEADER_SIZE ≤ s.mem.size (Ptr.heap F) - req then
          (if hole = some F then none else hole) else hole) ∧ B2 a ∧
      (LARGER_SIZE_ALLOCATOR cfg s.mem (Ptr.heap F) req).2.state (Ptr.heap a) = ALLOCATED ∧
      req ≤ (LARGER_SIZE_ALLOCATOR cfg s.mem (Ptr.heap F) req).2.size (Ptr.heap a) ∧
      AllocFrame s (LARGER_SIZE_ALLOCATOR cfg s.mem (Ptr.heap F) req).2 B B2 a := by
  have hH := hc.header_pos
  have hN := hc.lists_pos
  obtain ⟨f, hf, L⟩ := hw.layout
  have hnf : s.mem.state (Ptr.heap F) ≠ FENCEPOST := by rw [hs]; simp
  have hF8 := (L.blk_size F hF hnf).2
  have hF8 : 8 ∣ s.mem.size (Ptr.heap F) := hF8
  by_cases hd : s.mem.size (Ptr.heap F) - req < 2 * cfg.ALLOC_HEADER_SIZE
  · have e : LARGER_SIZE_ALLOCATOR cfg s.mem (Ptr.heap F) req
        = SAME_SIZE_ALLOCATOR cfg s.mem (Ptr.heap F) := by
      unfold LARGER_SIZE_ALLOCATOR
      simp only [get_block_size, hd, if_true]
    rw [e, if_neg (by omega)]
    obtain ⟨a, h1, h2, h3, h4, h5, h6⟩ := same_ok hc hw hF hs hreq
    exact ⟨a, B, lab, h1, h2, h3, h4, h5, h6⟩
  · rw [if_pos (by omega)]
    have hd2 : 2 * cfg.ALLOC_HEADER_SIZE ≤ s.mem.size (Ptr.heap F) - req := by omega
    have hd8 : 8 ∣ s.mem.size (Ptr.heap F) - req := (Nat.dvd_sub' hF8 hr8)
    have hnew := hw.inside_not_block hc hF (d := s.mem.size (Ptr.heap F) - req) (by omega)
      (by omega)
    have hframe : AllocFrame s { s.mem with
          state := upd s.mem.state (Ptr.heap (F + (s.mem.size (Ptr.heap F) - req))) ALLOCATED,
          size := upd (upd s.mem.size (Ptr.heap (F + (s.mem.size (Ptr.heap F) - req))) req)
            (Ptr.heap F) (s.mem.size (Ptr.heap F) - req) } B
        (fun a => B a ∨ a = F + (s.mem.size (Ptr.heap F) - req))
        (F + (s.mem.size (Ptr.heap F) - req)) := by
      refine ⟨?_, fun h => hnew h.1⟩
      intro c hc2 hcs
      have e1 : c ≠ F := fun e => by rw [e, hs] at hcs; cases hcs
      have e2 : c ≠ F + (s.mem.size (Ptr.heap F) - req) := fun e => hnew (e ▸ hc2)
      refine ⟨Or.inl hc2, ?_, ?_⟩
      · show upd s.mem.state _ _ _ = _
        rw [upd_heap]; simp only [e2, if_false]; exact hcs
      · show upd (upd s.mem.size _ _) _ _ _ = _
        rw [upd_heap, upd_heap]; simp only [e1, e2, if_false]
    by_cases hj : (s.mem.size (Ptr.heap F) - req - cfg.ALLOC_HEADER_SIZE) / 8 - 1
        < cfg.N_LISTS - 1
    · rw [larger_eq_move hw hF hs hd (by omega) hH hj]
      have hw1 := hw.rebucket hc (a := F)
        (j := (s.mem.size (Ptr.heap F) - req - cfg.ALLOC_HEADER_SIZE) / 8 - 1) hF hs (by omega)
        (by
          intro _
          have := class_index_cls hc hd8 hd2
          omega)
      have hw2 := hw1.split hc (F := F) (d := s.mem.size (Ptr.heap F) - req)
        hF hs (by show _ = s.mem.size (Ptr.heap F); omega) hd2 hr hd8 hr8
        (by
          intro _
          simp only [if_true]
          exact class_index_cls hc hd8 hd2)
      refine ⟨F + (s.mem.size (Ptr.heap F) - req), _, _, rfl, hw2, Or.inr rfl, ?_, ?_, hframe⟩
      · show upd s.mem.state _ _ _ = _
        rw [upd_same]
      · show _ ≤ upd (upd s.mem.size _ _) _ _ _
        rw [upd_heap, upd_heap]
        have : F + (s.mem.size (Ptr.heap F) - req) ≠ F := by omega
        simp only [this, if_false, if_true]; exact le_refl _
    · rw [larger_eq_stay cfg s.mem hd (by omega) hH hj]
      have hw2 := hw.split hc (F := F) (d := s.mem.size (Ptr.heap F) - req)
        hF hs (by omega) hd2 hr hd8 hr8
        (by
          intro h
          omega)
      refine ⟨F + (s.mem.size (Ptr.heap F) - req), _, _, rfl, hw2, Or.inr rfl, ?_, ?_, hframe⟩
      · show upd s.mem.state _ _ _ = _
        rw [upd_same]
      · show _ ≤ upd (upd s.mem.size _ _) _ _ _
        rw [upd_heap, upd_heap]
        have : F + (s.mem.size (Ptr.heap F) - req) ≠ F := by omega
        simp only [this, if_false, if_true]; exact le_refl _

end alloc

section search
variable {cfg : Config} {s : Heap} {chunks : List Nat} {B : Nat → Prop} {lab : Nat → Nat}
  {hole : Option Nat}

theorem larger_eq_same (cfg : Config) (m : Memory) (p : Ptr) (req : Nat)
    (hH : 0 < cfg.ALLOC_HEADER_SIZE) (h : get_block_size m p = req) :
    LARGER_SIZE_ALLOCATOR cfg m p req = SAME_SIZE_ALLOCATOR cfg m p := by
  unfold LARGER_SIZE_ALLOCATOR
  have : get_block_size m p - req < 2 * cfg.ALLOC_HEADER_SIZE := by omega
  simp only [this, if_true]

/-- A result of the loop over the exact lists is the allocation from a free
block that is large enough. -/
theorem exact_loop_found (hc : cfg.WF) (hw : WellFormed cfg s chunks B lab hole) (req : Nat)
    (cnt i : Nat) (r : Ptr × Memory)
    (h : exact_lists_loop cfg s.mem req cnt i = some r) :
    ∃ F, B F ∧ s.mem.state (Ptr.heap F) = UNALLOCATED ∧ req ≤ s.mem.size (Ptr.heap F) ∧
      r = LARGER_SIZE_ALLOCATOR cfg s.mem (Ptr.heap F) req := by
  induction cnt generalizing i with
  | zero => simp [exact_lists_loop] at h
  | succ cnt ih =>
    unfold exact_lists_loop at h
    by_cases hi : i < cfg.N_LISTS - 1
    · simp only [hi, if_true] at h
      by_cases hne : s.mem.next (Ptr.sentinel i) ≠ Ptr.sentinel i ∧
          s.mem.prev (Ptr.sentinel i) ≠ Ptr.sentinel i
      · rw [if_pos hne] at h
        obtain ⟨a, ha, hB, hs, -⟩ := hw.first_node (i := i) (by omega) hne.1
        rw [ha] at h
        simp only [reduceCtorEq, if_false] at h
        by_cases e1 : get_block_size s.mem (Ptr.heap a) = req
        · simp only [e1, if_true] at h
          refine ⟨a, hB, hs, by rw [← e1]; rfl, ?_⟩
          rw [larger_eq_same cfg _ _ _ hc.header_pos e1]
          exact (Option.some.inj h).symm
        · simp only [e1, if_false] at h
          by_cases e2 : get_block_size s.mem (Ptr.heap a) > req
          · simp only [e2, if_true] at h
            exact ⟨a, hB, hs, by have : s.mem.size (Ptr.heap a) > req := e2; omega,
              (Option.some.inj h).symm⟩
          · simp only [e2, if_false] at h
            exact ih _ h
      · rw [if_neg hne] at h
        exact ih _ h
    · simp only [hi, if_false] at h
      cases h

/-- A result of the scan of the last list is the allocation from a free block
that is large enough. -/
theorem last_loop_found (hc : cfg.WF) (hw : WellFormed cfg s chunks B lab hole) (req : Nat)
    (fuel : Nat) (p : Ptr) (r : Ptr × Memory)
    (hp : IsNode cfg s.mem B p) (hl : plab lab p = cfg.N_LISTS - 1)
    (h : last_list_loop cfg s.mem req (Ptr.sentinel (cfg.N_LISTS - 1)) fuel p = some (some r)) :
    ∃ F, B F ∧ s.mem.state (Ptr.heap F) = UNALLOCATED ∧ req ≤ s.mem.size (Ptr.heap F) ∧
      r = LARGER_SIZE_ALLOCATOR cfg s.mem (Ptr.heap F) req := by
  induction fuel generalizing p with
  | zero => simp [last_list_loop] at h
  | succ fuel ih =>
    unfold last_list_loop at h
    by_cases hne : p ≠ Ptr.sentinel (cfg.N_LISTS - 1)
    · rw [if_pos hne] at h
      rcases hw.node_cases hp with e | ⟨a, ha, hB, hs⟩
      · rw [hl] at e; exact absurd e hne
      · subst ha
        simp only [reduceCtorEq, if_false] at h
        by_cases e1 : get_block_size s.mem (Ptr.heap a) = req
        · simp only [e1, if_true] at h
          refine ⟨a, hB, hs, by rw [← e1]; rfl, ?_⟩
          rw [larger_eq_same cfg _ _ _ hc.header_pos e1]
          exact (Option.some.inj (Option.some.inj h)).symm
        · simp only [e1, if_false] at h
          by_cases e2 : get_block_size s.mem (Ptr.heap a) > req
          · simp only [e2, if_true] at h
            exact ⟨a, hB, hs, by have : s.mem.size (Ptr.heap a) > req := e2; omega,
              (Option.some.inj (Option.some.inj h)).symm⟩
          · simp only [e2, if_false] at h
            obtain ⟨h1, -, -, -, h5⟩ := hw.links _ hp
            exact ih _ h1 (by rw [h5, hl]) h
    · rw [if_neg hne] at h
      cases h

end search

/-! ## Fresh arenas -/

theorem ChunkFrame.refl (m : Memory) (b0 : Nat) : ChunkFrame m m b0 :=
  ⟨rfl, rfl, rfl, fun _ _ => rfl, fun _ _ => rfl, fun _ _ => rfl⟩

theorem ChunkFrame.trans {m m2 m3 : Memory} {b0 b1 : Nat} (h1 : ChunkFrame m m2 b0)
    (h2 : ChunkFrame m2 m3 b1) (hb : b0 ≤ b1) : ChunkFrame m m3 b0 :=
  ⟨h2.next_eq.trans h1.next_eq, h2.prev_eq.trans h1.prev_eq,
    h2.crashed_eq.trans h1.crashed_eq,
    fun c hc => (h2.size_eq c (by omega)).trans (h1.size_eq c hc),
    fun c hc => (h2.state_eq c (by omega)).trans (h1.state_eq c hc),
    fun c hc => (h2.left_eq c (by omega)).trans (h1.left_eq c hc)⟩

/-- The effect of one call of `allocate_chunk` with the arena size. -/
theorem allocate_chunk_spec (cfg : Config) (hc : cfg.WF) (s : Heap) :
    (allocate_chunk cfg s cfg.ARENA_SIZE).1 = Ptr.heap (s.brk + cfg.ALLOC_HEADER_SIZE) ∧
    (allocate_chunk cfg s cfg.ARENA_SIZE).2.brk = s.brk + cfg.ARENA_SIZE ∧
    (allocate_chunk cfg s cfg.ARENA_SIZE).2.lastFencePost = s.lastFencePost ∧
    (allocate_chunk cfg s cfg.ARENA_SIZE).2.osChunkList = s.osChunkList ∧
    (allocate_chunk cfg s cfg.ARENA_SIZE).2.base = s.base ∧
    ChunkFrame s.mem (allocate_chunk cfg s cfg.ARENA_SIZE).2.mem s.brk ∧
    (allocate_chunk cfg s cfg.ARENA_SIZE).2.mem.state
      (Ptr.heap (s.brk + cfg.ARENA_SIZE - cfg.ALLOC_HEADER_SIZE)) = FENCEPOST ∧
    (allocate_chunk cfg s cfg.ARENA_SIZE).2.mem.size
      (Ptr.heap (s.brk + cfg.ARENA_SIZE - cfg.ALLOC_HEADER_SIZE)) = cfg.ALLOC_HEADER_SIZE ∧
    (allocate_chunk cfg s cfg.ARENA_SIZE).2.mem.left_size
      (Ptr.heap (s.brk + cfg.ARENA_SIZE - cfg.ALLOC_HEADER_SIZE))
        = cfg.ARENA_SIZE - 2 * cfg.ALLOC_HEADER_SIZE ∧
    (allocate_chunk cfg s cfg.ARENA_SIZE).2.mem.state
      (Ptr.heap (s.brk + cfg.ALLOC_HEADER_SIZE)) = UNALLOCATED ∧
    (allocate_chunk cfg s cfg.ARENA_SIZE).2.mem.size
      (Ptr.heap (s.brk + cfg.ALLOC_HEADER_SIZE)) = cfg.ARENA_SIZE - 2 * cfg.ALLOC_HEADER_SIZE := by
  have hH := hc.header_pos
  have hA := hc.arena_large
  have e1 : s.brk + (cfg.ARENA_SIZE - cfg.ALLOC_HEADER_SIZE)
      = s.brk + cfg.ARENA_SIZE - cfg.ALLOC_HEADER_SIZE := by omega
  have e2 : s.brk + cfg.ARENA_SIZE - cfg.ALLOC_HEADER_SIZE ≠ s.brk + cfg.ALLOC_HEADER_SIZE := by
    omega
  have e3 : s.brk + cfg.ALLOC_HEADER_SIZE ≠ s.brk + cfg.ARENA_SIZE - cfg.ALLOC_HEADER_SIZE := by
    omega
  have e4 : s.brk + cfg.ARENA_SIZE - cfg.ALLOC_HEADER_SIZE ≠ s.brk := by omega
  simp only [allocate_chunk, sbrk, insert_fenceposts, initialize_fencepost, offset_heap_nat,
    set_block_state_ok _ _ _ (heap_ne_null _), set_block_size_ok _ _ _ (heap_ne_null _),
    set_left_size_ok _ _ _ (heap_ne_null _), e1]
  refine ⟨trivial, trivial, trivial, trivial, trivial, ⟨rfl, rfl, rfl, ?_, ?_, ?_⟩, ?_, ?_, ?_, ?_, ?_⟩
  · intro c hc2
    have h1 : c ≠ s.brk := by omega
    have h2 : c ≠ s.brk + cfg.ALLOC_HEADER_SIZE := by omega
    have h3 : c ≠ s.brk + cfg.ARENA_SIZE - cfg.ALLOC_HEADER_SIZE := by omega
    simp only [upd_heap, h1, h2, h3, if_false]
  · intro c hc2
    have h1 : c ≠ s.brk := by omega
    have h2 : c ≠ s.brk + cfg.ALLOC_HEADER_SIZE := by omega
    have h3 : c ≠ s.brk + cfg.ARENA_SIZE - cfg.ALLOC_HEADER_SIZE := by omega
    simp only [upd_heap, h1, h2, h3, if_false]
  · intro c hc2
    have h1 : c ≠ s.brk := by omega
    have h2 : c ≠ s.brk + cfg.ALLOC_HEADER_SIZE := by omega
    have h3 : c ≠ s.brk + cfg.ARENA_SIZE - cfg.ALLOC_HEADER_SIZE := by omega
    simp only [upd_heap, h1, h2, h3, if_false]
  · simp only [upd_heap, e2, if_false, if_true]
  · simp only [upd_heap, e2, if_false, if_true]
  · simp only [upd_heap, e2, if_false, if_true]
  · simp only [upd_heap, if_true]
  · simp only [upd_heap, if_true]

theorem allocate_chunk_last (cfg : Config) (hc : cfg.WF) (s : Heap) :
    LastArena cfg (allocate_chunk cfg s cfg.ARENA_SIZE).2.mem (s.brk + cfg.ARENA_SIZE) := by
  obtain ⟨-, -, -, -, -, -, h1, h2, h3, h4, h5⟩ := allocate_chunk_spec cfg hc s
  have hA := hc.arena_large
  have e : s.brk + cfg.ARENA_SIZE - cfg.ARENA_SIZE + cfg.ALLOC_HEADER_SIZE
      = s.brk + cfg.ALLOC_HEADER_SIZE := by omega
  refine ⟨h1, h2, h3, ?_, ?_⟩
  · rw [e]; exact h4
  · rw [e]; exact h5

/-- The effect of the loop that acquires the remaining arenas. -/
theorem remaining_chunks_spec (cfg : Config) (hc : cfg.WF) (n : Nat) (s : Heap) (a : Nat) :
    (remaining_chunks_loop cfg n s (Ptr.heap a)).2 = Ptr.heap (a + n * cfg.ARENA_SIZE) ∧
    (remaining_chunks_loop cfg n s (Ptr.heap a)).1.brk = s.brk + n * cfg.ARENA_SIZE ∧
    (remaining_chunks_loop cfg n s (Ptr.heap a)).1.lastFencePost = s.lastFencePost ∧
    (remaining_chunks_loop cfg n s (Ptr.heap a)).1.osChunkList = s.osChunkList ∧
    (remaining_chunks_loop cfg n s (Ptr.heap a)).1.base = s.base ∧
    ChunkFrame s.mem (remaining_chunks_loop cfg n s (Ptr.heap a)).1.mem s.brk ∧
    (LastArena cfg s.mem s.brk →
      LastArena cfg (remaining_chunks_loop cfg n s (Ptr.heap a)).1.mem
        (s.brk + n * cfg.ARENA_SIZE)) := by
  induction n generalizing s a with
  | zero =>
    simp only [remaining_chunks_loop, Nat.zero_mul, Nat.add_zero]
    exact ⟨trivial, trivial, trivial, trivial, trivial, ChunkFrame.refl _ _, fun h => h⟩
  | succ n ih =>
    obtain ⟨c1, c2, c3, c4, c5, c6, -⟩ := allocate_chunk_spec cfg hc s
    have c7 := allocate_chunk_last cfg hc s
    obtain ⟨h1, h2, h3, h4, h5, h6, h7⟩ := ih (allocate_chunk cfg s cfg.ARENA_SIZE).2
      (a + cfg.ARENA_SIZE)
    simp only [remaining_chunks_loop, offset_heap_nat]
    rw [c2] at h2 h6 h7
    refine ⟨?_, ?_, ?_, ?_, ?_, ?_, ?_⟩
    · rw [h1]; congr 1; rw [Nat.succ_mul]; omega
    · rw [h2, Nat.succ_mul]; omega
    · rw [h3, c3]
    · rw [h4, c4]
    · rw [h5, c5]
    · exact c6.trans h6 (by omega)
    · intro _
      have := h7 c7
      have e : s.brk + (n + 1) * cfg.ARENA_SIZE = s.brk + cfg.ARENA_SIZE + n * cfg.ARENA_SIZE := by
        rw [Nat.succ_mul]; omega
      rw [e]; exact this

/-- The number of arenas computed by `NEW_CHUNK_ADDER` covers the request and
two headers. -/
theorem num_chunks_loop_spec (cfg : Config) (hc : cfg.WF) (target : Nat) (fuel nc : Nat)
    (h1 : cfg.ARENA_SIZE ∣ nc) (h2 : target ≤ nc + fuel * cfg.ARENA_SIZE) :
    cfg.ARENA_SIZE ∣ num_chunks_loop cfg target fuel nc ∧
      target ≤ num_chunks_loop cfg target fuel nc ∧ nc ≤ num_chunks_loop cfg target fuel nc := by
  induction fuel generalizing nc with
  | zero =>
    simp only [num_chunks_loop]
    exact ⟨h1, by omega, le_refl _⟩
  | succ fuel ih =>
    unfold num_chunks_loop
    split
    · have := ih (nc + cfg.ARENA_SIZE) (Nat.dvd_add h1 (dvd_refl _))
        (by rw [Nat.succ_mul] at h2; omega)
      exact ⟨this.1, this.2.1, by omega⟩
    · exact ⟨h1, by omega, le_refl _⟩

section grow
variable {cfg : Config} {s : Heap} {chunks : List Nat} {B : Nat → Prop} {lab : Nat → Nat}

/-- The heap grows by `E` bytes glued to the last chunk whose last block `T` is
free: `T` grows by `E` and the fencepost moves to the new end.  The left size
of the new fencepost is not required to agree with the size of `T`. -/
theorem WellFormed.growT (hw : WellFormed cfg s chunks B lab none) (hc : cfg.WF)
    {f T E : Nat} (hf : s.lastFencePost = Ptr.heap f)
    (hbrk : f + cfg.ALLOC_HEADER_SIZE = s.brk) (hT : B T)
    (hsT : s.mem.state (Ptr.heap T) = UNALLOCATED) (hTf : T + s.mem.size (Ptr.heap T) = f)
    (hE : 0 < E) (hE8 : 8 ∣ E) {t : Heap}
    (t1 : t.brk = s.brk + E) (t2 : t.lastFencePost = Ptr.heap (f + E))
    (t3 : t.mem.crashed = false) (t4 : t.mem.next = s.mem.next) (t5 : t.mem.prev = s.mem.prev)
    (t6 : ∀ c, c < s.brk → c ≠ T → t.mem.size (Ptr.heap c) = s.mem.size (Ptr.heap c))
    (t7 : t.mem.size (Ptr.heap T) = s.mem.size (Ptr.heap T) + E)
    (t8 : ∀ c, c < s.brk → t.mem.state (Ptr.heap c) = s.mem.state (Ptr.heap c))
    (t9 : ∀ c, c < s.brk → t.mem.left_size (Ptr.heap c) = s.mem.left_size (Ptr.heap c))
    (t10 : t.mem.state (Ptr.heap (f + E)) = FENCEPOST)
    (t11 : t.mem.size (Ptr.heap (f + E)) = cfg.ALLOC_HEADER_SIZE) :
    WellFormed cfg t chunks (fun a => (B a ∧ a ≠ f) ∨ a = f + E) lab (some T) := by
  have hH := hc.header_pos
  obtain ⟨f0, hf0, L⟩ := hw.layout
  have e0 : f0 = f := by rw [hf] at hf0; exact (Ptr.heap.inj hf0).symm
  subst e0
  have hnf : ¬ s.mem.state (Ptr.heap T) = FENCEPOST := by rw [hsT]; simp
  have hlt : ∀ b, B b → b < s.brk := fun b hb => hw.lt_brk hc hb
  have hlef : ∀ b, B b → b ≤ f0 := fun b hb => by
    by_cases e : b = f0
    · omega
    · have := L.le_last hc hbrk hb e
      have : b + s.mem.size (Ptr.heap b) ≤ f0 := this
      omega
  have hX := L.extendT hc hbrk hT hnf hTf hE hE8 (z := fun a => t.mem.left_size (Ptr.heap a))
    (fun b hb => t9 b (hlt b hb))
  have hTlt : T < f0 := by
    have := L.size_ge hT
    have : cfg.ALLOC_HEADER_SIZE ≤ s.mem.size (Ptr.heap T) := this
    omega
  refine ⟨t3, ?_, ⟨f0 + E, t2, ?_⟩, ?_, ?_, ?_⟩
  · intro a ha
    rw [t4]
    exact hw.fresh a (by omega)
  · rw [t1]
    refine hX.congr_fields (fun _ => Iff.rfl) ?_ (fun _ _ => rfl) ?_
    · intro b hb
      show t.mem.size (Ptr.heap b) = _
      rcases hb with ⟨hb, _⟩ | hb
      · have h1 := hlef b hb
        by_cases e : b = T
        · subst e; simp only [if_true]; exact t7
        · have e2 : b ≠ f0 + E := by omega
          simp only [e, e2, if_false]
          exact t6 b (hlt b hb) e
      · subst hb
        have e : f0 + E ≠ T := by omega
        simp only [e, if_false, if_true]
        exact t11
    · intro b hb
      show t.mem.state (Ptr.heap b) = FENCEPOST ↔ _
      rcases hb with ⟨hb, _⟩ | hb
      · have h1 := hlef b hb
        have e2 : b ≠ f0 + E := by omega
        rw [t8 b (hlt b hb)]
        simp [e2]
      · subst hb
        simp [t10]
  · intro b hb hs
    rcases hb with ⟨hb, hbf⟩ | hb
    · rw [t8 b (hlt b hb)] at hs
      by_cases e : b = T
      · subst e
        rw [t7, ← Nat.add_assoc, hTf, t10]; simp
      · rw [t6 b (hlt b hb) e]
        have hbn : ¬ s.mem.state (Ptr.heap b) = FENCEPOST := by rw [hs]; simp
        have hr := (L.right b hb hbn).1
        rw [t8 _ (hlt _ hr)]
        exact hw.coal b hb hs
    · subst hb
      rw [t10] at hs
      exact absurd hs (by simp)
  · rw [t4, t5]
    refine hw.links.congr ?_ (fun _ _ => rfl)
    intro p
    constructor
    · intro hp
      rcases hp with ⟨i, hi, e⟩ | ⟨c, e, hc2, hcs⟩
      · exact Or.inl ⟨i, hi, e⟩
      · rcases hc2 with ⟨hc2, _⟩ | hc2
        · rw [t8 c (hlt c hc2)] at hcs
          exact Or.inr ⟨c, e, hc2, hcs⟩
        · subst hc2
          rw [t10] at hcs
          exact absurd hcs (by simp)
    · intro hp
      rcases hp with ⟨i, hi, e⟩ | ⟨c, e, hc2, hcs⟩
      · exact Or.inl ⟨i, hi, e⟩
      · have hcf : c ≠ f0 := fun e2 => by
          rw [e2, L.last.2.1] at hcs
          exact absurd hcs (by simp)
        refine Or.inr ⟨c, e, Or.inl ⟨hc2, hcf⟩, ?_⟩
        rw [t8 c (hlt c hc2)]
        exact hcs
  · intro a ha hs hl
    rcases ha with ⟨ha, _⟩ | ha
    · rw [t8 a (hlt a ha)] at hs
      have := hw.cls a ha hs hl
      by_cases e : a = T
      · subst e
        rw [t7]; omega
      · rw [t6 a (hlt a ha) e]; exact this
    · subst ha
      rw [t10] at hs
      exact absurd hs (by simp)

end grow

section grow
variable {cfg : Config} {s : Heap} {chunks : List Nat} {B : Nat → Prop} {lab : Nat → Nat}

/-- The heap grows by `E` bytes glued to the last chunk whose last block is not
free: the old fencepost becomes a free block of `E` bytes at the head of the
last list. -/
theorem WellFormed.growC (hw : WellFormed cfg s chunks B lab none) (hc : cfg.WF)
    {f E : Nat} (hf : s.lastFencePost = Ptr.heap f)
    (hbrk : f + cfg.ALLOC_HEADER_SIZE = s.brk)
    (hlast : ∀ l, B l → l + s.mem.size (Ptr.heap l) = f →
      s.mem.state (Ptr.heap l) ≠ UNALLOCATED)
    (hE : 2 * cfg.ALLOC_HEADER_SIZE ≤ E) (hE8 : 8 ∣ E) {t : Heap}
    (t1 : t.brk = s.brk + E) (t2 : t.lastFencePost = Ptr.heap (f + E))
    (t3 : t.mem.crashed = false)
    (t4 : t.mem.next = (mem_insert s.mem (Ptr.sentinel (cfg.N_LISTS - 1)) (Ptr.heap f)).next)
    (t5 : t.mem.prev = (mem_insert s.mem (Ptr.sentinel (cfg.N_LISTS - 1)) (Ptr.heap f)).prev)
    (t6 : ∀ c, c < s.brk → c ≠ f → t.mem.size (Ptr.heap c) = s.mem.size (Ptr.heap c))
    (t7 : t.mem.size (Ptr.heap f) = E)
    (t8 : ∀ c, c < s.brk → c ≠ f → t.mem.state (Ptr.heap c) = s.mem.state (Ptr.heap c))
    (t8f : t.mem.state (Ptr.heap f) = UNALLOCATED)
    (t9 : ∀ c, c < s.brk → t.mem.left_size (Ptr.heap c) = s.mem.left_size (Ptr.heap c))
    (t10 : t.mem.state (Ptr.heap (f + E)) = FENCEPOST)
    (t11 : t.mem.size (Ptr.heap (f + E)) = cfg.ALLOC_HEADER_SIZE) :
    WellFormed cfg t chunks (fun a => B a ∨ a = f + E)
      (fun a => if a = f then cfg.N_LISTS - 1 else lab a) (some f) := by
  have hH := hc.header_pos
  have hN := hc.lists_pos
  obtain ⟨f0, hf0, L⟩ := hw.layout
  have e0 : f0 = f := by rw [hf] at hf0; exact (Ptr.heap.inj hf0).symm
  subst e0
  have hlt : ∀ b, B b → b < s.brk := fun b hb => hw.lt_brk hc hb
  have hlef : ∀ b, B b → b ≤ f0 := fun b hb => by
    by_cases e : b = f0
    · omega
    · have := L.le_last hc hbrk hb e
      have : b + s.mem.size (Ptr.heap b) ≤ f0 := this
      omega
  have hX := L.extendC hc hbrk hE hE8 (z := fun a => t.mem.left_size (Ptr.heap a))
    (fun b hb => t9 b (hlt b hb))
  have hBf : B f0 := L.last.1
  have hff : s.mem.state (Ptr.heap f0) = FENCEPOST := L.last.2.1
  have hS : IsNode cfg s.mem B (Ptr.sentinel (cfg.N_LISTS - 1)) := isNode_sentinel (by omega)
  have hxn : ¬ IsNode cfg s.mem B (Ptr.heap f0) := fun h => by
    have := (isNode_heap_iff.1 h).2
    rw [hff] at this
    exact absurd this (by simp)
  refine ⟨t3, ?_, ⟨f0 + E, t2, ?_⟩, ?_, ?_, ?_⟩
  · intro a ha
    rw [t4]
    unfold mem_insert
    dsimp only
    have e1 : Ptr.heap a ≠ Ptr.sentinel (cfg.N_LISTS - 1) := by simp
    have e2 : Ptr.heap a ≠ Ptr.heap f0 := by
      simp only [ne_eq, Ptr.heap.injEq]; omega
    rw [upd_other _ _ _ _ e1, upd_other _ _ _ _ e2]
    exact hw.fresh a (by omega)
  · rw [t1]
    refine hX.congr_fields (fun _ => Iff.rfl) ?_ (fun _ _ => rfl) ?_
    · intro b hb
      show t.mem.size (Ptr.heap b) = _
      rcases hb with hb | hb
      · have h1 := hlef b hb
        by_cases e : b = f0
        · subst e; simp only [if_true]; exact t7
        · have e2 : b ≠ f0 + E := by omega
          simp only [e, e2, if_false]
          exact t6 b (hlt b hb) e
      · subst hb
        have e : f0 + E ≠ f0 := by omega
        simp only [e, if_false, if_true]
        exact t11
    · intro b hb
      show t.mem.state (Ptr.heap b) = FENCEPOST ↔ _
      rcases hb with hb | hb
      · have h1 := hlef b hb
        have e2 : b ≠ f0 + E := by omega
        by_cases e : b = f0
        · subst e
          rw [t8f]; simp [e2]
        · rw [t8 b (hlt b hb) e]
          simp [e2, e]
      · subst hb
        simp [t10]
  · intro b hb hs
    rcases hb with hb | hb
    · by_cases e : b = f0
      · subst e
        rw [t7, t10]; simp
      · rw [t8 b (hlt b hb) e] at hs
        rw [t6 b (hlt b hb) e]
        have hbn : ¬ s.mem.state (Ptr.heap b) = FENCEPOST := by rw [hs]; simp
        have hr := (L.right b hb hbn).1
        have hr : B (b + s.mem.size (Ptr.heap b)) := hr
        by_cases e2 : b + s.mem.size (Ptr.heap b) = f0
        · exact absurd hs (hlast b hb e2)
        · rw [t8 _ (hlt _ hr) e2]
          exact hw.coal b hb hs
    · subst hb
      rw [t10] at hs
      exact absurd hs (by simp)
  · rw [t4, t5]
    have h2 := hw.links.insert (S := Ptr.sentinel (cfg.N_LISTS - 1)) (x := Ptr.heap f0)
      (g := plab (fun a => if a = f0 then cfg.N_LISTS - 1 else lab a)) hS hxn ?_ ?_
    · refine h2.congr ?_ (fun _ _ => rfl)
      intro p
      constructor
      · intro hp
        rcases hp with ⟨i, hi, e⟩ | ⟨c, e, hc2, hcs⟩
        · exact Or.inl (Or.inl ⟨i, hi, e⟩)
        · by_cases e2 : c = f0
          · right; rw [e, e2]
          · rcases hc2 with hc2 | hc2
            · rw [t8 c (hlt c hc2) e2] at hcs
              exact Or.inl (Or.inr ⟨c, e, hc2, hcs⟩)
            · subst hc2
              rw [t10] at hcs
              exact absurd hcs (by simp)
      · intro hp
        rcases hp with (⟨i, hi, e⟩ | ⟨c, e, hc2, hcs⟩) | e
        · exact Or.inl ⟨i, hi, e⟩
        · have hcf : c ≠ f0 := fun e2 => by
            rw [e2, hff] at hcs
            exact absurd hcs (by simp)
          refine Or.inr ⟨c, e, Or.inl hc2, ?_⟩
          rw [t8 c (hlt c hc2) hcf]
          exact hcs
        · exact Or.inr ⟨f0, e, Or.inl hBf, t8f⟩
    · intro p hp
      rcases hp with ⟨i, hi, e⟩ | ⟨c, e, hc2, hcs⟩
      · rw [e]; rfl
      · have hcf : c ≠ f0 := fun e2 => by
          rw [e2, hff] at hcs
          exact absurd hcs (by simp)
        rw [e]
        simp only [plab, hcf, if_false]
    · simp only [plab, if_true]
  · intro a ha hs hl
    by_cases e : a = f0
    · subst e
      simp only [if_true] at hl
      omega
    · simp only [e, if_false] at hl
      rcases ha with ha | ha
      · rw [t8 a (hlt a ha) e] at hs
        rw [t6 a (hlt a ha) e]
        simp only [e, if_false]
        exact hw.cls a ha hs hl
      · subst ha
        rw [t10] at hs
        exact absurd hs (by simp)

end grow

section grow
variable {cfg : Config} {s : Heap} {chunks : List Nat} {B : Nat → Prop} {lab : Nat → Nat}

/-- The heap grows by a separate chunk of `E` bytes: two fenceposts around one
free block at the head of the last list. -/
theorem WellFormed.growI (hw : WellFormed cfg s chunks B lab none) (hc : cfg.WF)
    {E : Nat} (hE : 4 * cfg.ALLOC_HEADER_SIZE ≤ E) (hE8 : 8 ∣ E) {t : Heap}
    (t1 : t.brk = s.brk + E) (t2 : t.lastFencePost = s.lastFencePost)
    (t3 : t.mem.crashed = false)
    (t4 : t.mem.next = (mem_insert s.mem (Ptr.sentinel (cfg.N_LISTS - 1))
      (Ptr.heap (s.brk + cfg.ALLOC_HEADER_SIZE))).next)
    (t5 : t.mem.prev = (mem_insert s.mem (Ptr.sentinel (cfg.N_LISTS - 1))
      (Ptr.heap (s.brk + cfg.ALLOC_HEADER_SIZE))).prev)
    (t6 : ∀ c, c < s.brk → t.mem.size (Ptr.heap c) = s.mem.size (Ptr.heap c))
    (t7 : ∀ c, c < s.brk → t.mem.state (Ptr.heap c) = s.mem.state (Ptr.heap c))
    (t8 : ∀ c, c < s.brk → t.mem.left_size (Ptr.heap c) = s.mem.left_size (Ptr.heap c))
    (a1 : t.mem.size (Ptr.heap s.brk) = cfg.ALLOC_HEADER_SIZE)
    (a2 : t.mem.state (Ptr.heap s.brk) = FENCEPOST)
    (b1 : t.mem.size (Ptr.heap (s.brk + cfg.ALLOC_HEADER_SIZE)) = E - 2 * cfg.ALLOC_HEADER_SIZE)
    (b2 : t.mem.state (Ptr.heap (s.brk + cfg.ALLOC_HEADER_SIZE)) = UNALLOCATED)
    (b3 : t.mem.left_size (Ptr.heap (s.brk + cfg.ALLOC_HEADER_SIZE)) = cfg.ALLOC_HEADER_SIZE)
    (c1 : t.mem.size (Ptr.heap (s.brk + E - cfg.ALLOC_HEADER_SIZE)) = cfg.ALLOC_HEADER_SIZE)
    (c2 : t.mem.state (Ptr.heap (s.brk + E - cfg.ALLOC_HEADER_SIZE)) = FENCEPOST)
    (c3 : t.mem.left_size (Ptr.heap (s.brk + E - cfg.ALLOC_HEADER_SIZE))
      = E - 2 * cfg.ALLOC_HEADER_SIZE) :
    WellFormed cfg t (chunks ++ [s.brk])
      (fun a => B a ∨ a = s.brk ∨ a = s.brk + cfg.ALLOC_HEADER_SIZE ∨
        a = s.brk + E - cfg.ALLOC_HEADER_SIZE)
      (fun a => if a = s.brk + cfg.ALLOC_HEADER_SIZE then cfg.N_LISTS - 1 else lab a) none := by
  have hH := hc.header_pos
  have hN := hc.lists_pos
  obtain ⟨f0, hf0, L⟩ := hw.layout
  have hlt : ∀ b, B b → b < s.brk := fun b hb => hw.lt_brk hc hb
  have hX := L.island hc hE hE8 (z := fun a => t.mem.left_size (Ptr.heap a))
    (fun b hb => t8 b (hlt b hb)) b3 c3
  have hS : IsNode cfg s.mem B (Ptr.sentinel (cfg.N_LISTS - 1)) := isNode_sentinel (by omega)
  have hxB : ¬ B (s.brk + cfg.ALLOC_HEADER_SIZE) := fun h => by
    have := hlt _ h; omega
  have hxn : ¬ IsNode cfg s.mem B (Ptr.heap (s.brk + cfg.ALLOC_HEADER_SIZE)) := fun h =>
    hxB (isNode_heap_iff.1 h).1
  have n1 : s.brk ≠ s.brk + cfg.ALLOC_HEADER_SIZE := by omega
  have n2 : s.brk + E - cfg.ALLOC_HEADER_SIZE ≠ s.brk + cfg.ALLOC_HEADER_SIZE := by omega
  have n3 : s.brk + E - cfg.ALLOC_HEADER_SIZE ≠ s.brk := by omega
  refine ⟨t3, ?_, ⟨f0, t2.trans hf0, ?_⟩, ?_, ?_, ?_⟩
  · intro a ha
    rw [t4]
    unfold mem_insert
    dsimp only
    have e1 : Ptr.heap a ≠ Ptr.sentinel (cfg.N_LISTS - 1) := by simp
    have e2 : Ptr.heap a ≠ Ptr.heap (s.brk + cfg.ALLOC_HEADER_SIZE) := by
      simp only [ne_eq, Ptr.heap.injEq]; omega
    rw [upd_other _ _ _ _ e1, upd_other _ _ _ _ e2]
    exact hw.fresh a (by omega)
  · rw [t1]
    refine hX.congr_fields (fun _ => Iff.rfl) ?_ (fun _ _ => rfl) ?_
    · intro b hb
      show t.mem.size (Ptr.heap b) = _
      rcases hb with hb | hb | hb | hb
      · have h1 := hlt b hb
        have e1 : b ≠ s.brk := by omega
        have e2 : b ≠ s.brk + cfg.ALLOC_HEADER_SIZE := by omega
        have e3 : b ≠ s.brk + E - cfg.ALLOC_HEADER_SIZE := by omega
        simp only [e1, e2, e3, if_false]
        exact t6 b h1
      · subst hb; simp only [if_true]; exact a1
      · subst hb; simp only [n1.symm, if_false, if_true]; exact b1
      · subst hb; simp only [n2, n3, if_false, if_true]; exact c1
    · intro b hb
      show t.mem.state (Ptr.heap b) = FENCEPOST ↔ _
      rcases hb with hb | hb | hb | hb
      · have h1 := hlt b hb
        have e1 : b ≠ s.brk := by omega
        have e2 : b ≠ s.brk + cfg.ALLOC_HEADER_SIZE := by omega
        have e3 : b ≠ s.brk + E - cfg.ALLOC_HEADER_SIZE := by omega
        rw [t7 b h1]
        simp [e1, e2, e3]
      · subst hb; simp [a2]
      · subst hb; simp [b2, n1.symm, n2.symm]
      · subst hb; simp [c2]
  · intro b hb hs
    rcases hb with hb | hb | hb | hb
    · have h1 := hlt b hb
      rw [t7 b h1] at hs
      rw [t6 b h1]
      have hbn : ¬ s.mem.state (Ptr.heap b) = FENCEPOST := by rw [hs]; simp
      have hr := (L.right b hb hbn).1
      rw [t7 _ (hlt _ hr)]
      exact hw.coal b hb hs
    · subst hb; rw [a2] at hs; exact absurd hs (by simp)
    · subst hb
      rw [b1]
      have e : s.brk + cfg.ALLOC_HEADER_SIZE + (E - 2 * cfg.ALLOC_HEADER_SIZE)
          = s.brk + E - cfg.ALLOC_HEADER_SIZE := by omega
      rw [e, c2]; simp
    · subst hb; rw [c2] at hs; exact absurd hs (by simp)
  · rw [t4, t5]
    have h2 := hw.links.insert (S := Ptr.sentinel (cfg.N_LISTS - 1))
      (x := Ptr.heap (s.brk + cfg.ALLOC_HEADER_SIZE))
      (g := plab (fun a => if a = s.brk + cfg.ALLOC_HEADER_SIZE then cfg.N_LISTS - 1
        else lab a)) hS hxn ?_ ?_
    · refine h2.congr ?_ (fun _ _ => rfl)
      intro p
      constructor
      · intro hp
        rcases hp with ⟨i, hi, e⟩ | ⟨c, e, hc2, hcs⟩
        · exact Or.inl (Or.inl ⟨i, hi, e⟩)
        · rcases hc2 with hc2 | hc2 | hc2 | hc2
          · rw [t7 c (hlt c hc2)] at hcs
            exact Or.inl (Or.inr ⟨c, e, hc2, hcs⟩)
          · subst hc2; rw [a2] at hcs; exact absurd hcs (by simp)
          · right; rw [e, hc2]
          · subst hc2; rw [c2] at hcs; exact absurd hcs (by simp)
      · intro hp
        rcases hp with (⟨i, hi, e⟩ | ⟨c, e, hc2, hcs⟩) | e
        · exact Or.inl ⟨i, hi, e⟩
        · refine Or.inr ⟨c, e, Or.inl hc2, ?_⟩
          rw [t7 c (hlt c hc2)]
          exact hcs
        · exact Or.inr ⟨_, e, Or.inr (Or.inr (Or.inl rfl)), b2⟩
    · intro p hp
      rcases hp with ⟨i, hi, e⟩ | ⟨c, e, hc2, hcs⟩
      · rw [e]; rfl
      · have hcf : c ≠ s.brk + cfg.ALLOC_HEADER_SIZE := fun e2 => hxB (e2 ▸ hc2)
        rw [e]
        simp only [plab, hcf, if_false]
    · simp only [plab, if_true]
  · intro a ha hs hl
    by_cases e : a = s.brk + cfg.ALLOC_HEADER_SIZE
    · subst e
      simp only [if_true] at hl
      omega
    · simp only [e, if_false] at hl ⊢
      rcases ha with ha | ha | ha | ha
      · rw [t7 a (hlt a ha)] at hs
        rw [t6 a (hlt a ha)]
        exact hw.cls a ha hs hl
      · subst ha; rw [a2] at hs; exact absurd hs (by simp)
      · exact absurd ha e
      · subst ha; rw [c2] at hs; exact absurd hs (by simp)

end grow

theorem arena_count_spec (cfg : Config) (hc : cfg.WF) (req : Nat) :
    1 ≤ arena_count cfg req ∧
      req + 2 * cfg.ALLOC_HEADER_SIZE ≤ arena_count cfg req * cfg.ARENA_SIZE := by
  have hA : 0 < cfg.ARENA_SIZE := by have := hc.arena_large; omega
  obtain ⟨h1, h2, h3⟩ := num_chunks_loop_spec cfg hc (req + 2 * cfg.ALLOC_HEADER_SIZE)
    (req + 2 * cfg.ALLOC_HEADER_SIZE) cfg.ARENA_SIZE (dvd_refl _) (by
      have : req + 2 * cfg.ALLOC_HEADER_SIZE ≤ (req + 2 * cfg.ALLOC_HEADER_SIZE) * cfg.ARENA_SIZE :=
        Nat.le_mul_of_pos_right _ hA
      omega)
  unfold arena_count
  constructor
  · exact (Nat.one_le_div_iff hA).2 h3
  · rw [Nat.div_mul_cancel h1]; exact h2

/-- The run of `k` arenas that `NEW_CHUNK_ADDER` acquires: the first call of
`allocate_chunk` and the loop over the others. -/
theorem arenas_spec (cfg : Config) (hc : cfg.WF) (s s0 : Heap) (k : Nat) (hk : 1 ≤ k)
    (h1 : s0.mem = (allocate_chunk cfg s cfg.ARENA_SIZE).2.mem)
    (h2 : s0.brk = (allocate_chunk cfg s cfg.ARENA_SIZE).2.brk) :
    (remaining_chunks_loop cfg (k - 1) s0
        (Ptr.heap (s.brk + cfg.ARENA_SIZE - cfg.ALLOC_HEADER_SIZE))).2
      = Ptr.heap (s.brk + k * cfg.ARENA_SIZE - cfg.ALLOC_HEADER_SIZE) ∧
    (remaining_chunks_loop cfg (k - 1) s0
        (Ptr.heap (s.brk + cfg.ARENA_SIZE - cfg.ALLOC_HEADER_SIZE))).1.brk
      = s.brk + k * cfg.ARENA_SIZE ∧
    (remaining_chunks_loop cfg (k - 1) s0
        (Ptr.heap (s.brk + cfg.ARENA_SIZE - cfg.ALLOC_HEADER_SIZE))).1.lastFencePost
      = s0.lastFencePost ∧
    (remaining_chunks_loop cfg (k - 1) s0
        (Ptr.heap (s.brk + cfg.ARENA_SIZE - cfg.ALLOC_HEADER_SIZE))).1.osChunkList
      = s0.osChunkList ∧
    ChunkFrame s.mem (remaining_chunks_loop cfg (k - 1) s0
        (Ptr.heap (s.brk + cfg.ARENA_SIZE - cfg.ALLOC_HEADER_SIZE))).1.mem s.brk ∧
    LastArena cfg (remaining_chunks_loop cfg (k - 1) s0
        (Ptr.heap (s.brk + cfg.ARENA_SIZE - cfg.ALLOC_HEADER_SIZE))).1.mem
      (s.brk + k * cfg.ARENA_SIZE) := by
  obtain ⟨-, c2, -, -, -, c6, -⟩ := allocate_chunk_spec cfg hc s
  have c7 := allocate_chunk_last cfg hc s
  obtain ⟨r1, r2, r3, r4, -, r6, r7⟩ := remaining_chunks_spec cfg hc (k - 1) s0
    (s.brk + cfg.ARENA_SIZE - cfg.ALLOC_HEADER_SIZE)
  have hA := hc.arena_large
  have e : k * cfg.ARENA_SIZE = cfg.ARENA_SIZE + (k - 1) * cfg.ARENA_SIZE := by
    obtain ⟨j, rfl⟩ : ∃ j, k = j + 1 := ⟨k - 1, by omega⟩
    rw [Nat.succ_mul]; simp; omega
  rw [h2, c2] at r2 r6 r7
  rw [h1] at r6 r7
  refine ⟨?_, ?_, r3, r4, c6.trans r6 (by omega), ?_⟩
  · rw [r1]; congr 1; omega
  · rw [r2]; omega
  · have := r7 c7
    rw [e, ← Nat.add_assoc]; exact this

theorem stale_arith {b0 E A H f0 T sz : Nat} (h1 : f0 + H = b0) (hA : 4 * H ≤ A) (hE : A ≤ E)
    (hH : 0 < H) (hT : T + sz = f0) :
    f0 + E - (A - 2 * H) = b0 + E - A + H ∧ b0 + E - A + H ≠ f0 + E ∧ b0 + E - A + H ≠ T ∧
      A - 2 * H ≤ f0 + E ∧ b0 ≤ b0 + E - A + H := by
  omega

section adder
variable {cfg : Config} {s : Heap} {chunks : List Nat} {B : Nat → Prop} {lab : Nat → Nat}

/-- The glued branch of `NEW_CHUNK_ADDER` when the last block `T` of the heap is
free. -/
theorem adder_T (hc : cfg.WF) (hw : WellFormed cfg s chunks B lab none) {f T : Nat}
    (hf : s.lastFencePost = Ptr.heap f) (hbrk : f + cfg.ALLOC_HEADER_SIZE = s.brk)
    (hT : B T) (hsT : s.mem.state (Ptr.heap T) = UNALLOCATED)
    (hTf : T + s.mem.size (Ptr.heap T) = f) (raw req : Nat) :
    ∃ E B1, req + 2 * cfg.ALLOC_HEADER_SIZE ≤ E ∧
      (NEW_CHUNK_ADDER cfg s raw req).brk = s.brk + E ∧
      KeepsAllocated s (NEW_CHUNK_ADDER cfg s raw req) B B1 ∧ B1 T ∧
      (NEW_CHUNK_ADDER cfg s raw req).mem.state (Ptr.heap T) = UNALLOCATED ∧
      (NEW_CHUNK_ADDER cfg s raw req).mem.size (Ptr.heap T) = s.mem.size (Ptr.heap T) + E ∧
      ((∃ lab1, WellFormed cfg (NEW_CHUNK_ADDER cfg s raw req) chunks B1 lab1 (some T) ∧
          (NEW_CHUNK_ADDER cfg s raw req).mem.next (Ptr.sentinel (cfg.N_LISTS - 1)) = Ptr.heap T ∧
          ∀ j, j < cfg.N_LISTS - 1 → s.mem.next (Ptr.sentinel j) = Ptr.sentinel j →
            (NEW_CHUNK_ADDER cfg s raw req).mem.next (Ptr.sentinel j) = Ptr.sentinel j)
        ∨ (WellFormed cfg (NEW_CHUNK_ADDER cfg s raw req) chunks B1 lab (some T) ∧
          (NEW_CHUNK_ADDER cfg s raw req).mem.next = s.mem.next ∧
          (NEW_CHUNK_ADDER cfg s raw req).mem.prev = s.mem.prev ∧
          (∀ c, c < s.brk → c ≠ T →
            (NEW_CHUNK_ADDER cfg s raw req).mem.size (Ptr.heap c) = s.mem.size (Ptr.heap c)) ∧
          Stale cfg (NEW_CHUNK_ADDER cfg s raw req))) := by
  obtain ⟨c1, c2, c3, c4, c5, c6, c7, c8, c9, c10, c11⟩ := allocate_chunk_spec cfg hc s
  have hH := hc.header_pos
  have hA := hc.arena_large
  have hA8 := hc.arena_aligned
  obtain ⟨f0, hf0, L⟩ := hw.layout
  have e0 : f0 = f := by rw [hf] at hf0; exact (Ptr.heap.inj hf0).symm
  subst e0
  have hnf : ¬ s.mem.state (Ptr.heap T) = FENCEPOST := by rw [hsT]; simp
  have hlsf : s.mem.left_size (Ptr.heap f0) = s.mem.size (Ptr.heap T) := by
    have := (L.right T hT hnf).2 (by simp)
    have this : s.mem.left_size (Ptr.heap (T + s.mem.size (Ptr.heap T))) = _ := this
    rw [hTf] at this; exact this
  have hls : s.mem.left_size (Ptr.heap f0) ≤ f0 := by omega
  have hTeq : f0 - s.mem.left_size (Ptr.heap f0) = T := by omega
  have hszT : cfg.ALLOC_HEADER_SIZE ≤ s.mem.size (Ptr.heap T) := L.size_ge hT
  have e1 : s.brk + cfg.ALLOC_HEADER_SIZE + (cfg.ARENA_SIZE - 2 * cfg.ALLOC_HEADER_SIZE)
      = s.brk + cfg.ARENA_SIZE - cfg.ALLOC_HEADER_SIZE := by omega
  have e2 : s.brk + cfg.ALLOC_HEADER_SIZE - cfg.ALLOC_HEADER_SIZE = s.brk := by omega
  have e3 := c6.left_eq f0 (by omega)
  have e4 := c6.size_eq T (by omega)
  have hk := arena_count_spec cfg hc req
  unfold arena_count at hk
  generalize hs1 : NEW_CHUNK_ADDER cfg s raw req = s1
  unfold NEW_CHUNK_ADDER at hs1
  simp only [c1, c3, hf, get_block_size, get_block_state, c11, offset_heap_nat,
    offset_heap_neg _ _ (show cfg.ALLOC_HEADER_SIZE ≤ s.brk + cfg.ALLOC_HEADER_SIZE by omega),
    e1, e2, e3, offset_heap_neg _ _ hls, hbrk, decide_True, if_true, hTeq, e4] at hs1
  generalize num_chunks_loop cfg (req + 2 * cfg.ALLOC_HEADER_SIZE)
    (req + 2 * cfg.ALLOC_HEADER_SIZE) cfg.ARENA_SIZE / cfg.ARENA_SIZE = k at hk hs1
  have hr := arenas_spec cfg hc s
    { (allocate_chunk cfg s cfg.ARENA_SIZE).2 with
      lastFencePost := Ptr.heap (s.brk + cfg.ARENA_SIZE - cfg.ALLOC_HEADER_SIZE) } k hk.1 rfl rfl
  generalize remaining_chunks_loop cfg (k - 1)
    { (allocate_chunk cfg s cfg.ARENA_SIZE).2 with
      lastFencePost := Ptr.heap (s.brk + cfg.ARENA_SIZE - cfg.ALLOC_HEADER_SIZE) }
    (Ptr.heap (s.brk + cfg.ARENA_SIZE - cfg.ALLOC_HEADER_SIZE)) = r at hr hs1
  obtain ⟨r1, rfp⟩ := r
  obtain ⟨q1, q2, q3, q4, q5, q6⟩ := hr
  simp only at q1 q2 q3 q4 q5 q6 hs1
  subst q1
  have hkA : cfg.ARENA_SIZE ≤ k * cfg.ARENA_SIZE := Nat.le_mul_of_pos_left _ hk.1
  have hE8 : 8 ∣ k * cfg.ARENA_SIZE := Dvd.dvd.mul_left hA8 k
  have efE : s.brk + k * cfg.ARENA_SIZE - cfg.ALLOC_HEADER_SIZE = f0 + k * cfg.ARENA_SIZE := by
    omega
  rw [efE] at hs1
  have eT : T ≠ f0 + k * cfg.ARENA_SIZE := by omega
  have e5 := q5.state_eq T (by omega)
  simp only [set_block_state_ok _ _ _ (heap_ne_null _), set_block_size_ok _ _ _ (heap_ne_null _),
    upd_heap, eT, if_false, e5, hsT, if_true] at hs1
  have hcl : (s.mem.size (Ptr.heap T) + k * cfg.ARENA_SIZE - cfg.ALLOC_HEADER_SIZE) / 8 - 1
      ≥ cfg.N_LISTS - 1 := by
    omega
  simp only [hcl, if_true] at hs1
  have hlt : ∀ b, B b → b < s.brk := fun b hb => hw.lt_brk hc hb
  have hwm : WellFormed cfg
      { mem := { r1.mem with
          size := upd (upd r1.mem.size (Ptr.heap (f0 + k * cfg.ARENA_SIZE)) cfg.ALLOC_HEADER_SIZE)
            (Ptr.heap T) (s.mem.size (Ptr.heap T) + k * cfg.ARENA_SIZE),
          state := upd r1.mem.state (Ptr.heap (f0 + k * cfg.ARENA_SIZE)) FENCEPOST },
        lastFencePost := Ptr.heap (f0 + k * cfg.ARENA_SIZE), base := r1.base,
        osChunkList := r1.osChunkList, brk := r1.brk }
      chunks (fun a => (B a ∧ a ≠ f0) ∨ a = f0 + k * cfg.ARENA_SIZE) lab (some T) := by
    refine hw.growT hc hf hbrk hT hsT hTf (by omega) hE8 q2 rfl ?_ q5.next_eq q5.prev_eq
      ?_ ?_ ?_ ?_ ?_ ?_
    · exact q5.crashed_eq.trans hw.not_crashed
    · intro c hc1 hc2
      have e6 : c ≠ f0 + k * cfg.ARENA_SIZE := by omega
      simp only [upd_heap, hc2, e6, if_false]
      exact q5.size_eq c hc1
    · simp only [upd_heap, if_true]
    · intro c hc1
      have e6 : c ≠ f0 + k * cfg.ARENA_SIZE := by omega
      simp only [upd_heap, e6, if_false]
      exact q5.state_eq c hc1
    · intro c hc1
      exact q5.left_eq c hc1
    · simp only [upd_heap, if_true]
    · simp only [upd_heap, eT.symm, if_false, if_true]
  have hTB1 : (B T ∧ T ≠ f0) ∨ T = f0 + k * cfg.ARENA_SIZE := Or.inl ⟨hT, by omega⟩
  have hkeep : ∀ c, B c → s.mem.state (Ptr.heap c) = ALLOCATED →
      ((B c ∧ c ≠ f0) ∨ c = f0 + k * cfg.ARENA_SIZE) ∧
      upd r1.mem.state (Ptr.heap (f0 + k * cfg.ARENA_SIZE)) FENCEPOST (Ptr.heap c) = ALLOCATED ∧
      upd (upd r1.mem.size (Ptr.heap (f0 + k * cfg.ARENA_SIZE)) cfg.ALLOC_HEADER_SIZE)
            (Ptr.heap T) (s.mem.size (Ptr.heap T) + k * cfg.ARENA_SIZE) (Ptr.heap c)
        = s.mem.size (Ptr.heap c) := by
    intro c hc1 hc2
    have h1 := hlt c hc1
    have e6 : c ≠ f0 + k * cfg.ARENA_SIZE := by omega
    have e7 : c ≠ T := fun e => by rw [e, hsT] at hc2; exact absurd hc2 (by simp)
    have e8 : c ≠ f0 := fun e => by
      rw [e, L.last.2.1] at hc2; exact absurd hc2 (by simp)
    simp only [upd_heap, e6, e7, if_false]
    exact ⟨Or.inl ⟨hc1, e8⟩, (q5.state_eq c h1).trans hc2, q5.size_eq c h1⟩
  have hstT : upd r1.mem.state (Ptr.heap (f0 + k * cfg.ARENA_SIZE)) FENCEPOST (Ptr.heap T)
      = UNALLOCATED := by
    simp only [upd_heap, eT, if_false]
    exact e5.trans hsT
  refine ⟨k * cfg.ARENA_SIZE, fun a => (B a ∧ a ≠ f0) ∨ a = f0 + k * cfg.ARENA_SIZE, hk.2, ?_⟩
  by_cases hidx : (s.mem.size (Ptr.heap T) - cfg.ALLOC_HEADER_SIZE) / 8 - 1 ≠ cfg.N_LISTS - 1
  · rw [if_pos hidx] at hs1
    have hN := hc.lists_pos
    rw [hwm.chunk_rebucket_eq (a := T) (j := cfg.N_LISTS - 1) hTB1 hstT (by omega)] at hs1
    have hwr := hwm.rebucket hc (a := T) (j := cfg.N_LISTS - 1) hTB1 hstT (by omega)
      (fun h => absurd h (by omega))
    subst hs1
    refine ⟨q2, hkeep, hTB1, hstT, ?_, Or.inl ⟨_, hwr, ?_, ?_⟩⟩
    · show upd (upd r1.mem.size _ _) _ _ (Ptr.heap T) = _
      simp only [upd_heap, if_true]
    · simp only [mem_insert, mem_unlink, upd_same]
    · intro j hj hemp
      have hS : IsNode cfg s.mem B (Ptr.sentinel j) := isNode_sentinel (by omega)
      have hx : IsNode cfg s.mem B (Ptr.heap T) := isNode_heap hT hsT
      obtain ⟨x1, x2, x3, x4, x5⟩ := hw.links _ hx
      have n1 : Ptr.sentinel j ≠ Ptr.sentinel (cfg.N_LISTS - 1) := by
        simp only [ne_eq, Ptr.sentinel.injEq]; omega
      have n2 : Ptr.sentinel j ≠ Ptr.heap T := by simp
      have n3 : Ptr.sentinel j ≠ s.mem.prev (Ptr.heap T) := fun e => by
        rw [← e, hemp] at x4
        exact absurd x4 n2
      simp only [mem_insert, mem_unlink, q5.next_eq, q5.prev_eq, upd_other _ _ _ _ n1,
        upd_other _ _ _ _ n2, upd_other _ _ _ _ n3]
      exact hemp
  · rw [if_neg hidx] at hs1
    subst hs1
    refine ⟨q2, hkeep, hTB1, hstT, ?_, Or.inr ⟨hwm, q5.next_eq, q5.prev_eq, ?_, ?_⟩⟩
    · show upd (upd r1.mem.size _ _) _ _ (Ptr.heap T) = _
      simp only [upd_heap, if_true]
    · intro c hc1 hc2
      have e6 : c ≠ f0 + k * cfg.ARENA_SIZE := by omega
      show upd (upd r1.mem.size _ _) _ _ (Ptr.heap c) = _
      simp only [upd_heap, hc2, e6, if_false]
      exact q5.size_eq c hc1
    · obtain ⟨eX, eX2, eX3, eX4, eX5⟩ := stale_arith hbrk (by omega : 4 * cfg.ALLOC_HEADER_SIZE
        ≤ cfg.ARENA_SIZE) hkA hH hTf
      have q6a := q6.fp_left
      have q6b := q6.hdr_state
      have q6c := q6.hdr_size
      rw [efE] at q6a
      unfold Stale
      refine ⟨f0 + k * cfg.ARENA_SIZE, rfl, ?_, ?_, ?_, ?_, ?_, ?_⟩
      · show _ = r1.brk
        rw [q2]; omega
      · exact q6a
      · exact eX4
      · rw [eX]
        show upd r1.mem.state _ _ _ = _
        simp only [upd_heap, eX2, if_false]
        exact q6b
      · rw [eX]
        show upd (upd r1.mem.size _ _) _ _ _ = _
        simp only [upd_heap, eX2, eX3, if_false]
        exact q6c
      · rw [eX]
        show r1.mem.next _ = _
        rw [q5.next_eq]
        exact hw.fresh _ eX5

end adder

section adder
variable {cfg : Config} {s : Heap} {chunks : List Nat} {B : Nat → Prop} {lab : Nat → Nat}

theorem WellFormed.insert_facts (hw : WellFormed cfg s chunks B lab none) (hc : cfg.WF)
    {x : Nat} (hx : ¬ IsNode cfg s.mem B (Ptr.heap x)) :
    s.mem.next (Ptr.sentinel (cfg.N_LISTS - 1)) ≠ Ptr.null ∧
    s.mem.next (Ptr.sentinel (cfg.N_LISTS - 1)) ≠ Ptr.heap x ∧
    (s.mem.next (Ptr.sentinel (cfg.N_LISTS - 1)) = Ptr.sentinel (cfg.N_LISTS - 1) ↔
      s.mem.prev (Ptr.sentinel (cfg.N_LISTS - 1)) = Ptr.sentinel (cfg.N_LISTS - 1)) ∧
    ∀ j, j < cfg.N_LISTS - 1 → s.mem.next (Ptr.sentinel j) = Ptr.sentinel j →
      (mem_insert s.mem (Ptr.sentinel (cfg.N_LISTS - 1)) (Ptr.heap x)).next (Ptr.sentinel j)
        = Ptr.sentinel j := by
  have hN := hc.lists_pos
  have hS : IsNode cfg s.mem B (Ptr.sentinel (cfg.N_LISTS - 1)) := isNode_sentinel (by omega)
  obtain ⟨s1, s2, s3, s4, s5⟩ := hw.links _ hS
  refine ⟨isNode_ne_null s1, fun e => hx (e ▸ s1), hw.links.next_self_iff hS, ?_⟩
  intro j hj hemp
  have n1 : Ptr.sentinel j ≠ Ptr.sentinel (cfg.N_LISTS - 1) := by
    simp only [ne_eq, Ptr.sentinel.injEq]; omega
  have n2 : Ptr.sentinel j ≠ Ptr.heap x := by simp
  simp only [mem_insert, upd_other _ _ _ _ n1, upd_other _ _ _ _ n2]
  exact hemp

/-- The glued branch of `NEW_CHUNK_ADDER` when the last block `T` of the heap is
not free. -/
theorem adder_C (hc : cfg.WF) (hw : WellFormed cfg s chunks B lab none) {f T : Nat}
    (hf : s.lastFencePost = Ptr.heap f) (hbrk : f + cfg.ALLOC_HEADER_SIZE = s.brk)
    (hT : B T) (hsT : s.mem.state (Ptr.heap T) ≠ UNALLOCATED)
    (hnf : s.mem.state (Ptr.heap T) ≠ FENCEPOST)
    (hTf : T + s.mem.size (Ptr.heap T) = f) (raw req : Nat) :
    Refilled cfg s (NEW_CHUNK_ADDER cfg s raw req) req chunks B ∧
      s.brk < (NEW_CHUNK_ADDER cfg s raw req).brk := by
  obtain ⟨c1, c2, c3, c4, c5, c6, c7, c8, c9, c10, c11⟩ := allocate_chunk_spec cfg hc s
  have hH := hc.header_pos
  have hA := hc.arena_large
  have hA8 := hc.arena_aligned
  have hN := hc.lists_pos
  obtain ⟨f0, hf0, L⟩ := hw.layout
  have e0 : f0 = f := by rw [hf] at hf0; exact (Ptr.heap.inj hf0).symm
  subst e0
  have hlsf : s.mem.left_size (Ptr.heap f0) = s.mem.size (Ptr.heap T) := by
    have := (L.right T hT hnf).2 (by simp)
    have this : s.mem.left_size (Ptr.heap (T + s.mem.size (Ptr.heap T))) = _ := this
    rw [hTf] at this; exact this
  have hls : s.mem.left_size (Ptr.heap f0) ≤ f0 := by omega
  have hTeq : f0 - s.mem.left_size (Ptr.heap f0) = T := by omega
  have hszT : cfg.ALLOC_HEADER_SIZE ≤ s.mem.size (Ptr.heap T) := L.size_ge hT
  have e1 : s.brk + cfg.ALLOC_HEADER_SIZE + (cfg.ARENA_SIZE - 2 * cfg.ALLOC_HEADER_SIZE)
      = s.brk + cfg.ARENA_SIZE - cfg.ALLOC_HEADER_SIZE := by omega
  have e2 : s.brk + cfg.ALLOC_HEADER_SIZE - cfg.ALLOC_HEADER_SIZE = s.brk := by omega
  have e2b : s.brk + cfg.ALLOC_HEADER_SIZE - 2 * cfg.ALLOC_HEADER_SIZE = f0 := by omega
  have e3 := c6.left_eq f0 (by omega)
  have e4 := c6.size_eq T (by omega)
  have hk := arena_count_spec cfg hc req
  unfold arena_count at hk
  generalize hs1 : NEW_CHUNK_ADDER cfg s raw req = s1
  unfold NEW_CHUNK_ADDER at hs1
  simp only [c1, c3, hf, get_block_size, get_block_state, c11, offset_heap_nat,
    offset_heap_neg _ _ (show cfg.ALLOC_HEADER_SIZE ≤ s.brk + cfg.ALLOC_HEADER_SIZE by omega),
    offset_heap_neg _ _ (show 2 * cfg.ALLOC_HEADER_SIZE ≤ s.brk + cfg.ALLOC_HEADER_SIZE by omega),
    e1, e2, e2b, e3, offset_heap_neg _ _ hls, hbrk, decide_True, if_true, hTeq, e4] at hs1
  generalize num_chunks_loop cfg (req + 2 * cfg.ALLOC_HEADER_SIZE)
    (req + 2 * cfg.ALLOC_HEADER_SIZE) cfg.ARENA_SIZE / cfg.ARENA_SIZE = k at hk hs1
  have hr := arenas_spec cfg hc s
    { (allocate_chunk cfg s cfg.ARENA_SIZE).2 with
      lastFencePost := Ptr.heap (s.brk + cfg.ARENA_SIZE - cfg.ALLOC_HEADER_SIZE) } k hk.1 rfl rfl
  generalize remaining_chunks_loop cfg (k - 1)
    { (allocate_chunk cfg s cfg.ARENA_SIZE).2 with
      lastFencePost := Ptr.heap (s.brk + cfg.ARENA_SIZE - cfg.ALLOC_HEADER_SIZE) }
    (Ptr.heap (s.brk + cfg.ARENA_SIZE - cfg.ALLOC_HEADER_SIZE)) = r at hr hs1
  obtain ⟨r1, rfp⟩ := r
  obtain ⟨q1, q2, q3, q4, q5, q6⟩ := hr
  simp only at q1 q2 q3 q4 q5 q6 hs1
  subst q1
  have hkA : cfg.ARENA_SIZE ≤ k * cfg.ARENA_SIZE := Nat.le_mul_of_pos_left _ hk.1
  have hE8 : 8 ∣ k * cfg.ARENA_SIZE := Dvd.dvd.mul_left hA8 k
  have efE : s.brk + k * cfg.ARENA_SIZE - cfg.ALLOC_HEADER_SIZE = f0 + k * cfg.ARENA_SIZE := by
    omega
  rw [efE] at hs1
  have eT : T ≠ f0 + k * cfg.ARENA_SIZE := by omega
  have eTf : T ≠ f0 := by omega
  have ef : f0 ≠ f0 + k * cfg.ARENA_SIZE := by omega
  have e5 := q5.state_eq T (by omega)
  have hcl : ¬ (k * cfg.ARENA_SIZE - cfg.ALLOC_HEADER_SIZE) / 8 - 1 < cfg.N_LISTS - 1 := by
    omega
  simp only [set_block_state_ok _ _ _ (heap_ne_null _), set_block_size_ok _ _ _ (heap_ne_null _),
    set_left_size_ok _ _ _ (heap_ne_null _),
    upd_heap, eT, if_false, e5, hsT, if_true, hcl] at hs1
  have hlt : ∀ b, B b → b < s.brk := fun b hb => hw.lt_brk hc hb
  have hff : s.mem.state (Ptr.heap f0) = FENCEPOST := L.last.2.1
  have hxn : ¬ IsNode cfg s.mem B (Ptr.heap f0) := fun h => by
    have := (isNode_heap_iff.1 h).2
    rw [hff] at this
    exact absurd this (by simp)
  obtain ⟨i1, i2, i3, i4⟩ := hw.insert_facts hc hxn
  rw [chunk_list_insert_eq _ _ _ (sentinel_ne_null _) (heap_ne_null _)
    (by show r1.mem.next _ ≠ _; rw [q5.next_eq]; exact i1) (by simp)
    (by show r1.mem.next _ ≠ _; rw [q5.next_eq]; exact i2)
    (by show r1.mem.next _ = _ ↔ r1.mem.prev _ = _; rw [q5.next_eq, q5.prev_eq]; exact i3)] at hs1
  simp only [mem_insert, q5.next_eq, q5.prev_eq] at hs1
  subst hs1
  refine ⟨⟨f0, some f0, fun a => B a ∨ a = f0 + k * cfg.ARENA_SIZE,
    fun a => if a = f0 then cfg.N_LISTS - 1 else lab a, ?_, ?_, ?_, ?_, ?_, ?_, ?_, ?_⟩, ?_⟩
  · refine hw.growC hc hf hbrk ?_ (by omega) hE8 q2 rfl ?_ rfl rfl ?_ ?_ ?_ ?_ ?_ ?_ ?_
    · intro l hl1 hl2
      have : l = T := L.left_unique hc hl1 hT (by
        show l + s.mem.size (Ptr.heap l) = T + s.mem.size (Ptr.heap T)
        omega)
      rw [this]; exact hsT
    · exact q5.crashed_eq.trans hw.not_crashed
    · intro c hc1 hc2
      have e6 : c ≠ f0 + k * cfg.ARENA_SIZE := by omega
      simp only [upd_heap, hc2, e6, if_false]
      exact q5.size_eq c hc1
    · simp only [upd_heap, if_true]
    · intro c hc1 hc2
      have e6 : c ≠ f0 + k * cfg.ARENA_SIZE := by omega
      simp only [upd_heap, hc2, e6, if_false]
      exact q5.state_eq c hc1
    · simp only [upd_heap, if_true]
    · intro c hc1
      simp only [upd_heap]
      split
      · rename_i e
        rw [e, hlsf]
      · exact q5.left_eq c hc1
    · simp only [upd_heap, ef.symm, if_false, if_true]
    · simp only [upd_heap, ef.symm, if_false, if_true]
  · right
    refine ⟨rfl, ?_⟩
    simp only [upd_heap, if_true]
    omega
  · exact Or.inl L.last.1
  · simp only [upd_heap, if_true]
  · simp only [upd_heap, if_true]
    omega
  · simp only [upd_same]
  · intro j hj hemp
    exact i4 j hj hemp
  · intro c hc1 hc2
    have h1 := hlt c hc1
    have e6 : c ≠ f0 + k * cfg.ARENA_SIZE := by omega
    have e8 : c ≠ f0 := fun e => by
      rw [e, hff] at hc2; exact absurd hc2 (by simp)
    simp only [upd_heap, e6, e8, if_false]
    exact ⟨Or.inl hc1, (q5.state_eq c h1).trans hc2, q5.size_eq c h1⟩
  · show s.brk < r1.brk
    omega

end adder

theorem insert_os_chunk_fields (cfg : Config) (s : Heap) (h : Ptr) :
    (insert_os_chunk cfg s h).mem = s.mem ∧
    (insert_os_chunk cfg s h).lastFencePost = s.lastFencePost ∧
    (insert_os_chunk cfg s h).brk = s.brk ∧ (insert_os_chunk cfg s h).base = s.base := by
  unfold insert_os_chunk
  split <;> exact ⟨rfl, rfl, rfl, rfl⟩

section adder
variable {cfg : Config} {s : Heap} {chunks : List Nat} {B : Nat → Prop} {lab : Nat → Nat}

/-- The branch of `NEW_CHUNK_ADDER` for memory that does not continue the last
chunk. -/
theorem adder_I (hc : cfg.WF) (hw : WellFormed cfg s chunks B lab none) {f : Nat}
    (hf : s.lastFencePost = Ptr.heap f) (hne : f + cfg.ALLOC_HEADER_SIZE ≠ s.brk)
    (raw req : Nat) :
    Refilled cfg s (NEW_CHUNK_ADDER cfg s raw req) req (chunks ++ [s.brk]) B ∧
      s.brk < (NEW_CHUNK_ADDER cfg s raw req).brk := by
  obtain ⟨c1, c2, c3, c4, c5, c6, c7, c8, c9, c10, c11⟩ := allocate_chunk_spec cfg hc s
  have hH := hc.header_pos
  have hA := hc.arena_large
  have hA8 := hc.arena_aligned
  have hN := hc.lists_pos
  have e1 : s.brk + cfg.ALLOC_HEADER_SIZE + (cfg.ARENA_SIZE - 2 * cfg.ALLOC_HEADER_SIZE)
      = s.brk + cfg.ARENA_SIZE - cfg.ALLOC_HEADER_SIZE := by omega
  have e2 : s.brk + cfg.ALLOC_HEADER_SIZE - cfg.ALLOC_HEADER_SIZE = s.brk := by omega
  have hk := arena_count_spec cfg hc req
  unfold arena_count at hk
  generalize hs1 : NEW_CHUNK_ADDER cfg s raw req = s1
  unfold NEW_CHUNK_ADDER at hs1
  simp only [c1, c3, hf, get_block_size, get_block_state, c11, offset_heap_nat,
    offset_heap_neg _ _ (show cfg.ALLOC_HEADER_SIZE ≤ s.brk + cfg.ALLOC_HEADER_SIZE by omega),
    e1, e2, Ptr.heap.injEq, hne, decide_False, Bool.false_eq_true, if_false] at hs1
  generalize num_chunks_loop cfg (req + 2 * cfg.ALLOC_HEADER_SIZE)
    (req + 2 * cfg.ALLOC_HEADER_SIZE) cfg.ARENA_SIZE / cfg.ARENA_SIZE = k at hk hs1
  have hr := arenas_spec cfg hc s (allocate_chunk cfg s cfg.ARENA_SIZE).2 k hk.1 rfl rfl
  generalize remaining_chunks_loop cfg (k - 1) (allocate_chunk cfg s cfg.ARENA_SIZE).2
    (Ptr.heap (s.brk + cfg.ARENA_SIZE - cfg.ALLOC_HEADER_SIZE)) = r at hr hs1
  obtain ⟨r1, rfp⟩ := r
  obtain ⟨q1, q2, q3, q4, q5, q6⟩ := hr
  simp only at q1 q2 q3 q4 q5 q6 hs1
  subst q1
  have hkA : cfg.ARENA_SIZE ≤ k * cfg.ARENA_SIZE := Nat.le_mul_of_pos_left _ hk.1
  have hE8 : 8 ∣ k * cfg.ARENA_SIZE := Dvd.dvd.mul_left hA8 k
  have n1 : s.brk ≠ s.brk + cfg.ALLOC_HEADER_SIZE := by omega
  have n2 : s.brk + k * cfg.ARENA_SIZE - cfg.ALLOC_HEADER_SIZE ≠ s.brk + cfg.ALLOC_HEADER_SIZE := by
    omega
  have n3 : s.brk + k * cfg.ARENA_SIZE - cfg.ALLOC_HEADER_SIZE ≠ s.brk := by omega
  simp only [set_block_state_ok _ _ _ (heap_ne_null _), set_block_size_ok _ _ _ (heap_ne_null _),
    set_left_size_ok _ _ _ (heap_ne_null _), upd_heap, n1, n1.symm, n2, n2.symm, n3, n3.symm,
    if_false, if_true, (insert_os_chunk_fields _ _ _).1, (insert_os_chunk_fields _ _ _).2.1,
    (insert_os_chunk_fields _ _ _).2.2.1, (insert_os_chunk_fields _ _ _).2.2.2] at hs1
  have hlt : ∀ b, B b → b < s.brk := fun b hb => hw.lt_brk hc hb
  have hxB : ¬ B (s.brk + cfg.ALLOC_HEADER_SIZE) := fun h => by
    have := hlt _ h; omega
  have hxn : ¬ IsNode cfg s.mem B (Ptr.heap (s.brk + cfg.ALLOC_HEADER_SIZE)) := fun h =>
    hxB (isNode_heap_iff.1 h).1
  obtain ⟨i1, i2, i3, i4⟩ := hw.insert_facts hc hxn
  rw [chunk_list_insert_eq _ _ _ (sentinel_ne_null _) (heap_ne_null _)
    (by show r1.mem.next _ ≠ _; rw [q5.next_eq]; exact i1) (by simp)
    (by show r1.mem.next _ ≠ _; rw [q5.next_eq]; exact i2)
    (by show r1.mem.next _ = _ ↔ r1.mem.prev _ = _; rw [q5.next_eq, q5.prev_eq]; exact i3)] at hs1
  simp only [mem_insert, q5.next_eq, q5.prev_eq] at hs1
  subst hs1
  refine ⟨⟨s.brk + cfg.ALLOC_HEADER_SIZE, none,
    fun a => B a ∨ a = s.brk ∨ a = s.brk + cfg.ALLOC_HEADER_SIZE ∨
      a = s.brk + k * cfg.ARENA_SIZE - cfg.ALLOC_HEADER_SIZE,
    fun a => if a = s.brk + cfg.ALLOC_HEADER_SIZE then cfg.N_LISTS - 1 else lab a,
    ?_, Or.inl rfl, ?_, ?_, ?_, ?_, ?_, ?_⟩, ?_⟩
  · refine hw.growI hc (by omega) hE8 q2 q3 ?_ rfl rfl ?_ ?_ ?_ ?_ ?_ ?_ ?_ ?_ ?_ ?_ ?_
    · exact q5.crashed_eq.trans hw.not_crashed
    · intro c hc1
      have e5 : c ≠ s.brk := by omega
      have e6 : c ≠ s.brk + cfg.ALLOC_HEADER_SIZE := by omega
      have e7 : c ≠ s.brk + k * cfg.ARENA_SIZE - cfg.ALLOC_HEADER_SIZE := by omega
      simp only [upd_heap, e5, e6, e7, if_false]
      exact q5.size_eq c hc1
    · intro c hc1
      have e5 : c ≠ s.brk := by omega
      have e6 : c ≠ s.brk + cfg.ALLOC_HEADER_SIZE := by omega
      have e7 : c ≠ s.brk + k * cfg.ARENA_SIZE - cfg.ALLOC_HEADER_SIZE := by omega
      simp only [upd_heap, e5, e6, e7, if_false]
      exact q5.state_eq c hc1
    · intro c hc1
      have e5 : c ≠ s.brk := by omega
      have e6 : c ≠ s.brk + cfg.ALLOC_HEADER_SIZE := by omega
      have e7 : c ≠ s.brk + k * cfg.ARENA_SIZE - cfg.ALLOC_HEADER_SIZE := by omega
      simp only [upd_heap, e5, e6, e7, if_false]
      exact q5.left_eq c hc1
    · simp only [upd_heap, n3.symm, if_false, if_true]
    · simp only [upd_heap, n3.symm, if_false, if_true]
    · simp only [upd_heap, n1.symm, n2.symm, if_false, if_true]
    · simp only [upd_heap, n1.symm, n2.symm, if_false, if_true]
    · simp only [upd_heap, n1.symm, n2.symm, if_false, if_true]
    · simp only [upd_heap, if_true]
    · simp only [upd_heap, if_true]
    · simp only [upd_heap, if_true]
  · exact Or.inr (Or.inr (Or.inl rfl))
  · simp only [upd_heap, n1.symm, n2.symm, if_false, if_true]
  · simp only [upd_heap, n1.symm, n2.symm, if_false, if_true]
    omega
  · simp only [upd_same]
  · intro j hj hemp
    exact i4 j hj hemp
  · intro c hc1 hc2
    have h1 := hlt c hc1
    have e5 : c ≠ s.brk := by omega
    have e6 : c ≠ s.brk + cfg.ALLOC_HEADER_SIZE := by omega
    have e7 : c ≠ s.brk + k * cfg.ARENA_SIZE - cfg.ALLOC_HEADER_SIZE := by omega
    simp only [upd_heap, e5, e6, e7, if_false]
    exact ⟨Or.inl hc1, (q5.state_eq c h1).trans hc2, q5.size_eq c h1⟩
  · show s.brk < r1.brk
    omega

end adder

/-! ## A process that dereferenced `NULL` stays crashed -/

theorem set_block_size_crashed {m : Memory} (h : m.crashed = true) (p : Ptr) (v : Nat) :
    (set_block_size m p v).crashed = true := by
  unfold set_block_size; split <;> simp [crash, h]

theorem set_block_state_crashed {m : Memory} (h : m.crashed = true) (p : Ptr) (v : BlockState) :
    (set_block_state m p v).crashed = true := by
  unfold set_block_state; split <;> simp [crash, h]

theorem set_left_size_crashed {m : Memory} (h : m.crashed = true) (p : Ptr) (v : Nat) :
    (set_left_size m p v).crashed = true := by
  unfold set_left_size; split <;> simp [crash, h]

theorem set_next_crashed {m : Memory} (h : m.crashed = true) (p v : Ptr) :
    (set_next m p v).crashed = true := by
  unfold set_next; split <;> simp [crash, h]

theorem set_prev_crashed {m : Memory} (h : m.crashed = true) (p v : Ptr) :
    (set_prev m p v).crashed = true := by
  unfold set_prev; split <;> simp [crash, h]

theorem list_unlink_crashed {m : Memory} (h : m.crashed = true) (p : Ptr) :
    (list_unlink m p).crashed = true := by
  unfold list_unlink
  exact set_next_crashed (set_prev_crashed h _ _) _ _

theorem larger_insert_crashed {m : Memory} (h : m.crashed = true) (S p : Ptr) :
    (larger_insert m S p).crashed = true := by
  unfold larger_insert
  split
  · exact set_prev_crashed (set_next_crashed (set_prev_crashed (set_next_crashed h _ _) _ _) _ _)
      _ _
  · exact set_prev_crashed (set_prev_crashed (set_next_crashed (set_next_crashed h _ _) _ _) _ _)
      _ _

theorem chunk_list_insert_crashed {m : Memory} (h : m.crashed = true) (S p : Ptr) :
    (chunk_list_insert m S p).crashed = true := by
  unfold chunk_list_insert
  split
  · exact set_prev_crashed (set_next_crashed (set_prev_crashed (set_next_crashed h _ _) _ _) _ _)
      _ _
  · exact set_next_crashed (set_prev_crashed (set_prev_crashed (set_next_crashed h _ _) _ _) _ _)
      _ _

theorem same_crashed (cfg : Config) {m : Memory} (h : m.crashed = true) (p : Ptr) :
    (SAME_SIZE_ALLOCATOR cfg m p).2.crashed = true := by
  unfold SAME_SIZE_ALLOCATOR
  exact set_block_state_crashed (list_unlink_crashed h _) _ _

theorem larger_crashed (cfg : Config) {m : Memory} (h : m.crashed = true) (p : Ptr) (req : Nat) :
    (LARGER_SIZE_ALLOCATOR cfg m p req).2.crashed = true := by
  unfold LARGER_SIZE_ALLOCATOR
  dsimp only
  split
  · exact same_crashed cfg h p
  · apply set_left_size_crashed
    have h4 := set_left_size_crashed (set_block_size_crashed (set_block_size_crashed
      (set_block_state_crashed h (get_header_from_offset p
        ((get_block_size m p - req : Nat) : Int)) ALLOCATED)
      (get_header_from_offset p ((get_block_size m p - req : Nat) : Int)) req)
      p (get_block_size m p - req))
      (get_header_from_offset p ((get_block_size m p - req : Nat) : Int))
      (get_block_size m p - req)
    split
    · exact larger_insert_crashed (list_unlink_crashed h4 _) _ _
    · exact h4

theorem exact_loop_crashed (cfg : Config) {m : Memory} (h : m.crashed = true) (req : Nat)
    (cnt i : Nat) (r : Ptr × Memory) (hr : exact_lists_loop cfg m req cnt i = some r) :
    r.2.crashed = true := by
  induction cnt generalizing i with
  | zero => simp [exact_lists_loop] at hr
  | succ cnt ih =>
    unfold exact_lists_loop at hr
    split at hr
    · dsimp only at hr
      split at hr
      · split at hr
        · cases hr; simp [crash]
        · split at hr
          · cases hr; exact same_crashed cfg h _
          · split at hr
            · cases hr; exact larger_crashed cfg h _ _
            · exact ih _ hr
      · exact ih _ hr
    · cases hr

theorem last_loop_crashed (cfg : Config) {m : Memory} (h : m.crashed = true) (req : Nat)
    (S : Ptr) (fuel : Nat) (p : Ptr) (r : Ptr × Memory)
    (hr : last_list_loop cfg m req S fuel p = some (some r)) :
    r.2.crashed = true := by
  induction fuel generalizing p with
  | zero => simp [last_list_loop] at hr
  | succ fuel ih =>
    unfold last_list_loop at hr
    split at hr
    · split at hr
      · cases hr; simp [crash]
      · split at hr
        · cases hr; exact same_crashed cfg h _
        · split at hr
          · cases hr; exact larger_crashed cfg h _ _
          · exact ih _ hr
    · cases hr

theorem allocate_chunk_crashed (cfg : Config) {s : Heap} (h : s.mem.crashed = true) (n : Nat) :
    (allocate_chunk cfg s n).2.mem.crashed = true := by
  unfold allocate_chunk insert_fenceposts initialize_fencepost sbrk
  dsimp only
  repeat first
    | exact h
    | apply set_block_size_crashed
    | apply set_block_state_crashed
    | apply set_left_size_crashed

theorem remaining_chunks_crashed (cfg : Config) (n : Nat) {s : Heap} (h : s.mem.crashed = true)
    (p : Ptr) : (remaining_chunks_loop cfg n s p).1.mem.crashed = true := by
  induction n generalizing s p with
  | zero => simpa [remaining_chunks_loop] using h
  | succ n ih =>
    unfold remaining_chunks_loop
    exact ih (allocate_chunk_crashed cfg h _) _

theorem adder_crashed (cfg : Config) {s : Heap} (h : s.mem.crashed = true) (raw req : Nat) :
    (NEW_CHUNK_ADDER cfg s raw req).mem.crashed = true := by
  have h1 := allocate_chunk_crashed cfg h cfg.ARENA_SIZE
  unfold NEW_CHUNK_ADDER
  dsimp only
  split
  · have h2 := remaining_chunks_crashed cfg
      (num_chunks_loop cfg (req + 2 * cfg.ALLOC_HEADER_SIZE) (req + 2 * cfg.ALLOC_HEADER_SIZE)
        cfg.ARENA_SIZE / cfg.ARENA_SIZE - 1)
      (s := { (allocate_chunk cfg s cfg.ARENA_SIZE).2 with
        lastFencePost := get_header_from_offset (allocate_chunk cfg s cfg.ARENA_SIZE).1
          (get_block_size (allocate_chunk cfg s cfg.ARENA_SIZE).2.mem
            (allocate_chunk cfg s cfg.ARENA_SIZE).1) }) h1
      (get_header_from_offset (allocate_chunk cfg s cfg.ARENA_SIZE).1
        (get_block_size (allocate_chunk cfg s cfg.ARENA_SIZE).2.mem
          (allocate_chunk cfg s cfg.ARENA_SIZE).1))
    rename_i hM
    simp only [hM, if_true] at h2 ⊢
    split_ifs <;> (try dsimp only) <;>
    repeat first
      | exact h2
      | apply chunk_list_insert_crashed
      | apply list_unlink_crashed
      | apply set_block_size_crashed
      | apply set_block_state_crashed
      | apply set_left_size_crashed
  · have h2 := remaining_chunks_crashed cfg
      (num_chunks_loop cfg (req + 2 * cfg.ALLOC_HEADER_SIZE) (req + 2 * cfg.ALLOC_HEADER_SIZE)
        cfg.ARENA_SIZE / cfg.ARENA_SIZE - 1) (s := (allocate_chunk cfg s cfg.ARENA_SIZE).2) h1
      (get_header_from_offset (allocate_chunk cfg s cfg.ARENA_SIZE).1
        (get_block_size (allocate_chunk cfg s cfg.ARENA_SIZE).2.mem
          (allocate_chunk cfg s cfg.ARENA_SIZE).1))
    rename_i hM
    simp only [hM] at h2 ⊢
    simp only [(insert_os_chunk_fields _ _ _).1]
    repeat first
      | exact h2
      | apply chunk_list_insert_crashed
      | apply list_unlink_crashed
      | apply set_block_size_crashed
      | apply set_block_state_crashed
      | apply set_left_size_crashed

theorem allocate_object_crashed (cfg : Config) (fuel : Nat) {s : Heap}
    (h : s.mem.crashed = true) (raw : Nat) (p : Ptr) (t : Heap)
    (hr : allocate_object cfg fuel s raw = some (p, t)) : t.mem.crashed = true := by
  induction fuel generalizing s raw with
  | zero =>
    unfold allocate_object at hr
    split at hr
    · cases hr; exact h
    · cases hr
  | succ fuel ih =>
    unfold allocate_object at hr
    split at hr
    · cases hr; exact h
    · dsimp only at hr
      split at hr
      · rename_i r he
        cases hr
        exact exact_loop_crashed cfg h _ _ _ r he
      · split at hr
        · exact ih (adder_crashed cfg h _ _) _ hr
        · split at hr
          · cases hr
          · rename_i r he
            cases hr
            exact last_loop_crashed cfg h _ _ _ _ r he
          · exact ih (adder_crashed cfg h _ _) _ hr

theorem stale_index {A H N : Nat} (hA : 4 * H + 8 * N + 8 ≤ A) (hN : 0 < N) (E : Nat)
    (hE : A ≤ E) :
    (A - 2 * H - H) / 8 - 1 ≠ N - 1 ∧ (A - 2 * H + E - H) / 8 - 1 ≥ N - 1 := by
  omega

/-- A second run of `NEW_CHUNK_ADDER` on the heap that the glued branch left
without re-linking takes the interior header of the last arena for the last
block and unlinks it through its `NULL` links. -/
theorem adder_stale_crash (cfg : Config) (hc : cfg.WF) (s : Heap) (hst : Stale cfg s)
    (raw req : Nat) : (NEW_CHUNK_ADDER cfg s raw req).mem.crashed = true := by
  obtain ⟨f, hf, hbrk, w1, w2, w3, w4, w5⟩ := hst
  obtain ⟨c1, c2, c3, c4, c5, c6, c7, c8, c9, c10, c11⟩ := allocate_chunk_spec cfg hc s
  have hH := hc.header_pos
  have hA := hc.arena_large
  have hls : s.mem.left_size (Ptr.heap f) ≤ f := by omega
  have e1 : s.brk + cfg.ALLOC_HEADER_SIZE + (cfg.ARENA_SIZE - 2 * cfg.ALLOC_HEADER_SIZE)
      = s.brk + cfg.ARENA_SIZE - cfg.ALLOC_HEADER_SIZE := by omega
  have e2 : s.brk + cfg.ALLOC_HEADER_SIZE - cfg.ALLOC_HEADER_SIZE = s.brk := by omega
  have e3 := c6.left_eq f (by omega)
  have hXlt : f - (cfg.ARENA_SIZE - 2 * cfg.ALLOC_HEADER_SIZE) < s.brk := by omega
  have e4 := c6.size_eq _ hXlt
  have hk := arena_count_spec cfg hc req
  unfold arena_count at hk
  generalize hs1 : NEW_CHUNK_ADDER cfg s raw req = s1
  unfold NEW_CHUNK_ADDER at hs1
  simp only [c1, c3, hf, get_block_size, get_block_state, c11, offset_heap_nat,
    offset_heap_neg _ _ (show cfg.ALLOC_HEADER_SIZE ≤ s.brk + cfg.ALLOC_HEADER_SIZE by omega),
    e1, e2, e3, offset_heap_neg _ _ hls, offset_heap_neg _ _ w2, hbrk, decide_True, if_true, w1,
    e4, w4] at hs1
  generalize num_chunks_loop cfg (req + 2 * cfg.ALLOC_HEADER_SIZE)
    (req + 2 * cfg.ALLOC_HEADER_SIZE) cfg.ARENA_SIZE / cfg.ARENA_SIZE = k at hk hs1
  have hr := arenas_spec cfg hc s
    { (allocate_chunk cfg s cfg.ARENA_SIZE).2 with
      lastFencePost := Ptr.heap (s.brk + cfg.ARENA_SIZE - cfg.ALLOC_HEADER_SIZE) } k hk.1 rfl rfl
  generalize remaining_chunks_loop cfg (k - 1)
    { (allocate_chunk cfg s cfg.ARENA_SIZE).2 with
      lastFencePost := Ptr.heap (s.brk + cfg.ARENA_SIZE - cfg.ALLOC_HEADER_SIZE) }
    (Ptr.heap (s.brk + cfg.ARENA_SIZE - cfg.ALLOC_HEADER_SIZE)) = r at hr hs1
  obtain ⟨r1, rfp⟩ := r
  obtain ⟨q1, q2, q3, q4, q5, q6⟩ := hr
  simp only at q1 q2 q3 q4 q5 q6 hs1
  subst q1
  have hkA : cfg.ARENA_SIZE ≤ k * cfg.ARENA_SIZE := Nat.le_mul_of_pos_left _ hk.1
  have eT : f - (cfg.ARENA_SIZE - 2 * cfg.ALLOC_HEADER_SIZE)
      ≠ s.brk + k * cfg.ARENA_SIZE - cfg.ALLOC_HEADER_SIZE := by omega
  have e5 := q5.state_eq _ hXlt
  obtain ⟨i1, i2⟩ := stale_index hA hc.lists_pos (k * cfg.ARENA_SIZE) hkA
  simp only [set_block_state_ok _ _ _ (heap_ne_null _), set_block_size_ok _ _ _ (heap_ne_null _),
    upd_heap, eT, if_false, e5, w3, if_true, i2, i1, ne_eq, not_false_eq_true] at hs1
  subst hs1
  apply chunk_list_insert_crashed
  unfold list_unlink
  apply set_next_crashed
  dsimp only
  rw [q5.next_eq, w5]
  simp [set_prev, crash]

theorem actual_size_facts (cfg : Config) (hc : cfg.WF) (raw : Nat) :
    2 * cfg.ALLOC_HEADER_SIZE ≤ actual_size_of cfg raw ∧ 8 ∣ actual_size_of cfg raw ∧
      raw + cfg.ALLOC_HEADER_SIZE ≤ actual_size_of cfg raw := by
  have hH := hc.header_pos
  have hH8 := hc.header_aligned
  unfold actual_size_of
  dsimp only
  split <;> split <;> refine ⟨by omega, ?_, by omega⟩ <;> omega

theorem actual_size_clamp (cfg : Config) (raw : Nat) :
    actual_size_of cfg (if raw < cfg.ALLOC_HEADER_SIZE then cfg.ALLOC_HEADER_SIZE else raw)
      = actual_size_of cfg raw := by
  unfold actual_size_of
  dsimp only
  by_cases h : raw < cfg.ALLOC_HEADER_SIZE
  · simp [h]
  · simp only [h, if_false]

theorem clamp_ne_zero (cfg : Config) (hc : cfg.WF) (raw : Nat) :
    (if raw < cfg.ALLOC_HEADER_SIZE then cfg.ALLOC_HEADER_SIZE else raw) ≠ 0 := by
  have := hc.header_pos
  split <;> omega

section search
variable {cfg : Config} {s : Heap} {chunks : List Nat} {B : Nat → Prop} {lab : Nat → Nat}
  {hole : Option Nat}

/-- The loop over the exact lists finds nothing when the lists are empty. -/
theorem exact_loop_none_of_empty (cfg : Config) (m : Memory) (req : Nat) (cnt i : Nat)
    (h : ∀ j, i ≤ j → j < cfg.N_LISTS - 1 → m.next (Ptr.sentinel j) = Ptr.sentinel j) :
    exact_lists_loop cfg m req cnt i = none := by
  induction cnt generalizing i with
  | zero => simp [exact_lists_loop]
  | succ cnt ih =>
    unfold exact_lists_loop
    by_cases hi : i < cfg.N_LISTS - 1
    · have := h i (le_refl _) hi
      simp only [hi, if_true, this, ne_eq, not_true_eq_false, false_and, if_false]
      exact ih (i + 1) (fun j hj hj2 => h j (by omega) hj2)
    · simp only [hi, if_false]

/-- In a well-formed heap the loop over the exact lists finds nothing only when
the lists from the index of the request on are empty. -/
theorem exact_loop_none_empty (hc : cfg.WF) (hw : WellFormed cfg s chunks B lab hole)
    {req : Nat} (hr : 2 * cfg.ALLOC_HEADER_SIZE ≤ req) (hr8 : 8 ∣ req) (cnt i : Nat)
    (hi : (req - cfg.ALLOC_HEADER_SIZE) / 8 - 1 ≤ i)
    (h : exact_lists_loop cfg s.mem req cnt i = none) :
    ∀ j, i ≤ j → j < i + cnt → j < cfg.N_LISTS - 1 →
      s.mem.next (Ptr.sentinel j) = Ptr.sentinel j := by
  have hH := hc.header_pos
  have hH8 := hc.header_aligned
  induction cnt generalizing i with
  | zero => intro j h1 h2; omega
  | succ cnt ih =>
    unfold exact_lists_loop at h
    by_cases hi2 : i < cfg.N_LISTS - 1
    · simp only [hi2, if_true] at h
      by_cases hne : s.mem.next (Ptr.sentinel i) ≠ Ptr.sentinel i ∧
          s.mem.prev (Ptr.sentinel i) ≠ Ptr.sentinel i
      · exfalso
        rw [if_pos hne] at h
        obtain ⟨a, ha, hB, hs, hl⟩ := hw.first_node (i := i) (by omega) hne.1
        have hcls := hw.cls a hB hs (by omega)
        rw [ha] at h
        simp only [reduceCtorEq, if_false, get_block_size] at h
        have hge : req ≤ s.mem.size (Ptr.heap a) := by
          obtain ⟨x, hx⟩ := hr8
          obtain ⟨y, hy⟩ := hH8
          rw [hl] at hcls
          omega
        by_cases e1 : s.mem.size (Ptr.heap a) = req
        · simp only [e1, if_true] at h
          cases h
        · simp only [e1, if_false] at h
          have e2 : s.mem.size (Ptr.heap a) > req := by omega
          simp only [e2, if_true] at h
          cases h
      · rw [if_neg hne] at h
        have hS : IsNode cfg s.mem B (Ptr.sentinel i) := isNode_sentinel (by omega)
        have hemp : s.mem.next (Ptr.sentinel i) = Ptr.sentinel i := by
          by_contra hn
          exact hne ⟨hn, fun e => hn ((hw.links.next_self_iff hS).2 e)⟩
        intro j h1 h2 h3
        by_cases e : j = i
        · rw [e]; exact hemp
        · exact ih (i + 1) (by omega) h j (by omega) (by omega) h3
    · intro j h1 h2 h3
      omega

/-- The scan of the last list after the heap has grown in place: the sizes of
the nodes are those of the scan that found nothing, except for the block `T`,
which is now large enough. -/
theorem scan_sim (hw : WellFormed cfg s chunks B lab hole) (hc : cfg.WF) {req T : Nat}
    {m1 : Memory} (hn : m1.next = s.mem.next)
    (hsz : ∀ c, c < s.brk → c ≠ T → m1.size (Ptr.heap c) = s.mem.size (Ptr.heap c))
    (hT : req < m1.size (Ptr.heap T)) (fuel0 : Nat) (p : Ptr)
    (hp : IsNode cfg s.mem B p) (hl : plab lab p = cfg.N_LISTS - 1)
    (h0 : last_list_loop cfg s.mem req (Ptr.sentinel (cfg.N_LISTS - 1)) fuel0 p = some none)
    (fuel1 : Nat) :
    last_list_loop cfg m1 req (Ptr.sentinel (cfg.N_LISTS - 1)) fuel1 p = none ∨
    last_list_loop cfg m1 req (Ptr.sentinel (cfg.N_LISTS - 1)) fuel1 p = some none ∨
    last_list_loop cfg m1 req (Ptr.sentinel (cfg.N_LISTS - 1)) fuel1 p
      = some (some (LARGER_SIZE_ALLOCATOR cfg m1 (Ptr.heap T) req)) := by
  induction fuel0 generalizing p fuel1 with
  | zero => simp [last_list_loop] at h0
  | succ fuel0 ih =>
    cases fuel1 with
    | zero => left; simp [last_list_loop]
    | succ fuel1 =>
      unfold last_list_loop at h0 ⊢
      by_cases hne : p ≠ Ptr.sentinel (cfg.N_LISTS - 1)
      · rw [if_pos hne] at h0 ⊢
        rcases hw.node_cases hp with e | ⟨a, ha, hB, hs⟩
        · rw [hl] at e; exact absurd e hne
        · subst ha
          simp only [reduceCtorEq, if_false, get_block_size] at h0 ⊢
          by_cases e1 : s.mem.size (Ptr.heap a) = req
          · simp only [e1, if_true] at h0
            cases h0
          · simp only [e1, if_false] at h0
            by_cases e2 : s.mem.size (Ptr.heap a) > req
            · simp only [e2, if_true] at h0
              cases h0
            · simp only [e2, if_false] at h0
              by_cases eT : a = T
              · subst eT
                right; right
                have n1 : m1.size (Ptr.heap a) ≠ req := by omega
                have n2 : m1.size (Ptr.heap a) > req := hT
                simp only [n1, n2, if_false, if_true]
              · have e3 := hsz a (hw.lt_brk hc hB) eT
                have e4 : m1.next (Ptr.heap a) = s.mem.next (Ptr.heap a) := by rw [hn]
                simp only [e3, e4, e1, e2, if_false]
                obtain ⟨h1, -, -, -, h5⟩ := hw.links _ hp
                exact ih _ h1 (by rw [h5, hl]) h0 fuel1
      · rw [if_neg hne]
        right; left; rfl

end search

section top
variable {cfg : Config} {s : Heap} {chunks : List Nat} {B : Nat → Prop} {lab : Nat → Nat}
  {hole : Option Nat}

theorem found_good (hc : cfg.WF) (hw : WellFormed cfg s chunks B lab hole) {F req : Nat}
    (hF : B F) (hs : s.mem.state (Ptr.heap F) = UNALLOCATED)
    (hreq : req ≤ s.mem.size (Ptr.heap F)) (hr : 2 * cfg.ALLOC_HEADER_SIZE ≤ req)
    (hr8 : 8 ∣ req)
    (hh : hole = none ∨ (hole = some F ∧
      req + 2 * cfg.ALLOC_HEADER_SIZE ≤ s.mem.size (Ptr.heap F))) :
    AllocGood cfg s { s with mem := (LARGER_SIZE_ALLOCATOR cfg s.mem (Ptr.heap F) req).2 }
      (LARGER_SIZE_ALLOCATOR cfg s.mem (Ptr.heap F) req).1 req chunks B := by
  obtain ⟨a, B2, lab2, h1, h2, h3, h4, h5, h6⟩ := larger_ok hc hw hF hs hreq hr hr8
  refine ⟨a, B2, lab2, h1, ?_, h3, h4, h5, h6, rfl⟩
  rcases hh with e | ⟨e, h7⟩
  · subst e
    simpa using h2
  · subst e
    have : 2 * cfg.ALLOC_HEADER_SIZE ≤ s.mem.size (Ptr.heap F) - req := by omega
    simpa [this] using h2

/-- The recursive call of `allocate_object` after the heap has grown and the new
space is at the head of the last list. -/
theorem rec_head (hc : cfg.WF) {s1 : Heap} {x req : Nat} {hole1 : Option Nat}
    {B1 : Nat → Prop} {lab1 : Nat → Nat} {chunks1 : List Nat}
    (hw1 : WellFormed cfg s1 chunks1 B1 lab1 hole1)
    (hh : hole1 = none ∨ (hole1 = some x ∧
      req + 2 * cfg.ALLOC_HEADER_SIZE ≤ s1.mem.size (Ptr.heap x)))
    (hx : B1 x) (hsx : s1.mem.state (Ptr.heap x) = UNALLOCATED)
    (hreq : req ≤ s1.mem.size (Ptr.heap x))
    (hnext : s1.mem.next (Ptr.sentinel (cfg.N_LISTS - 1)) = Ptr.heap x)
    (hemp : ∀ j, (req - cfg.ALLOC_HEADER_SIZE) / 8 - 1 ≤ j → j < cfg.N_LISTS - 1 →
      s1.mem.next (Ptr.sentinel j) = Ptr.sentinel j)
    {raw : Nat} (hraw : raw ≠ 0) (hact : actual_size_of cfg raw = req) (fuel : Nat)
    (p : Ptr) (t : Heap) (h : allocate_object cfg fuel s1 raw = some (p, t)) :
    AllocGood cfg s1 t p req chunks1 B1 := by
  obtain ⟨hr, hr8, -⟩ := actual_size_facts cfg hc raw
  rw [hact] at hr hr8
  cases fuel with
  | zero =>
    unfold allocate_object at h
    simp [hraw] at h
  | succ fuel =>
    unfold allocate_object at h
    simp only [hraw, if_false, hact] at h
    rw [exact_loop_none_of_empty cfg s1.mem req cfg.N_LISTS _ hemp] at h
    have hne : ¬ (s1.mem.next (Ptr.sentinel (cfg.N_LISTS - 1)) = Ptr.sentinel (cfg.N_LISTS - 1) ∧
        s1.mem.prev (Ptr.sentinel (cfg.N_LISTS - 1)) = Ptr.sentinel (cfg.N_LISTS - 1)) := by
      rw [hnext]; simp
    simp only [hne, if_false, hnext] at h
    cases fuel with
    | zero => simp [last_list_loop] at h
    | succ fuel =>
      unfold last_list_loop at h
      simp only [ne_eq, reduceCtorEq, not_false_eq_true, if_true, if_false, get_block_size] at h
      by_cases e1 : s1.mem.size (Ptr.heap x) = req
      · simp only [e1, if_true] at h
        rw [← larger_eq_same cfg _ _ _ hc.header_pos (show get_block_size s1.mem (Ptr.heap x) = req
          from e1)] at h
        cases h
        exact found_good hc hw1 hx hsx hreq hr hr8 hh
      · have e2 : s1.mem.size (Ptr.heap x) > req := by omega
        simp only [e1, e2, if_false, if_true] at h
        cases h
        exact found_good hc hw1 hx hsx hreq hr hr8 hh

/-- The recursive call of `allocate_object` after the heap has grown in place
and the extended block `T` has stayed where it was in its list. -/
theorem rec_stay (hc : cfg.WF) (hw : WellFormed cfg s chunks B lab none) {s1 : Heap}
    {T req : Nat} {B1 : Nat → Prop} {lab1 : Nat → Nat} {chunks1 : List Nat}
    (hw1 : WellFormed cfg s1 chunks1 B1 lab1 (some T)) (hT : B1 T)
    (hsT : s1.mem.state (Ptr.heap T) = UNALLOCATED)
    (hszT : req + 2 * cfg.ALLOC_HEADER_SIZE ≤ s1.mem.size (Ptr.heap T))
    (hn : s1.mem.next = s.mem.next) (hp : s1.mem.prev = s.mem.prev)
    (hsz : ∀ c, c < s.brk → c ≠ T → s1.mem.size (Ptr.heap c) = s.mem.size (Ptr.heap c))
    (hstale : Stale cfg s1)
    (hemp : ∀ j, (req - cfg.ALLOC_HEADER_SIZE) / 8 - 1 ≤ j → j < cfg.N_LISTS - 1 →
      s.mem.next (Ptr.sentinel j) = Ptr.sentinel j)
    (hscan : (s.mem.next (Ptr.sentinel (cfg.N_LISTS - 1)) = Ptr.sentinel (cfg.N_LISTS - 1) ∧
        s.mem.prev (Ptr.sentinel (cfg.N_LISTS - 1)) = Ptr.sentinel (cfg.N_LISTS - 1)) ∨
      ∃ fuel0, last_list_loop cfg s.mem req (Ptr.sentinel (cfg.N_LISTS - 1)) fuel0
        (s.mem.next (Ptr.sentinel (cfg.N_LISTS - 1))) = some none)
    {raw : Nat} (hraw : raw ≠ 0) (hact : actual_size_of cfg raw = req) (fuel : Nat)
    (p : Ptr) (t : Heap) (h : allocate_object cfg fuel s1 raw = some (p, t))
    (hnc : t.mem.crashed = false) :
    AllocGood cfg s1 t p req chunks1 B1 := by
  obtain ⟨hr, hr8, -⟩ := actual_size_facts cfg hc raw
  rw [hact] at hr hr8
  have hN := hc.lists_pos
  have hH := hc.header_pos
  have hcrash : ∀ fuel1 raw1, allocate_object cfg fuel1 (NEW_CHUNK_ADDER cfg s1 raw1 req) raw1
      = some (p, t) → False := by
    intro fuel1 raw1 h1
    have := allocate_object_crashed cfg fuel1 (adder_stale_crash cfg hc s1 hstale raw1 req)
      raw1 p t h1
    rw [hnc] at this
    exact absurd this (by simp)
  cases fuel with
  | zero =>
    unfold allocate_object at h
    simp [hraw] at h
  | succ fuel =>
    unfold allocate_object at h
    simp only [hraw, if_false, hact] at h
    rw [exact_loop_none_of_empty cfg s1.mem req cfg.N_LISTS _
      (fun j h1 h2 => by rw [hn]; exact hemp j h1 h2)] at h
    simp only [hn, hp] at h
    split at h
    · exact absurd h (hcrash _ _)
    · rename_i hne
      rcases hscan with he | ⟨fuel0, h0⟩
      · exact absurd he hne
      · have hS : IsNode cfg s.mem B (Ptr.sentinel (cfg.N_LISTS - 1)) :=
          isNode_sentinel (by omega)
        obtain ⟨s1n, -, -, -, s5⟩ := hw.links _ hS
        rcases scan_sim hw hc hn hsz (by omega : req < s1.mem.size (Ptr.heap T)) fuel0 _ s1n
          (by rw [s5]; rfl) h0 fuel with e | e | e
        · rw [e] at h
          cases h
        · rw [e] at h
          exact absurd h (hcrash _ _)
        · rw [e] at h
          cases h
          exact found_good hc hw1 hT hsT (by omega) hr hr8 (Or.inr ⟨rfl, hszT⟩)

end top

section top
variable {cfg : Config} {s : Heap} {chunks : List Nat} {B : Nat → Prop} {lab : Nat → Nat}

theorem AllocGood.direct {t : Heap} {p : Ptr} {req : Nat}
    (h : AllocGood cfg s t p req chunks B) : AllocResult cfg s t p req chunks B := by
  obtain ⟨a, B2, lab2, h1, h2, h3, h4, h5, h6, h7⟩ := h
  refine ⟨a, B2, lab2, h1, ?_, h3, h4, h5, h6⟩
  unfold chunks_after
  rw [if_pos h7]
  exact h2

theorem AllocGood.after {s1 t : Heap} {p : Ptr} {req : Nat} {B1 : Nat → Prop}
    {chunks1 : List Nat} (h : AllocGood cfg s1 t p req chunks1 B1)
    (hk : KeepsAllocated s s1 B B1) (hb : s.brk < s1.brk)
    (hch : chunks1 = if get_header_from_offset s.lastFencePost cfg.ALLOC_HEADER_SIZE
      = Ptr.heap s.brk then chunks else chunks ++ [s.brk]) :
    AllocResult cfg s t p req chunks B := by
  obtain ⟨a, B2, lab2, h1, h2, h3, h4, h5, h6, h7⟩ := h
  refine ⟨a, B2, lab2, h1, ?_, h3, h4, h5, ?_⟩
  · unfold chunks_after
    have : t.brk ≠ s.brk := by omega
    rw [if_neg this, ← hch]
    exact h2
  · constructor
    · intro c hc1 hc2
      obtain ⟨k1, k2, k3⟩ := hk c hc1 hc2
      obtain ⟨g1, g2, g3⟩ := h6.1 c k1 k2
      exact ⟨g1, g2, g3.trans k3⟩
    · intro hh
      obtain ⟨k1, k2, -⟩ := hk a hh.1 hh.2
      exact h6.2 ⟨k1, k2⟩

/-- The call of `NEW_CHUNK_ADDER` followed by the recursive call of
`allocate_object`. -/
theorem after_adder (hc : cfg.WF) (hw : WellFormed cfg s chunks B lab none) {req : Nat}
    (hemp : ∀ j, (req - cfg.ALLOC_HEADER_SIZE) / 8 - 1 ≤ j → j < cfg.N_LISTS - 1 →
      s.mem.next (Ptr.sentinel j) = Ptr.sentinel j)
    (hscan : (s.mem.next (Ptr.sentinel (cfg.N_LISTS - 1)) = Ptr.sentinel (cfg.N_LISTS - 1) ∧
        s.mem.prev (Ptr.sentinel (cfg.N_LISTS - 1)) = Ptr.sentinel (cfg.N_LISTS - 1)) ∨
      ∃ fuel0, last_list_loop cfg s.mem req (Ptr.sentinel (cfg.N_LISTS - 1)) fuel0
        (s.mem.next (Ptr.sentinel (cfg.N_LISTS - 1))) = some none)
    {raw : Nat} (hraw : raw ≠ 0) (hact : actual_size_of cfg raw = req) (fuel : Nat)
    (p : Ptr) (t : Heap)
    (h : allocate_object cfg fuel (NEW_CHUNK_ADDER cfg s raw req) raw = some (p, t))
    (hnc : t.mem.crashed = false) :
    AllocResult cfg s t p req chunks B := by
  have hH := hc.header_pos
  obtain ⟨f, hf, L⟩ := hw.layout
  obtain ⟨-, -, -, l, hl1, hl2, hl3⟩ := L.last
  have hl3 : l + s.mem.size (Ptr.heap l) = f := hl3
  by_cases hg : f + cfg.ALLOC_HEADER_SIZE = s.brk
  · have hch : chunks = if get_header_from_offset s.lastFencePost cfg.ALLOC_HEADER_SIZE
        = Ptr.heap s.brk then chunks else chunks ++ [s.brk] := by
      rw [hf, offset_heap_nat, hg]; simp
    by_cases hsl : s.mem.state (Ptr.heap l) = UNALLOCATED
    · obtain ⟨E, B1, a1, a2, a3, a4, a5, a6, a7⟩ := adder_T hc hw hf hg hl1 hsl hl3 raw req
      rcases a7 with ⟨lab1, w1, w2, w3⟩ | ⟨w1, w2, w3, w4, w5⟩
      · exact (rec_head hc w1 (Or.inr ⟨rfl, by omega⟩) a4 a5 (by omega) w2
          (fun j h1 h2 => w3 j h2 (hemp j h1 h2)) hraw hact fuel p t h).after a3 (by omega) hch
      · exact (rec_stay hc hw w1 a4 a5 (by omega) w2 w3 w4 w5 hemp hscan hraw hact fuel p t h
          hnc).after a3 (by omega) hch
    · obtain ⟨⟨x, hole1, B1, lab1, w1, w2, w3, w4, w5, w6, w7, w8⟩, hb⟩ :=
        adder_C hc hw hf hg hl1 hsl hl2 hl3 raw req
      exact (rec_head hc w1 w2 w3 w4 w5 w6 (fun j h1 h2 => w7 j h2 (hemp j h1 h2)) hraw hact
        fuel p t h).after w8 hb hch
  · have hch : chunks ++ [s.brk] = if get_header_from_offset s.lastFencePost
        cfg.ALLOC_HEADER_SIZE = Ptr.heap s.brk then chunks else chunks ++ [s.brk] := by
      rw [hf, offset_heap_nat]; simp [hg]
    obtain ⟨⟨x, hole1, B1, lab1, w1, w2, w3, w4, w5, w6, w7, w8⟩, hb⟩ :=
      adder_I hc hw hf hg raw req
    exact (rec_head hc w1 w2 w3 w4 w5 w6 (fun j h1 h2 => w7 j h2 (hemp j h1 h2)) hraw hact
      fuel p t h).after w8 hb hch

/-- A call of `allocate_object` with a non-zero size that returns without a
crash hands out a fresh `ALLOCATED` block that is large enough and leaves a
well-formed heap. -/
theorem allocate_ok (hc : cfg.WF) (hw : WellFormed cfg s chunks B lab none) {raw : Nat}
    (hraw : raw ≠ 0) (fuel : Nat) (p : Ptr) (t : Heap)
    (h : allocate_object cfg fuel s raw = some (p, t)) (hnc : t.mem.crashed = false) :
    AllocResult cfg s t p (actual_size_of cfg raw) chunks B := by
  obtain ⟨hr, hr8, -⟩ := actual_size_facts cfg hc raw
  have hN := hc.lists_pos
  cases fuel with
  | zero =>
    unfold allocate_object at h
    simp [hraw] at h
  | succ fuel =>
    unfold allocate_object at h
    simp only [hraw, if_false] at h
    split at h
    · rename_i r he
      obtain ⟨F, f1, f2, f3, f4⟩ := exact_loop_found hc hw _ _ _ r he
      cases h
      rw [f4]
      exact (found_good hc hw f1 f2 f3 hr hr8 (Or.inl rfl)).direct
    · rename_i he
      have hemp := exact_loop_none_empty hc hw hr hr8 cfg.N_LISTS _ (le_refl _) he
      have hemp2 : ∀ j, (actual_size_of cfg raw - cfg.ALLOC_HEADER_SIZE) / 8 - 1 ≤ j →
          j < cfg.N_LISTS - 1 → s.mem.next (Ptr.sentinel j) = Ptr.sentinel j :=
        fun j h1 h2 => hemp j h1 (by omega) h2
      have hS : IsNode cfg s.mem B (Ptr.sentinel (cfg.N_LISTS - 1)) :=
        isNode_sentinel (by omega)
      obtain ⟨s1n, -, -, -, s5⟩ := hw.links _ hS
      split at h
      · rename_i hempty
        exact after_adder hc hw hemp2 (Or.inl hempty) (clamp_ne_zero cfg hc raw)
          (actual_size_clamp cfg raw) fuel p t h hnc
      · split at h
        · cases h
        · rename_i r hscan
          obtain ⟨F, f1, f2, f3, f4⟩ := last_loop_found hc hw _ _ _ r s1n (by rw [s5]; rfl) hscan
          cases h
          rw [f4]
          exact (found_good hc hw f1 f2 f3 hr hr8 (Or.inl rfl)).direct
        · rename_i hscan
          exact after_adder hc hw hemp2 (Or.inr ⟨_, hscan⟩) (clamp_ne_zero cfg hc raw)
            (actual_size_clamp cfg raw) fuel p t h hnc

end top

/-- The left fencepost and the left size of the interior header after
`allocate_chunk`. -/
theorem allocate_chunk_left (cfg : Config) (hc : cfg.WF) (s : Heap) :
    (allocate_chunk cfg s cfg.ARENA_SIZE).2.mem.state (Ptr.heap s.brk) = FENCEPOST ∧
    (allocate_chunk cfg s cfg.ARENA_SIZE).2.mem.size (Ptr.heap s.brk) = cfg.ALLOC_HEADER_SIZE ∧
    (allocate_chunk cfg s cfg.ARENA_SIZE).2.mem.left_size
      (Ptr.heap (s.brk + cfg.ALLOC_HEADER_SIZE)) = cfg.ALLOC_HEADER_SIZE := by
  have hH := hc.header_pos
  have hA := hc.arena_large
  have e1 : s.brk + (cfg.ARENA_SIZE - cfg.ALLOC_HEADER_SIZE)
      = s.brk + cfg.ARENA_SIZE - cfg.ALLOC_HEADER_SIZE := by omega
  have e2 : s.brk ≠ s.brk + cfg.ALLOC_HEADER_SIZE := by omega
  have e4 : s.brk ≠ s.brk + cfg.ARENA_SIZE - cfg.ALLOC_HEADER_SIZE := by omega
  simp only [allocate_chunk, sbrk, insert_fenceposts, initialize_fencepost, offset_heap_nat,
    set_block_state_ok _ _ _ (heap_ne_null _), set_block_size_ok _ _ _ (heap_ne_null _),
    set_left_size_ok _ _ _ (heap_ne_null _), e1, upd_heap, e2, e4, if_false, if_true]
  exact ⟨trivial, trivial, trivial⟩

/-- The loop over the sentinels in `init` writes the links of the sentinels
`i, ..., i + cnt - 1` and nothing else. -/
theorem init_sentinels_spec (m : Memory) (cnt i : Nat) :
    (init_sentinels m cnt i).size = m.size ∧ (init_sentinels m cnt i).state = m.state ∧
    (init_sentinels m cnt i).left_size = m.left_size ∧
    (init_sentinels m cnt i).crashed = m.crashed ∧
    (∀ a, (init_sentinels m cnt i).next (Ptr.heap a) = m.next (Ptr.heap a)) ∧
    (∀ a, (init_sentinels m cnt i).prev (Ptr.heap a) = m.prev (Ptr.heap a)) ∧
    (∀ j, j < i → (init_sentinels m cnt i).next (Ptr.sentinel j) = m.next (Ptr.sentinel j) ∧
      (init_sentinels m cnt i).prev (Ptr.sentinel j) = m.prev (Ptr.sentinel j)) ∧
    (∀ j, i ≤ j → j < i + cnt →
      (init_sentinels m cnt i).next (Ptr.sentinel j) = Ptr.sentinel j ∧
      (init_sentinels m cnt i).prev (Ptr.sentinel j) = Ptr.sentinel j) := by
  induction cnt generalizing m i with
  | zero =>
    exact ⟨rfl, rfl, rfl, rfl, fun _ => rfl, fun _ => rfl, fun _ _ => ⟨rfl, rfl⟩,
      fun j h1 h2 => by omega⟩
  | succ cnt ih =>
    have e : init_sentinels m (cnt + 1) i = init_sentinels
        { m with next := upd m.next (Ptr.sentinel i) (Ptr.sentinel i),
                 prev := upd m.prev (Ptr.sentinel i) (Ptr.sentinel i) } cnt (i + 1) := by
      simp only [init_sentinels, set_next_ok _ _ _ (sentinel_ne_null _),
        set_prev_ok _ _ _ (sentinel_ne_null _)]
    rw [e]
    obtain ⟨h1, h2, h3, h4, h5, h6, h7, h8⟩ := ih
      { m with next := upd m.next (Ptr.sentinel i) (Ptr.sentinel i),
               prev := upd m.prev (Ptr.sentinel i) (Ptr.sentinel i) } (i + 1)
    refine ⟨h1, h2, h3, h4, ?_, ?_, ?_, ?_⟩
    · intro a
      rw [h5 a]
      simp [upd]
    · intro a
      rw [h6 a]
      simp [upd]
    · intro j hj
      obtain ⟨g1, g2⟩ := h7 j (by omega)
      have n : Ptr.sentinel j ≠ Ptr.sentinel i := by
        simp only [ne_eq, Ptr.sentinel.injEq]; omega
      rw [g1, g2]
      simp [upd, n]
    · intro j hj1 hj2
      by_cases e : j = i
      · subst e
        obtain ⟨g1, g2⟩ := h7 j (by omega)
        rw [g1, g2]
        simp [upd]
      · exact h8 j (by omega) (by omega)

/-- The layout of a single fresh arena. -/
theorem Layout.single {cfg : Config} (hc : cfg.WF) {lo : Nat} {sz ls : Nat → Nat}
    {fp : Nat → Prop}
    (a1 : sz lo = cfg.ALLOC_HEADER_SIZE) (a2 : fp lo)
    (b1 : sz (lo + cfg.ALLOC_HEADER_SIZE) = cfg.ARENA_SIZE - 2 * cfg.ALLOC_HEADER_SIZE)
    (b2 : ¬ fp (lo + cfg.ALLOC_HEADER_SIZE))
    (b3 : ls (lo + cfg.ALLOC_HEADER_SIZE) = cfg.ALLOC_HEADER_SIZE)
    (c1 : sz (lo + cfg.ARENA_SIZE - cfg.ALLOC_HEADER_SIZE) = cfg.ALLOC_HEADER_SIZE)
    (c2 : fp (lo + cfg.ARENA_SIZE - cfg.ALLOC_HEADER_SIZE))
    (c3 : ls (lo + cfg.ARENA_SIZE - cfg.ALLOC_HEADER_SIZE)
      = cfg.ARENA_SIZE - 2 * cfg.ALLOC_HEADER_SIZE) :
    Layout cfg sz ls fp
      (fun a => a = lo ∨ a = lo + cfg.ALLOC_HEADER_SIZE ∨
        a = lo + cfg.ARENA_SIZE - cfg.ALLOC_HEADER_SIZE)
      (lo + cfg.ARENA_SIZE) [lo] (lo + cfg.ARENA_SIZE - cfg.ALLOC_HEADER_SIZE) none := by
  have hH := hc.header_pos
  have hA := hc.arena_large
  obtain ⟨x, hx⟩ := hc.header_aligned
  obtain ⟨y, hy⟩ := hc.arena_aligned
  have e1 : lo + cfg.ALLOC_HEADER_SIZE + (cfg.ARENA_SIZE - 2 * cfg.ALLOC_HEADER_SIZE)
      = lo + cfg.ARENA_SIZE - cfg.ALLOC_HEADER_SIZE := by omega
  have e2 : lo + cfg.ALLOC_HEADER_SIZE - cfg.ALLOC_HEADER_SIZE = lo := by omega
  refine ⟨?_, ?_, ?_, ?_, ?_, ?_, ?_, ?_, ?_, ?_⟩
  · intro b hb
    rcases hb with rfl | rfl | rfl
    · rw [a1]; omega
    · rw [b1]; omega
    · rw [c1]; omega
  · intro b hb h
    rcases hb with rfl | rfl | rfl
    · exact a1
    · exact absurd h b2
    · exact c1
  · intro b hb h
    rcases hb with rfl | rfl | rfl
    · exact absurd a2 h
    · rw [b1]
      exact ⟨by omega, ⟨y - 2 * x, by omega⟩⟩
    · exact absurd c2 h
  · intro b hb h
    rcases hb with rfl | rfl | rfl
    · exact absurd a2 h
    · rw [b1, e1]
      exact ⟨Or.inr (Or.inr rfl), fun _ => c3⟩
    · exact absurd c2 h
  · intro b hb h
    rcases hb with rfl | rfl | rfl
    · exact absurd a2 h
    · rw [b3, e2]
      exact ⟨by omega, Or.inl rfl, a1⟩
    · exact absurd c2 h
  · intro b c hb hc2 hlt
    rcases hb with rfl | rfl | rfl <;> rcases hc2 with rfl | rfl | rfl <;> omega
  · intro l hl
    simp only [List.mem_singleton] at hl
    subst hl
    exact ⟨Or.inl rfl, a2, Or.inr (Or.inl rfl), b3⟩
  · refine ⟨Or.inr (Or.inr rfl), c2, by omega, lo + cfg.ALLOC_HEADER_SIZE, Or.inr (Or.inl rfl),
      b2, ?_⟩
    rw [b1, e1]
  · intro b hb h
    rcases hb with rfl | rfl | rfl
    · left; simp
    · exact absurd h b2
    · right
      exact ⟨lo + cfg.ALLOC_HEADER_SIZE, Or.inr (Or.inl rfl), b2, by rw [b1, e1]⟩
  · intro b hb h h2
    rcases hb with rfl | rfl | rfl
    · exact absurd a2 h
    · rw [b3, e2]; simp
    · exact absurd c2 h

/-- The heap that `init` builds is well-formed: one chunk, whose interior is one
free block in the last list. -/
theorem init_wf (cfg : Config) (hc : cfg.WF) (brk0 : Nat) :
    WellFormed cfg (init cfg brk0) [brk0]
      (fun a => a = brk0 ∨ a = brk0 + cfg.ALLOC_HEADER_SIZE ∨
        a = brk0 + cfg.ARENA_SIZE - cfg.ALLOC_HEADER_SIZE)
      (fun _ => cfg.N_LISTS - 1) none := by
  have hH := hc.header_pos
  have hA := hc.arena_large
  have hN := hc.lists_pos
  obtain ⟨c1, c2, c3, c4, c5, c6, c7, c8, c9, c10, c11⟩ := allocate_chunk_spec cfg hc
    { mem := blank_memory, lastFencePost := Ptr.null, base := Ptr.null, osChunkList := [],
      brk := brk0 }
  obtain ⟨d1, d2, d3⟩ := allocate_chunk_left cfg hc
    { mem := blank_memory, lastFencePost := Ptr.null, base := Ptr.null, osChunkList := [],
      brk := brk0 }
  simp only at c1 c2 c7 c8 c9 c10 c11 d1 d2 d3
  have e1 : brk0 + cfg.ALLOC_HEADER_SIZE + (cfg.ARENA_SIZE - 2 * cfg.ALLOC_HEADER_SIZE)
      = brk0 + cfg.ARENA_SIZE - cfg.ALLOC_HEADER_SIZE := by omega
  have e2 : brk0 + cfg.ALLOC_HEADER_SIZE - cfg.ALLOC_HEADER_SIZE = brk0 := by omega
  generalize hs1 : init cfg brk0 = t
  unfold init at hs1
  simp only [c1, (insert_os_chunk_fields _ _ _).1, (insert_os_chunk_fields _ _ _).2.1,
    (insert_os_chunk_fields _ _ _).2.2.1, (insert_os_chunk_fields _ _ _).2.2.2,
    get_block_size, c11, offset_heap_nat, e1, c2,
    set_next_ok _ _ _ (sentinel_ne_null _), set_prev_ok _ _ _ (sentinel_ne_null _),
    set_next_ok _ _ _ (heap_ne_null _), set_prev_ok _ _ _ (heap_ne_null _)] at hs1
  generalize hs0 : (allocate_chunk cfg
    { mem := blank_memory, lastFencePost := Ptr.null, base := Ptr.null, osChunkList := [],
      brk := brk0 } cfg.ARENA_SIZE).2 = s1 at hs1 c6 c7 c8 c9 c10 c11 d1 d2 d3
  obtain ⟨i1, i2, i3, i4, i5, i6, -, i8⟩ := init_sentinels_spec s1.mem cfg.N_LISTS 0
  generalize init_sentinels s1.mem cfg.N_LISTS 0 = ms at hs1 i1 i2 i3 i4 i5 i6 i8
  subst hs1
  have hst : ∀ b, (b = brk0 ∨ b = brk0 + cfg.ALLOC_HEADER_SIZE ∨
      b = brk0 + cfg.ARENA_SIZE - cfg.ALLOC_HEADER_SIZE) →
      ms.state (Ptr.heap b) = UNALLOCATED → b = brk0 + cfg.ALLOC_HEADER_SIZE := by
    intro b hb h
    rw [i2] at h
    rcases hb with rfl | rfl | rfl
    · rw [d1] at h; exact absurd h (by simp)
    · rfl
    · rw [c7] at h; exact absurd h (by simp)
  have nS : Ptr.heap (brk0 + cfg.ALLOC_HEADER_SIZE) ≠ Ptr.sentinel (cfg.N_LISTS - 1) := by simp
  refine ⟨?_, ?_, ⟨brk0 + cfg.ARENA_SIZE - cfg.ALLOC_HEADER_SIZE, rfl, ?_⟩, ?_, ?_, ?_⟩
  · show ms.crashed = false
    rw [i4, c6.crashed_eq]; rfl
  · intro a ha
    have ha : brk0 + cfg.ARENA_SIZE ≤ a := ha
    show upd (upd ms.next _ _) _ _ (Ptr.heap a) = Ptr.null
    have n1 : Ptr.heap a ≠ Ptr.heap (brk0 + cfg.ALLOC_HEADER_SIZE) := by
      simp only [ne_eq, Ptr.heap.injEq]; omega
    have n2 : Ptr.heap a ≠ Ptr.sentinel (cfg.N_LISTS - 1) := by simp
    rw [upd_other _ _ _ _ n1, upd_other _ _ _ _ n2, i5, c6.next_eq]
    rfl
  · show Layout cfg (fun a => ms.size (Ptr.heap a)) (fun a => ms.left_size (Ptr.heap a))
      (fun a => ms.state (Ptr.heap a) = FENCEPOST) _ (brk0 + cfg.ARENA_SIZE) _ _ _
    rw [i1, i2, i3]
    exact Layout.single hc d2 d1 c11 (by rw [c10]; simp) d3 c8 c7 c9
  · intro b hb h
    have h : ms.state (Ptr.heap b) = UNALLOCATED := h
    have := hst b hb h
    subst this
    show ms.state (Ptr.heap (_ + ms.size _)) ≠ _
    rw [i1, i2, c11, e1, c7]
    simp
  · intro p hp
    have hblk : ∀ m : Memory, m.state = ms.state → IsNode cfg m
        (fun a => a = brk0 ∨ a = brk0 + cfg.ALLOC_HEADER_SIZE ∨
          a = brk0 + cfg.ARENA_SIZE - cfg.ALLOC_HEADER_SIZE)
        (Ptr.heap (brk0 + cfg.ALLOC_HEADER_SIZE)) := fun m hm =>
      Or.inr ⟨_, rfl, Or.inr (Or.inl rfl), by rw [hm, i2]; exact c10⟩
    have hSn : ∀ (m : Memory) (j : Nat), j < cfg.N_LISTS → IsNode cfg m
        (fun a => a = brk0 ∨ a = brk0 + cfg.ALLOC_HEADER_SIZE ∨
          a = brk0 + cfg.ARENA_SIZE - cfg.ALLOC_HEADER_SIZE)
        (Ptr.sentinel j) := fun m j hj => Or.inl ⟨j, hj, rfl⟩
    rcases hp with ⟨i, hi, e⟩ | ⟨a, e, ha, hs⟩
    · subst e
      by_cases e : i = cfg.N_LISTS - 1
      · subst e
        dsimp only
        simp only [upd_same, upd_other _ _ _ _ nS.symm]
        exact ⟨hblk _ rfl, hblk _ rfl, trivial, trivial, rfl⟩
      · have n1 : Ptr.sentinel i ≠ Ptr.sentinel (cfg.N_LISTS - 1) := by
          simp only [ne_eq, Ptr.sentinel.injEq]; exact e
        have n2 : Ptr.sentinel i ≠ Ptr.heap (brk0 + cfg.ALLOC_HEADER_SIZE) := by simp
        obtain ⟨g1, g2⟩ := i8 i (by omega) (by omega)
        dsimp only
        simp only [upd_other _ _ _ _ n1, upd_other _ _ _ _ n2, g1, g2]
        exact ⟨hSn _ i hi, hSn _ i hi, trivial, trivial, trivial⟩
    · subst e
      have := hst a ha hs
      subst this
      dsimp only
      simp only [upd_same, upd_other _ _ _ _ nS.symm]
      exact ⟨hSn _ _ (by omega), hSn _ _ (by omega), trivial, trivial, rfl⟩
  · intro a _ _ h
    omega

/-! ## The state field after `deallocate_object` -/

theorem set_next_state (m : Memory) (p v : Ptr) : (set_next m p v).state = m.state := by
  unfold set_next; split <;> rfl

theorem set_prev_state (m : Memory) (p v : Ptr) : (set_prev m p v).state = m.state := by
  unfold set_prev; split <;> rfl

theorem set_block_size_state (m : Memory) (p : Ptr) (v : Nat) :
    (set_block_size m p v).state = m.state := by
  unfold set_block_size; split <;> rfl

theorem set_left_size_state (m : Memory) (p : Ptr) (v : Nat) :
    (set_left_size m p v).state = m.state := by
  unfold set_left_size; split <;> rfl

theorem free_unlink_state (m : Memory) (p : Ptr) : (free_unlink m p).state = m.state := by
  unfold free_unlink
  split <;> simp only [set_next_state, set_prev_state]

theorem free_unlink_rev_state (m : Memory) (p : Ptr) :
    (free_unlink_rev m p).state = m.state := by
  unfold free_unlink_rev
  split <;> simp only [set_next_state, set_prev_state]

theorem free_first_insert_state (m : Memory) (S p : Ptr) :
    (free_first_insert m S p).state = m.state := by
  unfold free_first_insert
  split <;> simp only [set_next_state, set_prev_state]

theorem free_insert_state (m : Memory) (S p : Ptr) : (free_insert m S p).state = m.state := by
  unfold free_insert
  split <;> simp only [set_next_state, set_prev_state]

/-- After a call of `deallocate_object` that returns, the header of the block
that was freed reads `UNALLOCATED`, whichever branch the call took. -/
theorem free_state (cfg : Config) (s t : Heap) (b : Nat)
    (h : deallocate_object cfg s (Ptr.heap (b + cfg.ALLOC_HEADER_SIZE))
      = FreeResult.returned t) :
    t.mem.state (Ptr.heap b) = UNALLOCATED := by
  have e1 : get_header_from_offset (Ptr.heap (b + cfg.ALLOC_HEADER_SIZE))
      (-(cfg.ALLOC_HEADER_SIZE : Int)) = Ptr.heap b := by
    rw [offset_heap_neg _ _ (by omega)]; simp
  unfold deallocate_object at h
  simp only [reduceCtorEq, if_false, e1, set_block_state_ok _ _ _ (heap_ne_null b)] at h
  split_ifs at h <;>
    (injection h with h
     subst h
     simp only [free_insert_state, free_unlink_state, free_unlink_rev_state,
       free_first_insert_state, set_next_state, set_prev_state, set_block_size_state,
       set_left_size_state, set_block_state_ok _ _ _ (heap_ne_null b), upd_same])

theorem WellFormed.break_moved {cfg : Config} {s : Heap} {chunks : List Nat} {B : Nat → Prop}
    {lab : Nat → Nat} {hole : Option Nat} (hw : WellFormed cfg s chunks B lab hole) (g : Nat) :
    WellFormed cfg { s with brk := s.brk + g } chunks B lab hole := by
  obtain ⟨f, hf, L⟩ := hw.layout
  refine ⟨hw.not_crashed, ?_, ⟨f, hf, L.os_break g⟩, hw.coal, hw.links, hw.cls⟩
  intro a ha
  have ha : s.brk + g ≤ a := ha
  exact hw.fresh a (by omega)

theorem deallocate_null (cfg : Config) (s : Heap) :
    deallocate_object cfg s Ptr.null = FreeResult.returned s := by
  unfold deallocate_object
  simp

theorem allocate_zero (cfg : Config) (fuel : Nat) (s : Heap) :
    allocate_object cfg fuel s 0 = some (Ptr.null, s) := by
  unfold allocate_object
  simp

/-- Every state reached from the initialised heap satisfies the invariant. -/
theorem reachable_inv {cfg : Config} (hc : cfg.WF) {brk0 : Nat} {s : Heap} {chunks : List Nat}
    {live : List (Nat × Nat)} (h : Reachable cfg brk0 s chunks live) :
    Inv cfg s chunks live := by
  have hH := hc.header_pos
  induction h with
  | init =>
    exact ⟨_, _, init_wf cfg hc brk0, by simp, by simp⟩
  | @malloc s t chunks live n fuel a _ _ hm hnc ih =>
    obtain ⟨B, lab, hw, hnd, hl⟩ := ih
    have hn : n ≠ 0 := by
      intro e
      subst e
      unfold my_malloc at hm
      rw [allocate_zero] at hm
      cases hm
    obtain ⟨a1, B2, lab2, h1, h2, h3, h4, h5, h6⟩ := allocate_ok hc hw hn fuel _ t hm hnc
    have ea : a = a1 + cfg.ALLOC_HEADER_SIZE := Ptr.heap.inj h1
    subst ea
    refine ⟨B2, lab2, h2, ?_, ?_⟩
    · simp only [List.map_cons, List.nodup_cons]
      refine ⟨?_, hnd⟩
      intro hmem
      obtain ⟨x, hx, hx1⟩ := List.mem_map.1 hmem
      obtain ⟨g1, g2, g3, -⟩ := hl x hx
      rw [hx1] at g2 g3
      simp only [Nat.add_sub_cancel] at g2 g3
      exact h6.2 ⟨g2, g3⟩
    · intro x hx
      rcases List.mem_cons.1 hx with e | hx
      · subst e
        simp only [Nat.add_sub_cancel]
        exact ⟨by omega, h3, h4, h5⟩
      · obtain ⟨g1, g2, g3, g4⟩ := hl x hx
        obtain ⟨k1, k2, k3⟩ := h6.1 _ g2 g3
        exact ⟨g1, k1, k2, by rw [k3]; exact g4⟩
  | malloc_zero fuel _ hm ih =>
    unfold my_malloc at hm
    rw [allocate_zero] at hm
    cases hm
    exact ih
  | @free s t chunks live a n _ hmem hf hnc ih =>
    obtain ⟨B, lab, hw, hnd, hl⟩ := ih
    obtain ⟨g1, g2, g3, g4⟩ := hl _ hmem
    simp only at g1 g2 g3
    obtain ⟨t2, B2, lab2, f1, f2, f3, -⟩ := free_preserves hc hw g2 g3
    have ea : a - cfg.ALLOC_HEADER_SIZE + cfg.ALLOC_HEADER_SIZE = a := by omega
    rw [ea] at f1
    unfold my_free at hf
    rw [f1] at hf
    injection hf with hf
    subst hf
    have hnd2 : live.Nodup := List.Nodup.of_map _ hnd
    refine ⟨B2, lab2, f2, ?_, ?_⟩
    · exact List.Nodup.sublist (List.Sublist.map _ (List.erase_sublist _ _)) hnd
    · intro x hx
      obtain ⟨hne, hx2⟩ := (List.Nodup.mem_erase_iff hnd2).1 hx
      obtain ⟨k1, k2, k3, k4⟩ := hl x hx2
      have hxa : x.1 ≠ a := by
        intro e
        exact hne (List.inj_on_of_nodup_map hnd hx2 hmem e)
      obtain ⟨j1, j2, j3⟩ := f3 _ k2 (by omega) k3
      exact ⟨k1, j1, j2, by rw [j3]; exact k4⟩
  | free_null _ hf ih =>
    unfold my_free at hf
    rw [deallocate_null] at hf
    injection hf with hf
    subst hf
    exact ih
  | os_break g _ ih =>
    obtain ⟨B, lab, hw, hl⟩ := ih
    exact ⟨B, lab, hw.break_moved g, hl⟩

/-- In doubly linked cycles on finitely many nodes the walk along `nx` from a
node comes back to the node, and meets no node twice before it does. -/
theorem Linked.orbit {Nd : Ptr → Prop} {lb : Ptr → Nat} {nx pv : Ptr → Ptr}
    (h : Linked Nd lb nx pv) (code : Ptr → Nat) (M : Nat) (hcode : ∀ p, Nd p → code p < M)
    (hinj : ∀ p q, Nd p → Nd q → code p = code q → p = q) {S : Ptr} (hS : Nd S) :
    (∀ k, Nd (nx^[k] S)) ∧
      ∃ k, 0 < k ∧ nx^[k] S = S ∧ ∀ a b, a < b → b < k → nx^[a] S ≠ nx^[b] S := by
  have hnode : ∀ k, Nd (nx^[k] S) := by
    intro k
    induction k with
    | zero => exact hS
    | succ k ih =>
      rw [Function.iterate_succ_apply']
      exact (h _ ih).1
  have hnx : ∀ p q, Nd p → Nd q → nx p = nx q → p = q := by
    intro p q hp hq e
    have h1 := (h p hp).2.2.1
    have h2 := (h q hq).2.2.1
    rw [← h1, e, h2]
  have hcancel : ∀ a d, nx^[a + d] S = nx^[a] S → nx^[d] S = S := by
    intro a
    induction a with
    | zero => intro d e; simpa using e
    | succ a ih =>
      intro d e
      have e1 : a + 1 + d = (a + d) + 1 := by omega
      rw [e1, Function.iterate_succ_apply', Function.iterate_succ_apply'] at e
      exact ih d (hnx _ _ (hnode _) (hnode _) e)
  refine ⟨hnode, ?_⟩
  have hex : ∃ d, 0 < d ∧ nx^[d] S = S := by
    obtain ⟨x, hx, y, hy, hne, hxy⟩ := Finset.exists_ne_map_eq_of_card_lt_of_maps_to
      (s := Finset.range (M + 1)) (t := Finset.range M) (f := fun k => code (nx^[k] S))
      (by simp) (fun k _ => Finset.mem_range.2 (hcode _ (hnode k)))
    have hp := hinj _ _ (hnode x) (hnode y) hxy
    rcases Nat.lt_or_gt_of_ne hne with hlt | hlt
    · refine ⟨y - x, by omega, hcancel x (y - x) ?_⟩
      have : x + (y - x) = y := by omega
      rw [this]; exact hp.symm
    · refine ⟨x - y, by omega, hcancel y (x - y) ?_⟩
      have : y + (x - y) = x := by omega
      rw [this]; exact hp
  obtain ⟨d, hd, hdS⟩ := hex
  induction d using Nat.strong_induction_on with
  | _ d ih =>
    by_cases hrep : ∃ a b, a < b ∧ b < d ∧ nx^[a] S = nx^[b] S
    · obtain ⟨a, b, hab, hbd, e⟩ := hrep
      have e2 : nx^[a + (b - a)] S = nx^[a] S := by
        have : a + (b - a) = b := by omega
        rw [this]; exact e.symm
      exact ih (b - a) (by omega) (by omega) (hcancel a (b - a) e2)
    · refine ⟨d, hd, hdS, ?_⟩
      intro a b hab hbd e
      exact hrep ⟨a, b, hab, hbd, e⟩

theorem WellFormed.list_orbit {cfg : Config} {s : Heap} {chunks : List Nat} {B : Nat → Prop}
    {lab : Nat → Nat} {hole : Option Nat} (hw : WellFormed cfg s chunks B lab hole)
    (hc : cfg.WF) {i : Nat} (hi : i < cfg.N_LISTS) :
    (∀ k, IsNode cfg s.mem B (s.mem.next^[k] (Ptr.sentinel i))) ∧
      ∃ k, 0 < k ∧ s.mem.next^[k] (Ptr.sentinel i) = Ptr.sentinel i ∧
        ∀ a b, a < b → b < k →
          s.mem.next^[a] (Ptr.sentinel i) ≠ s.mem.next^[b] (Ptr.sentinel i) := by
  refine hw.links.orbit (node_code cfg) (cfg.N_LISTS + s.brk) ?_ ?_ (isNode_sentinel hi)
  · intro p hp
    rcases hp with ⟨j, hj, e⟩ | ⟨a, e, ha, -⟩
    · subst e; simp only [node_code]; omega
    · subst e
      have := hw.lt_brk hc ha
      simp only [node_code]; omega
  · intro p q hp hq e
    rcases hp with ⟨j, hj, e1⟩ | ⟨a, e1, ha, -⟩ <;>
      rcases hq with ⟨j2, hj2, e2⟩ | ⟨a2, e2, ha2, -⟩ <;>
      subst e1 <;> subst e2 <;> simp only [node_code] at e
    · rw [e]
    · omega
    · omega
    · congr 1; omega

/-- C1 (non-overlap): in every state reached from the initialised heap by calls
of `my_malloc` and `my_free` that return (each `my_free` is given null or a live
pointer), the payload regions `[p, p + n)` of the live allocations are pairwise
disjoint, and each lies inside one `ALLOCATED` block of a chunk, right after the
header of that block. -/
theorem payloads_disjoint_inside {cfg : Config} (hc : cfg.WF) {brk0 : Nat} {s : Heap}
    {chunks : List Nat} {live : List (Nat × Nat)} (h : Reachable cfg brk0 s chunks live) :
    (∀ x ∈ live, ∀ y ∈ live, x ≠ y → x.1 + x.2 ≤ y.1 ∨ y.1 + y.2 ≤ x.1) ∧
    (∀ x ∈ live, ∃ lo ∈ chunks, ∃ b, InChunk s.mem lo b ∧
      s.mem.state (Ptr.heap b) = ALLOCATED ∧ b + cfg.ALLOC_HEADER_SIZE = x.1 ∧
      x.1 + x.2 ≤ b + s.mem.size (Ptr.heap b)) := by
  obtain ⟨B, lab, hw, hnd, hl⟩ := reachable_inv hc h
  obtain ⟨f, -, L⟩ := hw.layout
  have hin : ∀ x ∈ live, x.1 + x.2 ≤ x.1 - cfg.ALLOC_HEADER_SIZE
      + s.mem.size (Ptr.heap (x.1 - cfg.ALLOC_HEADER_SIZE)) := by
    intro x hx
    obtain ⟨g1, g2, g3, g4⟩ := hl x hx
    have := (actual_size_facts cfg hc x.2).2.2
    omega
  constructor
  · intro x hx y hy hne
    obtain ⟨g1, g2, g3, g4⟩ := hl x hx
    obtain ⟨k1, k2, k3, k4⟩ := hl y hy
    have h1 := hin x hx
    have h2 := hin y hy
    have hxy : x.1 ≠ y.1 := fun e => hne (List.inj_on_of_nodup_map hnd hx hy e)
    rcases Nat.lt_or_gt_of_ne hxy with hlt | hlt
    · have := L.disj _ _ g2 k2 (by omega)
      left; omega
    · have := L.disj _ _ k2 g2 (by omega)
      right; omega
  · intro x hx
    obtain ⟨g1, g2, g3, g4⟩ := hl x hx
    obtain ⟨lo, hlo, hch⟩ := hw.block_inChunk hc _ g2
    exact ⟨lo, hlo, x.1 - cfg.ALLOC_HEADER_SIZE, hch, g3, by omega, hin x hx⟩

/-- C3 (bidirectional tags): in every state reached from the initialised heap by
calls of `my_malloc` and `my_free` that return, for every block `b` of a chunk
other than the right fencepost of the chunk, the block at `b + size(b)` has
`left_size = size(b)`. -/
theorem boundary_tags_agree {cfg : Config} (hc : cfg.WF) {brk0 : Nat} {s : Heap}
    {chunks : List Nat} {live : List (Nat × Nat)} (h : Reachable cfg brk0 s chunks live) :
    ∀ lo ∈ chunks, ∀ b, InChunk s.mem lo b →
      (b = lo ∨ s.mem.state (Ptr.heap b) ≠ FENCEPOST) →
      s.mem.left_size (Ptr.heap (b + s.mem.size (Ptr.heap b))) = s.mem.size (Ptr.heap b) := by
  obtain ⟨B, lab, hw, -⟩ := reachable_inv hc h
  obtain ⟨f, -, L⟩ := hw.layout
  intro lo hlo b hb hnr
  have hB := hw.inChunk_block hlo hb
  by_cases e : s.mem.state (Ptr.heap b) = FENCEPOST
  · have e2 : b = lo := hnr.resolve_right (fun h => h e)
    subst e2
    obtain ⟨c1, c2, c3, c4⟩ := L.chunk b hlo
    have := L.fp_size b c1 c2
    have this : s.mem.size (Ptr.heap b) = cfg.ALLOC_HEADER_SIZE := this
    rw [this]
    exact c4
  · exact (L.right b hB e).2 (by simp)

/-- C4 (maximal coalescing): in every state reached from the initialised heap by
calls of `my_malloc` and `my_free` that return, in particular after every
`my_free`, no `UNALLOCATED` block of a chunk has an `UNALLOCATED` right
neighbour. -/
theorem no_adjacent_free_blocks {cfg : Config} (hc : cfg.WF) {brk0 : Nat} {s : Heap}
    {chunks : List Nat} {live : List (Nat × Nat)} (h : Reachable cfg brk0 s chunks live) :
    ∀ lo ∈ chunks, ∀ b, InChunk s.mem lo b → s.mem.state (Ptr.heap b) = UNALLOCATED →
      s.mem.state (Ptr.heap (b + s.mem.size (Ptr.heap b))) ≠ UNALLOCATED := by
  obtain ⟨B, lab, hw, -⟩ := reachable_inv hc h
  intro lo hlo b hb hs
  exact hw.coal b (hw.inChunk_block hlo hb) hs

/-- C5 (link integrity): in every state reached from the initialised heap by
calls of `my_malloc` and `my_free` that return, for each of the `N_LISTS` lists
every node `n` met when following `next` from the sentinel satisfies
`n.next.prev = n` and `n.prev.next = n`, and the walk returns to the sentinel
after `k > 0` steps without meeting a node twice before. -/
theorem free_list_links {cfg : Config} (hc : cfg.WF) {brk0 : Nat} {s : Heap}
    {chunks : List Nat} {live : List (Nat × Nat)} (h : Reachable cfg brk0 s chunks live) :
    ∀ i, i < cfg.N_LISTS →
      (∀ k, s.mem.prev (s.mem.next (s.mem.next^[k] (Ptr.sentinel i)))
          = s.mem.next^[k] (Ptr.sentinel i) ∧
        s.mem.next (s.mem.prev (s.mem.next^[k] (Ptr.sentinel i)))
          = s.mem.next^[k] (Ptr.sentinel i)) ∧
      ∃ k, 0 < k ∧ s.mem.next^[k] (Ptr.sentinel i) = Ptr.sentinel i ∧
        ∀ a b, a < b → b < k →
          s.mem.next^[a] (Ptr.sentinel i) ≠ s.mem.next^[b] (Ptr.sentinel i) := by
  obtain ⟨B, lab, hw, -⟩ := reachable_inv hc h
  intro i hi
  obtain ⟨h1, h2⟩ := hw.list_orbit hc hi
  refine ⟨fun k => ?_, h2⟩
  obtain ⟨-, -, g3, g4, -⟩ := hw.links _ (h1 k)
  exact ⟨g3, g4⟩

/-- C6 (round-trip size): every call `my_malloc(n)` with `n > 0` that returns
in a reachable state returns a heap pointer `p`, and in the state after the call
and in every state reached from it while `p` is live, the header at
`p - ALLOC_HEADER_SIZE` has state `ALLOCATED` and a size of at least
`n + ALLOC_HEADER_SIZE` rounded up to a multiple of 8. -/
theorem round_trip_size {cfg : Config} (hc : cfg.WF) {brk0 : Nat} {s : Heap}
    {chunks : List Nat} {live : List (Nat × Nat)} (h : Reachable cfg brk0 s chunks live) :
    (∀ x ∈ live, cfg.ALLOC_HEADER_SIZE ≤ x.1 ∧
      s.mem.state (Ptr.heap (x.1 - cfg.ALLOC_HEADER_SIZE)) = ALLOCATED ∧
      (x.2 + cfg.ALLOC_HEADER_SIZE + 7) / 8 * 8
        ≤ s.mem.size (Ptr.heap (x.1 - cfg.ALLOC_HEADER_SIZE))) ∧
    (∀ n fuel p t, n ≠ 0 → request_in_range cfg n → my_malloc cfg fuel s n = some (p, t) →
      t.mem.crashed = false →
      ∃ a, p = Ptr.heap a ∧ Reachable cfg brk0 t (chunks_after cfg s t chunks) ((a, n) :: live)) := by
  obtain ⟨B, lab, hw, hnd, hl⟩ := reachable_inv hc h
  constructor
  · intro x hx
    obtain ⟨g1, g2, g3, g4⟩ := hl x hx
    obtain ⟨-, ⟨k, hk⟩, f3⟩ := actual_size_facts cfg hc x.2
    exact ⟨g1, g3, by omega⟩
  · intro n fuel p t hn hr hm hnc
    obtain ⟨a1, B2, lab2, h1, -⟩ := allocate_ok hc hw hn fuel p t hm hnc
    subst h1
    exact ⟨_, rfl, Reachable.malloc n fuel _ h hr hm hnc⟩

theorem cfg16_wf : cfg16.WF :=
  ⟨by decide, by decide, by decide, by decide, by decide⟩

theorem in_range_small (cfg : Config) (n : Nat) (h : n + cfg.ARENA_SIZE
    + 4 * cfg.ALLOC_HEADER_SIZE + 8 ≤ 2147483648) : request_in_range cfg n := by
  unfold request_in_range
  norm_num
  exact h

theorem ex_one_reach : Reachable cfg16 4096 ex_one [4096] [(8152, 24)] :=
  Reachable.malloc 24 2 8152 Reachable.init (in_range_small _ _ (by decide)) rfl rfl

theorem ex_two_reach : Reachable cfg16 4096 ex_two [4096] [(8112, 24), (8152, 24)] :=
  Reachable.malloc 24 2 8112 ex_one_reach (in_range_small _ _ (by decide)) rfl rfl

theorem ex_three_reach : Reachable cfg16 4096 ex_three [4096] [(8112, 24)] :=
  Reachable.free 8152 24 ex_two_reach (by decide) rfl rfl

theorem ex_small_reach : Reachable cfg16 4096 ex_small [4096] [(8160, 8)] :=
  Reachable.malloc 8 2 8160 Reachable.init (in_range_small _ _ (by decide)) rfl rfl

theorem ex_small_free_reach : Reachable cfg16 4096 ex_small_free [4096] [] :=
  Reachable.free 8160 8 ex_small_reach (by decide) rfl rfl

theorem ex_big_reach : Reachable cfg16 4096 ex_big [4096] [(4176, 4000)] :=
  Reachable.malloc 4000 2 4176 Reachable.init (in_range_small _ _ (by decide)) rfl rfl

theorem ex_big_free_reach : Reachable cfg16 4096 ex_big_free [4096] [] :=
  Reachable.free 4176 4000 ex_big_reach (by decide) rfl rfl

theorem ex_big32_reach : Reachable cfg32 4096 ex_big32 [4096] [(4256, 3904)] :=
  Reachable.malloc 3904 2 4256 Reachable.init (in_range_small _ _ (by decide)) rfl rfl

theorem ex_big32_free_reach : Reachable cfg32 4096 ex_big32_free [4096] [] :=
  Reachable.free 4256 3904 ex_big32_reach (by decide) rfl rfl

/-- A call of `deallocate_object` on a pointer whose header reads `UNALLOCATED`
ends in the double-free error with the heap as it was. -/
theorem free_unallocated (cfg : Config) (s : Heap) (a : Nat) (ha : cfg.ALLOC_HEADER_SIZE ≤ a)
    (hs : s.mem.state (Ptr.heap (a - cfg.ALLOC_HEADER_SIZE)) = UNALLOCATED) :
    deallocate_object cfg s (Ptr.heap a) = FreeResult.double_free s := by
  unfold deallocate_object
  simp only [reduceCtorEq, if_false, offset_heap_neg _ _ ha, get_block_state, hs, if_true]

/-- The loop of `verify_chunk` does not run on a header that is a fencepost. -/
theorem verify_chunk_fencepost (m : Memory) (fuel : Nat) (c : Ptr)
    (h : m.state c = FENCEPOST) : verify_chunk m (fuel + 1) c = some Ptr.null := by
  unfold verify_chunk verify_chunk_loop
  simp [get_block_state, h]

/-- When every recorded chunk starts with a fencepost, `verify_tags` returns the
null pointer, which is `false`. -/
theorem verify_tags_valid (m : Memory) (fuel : Nat) (l : List Ptr)
    (h : ∀ c ∈ l, m.state c = FENCEPOST) : verify_tags_loop m (fuel + 1) l = some false := by
  induction l with
  | nil => rfl
  | cons c rest ih =>
    unfold verify_tags_loop
    rw [verify_chunk_fencepost m fuel c (h c (by simp))]
    simp only [ne_eq, not_true_eq_false, if_false]
    exact ih (fun d hd => h d (by simp [hd]))

/-- C2 (free-list membership), violated by the code: after `init`,
`p = my_malloc(ARENA_SIZE - 6 * ALLOC_HEADER_SIZE)` and `my_free(p)` the one
`UNALLOCATED` block, of size `ARENA_SIZE - 2 * ALLOC_HEADER_SIZE`, whose list
index by the formula is `N_LISTS - 1 = 58`, is the only node of list 3 (list 7
with a 32-byte header), and list 58 is empty. -/
theorem freed_block_in_wrong_list :
    (Reachable cfg16 4096 ex_big_free [4096] [] ∧
      ex_big_free.mem.state (Ptr.heap 4112) = UNALLOCATED ∧
      ex_big_free.mem.size (Ptr.heap 4112) = 4064 ∧
      list_index cfg16 4064 = 58 ∧
      ex_big_free.mem.next (Ptr.sentinel 3) = Ptr.heap 4112 ∧
      ex_big_free.mem.next (Ptr.heap 4112) = Ptr.sentinel 3 ∧
      ex_big_free.mem.next (Ptr.sentinel 58) = Ptr.sentinel 58) ∧
    (Reachable cfg32 4096 ex_big32_free [4096] [] ∧
      ex_big32_free.mem.state (Ptr.heap 4128) = UNALLOCATED ∧
      ex_big32_free.mem.size (Ptr.heap 4128) = 4032 ∧
      list_index cfg32 4032 = 58 ∧
      ex_big32_free.mem.next (Ptr.sentinel 7) = Ptr.heap 4128 ∧
      ex_big32_free.mem.next (Ptr.heap 4128) = Ptr.sentinel 7 ∧
      ex_big32_free.mem.next (Ptr.sentinel 58) = Ptr.sentinel 58) :=
  ⟨⟨ex_big_free_reach, by decide, by decide, by decide, by decide, by decide, by decide⟩,
    ⟨ex_big32_free_reach, by decide, by decide, by decide, by decide, by decide, by decide⟩⟩

/-- C7: for every heap state, `my_malloc(0)` returns the null pointer and the
state it was given: no header, list, `lastFencePost`, chunk record or program
break changes. -/
theorem my_malloc_zero (cfg : Config) (fuel : Nat) (s : Heap) :
    my_malloc cfg fuel s 0 = some (Ptr.null, s) :=
  allocate_zero cfg fuel s

/-- C8: for every heap state, `my_free(NULL)` returns and leaves the state as
it was. -/
theorem my_free_null (cfg : Config) (s : Heap) :
    my_free cfg s Ptr.null = FreeResult.returned s :=
  deallocate_null cfg s

/-- C9 (double free is fatal): in every reachable state, for every live
pointer `p` the call `my_free(p)` returns, the header at `p - ALLOC_HEADER_SIZE`
then reads `UNALLOCATED`, and a second `my_free(p)` ends in the double-free
error; and for every heap state, `my_free(p)` on a header that reads
`UNALLOCATED` ends in the error with the heap unmodified. -/
theorem double_free_fatal {cfg : Config} (hc : cfg.WF) {brk0 : Nat} {s : Heap}
    {chunks : List Nat} {live : List (Nat × Nat)} (h : Reachable cfg brk0 s chunks live) :
    (∀ x ∈ live, ∃ t, my_free cfg s (Ptr.heap x.1) = FreeResult.returned t ∧
      t.mem.state (Ptr.heap (x.1 - cfg.ALLOC_HEADER_SIZE)) = UNALLOCATED ∧
      my_free cfg t (Ptr.heap x.1) = FreeResult.double_free t) ∧
    (∀ (u : Heap) (a : Nat), cfg.ALLOC_HEADER_SIZE ≤ a →
      u.mem.state (Ptr.heap (a - cfg.ALLOC_HEADER_SIZE)) = UNALLOCATED →
      my_free cfg u (Ptr.heap a) = FreeResult.double_free u) := by
  obtain ⟨B, lab, hw, hnd, hl⟩ := reachable_inv hc h
  constructor
  · intro x hx
    obtain ⟨g1, g2, g3, g4⟩ := hl x hx
    obtain ⟨t, B2, lab2, f1, -, -, -⟩ := free_preserves hc hw g2 g3
    have hst := free_state cfg s t _ f1
    have ea : x.1 - cfg.ALLOC_HEADER_SIZE + cfg.ALLOC_HEADER_SIZE = x.1 := by omega
    rw [ea] at f1
    exact ⟨t, f1, hst, free_unallocated cfg t x.1 g1 hst⟩
  · intro u a ha hs
    exact free_unallocated cfg u a ha hs

/-- C10, violated by the code: on the heap left by `init`, `p = my_malloc(8)`
and `my_free(p)`, whose lists and boundary tags are consistent, `verify`
returns false: `verify_tags` returns the null pointer of "no invalid header"
as its `bool`. -/
theorem verify_false_on_valid_heap :
    Reachable cfg16 4096 ex_small_free [4096] [] ∧
      verify_freelist cfg16 ex_small_free.mem 8 = some true ∧
      verify_tags ex_small_free 8 = some false ∧
      verify cfg16 ex_small_free 8 = some false :=
  ⟨ex_small_free_reach, by decide, by decide, by decide⟩

theorem payloads_disjoint_inside_witness :
    cfg16.WF ∧ Reachable cfg16 4096 ex_two [4096] [(8112, 24), (8152, 24)] ∧
    ((∀ x ∈ [((8112 : Nat), (24 : Nat)), (8152, 24)], ∀ y ∈ [((8112 : Nat), (24 : Nat)), (8152, 24)],
        x ≠ y → x.1 + x.2 ≤ y.1 ∨ y.1 + y.2 ≤ x.1) ∧
      (∀ x ∈ [((8112 : Nat), (24 : Nat)), (8152, 24)], ∃ lo ∈ [(4096 : Nat)], ∃ b,
        InChunk ex_two.mem lo b ∧ ex_two.mem.state (Ptr.heap b) = ALLOCATED ∧
        b + cfg16.ALLOC_HEADER_SIZE = x.1 ∧ x.1 + x.2 ≤ b + ex_two.mem.size (Ptr.heap b))) :=
  ⟨cfg16_wf, ex_two_reach, payloads_disjoint_inside cfg16_wf ex_two_reach⟩

theorem boundary_tags_agree_witness :
    cfg16.WF ∧ Reachable cfg16 4096 ex_three [4096] [(8112, 24)] ∧
    (∀ lo ∈ [(4096 : Nat)], ∀ b, InChunk ex_three.mem lo b →
      (b = lo ∨ ex_three.mem.state (Ptr.heap b) ≠ FENCEPOST) →
      ex_three.mem.left_size (Ptr.heap (b + ex_three.mem.size (Ptr.heap b)))
        = ex_three.mem.size (Ptr.heap b)) :=
  ⟨cfg16_wf, ex_three_reach, boundary_tags_agree cfg16_wf ex_three_reach⟩

theorem no_adjacent_free_blocks_witness :
    cfg16.WF ∧ Reachable cfg16 4096 ex_three [4096] [(8112, 24)] ∧
    (∀ lo ∈ [(4096 : Nat)], ∀ b, InChunk ex_three.mem lo b →
      ex_three.mem.state (Ptr.heap b) = UNALLOCATED →
      ex_three.mem.state (Ptr.heap (b + ex_three.mem.size (Ptr.heap b))) ≠ UNALLOCATED) :=
  ⟨cfg16_wf, ex_three_reach, no_adjacent_free_blocks cfg16_wf ex_three_reach⟩

theorem free_list_links_witness :
    cfg16.WF ∧ Reachable cfg16 4096 ex_three [4096] [(8112, 24)] ∧
    (∀ i, i < cfg16.N_LISTS →
      (∀ k, ex_three.mem.prev (ex_three.mem.next (ex_three.mem.next^[k] (Ptr.sentinel i)))
          = ex_three.mem.next^[k] (Ptr.sentinel i) ∧
        ex_three.mem.next (ex_three.mem.prev (ex_three.mem.next^[k] (Ptr.sentinel i)))
          = ex_three.mem.next^[k] (Ptr.sentinel i)) ∧
      ∃ k, 0 < k ∧ ex_three.mem.next^[k] (Ptr.sentinel i) = Ptr.sentinel i ∧
        ∀ a b, a < b → b < k →
          ex_three.mem.next^[a] (Ptr.sentinel i) ≠ ex_three.mem.next^[b] (Ptr.sentinel i)) :=
  ⟨cfg16_wf, ex_three_reach, free_list_links cfg16_wf ex_three_reach⟩

theorem round_trip_size_witness :
    cfg16.WF ∧ Reachable cfg16 4096 ex_two [4096] [(8112, 24), (8152, 24)] ∧
    ((∀ x ∈ [((8112 : Nat), (24 : Nat)), (8152, 24)], cfg16.ALLOC_HEADER_SIZE ≤ x.1 ∧
        ex_two.mem.state (Ptr.heap (x.1 - cfg16.ALLOC_HEADER_SIZE)) = ALLOCATED ∧
        (x.2 + cfg16.ALLOC_HEADER_SIZE + 7) / 8 * 8
          ≤ ex_two.mem.size (Ptr.heap (x.1 - cfg16.ALLOC_HEADER_SIZE))) ∧
      (∀ n fuel p t, n ≠ 0 → request_in_range cfg16 n →
        my_malloc cfg16 fuel ex_two n = some (p, t) → t.mem.crashed = false →
        ∃ a, p = Ptr.heap a ∧ Reachable cfg16 4096 t (chunks_after cfg16 ex_two t [4096])
          ((a, n) :: [(8112, 24), (8152, 24)]))) :=
  ⟨cfg16_wf, ex_two_reach, round_trip_size cfg16_wf ex_two_reach⟩

theorem double_free_fatal_witness :
    cfg16.WF ∧ Reachable cfg16 4096 ex_two [4096] [(8112, 24), (8152, 24)] ∧
    ((∀ x ∈ [((8112 : Nat), (24 : Nat)), (8152, 24)], ∃ t,
        my_free cfg16 ex_two (Ptr.heap x.1) = FreeResult.returned t ∧
        t.mem.state (Ptr.heap (x.1 - cfg16.ALLOC_HEADER_SIZE)) = UNALLOCATED ∧
        my_free cfg16 t (Ptr.heap x.1) = FreeResult.double_free t) ∧
      (∀ (u : Heap) (a : Nat), cfg16.ALLOC_HEADER_SIZE ≤ a →
        u.mem.state (Ptr.heap (a - cfg16.ALLOC_HEADER_SIZE)) = UNALLOCATED →
        my_free cfg16 u (Ptr.heap a) = FreeResult.double_free u)) :=
  ⟨cfg16_wf, ex_two_reach, double_free_fatal cfg16_wf ex_two_reach⟩

/-- Within `request_in_range` the machine arithmetic of lines 258-277 of
`allocate_object` is the arithmetic of the model: the `size_t` value
`actual_size` stays below `2^64`, the value assigned to `int i` stays below
`2^31`, and `i` is not negative after the decrement. -/
theorem actual_size_in_range (cfg : Config) (hc : cfg.WF) (n : Nat)
    (hrange : request_in_range cfg n) :
    actual_size_of cfg n < 2 ^ 64 ∧
      actual_size_of cfg n - cfg.ALLOC_HEADER_SIZE < 2 ^ 31 ∧
      1 ≤ (actual_size_of cfg n - cfg.ALLOC_HEADER_SIZE) / 8 := by
  have hH := hc.header_pos
  have hH8 := hc.header_aligned
  unfold request_in_range at hrange
  norm_num at hrange
  norm_num
  unfold actual_size_of
  dsimp only
  split <;> split <;> refine ⟨by omega, by omega, ?_⟩ <;>
    exact (Nat.one_le_div_iff (by decide)).mpr (by omega)

/-- C14 (size rounding), amended: for every `n > 0` in the range of the `int`
arithmetic (`request_in_range`: `n + ARENA_SIZE + 4 * ALLOC_HEADER_SIZE + 8 ≤
2^31`) the block size that `allocate_object(n)` searches for is
`max(n, ALLOC_HEADER_SIZE) + ALLOC_HEADER_SIZE` rounded up to the next multiple
of 8 (a request below the header size is raised to the header size first); it
is a multiple of 8; it is below `2^64`, the start index fits `int i` and is not
negative; and the loop over the exact lists starts at index
`(req - ALLOC_HEADER_SIZE)/8 - 1`: what that loop returns is what
`allocate_object` returns. -/
theorem request_size_rounding (cfg : Config) (hc : cfg.WF) (n : Nat) (hn : 0 < n)
    (hrange : request_in_range cfg n) :
    actual_size_of cfg n
      = (max n cfg.ALLOC_HEADER_SIZE + cfg.ALLOC_HEADER_SIZE + 7) / 8 * 8 ∧
    8 ∣ actual_size_of cfg n ∧
    (actual_size_of cfg n < 2 ^ 64 ∧
      actual_size_of cfg n - cfg.ALLOC_HEADER_SIZE < 2 ^ 31 ∧
      1 ≤ (actual_size_of cfg n - cfg.ALLOC_HEADER_SIZE) / 8) ∧
    ∀ (fuel : Nat) (s : Heap) (r : Ptr × Memory),
      exact_lists_loop cfg s.mem (actual_size_of cfg n) cfg.N_LISTS
        ((actual_size_of cfg n - cfg.ALLOC_HEADER_SIZE) / 8 - 1) = some r →
      allocate_object cfg (fuel + 1) s n = some (r.1, { s with mem := r.2 }) := by
  refine ⟨?_, ?_, actual_size_in_range cfg hc n hrange, ?_⟩
  · unfold actual_size_of
    dsimp only
    by_cases h : n < cfg.ALLOC_HEADER_SIZE
    · have e : max n cfg.ALLOC_HEADER_SIZE = cfg.ALLOC_HEADER_SIZE := by omega
      rw [if_pos h, e]
      split <;> omega
    · have e : max n cfg.ALLOC_HEADER_SIZE = n := by omega
      rw [if_neg h, e]
      split <;> omega
  · unfold actual_size_of
    dsimp only
    split_ifs <;> omega
  · intro fuel s r h
    have hn0 : n ≠ 0 := by omega
    unfold allocate_object
    simp only [hn0, if_false, h]

theorem request_size_rounding_witness :
    cfg16.WF ∧ 0 < 8 ∧ request_in_range cfg16 8 ∧
    (actual_size_of cfg16 8
      = (max 8 cfg16.ALLOC_HEADER_SIZE + cfg16.ALLOC_HEADER_SIZE + 7) / 8 * 8 ∧
    8 ∣ actual_size_of cfg16 8 ∧
    (actual_size_of cfg16 8 < 2 ^ 64 ∧
      actual_size_of cfg16 8 - cfg16.ALLOC_HEADER_SIZE < 2 ^ 31 ∧
      1 ≤ (actual_size_of cfg16 8 - cfg16.ALLOC_HEADER_SIZE) / 8) ∧
    ∀ (fuel : Nat) (s : Heap) (r : Ptr × Memory),
      exact_lists_loop cfg16 s.mem (actual_size_of cfg16 8) cfg16.N_LISTS
        ((actual_size_of cfg16 8 - cfg16.ALLOC_HEADER_SIZE) / 8 - 1) = some r →
      allocate_object cfg16 (fuel + 1) s 8 = some (r.1, { s with mem := r.2 })) :=
  ⟨cfg16_wf, by decide, in_range_small _ _ (by decide),
    request_size_rounding cfg16 cfg16_wf 8 (by decide) (in_range_small _ _ (by decide))⟩

/-- The request `n = 8` with a 16-byte header: the formula of the specification,
`max(n, |H| - |H|) + |H|` rounded up to a multiple of 8, gives 24; the code
searches for 32 bytes, and `my_malloc(8)` on the initialised heap hands out a
block of 32 bytes. -/
theorem request_size_rounding_counterexample :
    (max 8 (cfg16.ALLOC_HEADER_SIZE - cfg16.ALLOC_HEADER_SIZE) + cfg16.ALLOC_HEADER_SIZE + 7)
        / 8 * 8 = 24 ∧
      actual_size_of cfg16 8 = 32 ∧
      my_malloc cfg16 2 (init cfg16 4096) 8 = some (Ptr.heap 8160, ex_small) ∧
      ex_small.mem.size (Ptr.heap 8144) = 32 ∧
      ex_small.mem.state (Ptr.heap 8144) = ALLOCATED :=
  ⟨by decide, by decide, rfl, by decide, by decide⟩

theorem ex_big_again_reach : Reachable cfg16 4096 ex_big_again [4096] [(8272, 4000)] :=
  Reachable.malloc 4000 3 8272 ex_big_free_reach (in_range_small _ _ (by decide)) rfl rfl

theorem ex_mix1_reach : Reachable cfg16 4096 ex_mix1 [4096] [(7736, 440)] :=
  Reachable.malloc 440 2 7736 Reachable.init (in_range_small _ _ (by decide)) rfl rfl

theorem ex_mix2_reach : Reachable cfg16 4096 ex_mix2 [4096] [(7704, 16), (7736, 440)] :=
  Reachable.malloc 16 2 7704 ex_mix1_reach (in_range_small _ _ (by decide)) rfl rfl

theorem ex_mix3_reach :
    Reachable cfg16 4096 ex_mix3 [4096] [(7672, 16), (7704, 16), (7736, 440)] :=
  Reachable.malloc 16 2 7672 ex_mix2_reach (in_range_small _ _ (by decide)) rfl rfl

theorem ex_mix4_reach : Reachable cfg16 4096 ex_mix4 [4096] [(7672, 16), (7736, 440)] :=
  Reachable.free 7704 16 ex_mix3_reach (by decide) rfl rfl

theorem ex_mix5_reach : Reachable cfg16 4096 ex_mix5 [4096] [(7672, 16)] :=
  Reachable.free 7736 440 ex_mix4_reach (by decide) rfl rfl

/-- C13 (freed storage is reused before the heap grows), violated by the code:
after `init`, `p = my_malloc(4000)` and `my_free(p)` the heap has an
`UNALLOCATED` block of 4064 bytes, which fits the rounded request of 4016
bytes, and the lists from the index of the request on are empty as is the last
list; a second `my_malloc(4000)` moves the program break from 8192 to 12288. -/
theorem freed_block_not_reused :
    Reachable cfg16 4096 ex_big_free [4096] [] ∧
      ex_big_free.mem.state (Ptr.heap 4112) = UNALLOCATED ∧
      ex_big_free.mem.size (Ptr.heap 4112) = 4064 ∧
      actual_size_of cfg16 4000 = 4016 ∧
      ex_big_free.mem.next (Ptr.sentinel 58) = Ptr.sentinel 58 ∧
      ex_big_free.brk = 8192 ∧
      my_malloc cfg16 3 ex_big_free 4000 = some (Ptr.heap 8272, ex_big_again) ∧
      ex_big_again.mem.crashed = false ∧
      ex_big_again.brk = 12288 :=
  ⟨ex_big_free_reach, by decide, by decide, by decide, by decide, by decide, rfl, by decide,
    by decide⟩

/-- C18 (re-bucketing on left merge), violated by the code: in the heap after
`init` and `p = my_malloc(4000)` the block before `p` has an `UNALLOCATED` left
neighbour of 48 bytes, the first node of list 3, and a fencepost to its right;
`my_free(p)` makes the left neighbour 4064 bytes long, of index 58, and leaves
it the first node of list 3, and list 58 empty. -/
theorem left_merge_not_rebucketed :
    Reachable cfg16 4096 ex_big [4096] [(4176, 4000)] ∧
      (ex_big.mem.state (Ptr.heap 4160) = ALLOCATED ∧
        ex_big.mem.size (Ptr.heap 4160) = 4016 ∧
        ex_big.mem.left_size (Ptr.heap 4160) = 48 ∧
        ex_big.mem.state (Ptr.heap 4112) = UNALLOCATED ∧
        ex_big.mem.size (Ptr.heap 4112) = 48 ∧
        list_index cfg16 48 = 3 ∧
        ex_big.mem.next (Ptr.sentinel 3) = Ptr.heap 4112 ∧
        ex_big.mem.state (Ptr.heap 8176) = FENCEPOST) ∧
      my_free cfg16 ex_big (Ptr.heap 4176) = FreeResult.returned ex_big_free ∧
      (ex_big_free.mem.size (Ptr.heap 4112) = 4064 ∧
        list_index cfg16 4064 = 58 ∧
        ex_big_free.mem.next (Ptr.sentinel 3) = Ptr.heap 4112 ∧
        ex_big_free.mem.next (Ptr.sentinel 58) = Ptr.sentinel 58) :=
  ⟨ex_big_reach, ⟨by decide, by decide, by decide, by decide, by decide, by decide, by decide,
    by decide⟩, rfl, ⟨by decide, by decide, by decide, by decide⟩⟩

/-- C20 (one extension suffices), violated by the code: after `init`,
`a = my_malloc(440)`, `b = my_malloc(16)`, `c = my_malloc(16)`, `my_free(b)`,
`my_free(a)` the call `my_malloc(4000)` runs `NEW_CHUNK_ADDER`, which extends
the last block, of 488 bytes and in list 1, to 4584 bytes and leaves it in list
1; the restarted search finds the exact lists from index 499 on empty and no
block of 4016 bytes in list 58, so `NEW_CHUNK_ADDER` runs a second time and
stores through `NULL`. -/
theorem second_extension_crashes :
    Reachable cfg16 4096 ex_mix5 [4096] [(7672, 16)] ∧
      actual_size_of cfg16 4000 = 4016 ∧
      arena_count cfg16 4016 = 1 ∧
      (ex_mix6.brk = 12288 ∧ ex_mix6.mem.crashed = false ∧
        ex_mix6.mem.state (Ptr.heap 7688) = UNALLOCATED ∧
        ex_mix6.mem.size (Ptr.heap 7688) = 4584 ∧
        ex_mix6.mem.next (Ptr.sentinel 1) = Ptr.heap 7688) ∧
      (exact_lists_loop cfg16 ex_mix6.mem 4016 59 499).isNone = true ∧
      (last_list_loop cfg16 ex_mix6.mem 4016 (Ptr.sentinel 58) 4
        (ex_mix6.mem.next (Ptr.sentinel 58))).map Option.isNone = some true ∧
      (NEW_CHUNK_ADDER cfg16 ex_mix6 4000 4016).mem.crashed = true ∧
      (my_malloc cfg16 4 ex_mix5 4000).map (fun r => r.2.mem.crashed) = some true :=
  ⟨ex_mix5_reach, by decide, by decide,
    ⟨by decide, by decide, by decide, by decide, by decide⟩, by decide, by decide, by decide,
    by decide⟩

section policy
variable {cfg : Config} {s : Heap} {chunks : List Nat} {B : Nat → Prop} {lab : Nat → Nat}
  {hole : Option Nat}

end policy

section split
variable {cfg : Config} {s : Heap} {chunks : List Nat} {B : Nat → Prop} {lab : Nat → Nat}
  {hole : Option Nat}

/-- C16: the postcondition of `LARGER_SIZE_ALLOCATOR` on a free block `F` of a
well-formed heap that sits in the list of its size, for `0 < req <= size(F)` and
`d = size(F) - req`. If `d < 2*ALLOC_HEADER_SIZE`, the result is `F +
ALLOC_HEADER_SIZE`, `F` is `ALLOCATED` with its size unchanged, and `F` is on no
free list. Otherwise the result is `R + ALLOC_HEADER_SIZE` with `R = F + d`,
`size(R) = req`, `state(R) = ALLOCATED`, `R.left_size = d`, `size(F) = d`,
`state(F) = UNALLOCATED`, the block at `R + req` has `left_size = req`, and `F`
is a member of `freelist[min(N_LISTS-1, (d - ALLOC_HEADER_SIZE)/8 - 1)]`. -/
theorem split_postcondition (hc : cfg.WF) (hw : WellFormed cfg s chunks B lab hole)
    (F req : Nat) (hF : B F) (hs : s.mem.state (Ptr.heap F) = UNALLOCATED)
    (hmem : ∃ k, s.mem.next^[k] (Ptr.sentinel (list_index cfg (s.mem.size (Ptr.heap F))))
      = Ptr.heap F)
    (hr : 0 < req) (hreq : req ≤ s.mem.size (Ptr.heap F)) :
    (s.mem.size (Ptr.heap F) - req < 2 * cfg.ALLOC_HEADER_SIZE →
      (LARGER_SIZE_ALLOCATOR cfg s.mem (Ptr.heap F) req).1
          = Ptr.heap (F + cfg.ALLOC_HEADER_SIZE) ∧
        (LARGER_SIZE_ALLOCATOR cfg s.mem (Ptr.heap F) req).2.state (Ptr.heap F) = ALLOCATED ∧
        (LARGER_SIZE_ALLOCATOR cfg s.mem (Ptr.heap F) req).2.size (Ptr.heap F)
          = s.mem.size (Ptr.heap F) ∧
        ∀ i, i < cfg.N_LISTS → ∀ k,
          (LARGER_SIZE_ALLOCATOR cfg s.mem (Ptr.heap F) req).2.next^[k] (Ptr.sentinel i)
            ≠ Ptr.heap F) ∧
    (2 * cfg.ALLOC_HEADER_SIZE ≤ s.mem.size (Ptr.heap F) - req →
      (LARGER_SIZE_ALLOCATOR cfg s.mem (Ptr.heap F) req).1
          = Ptr.heap (F + (s.mem.size (Ptr.heap F) - req) + cfg.ALLOC_HEADER_SIZE) ∧
        (LARGER_SIZE_ALLOCATOR cfg s.mem (Ptr.heap F) req).2.size
          (Ptr.heap (F + (s.mem.size (Ptr.heap F) - req))) = req ∧
        (LARGER_SIZE_ALLOCATOR cfg s.mem (Ptr.heap F) req).2.state
          (Ptr.heap (F + (s.mem.size (Ptr.heap F) - req))) = ALLOCATED ∧
        (LARGER_SIZE_ALLOCATOR cfg s.mem (Ptr.heap F) req).2.left_size
          (Ptr.heap (F + (s.mem.size (Ptr.heap F) - req))) = s.mem.size (Ptr.heap F) - req ∧
        (LARGER_SIZE_ALLOCATOR cfg s.mem (Ptr.heap F) req).2.size (Ptr.heap F)
          = s.mem.size (Ptr.heap F) - req ∧
        (LARGER_SIZE_ALLOCATOR cfg s.mem (Ptr.heap F) req).2.state (Ptr.heap F)
          = UNALLOCATED ∧
        (LARGER_SIZE_ALLOCATOR cfg s.mem (Ptr.heap F) req).2.left_size
          (Ptr.heap (F + (s.mem.size (Ptr.heap F) - req) + req)) = req ∧
        ∃ k, (LARGER_SIZE_ALLOCATOR cfg s.mem (Ptr.heap F) req).2.next^[k]
            (Ptr.sentinel (list_index cfg (s.mem.size (Ptr.heap F) - req)))
          = Ptr.heap F) := by
  have hH := hc.header_pos
  have hN := hc.lists_pos
  constructor
  · intro hd
    have e : LARGER_SIZE_ALLOCATOR cfg s.mem (Ptr.heap F) req
        = SAME_SIZE_ALLOCATOR cfg s.mem (Ptr.heap F) := by
      unfold LARGER_SIZE_ALLOCATOR
      have : get_block_size s.mem (Ptr.heap F) - req < 2 * cfg.ALLOC_HEADER_SIZE := hd
      simp only [this, if_true]
    rw [e, same_eq hw hF hs]
    have hst : upd s.mem.state (Ptr.heap F) ALLOCATED (Ptr.heap F) = ALLOCATED := upd_same _ _ _
    refine ⟨rfl, hst, rfl, ?_⟩
    intro i hi k hk
    have hw2 := hw.take hc hF hs
    have hnode := (hw2.list_orbit hc hi).1 k
    have hnode2 : IsNode cfg { mem_unlink s.mem (Ptr.heap F) with
        state := upd s.mem.state (Ptr.heap F) ALLOCATED } B (Ptr.heap F) :=
      Eq.mp (congrArg (IsNode cfg _ B) hk) hnode
    have h3 := (isNode_heap_iff.1 hnode2).2
    have h4 : (ALLOCATED : BlockState) = UNALLOCATED := hst.symm.trans h3
    cases h4
  · intro hd
    have hd2 : ¬ s.mem.size (Ptr.heap F) - req < 2 * cfg.ALLOC_HEADER_SIZE := by omega
    have n1 : Ptr.heap (F + (s.mem.size (Ptr.heap F) - req)) ≠ Ptr.heap F := by
      simp only [ne_eq, Ptr.heap.injEq]; omega
    have n2 : Ptr.heap (F + (s.mem.size (Ptr.heap F) - req))
        ≠ Ptr.heap (F + (s.mem.size (Ptr.heap F) - req) + req) := by
      simp only [ne_eq, Ptr.heap.injEq]; omega
    by_cases hj : (s.mem.size (Ptr.heap F) - req - cfg.ALLOC_HEADER_SIZE) / 8 - 1
        < cfg.N_LISTS - 1
    · rw [larger_eq_move hw hF hs hd2 hr hH hj]
      refine ⟨rfl, ?_, ?_, ?_, ?_, ?_, ?_, ?_⟩
      · show upd (upd s.mem.size _ _) _ _ _ = _
        rw [upd_other _ _ _ _ n1, upd_same]
      · show upd s.mem.state _ _ _ = _
        rw [upd_same]
      · show upd (upd s.mem.left_size _ _) _ _ _ = _
        rw [upd_other _ _ _ _ n2, upd_same]
      · show upd (upd s.mem.size _ _) _ _ _ = _
        rw [upd_same]
      · show upd s.mem.state _ _ _ = _
        rw [upd_other _ _ _ _ n1.symm, hs]
      · show upd (upd s.mem.left_size _ _) _ _ _ = _
        rw [upd_same]
      · have e : list_index cfg (s.mem.size (Ptr.heap F) - req)
            = (s.mem.size (Ptr.heap F) - req - cfg.ALLOC_HEADER_SIZE) / 8 - 1 := by
          unfold list_index; omega
        rw [e]
        refine ⟨1, ?_⟩
        show (mem_insert (mem_unlink s.mem (Ptr.heap F)) _ (Ptr.heap F)).next _ = _
        unfold mem_insert
        exact upd_same _ _ _
    · rw [larger_eq_stay cfg s.mem hd2 hr hH hj]
      refine ⟨rfl, ?_, ?_, ?_, ?_, ?_, ?_, ?_⟩
      · show upd (upd s.mem.size _ _) _ _ _ = _
        rw [upd_other _ _ _ _ n1, upd_same]
      · show upd s.mem.state _ _ _ = _
        rw [upd_same]
      · show upd (upd s.mem.left_size _ _) _ _ _ = _
        rw [upd_other _ _ _ _ n2, upd_same]
      · show upd (upd s.mem.size _ _) _ _ _ = _
        rw [upd_same]
      · show upd s.mem.state _ _ _ = _
        rw [upd_other _ _ _ _ n1.symm, hs]
      · show upd (upd s.mem.left_size _ _) _ _ _ = _
        rw [upd_same]
      · have e : list_index cfg (s.mem.size (Ptr.heap F) - req) = cfg.N_LISTS - 1 := by
          unfold list_index; omega
        have e2 : list_index cfg (s.mem.size (Ptr.heap F)) = cfg.N_LISTS - 1 := by
          unfold list_index
          have : (s.mem.size (Ptr.heap F) - req - cfg.ALLOC_HEADER_SIZE) / 8
              ≤ (s.mem.size (Ptr.heap F) - cfg.ALLOC_HEADER_SIZE) / 8 :=
            Nat.div_le_div_right (by omega)
          omega
        rw [e]
        rw [e2] at hmem
        exact hmem

end split

/-- The block of the initialised heap, 4064 bytes at 4112, split for a request
of 40 bytes. -/
theorem split_postcondition_witness :
    cfg16.WF ∧
      WellFormed cfg16 (init cfg16 4096) [4096]
        (fun a => a = 4096 ∨ a = 4096 + cfg16.ALLOC_HEADER_SIZE ∨
          a = 4096 + cfg16.ARENA_SIZE - cfg16.ALLOC_HEADER_SIZE)
        (fun _ => cfg16.N_LISTS - 1) none ∧
      (init cfg16 4096).mem.state (Ptr.heap 4112) = UNALLOCATED ∧
      (init cfg16 4096).mem.size (Ptr.heap 4112) = 4064 ∧
      (LARGER_SIZE_ALLOCATOR cfg16 (init cfg16 4096).mem (Ptr.heap 4112) 40).1
        = Ptr.heap (4112 + ((init cfg16 4096).mem.size (Ptr.heap 4112) - 40)
            + cfg16.ALLOC_HEADER_SIZE) ∧
      (LARGER_SIZE_ALLOCATOR cfg16 (init cfg16 4096).mem (Ptr.heap 4112) 40).2.size
        (Ptr.heap 4112) = (init cfg16 4096).mem.size (Ptr.heap 4112) - 40 :=
  ⟨cfg16_wf, init_wf cfg16 cfg16_wf 4096, by decide, by decide,
    ((split_postcondition cfg16_wf (init_wf cfg16 cfg16_wf 4096) 4112 40
      (Or.inr (Or.inl (by decide))) (by decide) ⟨1, by decide⟩ (by decide) (by decide)).2
      (by decide)).1,
    ((split_postcondition cfg16_wf (init_wf cfg16 cfg16_wf 4096) 4112 40
      (Or.inr (Or.inl (by decide))) (by decide) ⟨1, by decide⟩ (by decide) (by decide)).2
      (by decide)).2.2.2.2.1⟩

/-! ## The size and left_size fields after the list operations -/

theorem set_next_size (m : Memory) (p v : Ptr) : (set_next m p v).size = m.size := by
  unfold set_next; split <;> rfl

theorem set_prev_size (m : Memory) (p v : Ptr) : (set_prev m p v).size = m.size := by
  unfold set_prev; split <;> rfl

theorem set_next_left (m : Memory) (p v : Ptr) : (set_next m p v).left_size = m.left_size := by
  unfold set_next; split <;> rfl

theorem set_prev_left (m : Memory) (p v : Ptr) : (set_prev m p v).left_size = m.left_size := by
  unfold set_prev; split <;> rfl

theorem free_unlink_size (m : Memory) (p : Ptr) : (free_unlink m p).size = m.size := by
  unfold free_unlink
  split <;> simp only [set_next_size, set_prev_size]

theorem free_unlink_left (m : Memory) (p : Ptr) :
    (free_unlink m p).left_size = m.left_size := by
  unfold free_unlink
  split <;> simp only [set_next_left, set_prev_left]

theorem free_unlink_rev_size (m : Memory) (p : Ptr) : (free_unlink_rev m p).size = m.size := by
  unfold free_unlink_rev
  split <;> simp only [set_next_size, set_prev_size]

theorem free_unlink_rev_left (m : Memory) (p : Ptr) :
    (free_unlink_rev m p).left_size = m.left_size := by
  unfold free_unlink_rev
  split <;> simp only [set_next_left, set_prev_left]

theorem free_insert_size (m : Memory) (S p : Ptr) : (free_insert m S p).size = m.size := by
  unfold free_insert
  split <;> simp only [set_next_size, set_prev_size]

theorem free_insert_left (m : Memory) (S p : Ptr) :
    (free_insert m S p).left_size = m.left_size := by
  unfold free_insert
  split <;> simp only [set_next_left, set_prev_left]

theorem free_first_insert_size (m : Memory) (S p : Ptr) :
    (free_first_insert m S p).size = m.size := by
  unfold free_first_insert
  split <;> simp only [set_next_size, set_prev_size]

theorem free_first_insert_left (m : Memory) (S p : Ptr) :
    (free_first_insert m S p).left_size = m.left_size := by
  unfold free_first_insert
  split <;> simp only [set_next_left, set_prev_left]

theorem upd_upd_same {α : Type} (f : Ptr → α) (p : Ptr) (v : α) :
    upd (upd f p v) p v = upd f p v := by
  funext q
  unfold upd
  split <;> rfl

/-- The fields of the heap after `free` when neither neighbour is free. -/
theorem free_fields_1 (cfg : Config) (s : Heap) (b : Nat)
    (hst : s.mem.state (Ptr.heap b) ≠ UNALLOCATED)
    (hls : s.mem.left_size (Ptr.heap b) ≤ b)
    (hLb : b - s.mem.left_size (Ptr.heap b) ≠ b)
    (hRb : b + s.mem.size (Ptr.heap b) ≠ b)
    (hL : s.mem.state (Ptr.heap (b - s.mem.left_size (Ptr.heap b))) ≠ UNALLOCATED)
    (hR : s.mem.state (Ptr.heap (b + s.mem.size (Ptr.heap b))) ≠ UNALLOCATED) (t : Heap)
    (h : deallocate_object cfg s (Ptr.heap (b + cfg.ALLOC_HEADER_SIZE))
      = FreeResult.returned t) :
    t.mem.size = s.mem.size ∧ t.mem.left_size = s.mem.left_size ∧
      t.mem.state = upd s.mem.state (Ptr.heap b) UNALLOCATED := by
  rw [free_case1 cfg s b hst hls hLb hRb hL hR] at h
  injection h with h
  rw [← h]
  dsimp only
  simp only [set_block_state_ok _ _ _ (heap_ne_null b), free_first_insert_size,
    free_first_insert_left, free_first_insert_state, upd_upd_same, and_self]

/-- The fields of the heap after `free` when only the left neighbour is free. -/
theorem free_fields_2 (cfg : Config) (s : Heap) (b : Nat)
    (hst : s.mem.state (Ptr.heap b) ≠ UNALLOCATED)
    (hls : s.mem.left_size (Ptr.heap b) ≤ b)
    (hLb : b - s.mem.left_size (Ptr.heap b) ≠ b)
    (hRb : b + s.mem.size (Ptr.heap b) ≠ b)
    (hL : s.mem.state (Ptr.heap (b - s.mem.left_size (Ptr.heap b))) = UNALLOCATED)
    (hR : s.mem.state (Ptr.heap (b + s.mem.size (Ptr.heap b))) ≠ UNALLOCATED) (t : Heap)
    (h : deallocate_object cfg s (Ptr.heap (b + cfg.ALLOC_HEADER_SIZE))
      = FreeResult.returned t) :
    t.mem.size = upd s.mem.size (Ptr.heap (b - s.mem.left_size (Ptr.heap b)))
        (s.mem.size (Ptr.heap b) + s.mem.left_size (Ptr.heap b)) ∧
      t.mem.left_size = upd s.mem.left_size (Ptr.heap (b + s.mem.size (Ptr.heap b)))
        (s.mem.size (Ptr.heap b) + s.mem.left_size (Ptr.heap b)) ∧
      t.mem.state = upd s.mem.state (Ptr.heap b) UNALLOCATED := by
  rw [free_case2 cfg s b hst hls hLb hRb hL hR] at h
  injection h with h
  rw [← h]
  dsimp only
  split_ifs <;>
    simp only [free_insert_size, free_unlink_size, free_insert_left, free_unlink_left,
      free_insert_state, free_unlink_state, and_self]

/-- The fields of the heap after `free` when only the right neighbour is free. -/
theorem free_fields_3 (cfg : Config) (s : Heap) (b : Nat)
    (hst : s.mem.state (Ptr.heap b) ≠ UNALLOCATED)
    (hls : s.mem.left_size (Ptr.heap b) ≤ b)
    (hLb : b - s.mem.left_size (Ptr.heap b) ≠ b)
    (hRb : b + s.mem.size (Ptr.heap b) ≠ b)
    (hL : s.mem.state (Ptr.heap (b - s.mem.left_size (Ptr.heap b))) ≠ UNALLOCATED)
    (hR : s.mem.state (Ptr.heap (b + s.mem.size (Ptr.heap b))) = UNALLOCATED)
    (hpn : s.mem.prev (Ptr.heap (b + s.mem.size (Ptr.heap b))) ≠ Ptr.null)
    (hnn : s.mem.next (Ptr.heap (b + s.mem.size (Ptr.heap b))) ≠ Ptr.null)
    (hpb : s.mem.prev (Ptr.heap (b + s.mem.size (Ptr.heap b))) ≠ Ptr.heap b) (t : Heap)
    (h : deallocate_object cfg s (Ptr.heap (b + cfg.ALLOC_HEADER_SIZE))
      = FreeResult.returned t) :
    t.mem.size = upd s.mem.size (Ptr.heap b)
        (s.mem.size (Ptr.heap b) + s.mem.size (Ptr.heap (b + s.mem.size (Ptr.heap b)))) ∧
      t.mem.left_size = upd s.mem.left_size (Ptr.heap (b + s.mem.size (Ptr.heap b)
          + s.mem.size (Ptr.heap (b + s.mem.size (Ptr.heap b)))))
        (s.mem.size (Ptr.heap b) + s.mem.size (Ptr.heap (b + s.mem.size (Ptr.heap b)))) ∧
      t.mem.state = upd s.mem.state (Ptr.heap b) UNALLOCATED := by
  rw [free_case3 cfg s b hst hls hLb hRb hL hR hpn hnn hpb] at h
  injection h with h
  rw [← h]
  dsimp only
  split_ifs <;>
    simp only [free_insert_size, free_unlink_rev_size, free_insert_left, free_unlink_rev_left,
      free_insert_state, free_unlink_rev_state, and_self]

/-- The fields of the heap after `free` when both neighbours are free. -/
theorem free_fields_4 (cfg : Config) (s : Heap) (b : Nat)
    (hst : s.mem.state (Ptr.heap b) ≠ UNALLOCATED)
    (hls : s.mem.left_size (Ptr.heap b) ≤ b)
    (hLb : b - s.mem.left_size (Ptr.heap b) ≠ b)
    (hRb : b + s.mem.size (Ptr.heap b) ≠ b)
    (hLR : b + s.mem.size (Ptr.heap b) ≠ b - s.mem.left_size (Ptr.heap b))
    (hL : s.mem.state (Ptr.heap (b - s.mem.left_size (Ptr.heap b))) = UNALLOCATED)
    (hR : s.mem.state (Ptr.heap (b + s.mem.size (Ptr.heap b))) = UNALLOCATED) (t : Heap)
    (h : deallocate_object cfg s (Ptr.heap (b + cfg.ALLOC_HEADER_SIZE))
      = FreeResult.returned t) :
    t.mem.size = upd s.mem.size (Ptr.heap (b - s.mem.left_size (Ptr.heap b)))
        (s.mem.size (Ptr.heap (b - s.mem.left_size (Ptr.heap b))) + s.mem.size (Ptr.heap b)
          + s.mem.size (Ptr.heap (b + s.mem.size (Ptr.heap b)))) ∧
      t.mem.left_size = upd s.mem.left_size (Ptr.heap (b + s.mem.size (Ptr.heap b)
          + s.mem.size (Ptr.heap (b + s.mem.size (Ptr.heap b)))))
        (s.mem.size (Ptr.heap (b - s.mem.left_size (Ptr.heap b))) + s.mem.size (Ptr.heap b)
          + s.mem.size (Ptr.heap (b + s.mem.size (Ptr.heap b)))) ∧
      t.mem.state = upd s.mem.state (Ptr.heap b) UNALLOCATED := by
  rw [free_case4 cfg s b hst hls hLb hRb hLR hL hR] at h
  injection h with h
  rw [← h]
  dsimp only
  split_ifs <;>
    simp only [free_insert_size, free_unlink_size, free_insert_left, free_unlink_left,
      free_insert_state, free_unlink_state, and_self]

section coalesce
variable {cfg : Config} {s : Heap} {chunks : List Nat} {B : Nat → Prop} {lab : Nat → Nat}

/-- C17: the coalescing result of `free`. In a well-formed heap, for a block `b`
that is `ALLOCATED`, with left neighbour `L = b - b.left_size` and right neighbour
`R = b + size(b)`, the call `my_free(b + ALLOC_HEADER_SIZE)` returns, and in the
heap it leaves (well-formed again, with the blocks `B2`: those of before without
`b` if `L` was free and without `R` if `R` was free) there is an `UNALLOCATED`
block at `merged_start` (`L` if `L` was `UNALLOCATED`, else `b`) of size
`merged_size` (`size(b)`, plus `size(L)` if `L` was `UNALLOCATED`, plus
`size(R)` if `R` was `UNALLOCATED`; a `FENCEPOST` is not `UNALLOCATED`); the
block right after it has `left_size` equal to that size; and every other block
keeps its size and state. -/
theorem free_coalesces (hc : cfg.WF) (hw : WellFormed cfg s chunks B lab none) {b : Nat}
    (hb : B b) (hst : s.mem.state (Ptr.heap b) = ALLOCATED) :
    ∃ t B2 lab2, my_free cfg s (Ptr.heap (b + cfg.ALLOC_HEADER_SIZE)) = FreeResult.returned t ∧
      WellFormed cfg t chunks B2 lab2 none ∧
      (∀ c, B2 c ↔ (B c ∧
        ¬ (c = b ∧ s.mem.state (Ptr.heap (b - s.mem.left_size (Ptr.heap b))) = UNALLOCATED) ∧
        ¬ (c = b + s.mem.size (Ptr.heap b) ∧
          s.mem.state (Ptr.heap (b + s.mem.size (Ptr.heap b))) = UNALLOCATED))) ∧
      B2 (merged_start s.mem b) ∧
      t.mem.state (Ptr.heap (merged_start s.mem b)) = UNALLOCATED ∧
      t.mem.size (Ptr.heap (merged_start s.mem b)) = merged_size s.mem b ∧
      B2 (merged_start s.mem b + merged_size s.mem b) ∧
      t.mem.left_size (Ptr.heap (merged_start s.mem b + merged_size s.mem b))
        = merged_size s.mem b ∧
      ∀ c, B2 c → c ≠ merged_start s.mem b →
        t.mem.size (Ptr.heap c) = s.mem.size (Ptr.heap c) ∧
        t.mem.state (Ptr.heap c) = s.mem.state (Ptr.heap c) := by
  have hH := hc.header_pos
  have hnf : s.mem.state (Ptr.heap b) ≠ FENCEPOST := by rw [hst]; simp
  obtain ⟨n1, n2, n3, n4, n5, n6, n7, n8⟩ := hw.neighbours hc hb hnf
  obtain ⟨t, B2, lab2, h1, h2, -, h4⟩ := free_preserves hc hw hb hst
  have hsu : s.mem.state (Ptr.heap b) ≠ UNALLOCATED := by rw [hst]; simp
  refine ⟨t, B2, lab2, h1, h2, h4, ?_⟩
  have hne : ∀ {x y : Nat}, x ≠ y → Ptr.heap x ≠ Ptr.heap y := by
    intro x y h e
    exact h (Ptr.heap.inj e)
  by_cases hL : s.mem.state (Ptr.heap (b - s.mem.left_size (Ptr.heap b))) = UNALLOCATED
  · by_cases hR : s.mem.state (Ptr.heap (b + s.mem.size (Ptr.heap b))) = UNALLOCATED
    · obtain ⟨esz, els, est⟩ := free_fields_4 cfg s b hsu n1 (by omega) (by omega) (by omega)
        hL hR t h1
      have hrf : s.mem.state (Ptr.heap (b + s.mem.size (Ptr.heap b))) ≠ FENCEPOST := by
        rw [hR]; simp
      obtain ⟨-, -, -, -, r5, r6, -, -⟩ := hw.neighbours hc n6 hrf
      have e1 : merged_start s.mem b = b - s.mem.left_size (Ptr.heap b) := by
        unfold merged_start; rw [if_pos hL]
      have e2 : merged_size s.mem b = s.mem.size (Ptr.heap (b - s.mem.left_size (Ptr.heap b)))
          + s.mem.size (Ptr.heap b) + s.mem.size (Ptr.heap (b + s.mem.size (Ptr.heap b))) := by
        unfold merged_size; rw [if_pos hL, if_pos hR]; omega
      have e3 : b - s.mem.left_size (Ptr.heap b)
          + (s.mem.size (Ptr.heap (b - s.mem.left_size (Ptr.heap b)))
            + s.mem.size (Ptr.heap b) + s.mem.size (Ptr.heap (b + s.mem.size (Ptr.heap b))))
          = b + s.mem.size (Ptr.heap b)
            + s.mem.size (Ptr.heap (b + s.mem.size (Ptr.heap b))) := by omega
      rw [e1, e2, e3, esz, els, est]
      refine ⟨(h4 _).2 ⟨n3, fun h => absurd h.1 (by omega), fun h => absurd h.1 (by omega)⟩, ?_, upd_same _ _ _,
        (h4 _).2 ⟨r6, fun h => absurd h.1 (by omega), fun h => absurd h.1 (by omega)⟩, upd_same _ _ _, ?_⟩
      · have nLb : Ptr.heap (b - s.mem.left_size (Ptr.heap b)) ≠ Ptr.heap b := hne (by omega)
        rw [upd_other _ _ _ _ nLb, hL]
      · intro c hc2 hcs
        obtain ⟨-, c2, c3⟩ := (h4 c).1 hc2
        have hcb : c ≠ b := fun e => c2 ⟨e, hL⟩
        exact ⟨upd_other _ _ _ _ (hne hcs), upd_other _ _ _ _ (hne hcb)⟩
    · obtain ⟨esz, els, est⟩ := free_fields_2 cfg s b hsu n1 (by omega) (by omega) hL hR t h1
      have e1 : merged_start s.mem b = b - s.mem.left_size (Ptr.heap b) := by
        unfold merged_start; rw [if_pos hL]
      have e2 : merged_size s.mem b
          = s.mem.size (Ptr.heap b) + s.mem.left_size (Ptr.heap b) := by
        unfold merged_size; rw [if_pos hL, if_neg hR, n4]; omega
      have e3 : b - s.mem.left_size (Ptr.heap b)
          + (s.mem.size (Ptr.heap b) + s.mem.left_size (Ptr.heap b))
          = b + s.mem.size (Ptr.heap b) := by omega
      rw [e1, e2, e3, esz, els, est]
      refine ⟨(h4 _).2 ⟨n3, fun h => absurd h.1 (by omega), fun h => hR h.2⟩, ?_, upd_same _ _ _,
        (h4 _).2 ⟨n6, fun h => absurd h.1 (by omega), fun h => hR h.2⟩, upd_same _ _ _, ?_⟩
      · have nLb : Ptr.heap (b - s.mem.left_size (Ptr.heap b)) ≠ Ptr.heap b := hne (by omega)
        rw [upd_other _ _ _ _ nLb, hL]
      · intro c hc2 hcs
        obtain ⟨-, c2, c3⟩ := (h4 c).1 hc2
        have hcb : c ≠ b := fun e => c2 ⟨e, hL⟩
        exact ⟨upd_other _ _ _ _ (hne hcs), upd_other _ _ _ _ (hne hcb)⟩
  · by_cases hR : s.mem.state (Ptr.heap (b + s.mem.size (Ptr.heap b))) = UNALLOCATED
    · have hxr : IsNode cfg s.mem B (Ptr.heap (b + s.mem.size (Ptr.heap b))) :=
        isNode_heap n6 hR
      have hbn : ¬ IsNode cfg s.mem B (Ptr.heap b) := by
        rw [isNode_heap_iff, hst]; simp
      obtain ⟨q1, q2, -, -, -⟩ := hw.links _ hxr
      obtain ⟨esz, els, est⟩ := free_fields_3 cfg s b hsu n1 (by omega) (by omega) hL hR
        (isNode_ne_null q2) (isNode_ne_null q1) (fun e => hbn (e ▸ q2)) t h1
      have hrf : s.mem.state (Ptr.heap (b + s.mem.size (Ptr.heap b))) ≠ FENCEPOST := by
        rw [hR]; simp
      obtain ⟨-, -, -, -, r5, r6, -, -⟩ := hw.neighbours hc n6 hrf
      have e1 : merged_start s.mem b = b := by
        unfold merged_start; rw [if_neg hL]
      have e2 : merged_size s.mem b = s.mem.size (Ptr.heap b)
          + s.mem.size (Ptr.heap (b + s.mem.size (Ptr.heap b))) := by
        unfold merged_size; rw [if_neg hL, if_pos hR]; omega
      have e3 : b + (s.mem.size (Ptr.heap b)
            + s.mem.size (Ptr.heap (b + s.mem.size (Ptr.heap b))))
          = b + s.mem.size (Ptr.heap b)
            + s.mem.size (Ptr.heap (b + s.mem.size (Ptr.heap b))) := by omega
      rw [e1, e2, e3, esz, els, est]
      refine ⟨(h4 _).2 ⟨hb, fun h => hL h.2, fun h => absurd h.1 (by omega)⟩, upd_same _ _ _,
        upd_same _ _ _,
        (h4 _).2 ⟨r6, fun h => absurd h.1 (by omega), fun h => absurd h.1 (by omega)⟩, upd_same _ _ _, ?_⟩
      intro c hc2 hcs
      exact ⟨upd_other _ _ _ _ (hne hcs), upd_other _ _ _ _ (hne hcs)⟩
    · obtain ⟨esz, els, est⟩ := free_fields_1 cfg s b hsu n1 (by omega) (by omega) hL hR t h1
      have e1 : merged_start s.mem b = b := by
        unfold merged_start; rw [if_neg hL]
      have e2 : merged_size s.mem b = s.mem.size (Ptr.heap b) := by
        unfold merged_size; rw [if_neg hL, if_neg hR]; omega
      rw [e1, e2, esz, els, est]
      refine ⟨(h4 _).2 ⟨hb, fun h => hL h.2, fun h => hR h.2⟩, upd_same _ _ _, rfl,
        (h4 _).2 ⟨n6, fun h => absurd h.1 (by omega), fun h => hR h.2⟩, n7, ?_⟩
      intro c hc2 hcs
      exact ⟨rfl, upd_other _ _ _ _ (hne hcs)⟩

end coalesce

/-! ## The program break along `allocate_object` -/

theorem allocate_chunk_brk (cfg : Config) (s : Heap) (size : Nat) :
    (allocate_chunk cfg s size).2.brk = s.brk + size := rfl

theorem remaining_chunks_brk (cfg : Config) (n : Nat) (s : Heap) (p : Ptr) :
    (remaining_chunks_loop cfg n s p).1.brk = s.brk + n * cfg.ARENA_SIZE := by
  induction n generalizing s p with
  | zero => simp [remaining_chunks_loop]
  | succ n ih =>
    unfold remaining_chunks_loop
    rw [ih, allocate_chunk_brk, Nat.succ_mul]
    omega

/-- Every call of `NEW_CHUNK_ADDER` moves the break up by at least one arena. -/
theorem adder_brk (cfg : Config) (s : Heap) (raw req : Nat) :
    s.brk + cfg.ARENA_SIZE ≤ (NEW_CHUNK_ADDER cfg s raw req).brk := by
  unfold NEW_CHUNK_ADDER
  dsimp only
  split_ifs <;>
    simp only [(insert_os_chunk_fields _ _ _).2.2.1, remaining_chunks_brk, allocate_chunk_brk] <;>
    omega

/-- A call of `allocate_object` never moves the break down. -/
theorem allocate_object_brk (cfg : Config) (fuel : Nat) (s : Heap) (raw : Nat) (p : Ptr)
    (t : Heap) (hr : allocate_object cfg fuel s raw = some (p, t)) : s.brk ≤ t.brk := by
  induction fuel generalizing s raw with
  | zero =>
    unfold allocate_object at hr
    split at hr
    · cases hr; exact le_refl _
    · cases hr
  | succ fuel ih =>
    unfold allocate_object at hr
    split at hr
    · cases hr; exact le_refl _
    · dsimp only at hr
      split at hr
      · cases hr; exact le_refl _
      · split at hr
        · have := ih _ _ hr
          have := adder_brk cfg s (if raw < cfg.ALLOC_HEADER_SIZE then cfg.ALLOC_HEADER_SIZE else raw)
            (actual_size_of cfg raw)
          omega
        · split at hr
          · cases hr
          · cases hr; exact le_refl _
          · have := ih _ _ hr
            have := adder_brk cfg s
              (if raw < cfg.ALLOC_HEADER_SIZE then cfg.ALLOC_HEADER_SIZE else raw)
              (actual_size_of cfg raw)
            omega

section direct
variable {cfg : Config} {s : Heap} {chunks : List Nat} {B : Nat → Prop} {lab : Nat → Nat}
  {hole : Option Nat}

/-- A call of `allocate_object` that leaves the break where it was allocates
from a free block of the heap it was called on. -/
theorem allocate_direct (hc : cfg.WF) (hw : WellFormed cfg s chunks B lab hole) {raw : Nat}
    (hraw : raw ≠ 0) (fuel : Nat) (p : Ptr) (t : Heap)
    (hr : allocate_object cfg fuel s raw = some (p, t)) (hb : t.brk = s.brk) :
    ∃ F, B F ∧ s.mem.state (Ptr.heap F) = UNALLOCATED ∧
      actual_size_of cfg raw ≤ s.mem.size (Ptr.heap F) ∧
      p = (LARGER_SIZE_ALLOCATOR cfg s.mem (Ptr.heap F) (actual_size_of cfg raw)).1 ∧
      t = { s with mem :=
        (LARGER_SIZE_ALLOCATOR cfg s.mem (Ptr.heap F) (actual_size_of cfg raw)).2 } := by
  have hA : 0 < cfg.ARENA_SIZE := by
    have := hc.arena_large
    omega
  have hN := hc.lists_pos
  cases fuel with
  | zero =>
    unfold allocate_object at hr
    simp only [hraw, if_false] at hr
    cases hr
  | succ fuel =>
    unfold allocate_object at hr
    simp only [hraw, if_false] at hr
    split at hr
    · rename_i r he
      obtain ⟨F, h1, h2, h3, h4⟩ := exact_loop_found hc hw _ _ _ r he
      cases hr
      exact ⟨F, h1, h2, h3, by rw [h4], by rw [h4]⟩
    · split at hr
      · exfalso
        have := allocate_object_brk cfg _ _ _ _ _ hr
        have := adder_brk cfg s (if raw < cfg.ALLOC_HEADER_SIZE then cfg.ALLOC_HEADER_SIZE else raw)
          (actual_size_of cfg raw)
        omega
      · split at hr
        · cases hr
        · rename_i r he
          have hS : IsNode cfg s.mem B (Ptr.sentinel (cfg.N_LISTS - 1)) :=
            isNode_sentinel (by omega)
          obtain ⟨s1, -, -, -, s5⟩ := hw.links _ hS
          obtain ⟨F, h1, h2, h3, h4⟩ := last_loop_found hc hw _ _ _ r s1 (by rw [s5]; rfl) he
          cases hr
          exact ⟨F, h1, h2, h3, by rw [h4], by rw [h4]⟩
        · exfalso
          have := allocate_object_brk cfg _ _ _ _ _ hr
          have := adder_brk cfg s
            (if raw < cfg.ALLOC_HEADER_SIZE then cfg.ALLOC_HEADER_SIZE else raw)
            (actual_size_of cfg raw)
          omega

end direct

/-- The blocks of a chunk are the same in two memories that agree, on the
blocks of the chunk in the first, on the size and on being a fencepost. -/
theorem InChunk.of_agree {m1 m2 : Memory} {lo : Nat}
    (h : ∀ a, InChunk m1 lo a → m2.size (Ptr.heap a) = m1.size (Ptr.heap a) ∧
      m2.state (Ptr.heap a) = m1.state (Ptr.heap a)) (a : Nat) :
    InChunk m2 lo a ↔ InChunk m1 lo a := by
  constructor
  · intro h2
    induction h2 with
    | left => exact InChunk.left
    | step hb hcond ih =>
      rename_i b
      obtain ⟨e1, e2⟩ := h b ih
      rw [e1]
      exact InChunk.step ih (by rw [← e2]; exact hcond)
  · intro h1
    induction h1 with
    | left => exact InChunk.left
    | step hb hcond ih =>
      rename_i b
      obtain ⟨e1, e2⟩ := h b hb
      rw [← e1]
      exact InChunk.step ih (by rw [e2]; exact hcond)

section roundtrip
variable {cfg : Config} {s : Heap} {chunks : List Nat} {B : Nat → Prop} {lab : Nat → Nat}

/-- An allocation from the free block `F` of a well-formed heap followed by the
`free` of the pointer it returned: every block has its size, state and left
size of before. -/
theorem larger_then_free (hc : cfg.WF) (hw : WellFormed cfg s chunks B lab none) {F req : Nat}
    (hF : B F) (hs : s.mem.state (Ptr.heap F) = UNALLOCATED)
    (hreq : req ≤ s.mem.size (Ptr.heap F)) (hr : 0 < req) :
    ∃ u, deallocate_object cfg
        { s with mem := (LARGER_SIZE_ALLOCATOR cfg s.mem (Ptr.heap F) req).2 }
        (LARGER_SIZE_ALLOCATOR cfg s.mem (Ptr.heap F) req).1 = FreeResult.returned u ∧
      ∀ c, B c → u.mem.size (Ptr.heap c) = s.mem.size (Ptr.heap c) ∧
        u.mem.state (Ptr.heap c) = s.mem.state (Ptr.heap c) ∧
        u.mem.left_size (Ptr.heap c) = s.mem.left_size (Ptr.heap c) := by
  have hH := hc.header_pos
  have hnf : s.mem.state (Ptr.heap F) ≠ FENCEPOST := by rw [hs]; simp
  obtain ⟨n1, n2, n3, n4, n5, n6, n7, n8⟩ := hw.neighbours hc hF hnf
  have hRs := hw.coal F hF hs
  have hLs : s.mem.state (Ptr.heap (F - s.mem.left_size (Ptr.heap F))) ≠ UNALLOCATED := by
    intro e
    have := hw.coal _ n3 e
    rw [n4] at this
    have e2 : F - s.mem.left_size (Ptr.heap F) + s.mem.left_size (Ptr.heap F) = F := by omega
    rw [e2] at this
    exact this hs
  by_cases hd : s.mem.size (Ptr.heap F) - req < 2 * cfg.ALLOC_HEADER_SIZE
  · have e : LARGER_SIZE_ALLOCATOR cfg s.mem (Ptr.heap F) req
        = SAME_SIZE_ALLOCATOR cfg s.mem (Ptr.heap F) := by
      unfold LARGER_SIZE_ALLOCATOR
      have : get_block_size s.mem (Ptr.heap F) - req < 2 * cfg.ALLOC_HEADER_SIZE := hd
      simp only [this, if_true]
    rw [e, same_eq hw hF hs]
    generalize ht : ({ s with mem := { mem_unlink s.mem (Ptr.heap F) with
      state := upd s.mem.state (Ptr.heap F) ALLOCATED } } : Heap) = t
    have esz : t.mem.size = s.mem.size := by rw [← ht]; rfl
    have els : t.mem.left_size = s.mem.left_size := by rw [← ht]; rfl
    have est : t.mem.state = upd s.mem.state (Ptr.heap F) ALLOCATED := by rw [← ht]
    have a1 : t.mem.state (Ptr.heap F) ≠ UNALLOCATED := by
      rw [est, upd_same]; simp
    have a2 : t.mem.left_size (Ptr.heap F) ≤ F := by rw [els]; exact n1
    have a3 : F - t.mem.left_size (Ptr.heap F) ≠ F := by rw [els]; omega
    have a4 : F + t.mem.size (Ptr.heap F) ≠ F := by rw [esz]; omega
    have a5 : t.mem.state (Ptr.heap (F - t.mem.left_size (Ptr.heap F))) ≠ UNALLOCATED := by
      rw [els, est, upd_heap, if_neg (by omega)]; exact hLs
    have a6 : t.mem.state (Ptr.heap (F + t.mem.size (Ptr.heap F))) ≠ UNALLOCATED := by
      rw [esz, est, upd_heap, if_neg (by omega)]; exact hRs
    have hfree := free_case1 cfg t F a1 a2 a3 a4 a5 a6
    refine ⟨_, hfree, ?_⟩
    obtain ⟨usz, uls, ust⟩ := free_fields_1 cfg t F a1 a2 a3 a4 a5 a6 _ hfree
    intro c hc2
    rw [usz, uls, ust, esz, els, est]
    refine ⟨rfl, ?_, rfl⟩
    simp only [upd_heap]
    split_ifs with h1
    · rw [h1, hs]
    · rfl
  · have hnb : ¬ B (F + (s.mem.size (Ptr.heap F) - req)) :=
      hw.inside_not_block hc hF (by omega) (by omega)
    generalize ht : ({ s with mem := (LARGER_SIZE_ALLOCATOR cfg s.mem (Ptr.heap F) req).2 }
      : Heap) = t
    have hp : (LARGER_SIZE_ALLOCATOR cfg s.mem (Ptr.heap F) req).1
        = Ptr.heap (F + (s.mem.size (Ptr.heap F) - req) + cfg.ALLOC_HEADER_SIZE) := by
      by_cases hj : (s.mem.size (Ptr.heap F) - req - cfg.ALLOC_HEADER_SIZE) / 8 - 1
          < cfg.N_LISTS - 1
      · rw [larger_eq_move hw hF hs hd hr hH hj]
      · rw [larger_eq_stay cfg s.mem hd hr hH hj]
    have hfld : t.mem.size = upd (upd s.mem.size
          (Ptr.heap (F + (s.mem.size (Ptr.heap F) - req))) req)
          (Ptr.heap F) (s.mem.size (Ptr.heap F) - req) ∧
        t.mem.state = upd s.mem.state (Ptr.heap (F + (s.mem.size (Ptr.heap F) - req))) ALLOCATED ∧
        t.mem.left_size = upd (upd s.mem.left_size
            (Ptr.heap (F + (s.mem.size (Ptr.heap F) - req))) (s.mem.size (Ptr.heap F) - req))
          (Ptr.heap (F + (s.mem.size (Ptr.heap F) - req) + req)) req := by
      rw [← ht]
      by_cases hj : (s.mem.size (Ptr.heap F) - req - cfg.ALLOC_HEADER_SIZE) / 8 - 1
          < cfg.N_LISTS - 1
      · rw [larger_eq_move hw hF hs hd hr hH hj]
        exact ⟨rfl, rfl, rfl⟩
      · rw [larger_eq_stay cfg s.mem hd hr hH hj]
        exact ⟨rfl, rfl, rfl⟩
    obtain ⟨esz, est, els⟩ := hfld
    rw [hp]
    have tl : t.mem.left_size (Ptr.heap (F + (s.mem.size (Ptr.heap F) - req)))
        = s.mem.size (Ptr.heap F) - req := by
      rw [els, upd_heap, if_neg (by omega), upd_same]
    have tsz : t.mem.size (Ptr.heap (F + (s.mem.size (Ptr.heap F) - req))) = req := by
      rw [esz, upd_heap, if_neg (by omega), upd_same]
    have e1 : F + (s.mem.size (Ptr.heap F) - req) - (s.mem.size (Ptr.heap F) - req) = F := by
      omega
    have a1 : t.mem.state (Ptr.heap (F + (s.mem.size (Ptr.heap F) - req))) ≠ UNALLOCATED := by
      rw [est, upd_same]; simp
    have a2 : t.mem.left_size (Ptr.heap (F + (s.mem.size (Ptr.heap F) - req)))
        ≤ F + (s.mem.size (Ptr.heap F) - req) := by rw [tl]; omega
    have a3 : F + (s.mem.size (Ptr.heap F) - req)
        - t.mem.left_size (Ptr.heap (F + (s.mem.size (Ptr.heap F) - req)))
        ≠ F + (s.mem.size (Ptr.heap F) - req) := by rw [tl]; omega
    have a4 : F + (s.mem.size (Ptr.heap F) - req)
        + t.mem.size (Ptr.heap (F + (s.mem.size (Ptr.heap F) - req)))
        ≠ F + (s.mem.size (Ptr.heap F) - req) := by rw [tsz]; omega
    have a5 : t.mem.state (Ptr.heap (F + (s.mem.size (Ptr.heap F) - req)
        - t.mem.left_size (Ptr.heap (F + (s.mem.size (Ptr.heap F) - req))))) = UNALLOCATED := by
      rw [tl, e1, est, upd_heap, if_neg (by omega)]; exact hs
    have e2 : F + (s.mem.size (Ptr.heap F) - req) + req = F + s.mem.size (Ptr.heap F) := by
      omega
    have a6 : t.mem.state (Ptr.heap (F + (s.mem.size (Ptr.heap F) - req)
        + t.mem.size (Ptr.heap (F + (s.mem.size (Ptr.heap F) - req))))) ≠ UNALLOCATED := by
      rw [tsz, e2, est, upd_heap, if_neg (by omega)]; exact hRs
    have hfree := free_case2 cfg t (F + (s.mem.size (Ptr.heap F) - req)) a1 a2 a3 a4 a5 a6
    refine ⟨_, hfree, ?_⟩
    obtain ⟨usz, uls, ust⟩ := free_fields_2 cfg t (F + (s.mem.size (Ptr.heap F) - req))
      a1 a2 a3 a4 a5 a6 _ hfree
    intro c hc2
    have hcd : c ≠ F + (s.mem.size (Ptr.heap F) - req) := fun e => hnb (e ▸ hc2)
    rw [usz, uls, ust, tl, tsz, e1, e2, esz, els, est, e2]
    simp only [upd_heap, hcd, if_false]
    refine ⟨?_, trivial, ?_⟩
    · split_ifs with h1
      · rw [h1]; omega
      · rfl
    · split_ifs with h1
      · rw [h1, n7]; omega
      · rfl

/-- C11: allocate-then-free round trip. In a reachable state, if
`my_malloc(n)` with `n > 0` returns `p` without moving the program break (the
heap was not extended), then `my_free(p)` returns, and afterwards every chunk
has the blocks it had before the `my_malloc`, each with the size, state and
`left_size` it had. -/
theorem alloc_free_round_trip (hc : cfg.WF) {brk0 : Nat} {live : List (Nat × Nat)}
    (hr : Reachable cfg brk0 s chunks live) {n : Nat} (hn : 0 < n) (fuel : Nat) (p : Ptr)
    (t : Heap) (hm : my_malloc cfg fuel s n = some (p, t)) (hb : t.brk = s.brk) :
    ∃ u, my_free cfg t p = FreeResult.returned u ∧
      ∀ lo, lo ∈ chunks → ∀ a, (InChunk u.mem lo a ↔ InChunk s.mem lo a) ∧
        (InChunk s.mem lo a →
          u.mem.size (Ptr.heap a) = s.mem.size (Ptr.heap a) ∧
          u.mem.state (Ptr.heap a) = s.mem.state (Ptr.heap a) ∧
          u.mem.left_size (Ptr.heap a) = s.mem.left_size (Ptr.heap a)) := by
  obtain ⟨B, lab, hw, -⟩ := reachable_inv hc hr
  obtain ⟨F, hF, hs, hreq, hp, ht⟩ := allocate_direct hc hw (by omega) fuel p t hm hb
  obtain ⟨hr2, -, -⟩ := actual_size_facts cfg hc n
  have hH := hc.header_pos
  obtain ⟨u, hu, hag⟩ := larger_then_free hc hw hF hs hreq (by omega)
  rw [← hp, ← ht] at hu
  refine ⟨u, hu, ?_⟩
  intro lo hlo a
  refine ⟨InChunk.of_agree (fun c hc2 => ?_) a, fun ha => hag a (hw.inChunk_block hlo ha)⟩
  obtain ⟨h1, h2, -⟩ := hag c (hw.inChunk_block hlo hc2)
  exact ⟨h1, h2⟩

end roundtrip

/-! ## The headers that read `ALLOCATED` -/

theorem list_unlink_state (m : Memory) (p : Ptr) : (list_unlink m p).state = m.state := by
  unfold list_unlink
  simp only [set_next_state, set_prev_state]

theorem larger_insert_state (m : Memory) (S p : Ptr) : (larger_insert m S p).state = m.state := by
  unfold larger_insert
  split <;> simp only [set_next_state, set_prev_state]

theorem chunk_list_insert_state (m : Memory) (S p : Ptr) :
    (chunk_list_insert m S p).state = m.state := by
  unfold chunk_list_insert
  split <;> simp only [set_next_state, set_prev_state]

theorem AllocIn.of_state {Q : Nat → Prop} {m m2 : Memory} (h : AllocIn Q m)
    (e : m2.state = m.state) : AllocIn Q m2 := by
  intro c hc
  rw [e] at hc
  exact h c hc

theorem AllocIn.mono {Q R : Nat → Prop} {m : Memory} (h : AllocIn Q m)
    (hqr : ∀ c, Q c → R c) : AllocIn R m :=
  fun c hc => hqr c (h c hc)

theorem set_next_alloc {Q : Nat → Prop} {m : Memory} (h : AllocIn Q m) (p v : Ptr) :
    AllocIn Q (set_next m p v) := h.of_state (set_next_state m p v)

theorem set_prev_alloc {Q : Nat → Prop} {m : Memory} (h : AllocIn Q m) (p v : Ptr) :
    AllocIn Q (set_prev m p v) := h.of_state (set_prev_state m p v)

theorem set_block_size_alloc {Q : Nat → Prop} {m : Memory} (h : AllocIn Q m) (p : Ptr)
    (v : Nat) : AllocIn Q (set_block_size m p v) := h.of_state (set_block_size_state m p v)

theorem set_left_size_alloc {Q : Nat → Prop} {m : Memory} (h : AllocIn Q m) (p : Ptr)
    (v : Nat) : AllocIn Q (set_left_size m p v) := h.of_state (set_left_size_state m p v)

theorem list_unlink_alloc {Q : Nat → Prop} {m : Memory} (h : AllocIn Q m) (p : Ptr) :
    AllocIn Q (list_unlink m p) := h.of_state (list_unlink_state m p)

theorem larger_insert_alloc {Q : Nat → Prop} {m : Memory} (h : AllocIn Q m) (S p : Ptr) :
    AllocIn Q (larger_insert m S p) := h.of_state (larger_insert_state m S p)

theorem chunk_list_insert_alloc {Q : Nat → Prop} {m : Memory} (h : AllocIn Q m) (S p : Ptr) :
    AllocIn Q (chunk_list_insert m S p) := h.of_state (chunk_list_insert_state m S p)

/-- A store of a state into a header: the header is in `Q` if the state stored
is `ALLOCATED`. -/
theorem set_block_state_alloc {Q : Nat → Prop} {m : Memory} (h : AllocIn Q m) (p : Ptr)
    (v : BlockState) (hv : v = ALLOCATED → ∀ c, p = Ptr.heap c → Q c) :
    AllocIn Q (set_block_state m p v) := by
  unfold set_block_state
  split
  · exact h.of_state rfl
  · intro c hc
    have hc2 : upd m.state p v (Ptr.heap c) = ALLOCATED := hc
    unfold upd at hc2
    split at hc2
    · rename_i e
      exact hv hc2 c e.symm
    · exact h c hc2

theorem set_fence_alloc {Q : Nat → Prop} {m : Memory} (h : AllocIn Q m) (p : Ptr) :
    AllocIn Q (set_block_state m p FENCEPOST) :=
  set_block_state_alloc h p FENCEPOST (fun e => by cases e)

theorem set_free_alloc {Q : Nat → Prop} {m : Memory} (h : AllocIn Q m) (p : Ptr) :
    AllocIn Q (set_block_state m p UNALLOCATED) :=
  set_block_state_alloc h p UNALLOCATED (fun e => by cases e)

theorem same_alloc (cfg : Config) {Q : Nat → Prop} {m : Memory} (h : AllocIn Q m) (p : Ptr) :
    AllocIn (fun c => Q c ∨ Ptr.heap (c + cfg.ALLOC_HEADER_SIZE)
      = (SAME_SIZE_ALLOCATOR cfg m p).1) (SAME_SIZE_ALLOCATOR cfg m p).2 := by
  unfold SAME_SIZE_ALLOCATOR
  dsimp only
  apply set_block_state_alloc
  · exact (list_unlink_alloc h p).mono (fun c hc => Or.inl hc)
  · intro _ c e
    right
    rw [e, offset_heap_nat]

theorem larger_alloc (cfg : Config) {Q : Nat → Prop} {m : Memory} (h : AllocIn Q m) (p : Ptr)
    (req : Nat) :
    AllocIn (fun c => Q c ∨ Ptr.heap (c + cfg.ALLOC_HEADER_SIZE)
      = (LARGER_SIZE_ALLOCATOR cfg m p req).1) (LARGER_SIZE_ALLOCATOR cfg m p req).2 := by
  unfold LARGER_SIZE_ALLOCATOR
  dsimp only
  split
  · exact same_alloc cfg h p
  · dsimp only
    apply set_left_size_alloc
    have h1 : AllocIn (fun c => Q c ∨ Ptr.heap (c + cfg.ALLOC_HEADER_SIZE)
        = get_header_from_offset (get_header_from_offset p
            ((get_block_size m p - req : Nat) : Int)) cfg.ALLOC_HEADER_SIZE)
        (set_block_state m (get_header_from_offset p ((get_block_size m p - req : Nat) : Int))
          ALLOCATED) := by
      apply set_block_state_alloc
      · exact h.mono (fun c hc => Or.inl hc)
      · intro _ c e
        right
        rw [e, offset_heap_nat]
    have h4 := set_left_size_alloc (set_block_size_alloc (set_block_size_alloc h1
      (get_header_from_offset p ((get_block_size m p - req : Nat) : Int)) req)
      p (get_block_size m p - req))
      (get_header_from_offset p ((get_block_size m p - req : Nat) : Int))
      (get_block_size m p - req)
    split
    · exact larger_insert_alloc (list_unlink_alloc h4 _) _ _
    · exact h4

theorem exact_loop_alloc (cfg : Config) {Q : Nat → Prop} {m : Memory} (h : AllocIn Q m)
    (req : Nat) (cnt i : Nat) (r : Ptr × Memory)
    (hr : exact_lists_loop cfg m req cnt i = some r) :
    AllocIn (fun c => Q c ∨ Ptr.heap (c + cfg.ALLOC_HEADER_SIZE) = r.1) r.2 := by
  induction cnt generalizing i with
  | zero => simp [exact_lists_loop] at hr
  | succ cnt ih =>
    unfold exact_lists_loop at hr
    split at hr
    · dsimp only at hr
      split at hr
      · split at hr
        · cases hr
          exact (h.of_state rfl).mono (fun c hc => Or.inl hc)
        · split at hr
          · cases hr; exact same_alloc cfg h _
          · split at hr
            · cases hr; exact larger_alloc cfg h _ _
            · exact ih _ hr
      · exact ih _ hr
    · cases hr

theorem last_loop_alloc (cfg : Config) {Q : Nat → Prop} {m : Memory} (h : AllocIn Q m)
    (req : Nat) (S : Ptr) (fuel : Nat) (p : Ptr) (r : Ptr × Memory)
    (hr : last_list_loop cfg m req S fuel p = some (some r)) :
    AllocIn (fun c => Q c ∨ Ptr.heap (c + cfg.ALLOC_HEADER_SIZE) = r.1) r.2 := by
  induction fuel generalizing p with
  | zero => simp [last_list_loop] at hr
  | succ fuel ih =>
    unfold last_list_loop at hr
    split at hr
    · split at hr
      · cases hr
        exact (h.of_state rfl).mono (fun c hc => Or.inl hc)
      · split at hr
        · cases hr; exact same_alloc cfg h _
        · split at hr
          · cases hr; exact larger_alloc cfg h _ _
          · exact ih _ hr
    · cases hr

theorem allocate_chunk_alloc (cfg : Config) {Q : Nat → Prop} {s : Heap}
    (h : AllocIn Q s.mem) (n : Nat) : AllocIn Q (allocate_chunk cfg s n).2.mem := by
  unfold allocate_chunk insert_fenceposts initialize_fencepost sbrk
  dsimp only
  repeat first
    | exact h
    | apply set_block_size_alloc
    | apply set_fence_alloc
    | apply set_free_alloc
    | apply set_left_size_alloc

theorem remaining_chunks_alloc (cfg : Config) (n : Nat) {Q : Nat → Prop} {s : Heap}
    (h : AllocIn Q s.mem) (p : Ptr) : AllocIn Q (remaining_chunks_loop cfg n s p).1.mem := by
  induction n generalizing s p with
  | zero => simpa [remaining_chunks_loop] using h
  | succ n ih =>
    unfold remaining_chunks_loop
    exact ih (allocate_chunk_alloc cfg h _) _

/-- The function `NEW_CHUNK_ADDER` stores no `ALLOCATED` state. -/
theorem adder_alloc (cfg : Config) {Q : Nat → Prop} {s : Heap} (h : AllocIn Q s.mem)
    (raw req : Nat) : AllocIn Q (NEW_CHUNK_ADDER cfg s raw req).mem := by
  have h1 := allocate_chunk_alloc cfg h cfg.ARENA_SIZE
  unfold NEW_CHUNK_ADDER
  dsimp only
  split
  · have h2 := remaining_chunks_alloc cfg
      (num_chunks_loop cfg (req + 2 * cfg.ALLOC_HEADER_SIZE) (req + 2 * cfg.ALLOC_HEADER_SIZE)
        cfg.ARENA_SIZE / cfg.ARENA_SIZE - 1)
      (s := { (allocate_chunk cfg s cfg.ARENA_SIZE).2 with
        lastFencePost := get_header_from_offset (allocate_chunk cfg s cfg.ARENA_SIZE).1
          (get_block_size (allocate_chunk cfg s cfg.ARENA_SIZE).2.mem
            (allocate_chunk cfg s cfg.ARENA_SIZE).1) }) h1
      (get_header_from_offset (allocate_chunk cfg s cfg.ARENA_SIZE).1
        (get_block_size (allocate_chunk cfg s cfg.ARENA_SIZE).2.mem
          (allocate_chunk cfg s cfg.ARENA_SIZE).1))
    rename_i hM
    simp only [hM, if_true] at h2 ⊢
    split_ifs <;> (try dsimp only) <;>
    repeat first
      | exact h2
      | apply chunk_list_insert_alloc
      | apply list_unlink_alloc
      | apply set_block_size_alloc
      | apply set_fence_alloc
      | apply set_free_alloc
      | apply set_left_size_alloc
  · have h2 := remaining_chunks_alloc cfg
      (num_chunks_loop cfg (req + 2 * cfg.ALLOC_HEADER_SIZE) (req + 2 * cfg.ALLOC_HEADER_SIZE)
        cfg.ARENA_SIZE / cfg.ARENA_SIZE - 1) (s := (allocate_chunk cfg s cfg.ARENA_SIZE).2) h1
      (get_header_from_offset (allocate_chunk cfg s cfg.ARENA_SIZE).1
        (get_block_size (allocate_chunk cfg s cfg.ARENA_SIZE).2.mem
          (allocate_chunk cfg s cfg.ARENA_SIZE).1))
    rename_i hM
    simp only [hM] at h2 ⊢
    simp only [(insert_os_chunk_fields _ _ _).1]
    repeat first
      | exact h2
      | apply chunk_list_insert_alloc
      | apply list_unlink_alloc
      | apply set_block_size_alloc
      | apply set_fence_alloc
      | apply set_free_alloc
      | apply set_left_size_alloc

/-- The function `allocate_object` stores `ALLOCATED` into the header of the
block it hands out only. -/
theorem allocate_object_alloc (cfg : Config) (fuel : Nat) {Q : Nat → Prop} {s : Heap}
    (h : AllocIn Q s.mem) (raw : Nat) (p : Ptr) (t : Heap)
    (hr : allocate_object cfg fuel s raw = some (p, t)) :
    AllocIn (fun c => Q c ∨ Ptr.heap (c + cfg.ALLOC_HEADER_SIZE) = p) t.mem := by
  induction fuel generalizing s raw with
  | zero =>
    unfold allocate_object at hr
    split at hr
    · cases hr; exact h.mono (fun c hc => Or.inl hc)
    · cases hr
  | succ fuel ih =>
    unfold allocate_object at hr
    split at hr
    · cases hr; exact h.mono (fun c hc => Or.inl hc)
    · dsimp only at hr
      split at hr
      · rename_i r he
        cases hr
        exact exact_loop_alloc cfg h _ _ _ r he
      · split at hr
        · exact ih (adder_alloc cfg h _ _) _ hr
        · split at hr
          · cases hr
          · rename_i r he
            cases hr
            exact last_loop_alloc cfg h _ _ _ _ r he
          · exact ih (adder_alloc cfg h _ _) _ hr

theorem init_sentinels_alloc {Q : Nat → Prop} (cnt : Nat) {m : Memory} (h : AllocIn Q m)
    (i : Nat) : AllocIn Q (init_sentinels m cnt i) := by
  induction cnt generalizing m i with
  | zero => exact h
  | succ cnt ih =>
    unfold init_sentinels
    exact ih (set_prev_alloc (set_next_alloc h _ _) _ _) _

/-- After `init` no header reads `ALLOCATED`. -/
theorem init_alloc (cfg : Config) (brk0 : Nat) (Q : Nat → Prop) :
    AllocIn Q (init cfg brk0).mem := by
  have h0 : AllocIn Q blank_memory := by
    intro c hc
    cases hc
  have h1 := allocate_chunk_alloc cfg (s := { mem := blank_memory, lastFencePost := Ptr.null, base := Ptr.null, osChunkList := [], brk := brk0 }) h0 cfg.ARENA_SIZE
  unfold init
  dsimp only
  simp only [(insert_os_chunk_fields _ _ _).1]
  repeat first
    | exact h1
    | apply set_next_alloc
    | apply set_prev_alloc
    | apply init_sentinels_alloc

/-- The state field after a call of `deallocate_object` that returns: the one
store is `UNALLOCATED` into the header of the block freed. -/
theorem free_state_eq (cfg : Config) (s t : Heap) (b : Nat)
    (h : deallocate_object cfg s (Ptr.heap (b + cfg.ALLOC_HEADER_SIZE))
      = FreeResult.returned t) :
    t.mem.state = upd s.mem.state (Ptr.heap b) UNALLOCATED := by
  have e1 : get_header_from_offset (Ptr.heap (b + cfg.ALLOC_HEADER_SIZE))
      (-(cfg.ALLOC_HEADER_SIZE : Int)) = Ptr.heap b := by
    rw [offset_heap_neg _ _ (by omega)]; simp
  unfold deallocate_object at h
  simp only [reduceCtorEq, if_false, e1, set_block_state_ok _ _ _ (heap_ne_null b)] at h
  split_ifs at h <;>
    (injection h with h
     subst h
     simp only [free_insert_state, free_unlink_state, free_unlink_rev_state,
       free_first_insert_state, set_next_state, set_prev_state, set_block_size_state,
       set_left_size_state, set_block_state_ok _ _ _ (heap_ne_null b), upd_upd_same])

/-- In a reachable state every header that reads `ALLOCATED` is the header of a
live pointer. -/
theorem reachable_alloc_live {cfg : Config} (hc : cfg.WF) {brk0 : Nat} {s : Heap}
    {chunks : List Nat} {live : List (Nat × Nat)} (h : Reachable cfg brk0 s chunks live) :
    AllocIn (fun c => ∃ n, (c + cfg.ALLOC_HEADER_SIZE, n) ∈ live) s.mem := by
  induction h with
  | init => exact init_alloc cfg brk0 _
  | @malloc s t chunks live n fuel a hr _ hm hnc ih =>
    refine (allocate_object_alloc cfg fuel ih n _ t hm).mono ?_
    intro c hc2
    rcases hc2 with ⟨k, hk⟩ | e
    · exact ⟨k, List.mem_cons_of_mem _ hk⟩
    · refine ⟨n, ?_⟩
      rw [Ptr.heap.inj e]
      exact List.mem_cons_self _ _
  | malloc_zero fuel _ hm ih =>
    unfold my_malloc at hm
    rw [allocate_zero] at hm
    cases hm
    exact ih
  | @free s t chunks live a n hr hmem hf hnc ih =>
    obtain ⟨B, lab, hw, hnd, hl⟩ := reachable_inv hc hr
    obtain ⟨g1, -⟩ := hl _ hmem
    simp only at g1
    have ea : a - cfg.ALLOC_HEADER_SIZE + cfg.ALLOC_HEADER_SIZE = a := by omega
    unfold my_free at hf
    rw [← ea] at hf
    have est := free_state_eq cfg s t _ hf
    intro c hc2
    rw [est, upd_heap] at hc2
    split at hc2
    · cases hc2
    · rename_i hne
      obtain ⟨k, hk⟩ := ih c hc2
      refine ⟨k, (List.mem_erase_of_ne ?_).2 hk⟩
      intro e
      have : c + cfg.ALLOC_HEADER_SIZE = a := congrArg Prod.fst e
      omega
  | free_null _ hf ih =>
    unfold my_free at hf
    rw [deallocate_null] at hf
    injection hf with hf
    subst hf
    exact ih
  | os_break g _ ih => exact ih

/-- C12: cross-chunk coalescing. In a state reached from the initialised heap
in which every extension of the heap was contiguous with the previous one (the
list of chunks is still the first chunk alone) and every allocation has been
freed (no live pointer), the heap is the left fencepost at `brk0`, one
`UNALLOCATED` block at `brk0 + ALLOC_HEADER_SIZE` and the right fencepost
`lastFencePost`: the block ends at `lastFencePost`, so its size is the number of
bytes between `brk0` and the end of `lastFencePost`, which is what the allocator
obtained from the OS, minus `2*ALLOC_HEADER_SIZE`. -/
theorem cross_chunk_coalescing {cfg : Config} (hc : cfg.WF) {brk0 : Nat} {s : Heap}
    (h : Reachable cfg brk0 s [brk0] []) :
    ∃ f, s.lastFencePost = Ptr.heap f ∧ f + cfg.ALLOC_HEADER_SIZE ≤ s.brk ∧
      s.mem.state (Ptr.heap brk0) = FENCEPOST ∧
      s.mem.state (Ptr.heap (brk0 + cfg.ALLOC_HEADER_SIZE)) = UNALLOCATED ∧
      s.mem.state (Ptr.heap f) = FENCEPOST ∧
      s.mem.size (Ptr.heap (brk0 + cfg.ALLOC_HEADER_SIZE))
        = (f + cfg.ALLOC_HEADER_SIZE - brk0) - 2 * cfg.ALLOC_HEADER_SIZE ∧
      brk0 + cfg.ALLOC_HEADER_SIZE + s.mem.size (Ptr.heap (brk0 + cfg.ALLOC_HEADER_SIZE)) = f ∧
      ∀ a, InChunk s.mem brk0 a ↔ (a = brk0 ∨ a = brk0 + cfg.ALLOC_HEADER_SIZE ∨ a = f) := by
  have hH := hc.header_pos
  obtain ⟨B, lab, hw, -⟩ := reachable_inv hc h
  have hJ := reachable_alloc_live hc h
  have hna : ∀ c, s.mem.state (Ptr.heap c) ≠ ALLOCATED := by
    intro c hc2
    obtain ⟨n, hn⟩ := hJ c hc2
    cases hn
  obtain ⟨f, hf, L⟩ := hw.layout
  obtain ⟨c1, c2, c3, c4⟩ := L.chunk brk0 (List.mem_singleton_self _)
  have hfree : ∀ l, ¬ s.mem.state (Ptr.heap l) = FENCEPOST →
      s.mem.state (Ptr.heap l) = UNALLOCATED := by
    intro l hl
    rcases state_cases (s.mem.state (Ptr.heap l)) with e | e | e
    · exact e
    · exact absurd e (hna l)
    · exact absurd e hl
  have hone : ∀ l, B l → ¬ s.mem.state (Ptr.heap l) = FENCEPOST →
      l = brk0 + cfg.ALLOC_HEADER_SIZE := by
    intro l hl hnf
    obtain ⟨l1, l2, l3⟩ := L.left l hl hnf
    by_cases hfp : s.mem.state (Ptr.heap (l - s.mem.left_size (Ptr.heap l))) = FENCEPOST
    · have h1 := L.left_fp l hl hnf hfp
      have h2 : l - s.mem.left_size (Ptr.heap l) = brk0 := List.mem_singleton.1 h1
      have h3 := L.fp_size _ l2 hfp
      have h4 : s.mem.size (Ptr.heap (l - s.mem.left_size (Ptr.heap l)))
          = s.mem.left_size (Ptr.heap l) := l3
      have h5 : s.mem.size (Ptr.heap (l - s.mem.left_size (Ptr.heap l)))
          = cfg.ALLOC_HEADER_SIZE := h3
      omega
    · exfalso
      have h1 := hw.coal _ l2 (hfree _ hfp)
      have h4 : s.mem.size (Ptr.heap (l - s.mem.left_size (Ptr.heap l)))
          = s.mem.left_size (Ptr.heap l) := l3
      rw [h4] at h1
      have e2 : l - s.mem.left_size (Ptr.heap l) + s.mem.left_size (Ptr.heap l) = l := by omega
      rw [e2] at h1
      exact h1 (hfree l hnf)
  have hx : ¬ s.mem.state (Ptr.heap (brk0 + cfg.ALLOC_HEADER_SIZE)) = FENCEPOST := by
    intro hfp
    rcases L.fp_kind _ c3 hfp with h1 | ⟨l, h1, h2, h3⟩
    · have := List.mem_singleton.1 h1
      omega
    · have e := hone l h1 h2
      have h4 := (L.blk_size l h1 h2).1
      have h5 : l + s.mem.size (Ptr.heap l) = brk0 + cfg.ALLOC_HEADER_SIZE := h3
      have h6 : 2 * cfg.ALLOC_HEADER_SIZE ≤ s.mem.size (Ptr.heap l) := h4
      omega
  obtain ⟨d1, d2, d3, l, d4, d5, d6⟩ := L.last
  have el := hone l d4 d5
  have hend : brk0 + cfg.ALLOC_HEADER_SIZE
      + s.mem.size (Ptr.heap (brk0 + cfg.ALLOC_HEADER_SIZE)) = f := by
    have h5 : l + s.mem.size (Ptr.heap l) = f := d6
    rw [el] at h5
    exact h5
  have hB : ∀ a, B a ↔ (a = brk0 ∨ a = brk0 + cfg.ALLOC_HEADER_SIZE ∨ a = f) := by
    intro a
    constructor
    · intro ha
      by_cases hfp : s.mem.state (Ptr.heap a) = FENCEPOST
      · rcases L.fp_kind a ha hfp with h1 | ⟨l2, h1, h2, h3⟩
        · exact Or.inl (List.mem_singleton.1 h1)
        · have e := hone l2 h1 h2
          have h5 : l2 + s.mem.size (Ptr.heap l2) = a := h3
          rw [e] at h5
          exact Or.inr (Or.inr (by omega))
      · exact Or.inr (Or.inl (hone a ha hfp))
    · rintro (e | e | e)
      · rw [e]; exact c1
      · rw [e]; exact c3
      · rw [e]; exact d1
  refine ⟨f, hf, d3, c2, hfree _ hx, d2, by omega, hend, ?_⟩
  intro a
  constructor
  · intro ha
    exact (hB a).1 (hw.inChunk_block (List.mem_singleton_self _) ha)
  · intro ha
    obtain ⟨lo, h1, h2⟩ := hw.block_inChunk hc a ((hB a).2 ha)
    rw [List.mem_singleton.1 h1] at h2
    exact h2

theorem ex_cc1_reach : Reachable cfg16 4096 ex_cc1 [4096] [(4128, 4032)] :=
  Reachable.malloc 4032 2 4128 Reachable.init (in_range_small _ _ (by decide)) rfl rfl

theorem ex_cc2_reach : Reachable cfg16 4096 ex_cc2 [4096] [(8240, 4032), (4128, 4032)] :=
  Reachable.malloc 4032 3 8240 ex_cc1_reach (in_range_small _ _ (by decide)) rfl rfl

theorem ex_cc3_reach : Reachable cfg16 4096 ex_cc3 [4096] [(8240, 4032)] :=
  Reachable.free 4128 4032 ex_cc2_reach (by decide) rfl rfl

theorem ex_cc4_reach : Reachable cfg16 4096 ex_cc4 [4096] [] :=
  Reachable.free 8240 4032 ex_cc3_reach (by decide) rfl rfl

/-- The first `my_malloc(24)` on the initialised heap does not move the break;
the `my_free` of its result gives back the blocks of the initialised heap. -/
theorem alloc_free_round_trip_witness :
    cfg16.WF ∧ Reachable cfg16 4096 (init cfg16 4096) [4096] [] ∧ 0 < 24 ∧
      my_malloc cfg16 2 (init cfg16 4096) 24 = some (Ptr.heap 8152, ex_one) ∧
      ex_one.brk = (init cfg16 4096).brk ∧
      ∃ u, my_free cfg16 ex_one (Ptr.heap 8152) = FreeResult.returned u ∧
        ∀ lo, lo ∈ [(4096 : Nat)] → ∀ a,
          (InChunk u.mem lo a ↔ InChunk (init cfg16 4096).mem lo a) ∧
          (InChunk (init cfg16 4096).mem lo a →
            u.mem.size (Ptr.heap a) = (init cfg16 4096).mem.size (Ptr.heap a) ∧
            u.mem.state (Ptr.heap a) = (init cfg16 4096).mem.state (Ptr.heap a) ∧
            u.mem.left_size (Ptr.heap a) = (init cfg16 4096).mem.left_size (Ptr.heap a)) :=
  ⟨cfg16_wf, Reachable.init, by decide, rfl, rfl,
    alloc_free_round_trip cfg16_wf Reachable.init (n := 24) (by decide) 2 (Ptr.heap 8152)
      ex_one rfl rfl⟩

/-- The heap `ex_three`: the block of `q` at 8096 is `ALLOCATED`, its left
neighbour at 4112 (3984 bytes) and its right neighbour at 8136 (40 bytes) are
free; `my_free(q)` leaves one free block of 4064 bytes at 4112. -/
theorem free_coalesces_witness :
    cfg16.WF ∧ ∃ (B : Nat → Prop) (lab : Nat → Nat),
      WellFormed cfg16 ex_three [4096] B lab none ∧ B 8096 ∧
      ex_three.mem.state (Ptr.heap 8096) = ALLOCATED ∧
      merged_start ex_three.mem 8096 = 4112 ∧ merged_size ex_three.mem 8096 = 4064 ∧
      ∃ t, my_free cfg16 ex_three (Ptr.heap (8096 + cfg16.ALLOC_HEADER_SIZE))
          = FreeResult.returned t ∧
        t.mem.state (Ptr.heap (merged_start ex_three.mem 8096)) = UNALLOCATED ∧
        t.mem.size (Ptr.heap (merged_start ex_three.mem 8096))
          = merged_size ex_three.mem 8096 := by
  obtain ⟨B, lab, hw, -, hl⟩ := reachable_inv cfg16_wf ex_three_reach
  obtain ⟨-, g2, g3, -⟩ := hl (8112, 24) (List.mem_singleton_self _)
  have g4 : B 8096 := g2
  have g5 : ex_three.mem.state (Ptr.heap 8096) = ALLOCATED := g3
  obtain ⟨t, B2, lab2, h1, h2, h3, h4, h5, h6, h7⟩ := free_coalesces cfg16_wf hw g4 g5
  exact ⟨cfg16_wf, B, lab, hw, g4, g5, by decide, by decide, t, h1, h5, h6⟩

/-- The instance given with C12: two allocations of `ARENA_SIZE -
4*ALLOC_HEADER_SIZE` bytes, the second of which extends the heap, then both
freed: one free block of 8160 bytes covers both arenas. -/
theorem cross_chunk_coalescing_witness :
    cfg16.WF ∧ Reachable cfg16 4096 ex_cc4 [4096] [] ∧
      (ex_cc4.brk = 12288 ∧ ex_cc4.lastFencePost = Ptr.heap 12272 ∧
        ex_cc4.mem.size (Ptr.heap 4112) = 8160) ∧
      ∃ f, ex_cc4.lastFencePost = Ptr.heap f ∧ f + cfg16.ALLOC_HEADER_SIZE ≤ ex_cc4.brk ∧
        ex_cc4.mem.state (Ptr.heap 4096) = FENCEPOST ∧
        ex_cc4.mem.state (Ptr.heap (4096 + cfg16.ALLOC_HEADER_SIZE)) = UNALLOCATED ∧
        ex_cc4.mem.state (Ptr.heap f) = FENCEPOST ∧
        ex_cc4.mem.size (Ptr.heap (4096 + cfg16.ALLOC_HEADER_SIZE))
          = (f + cfg16.ALLOC_HEADER_SIZE - 4096) - 2 * cfg16.ALLOC_HEADER_SIZE ∧
        4096 + cfg16.ALLOC_HEADER_SIZE
          + ex_cc4.mem.size (Ptr.heap (4096 + cfg16.ALLOC_HEADER_SIZE)) = f ∧
        ∀ a, InChunk ex_cc4.mem 4096 a ↔
          (a = 4096 ∨ a = 4096 + cfg16.ALLOC_HEADER_SIZE ∨ a = f) :=
  ⟨cfg16_wf, ex_cc4_reach, ⟨by decide, by decide, by decide⟩,
    cross_chunk_coalescing cfg16_wf ex_cc4_reach⟩

theorem ex_gap_reach : Reachable cfg16 4096 ex_gap [4096] [] :=
  Reachable.os_break 64 Reachable.init

theorem ex_gap1_reach : Reachable cfg16 4096 ex_gap1 [4096, 8256] [(11432, 5000)] :=
  Reachable.malloc 5000 3 11432 ex_gap_reach (in_range_small _ _ (by decide)) rfl rfl

/-- What `verify_chunk` returns: its argument if that is not a fencepost, and
`NULL` otherwise; the loop over the blocks stops before its first iteration. -/
theorem verify_chunk_eq (m : Memory) (fuel : Nat) (c : Ptr) :
    verify_chunk m (fuel + 1) c = if m.state c = FENCEPOST then some Ptr.null else some c := by
  by_cases h : m.state c = FENCEPOST
  · rw [if_pos h]
    exact verify_chunk_fencepost m fuel c h
  · rw [if_neg h]
    unfold verify_chunk
    simp [get_block_state, h]

/-- C21 (`lastFencePost` after `NEW_CHUNK_ADDER`), violated by the code in the
island case: after `init` the break is moved by 64 bytes by other code, so the
arenas that `my_malloc(5000)` acquires start at 8256 and are not glued to the
last fencepost at 8176. `NEW_CHUNK_ADDER` frames them with the fenceposts at
8256 and 16432 and returns with `lastFencePost` still at 8176, and so does
`my_malloc`. -/
theorem island_keeps_last_fencepost :
    Reachable cfg16 4096 ex_gap [4096] [] ∧
      (ex_gap.lastFencePost = Ptr.heap 8176 ∧ ex_gap.brk = 8256 ∧
        get_header_from_offset ex_gap.lastFencePost cfg16.ALLOC_HEADER_SIZE = Ptr.heap 8192) ∧
      (ex_gap_added.brk = 16448 ∧ ex_gap_added.mem.crashed = false ∧
        ex_gap_added.mem.state (Ptr.heap 8256) = FENCEPOST ∧
        ex_gap_added.mem.state (Ptr.heap 8272) = UNALLOCATED ∧
        ex_gap_added.mem.size (Ptr.heap 8272) = 8160 ∧
        ex_gap_added.mem.state (Ptr.heap 16432) = FENCEPOST ∧
        ex_gap_added.lastFencePost = Ptr.heap 8176) ∧
      my_malloc cfg16 3 ex_gap 5000 = some (Ptr.heap 11432, ex_gap1) ∧
      Reachable cfg16 4096 ex_gap1 [4096, 8256] [(11432, 5000)] ∧
      (ex_gap1.mem.crashed = false ∧ ex_gap1.mem.state (Ptr.heap 16432) = FENCEPOST ∧
        ex_gap1.lastFencePost = Ptr.heap 8176) :=
  ⟨ex_gap_reach, ⟨by decide, by decide, by decide⟩,
    ⟨by decide, by decide, by decide, by decide, by decide, by decide, by decide⟩,
    rfl, ex_gap1_reach, ⟨by decide, by decide, by decide⟩⟩

/-- C22 (the tag of the right fencepost after a glued install), violated by the
code. On the initialised heap, whose last block (4064 bytes at 4112) is
`UNALLOCATED`, `NEW_CHUNK_ADDER` for a request of 5016 bytes acquires 2 arenas
and extends that block to 12256 bytes, ending at the new last fencepost 16368;
the fencepost has state `FENCEPOST` and size 16, and its `left_size` is 4064,
the value `allocate_chunk` wrote. On the heap `ex_cc1`, whose last block is
`ALLOCATED`, the fresh block of 4096 bytes at 8176 has `left_size` 4064 and ends
at the new last fencepost 12272, whose `left_size` is 4064 as well. -/
theorem glued_install_stale_left_size :
    (get_header_from_offset (init cfg16 4096).lastFencePost cfg16.ALLOC_HEADER_SIZE
        = Ptr.heap (init cfg16 4096).brk ∧
      (init cfg16 4096).lastFencePost = Ptr.heap 8176 ∧
      (init cfg16 4096).mem.left_size (Ptr.heap 8176) = 4064 ∧
      (init cfg16 4096).mem.state (Ptr.heap 4112) = UNALLOCATED ∧
      arena_count cfg16 5016 = 2) ∧
    (ex_glue.mem.crashed = false ∧ ex_glue.lastFencePost = Ptr.heap 16368 ∧
      ex_glue.mem.state (Ptr.heap 16368) = FENCEPOST ∧
      ex_glue.mem.size (Ptr.heap 16368) = 16 ∧
      ex_glue.mem.state (Ptr.heap 4112) = UNALLOCATED ∧
      ex_glue.mem.size (Ptr.heap 4112) = 12256 ∧
      4112 + ex_glue.mem.size (Ptr.heap 4112) = 16368 ∧
      ex_glue.mem.left_size (Ptr.heap 16368) = 4064) ∧
    Reachable cfg16 4096 ex_cc1 [4096] [(4128, 4032)] ∧
    (get_header_from_offset ex_cc1.lastFencePost cfg16.ALLOC_HEADER_SIZE = Ptr.heap ex_cc1.brk ∧
      ex_cc1.mem.state (Ptr.heap 4112) = ALLOCATED ∧
      ex_cc1.mem.size (Ptr.heap 4112) = 4064 ∧
      arena_count cfg16 4048 = 1) ∧
    (ex_glue2.mem.crashed = false ∧ ex_glue2.lastFencePost = Ptr.heap 12272 ∧
      ex_glue2.mem.state (Ptr.heap 12272) = FENCEPOST ∧
      ex_glue2.mem.size (Ptr.heap 12272) = 16 ∧
      ex_glue2.mem.state (Ptr.heap 8176) = UNALLOCATED ∧
      ex_glue2.mem.size (Ptr.heap 8176) = 4096 ∧
      ex_glue2.mem.left_size (Ptr.heap 8176) = 4064 ∧
      8176 + ex_glue2.mem.size (Ptr.heap 8176) = 12272 ∧
      ex_glue2.mem.left_size (Ptr.heap 12272) = 4064) :=
  ⟨⟨by decide, by decide, by decide, by decide, by decide⟩,
    ⟨by decide, by decide, by decide, by decide, by decide, by decide, by decide, by decide⟩,
    ex_cc1_reach, ⟨by decide, by decide, by decide, by decide⟩,
    ⟨by decide, by decide, by decide, by decide, by decide, by decide, by decide, by decide,
      by decide⟩⟩

/-- C23 (tag verification detects mismatches), violated by the code:
`verify_chunk` returns its argument when that is not a fencepost and `NULL` when
it is, whatever the sizes in the chunk are, because its loop runs while the
header is not a fencepost and starts on the left fencepost. On the heap
`ex_bad`, whose recorded chunk starts with the fencepost at 4096 and whose
block at 4112 has size 4064 while the header to its right has `left_size` 0,
`verify_chunk` returns `NULL`; `verify_tags` returns false there, as it does on
the initialised heap. -/
theorem verify_chunk_misses_mismatch :
    (∀ (m : Memory) (fuel : Nat) (c : Ptr),
      verify_chunk m (fuel + 1) c
        = if m.state c = FENCEPOST then some Ptr.null else some c) ∧
    (ex_bad.osChunkList = [Ptr.heap 4096] ∧
      ex_bad.mem.state (Ptr.heap 4096) = FENCEPOST ∧
      get_right_header ex_bad.mem (Ptr.heap 4096) = Ptr.heap 4112 ∧
      ex_bad.mem.state (Ptr.heap 4112) = UNALLOCATED ∧
      ex_bad.mem.size (Ptr.heap 4112) = 4064 ∧
      get_right_header ex_bad.mem (Ptr.heap 4112) = Ptr.heap 8176 ∧
      ex_bad.mem.state (Ptr.heap 8176) = FENCEPOST ∧
      ex_bad.mem.left_size (Ptr.heap 8176) = 0) ∧
    (∀ fuel : Nat, verify_chunk ex_bad.mem (fuel + 1) (Ptr.heap 4096) = some Ptr.null) ∧
    verify_tags ex_bad 8 = some false ∧
    verify_tags (init cfg16 4096) 8 = some false :=
  ⟨verify_chunk_eq,
    ⟨by decide, by decide, by decide, by decide, by decide, by decide, by decide, by decide⟩,
    fun fuel => verify_chunk_fencepost _ fuel _ (by decide), by decide, by decide⟩

/-! ## The tortoise and the hare of `detect_cycles` -/

theorem detect_cycles_list_succ (m : Memory) (S : Ptr) (fuel : Nat) (slow fast : Ptr) :
    detect_cycles_list m S (fuel + 1) slow fast
      = if fast ≠ S then
          if slow = fast then some (some slow)
          else detect_cycles_list m S fuel (m.next slow) (m.next (m.next fast))
        else some none := rfl

/-- While `fast` has not reached the sentinel and `slow` differs from `fast`, the
loop of `detect_cycles` goes on: `T` iterations take `slow` from the node number
`1 + t` of the chain to the node number `1 + (t + T)` and `fast` from the node
number `2 + 2*t` to the node number `2 + 2*(t + T)`. -/
theorem detect_cycles_list_run (m : Memory) (S : Ptr) (T : Nat) (t fuel : Nat)
    (h : ∀ u, t ≤ u → u < t + T →
      m.next^[2 + 2 * u] S ≠ S ∧ m.next^[1 + u] S ≠ m.next^[2 + 2 * u] S) :
    detect_cycles_list m S (fuel + T) (m.next^[1 + t] S) (m.next^[2 + 2 * t] S)
      = detect_cycles_list m S fuel (m.next^[1 + (t + T)] S) (m.next^[2 + 2 * (t + T)] S) := by
  induction T generalizing t with
  | zero => rfl
  | succ T ih =>
    obtain ⟨h1, h2⟩ := h t (le_refl _) (by omega)
    have e : fuel + (T + 1) = (fuel + T) + 1 := by omega
    rw [e, detect_cycles_list_succ, if_pos h1, if_neg h2]
    have e1 : m.next (m.next^[1 + t] S) = m.next^[1 + (t + 1)] S :=
      (Function.iterate_succ_apply' m.next (1 + t) S).symm
    have e2 : m.next (m.next (m.next^[2 + 2 * t] S)) = m.next^[2 + 2 * (t + 1)] S := by
      rw [← Function.iterate_succ_apply' m.next (2 + 2 * t) S,
        ← Function.iterate_succ_apply' m.next (2 + 2 * t + 1) S]
      rfl
    rw [e1, e2, ih (t + 1) (fun u hu1 hu2 => h u (by omega) (by omega))]
    have e3 : t + 1 + T = t + (T + 1) := by omega
    rw [e3]

/-- The loop ends without a result when `fast` reaches the sentinel after `T`
iterations. -/
theorem detect_cycles_list_none (m : Memory) (S : Ptr) (T : Nat)
    (h : ∀ u, u < T → m.next^[2 + 2 * u] S ≠ S ∧ m.next^[1 + u] S ≠ m.next^[2 + 2 * u] S)
    (hT : m.next^[2 + 2 * T] S = S) (fuel : Nat) (hf : T + 1 ≤ fuel) :
    detect_cycles_list m S fuel (m.next S) (m.next (m.next S)) = some none := by
  obtain ⟨g, rfl⟩ : ∃ g, fuel = (g + 1) + T := ⟨fuel - T - 1, by omega⟩
  have := detect_cycles_list_run m S T 0 (g + 1) (fun u _ hu => h u (by omega))
  simp only [Nat.zero_add, Nat.mul_zero, Nat.add_zero] at this
  have e1 : m.next^[1] S = m.next S := rfl
  have e2 : m.next^[2] S = m.next (m.next S) := rfl
  rw [e1, e2] at this
  rw [this, detect_cycles_list_succ]
  have h3 : ¬ m.next^[2 + 2 * T] S ≠ S := fun h4 => h4 hT
  rw [if_neg h3]

/-- The loop returns `slow` when it meets `fast` after `T` iterations. -/
theorem detect_cycles_list_some (m : Memory) (S : Ptr) (T : Nat)
    (h : ∀ u, u < T → m.next^[2 + 2 * u] S ≠ S ∧ m.next^[1 + u] S ≠ m.next^[2 + 2 * u] S)
    (hT1 : m.next^[2 + 2 * T] S ≠ S) (hT2 : m.next^[1 + T] S = m.next^[2 + 2 * T] S)
    (fuel : Nat) (hf : T + 1 ≤ fuel) :
    detect_cycles_list m S fuel (m.next S) (m.next (m.next S))
      = some (some (m.next^[1 + T] S)) := by
  obtain ⟨g, rfl⟩ : ∃ g, fuel = (g + 1) + T := ⟨fuel - T - 1, by omega⟩
  have := detect_cycles_list_run m S T 0 (g + 1) (fun u _ hu => h u (by omega))
  simp only [Nat.zero_add, Nat.mul_zero, Nat.add_zero] at this
  have e1 : m.next^[1] S = m.next S := rfl
  have e2 : m.next^[2] S = m.next (m.next S) := rfl
  rw [e1, e2] at this
  rw [this, detect_cycles_list_succ, if_pos hT1, if_pos hT2]

/-- A chain that comes back to its start after `k` steps comes back after every
multiple of `k` steps. -/
theorem chain_period (f : Ptr → Ptr) (S : Ptr) (k : Nat) (h : f^[k] S = S) (c : Nat) :
    f^[k * c] S = S := by
  induction c with
  | zero => rfl
  | succ c ih =>
    rw [Nat.mul_succ, Function.iterate_add_apply, h, ih]

/-- On a list whose chain comes back to the sentinel the loop of `detect_cycles`
ends without a result. -/
theorem detect_cycles_list_good (m : Memory) (S : Ptr)
    (h : ∃ k, 0 < k ∧ m.next^[k] S = S) :
    ∃ F, ∀ fuel, F ≤ fuel →
      detect_cycles_list m S fuel (m.next S) (m.next (m.next S)) = some none := by
  classical
  obtain ⟨k, hk, e⟩ := h
  obtain ⟨l, rfl⟩ : ∃ l, k = l + 1 := ⟨k - 1, by omega⟩
  have hex : ∃ T, m.next^[2 + 2 * T] S = S := by
    refine ⟨l, ?_⟩
    have := chain_period m.next S (l + 1) e 2
    have e2 : (l + 1) * 2 = 2 + 2 * l := by ring
    rw [e2] at this
    exact this
  refine ⟨Nat.find hex + 1, fun fuel hf => ?_⟩
  refine detect_cycles_list_none m S (Nat.find hex) ?_ (Nat.find_spec hex) fuel hf
  intro u hu
  have h1 : m.next^[2 + 2 * u] S ≠ S := Nat.find_min hex hu
  refine ⟨h1, fun h2 => h1 ?_⟩
  have h3 := congrArg (m.next^[l * (1 + u)]) h2
  rw [← Function.iterate_add_apply, ← Function.iterate_add_apply] at h3
  have e3 : l * (1 + u) + (1 + u) = (l + 1) * (1 + u) := by ring
  have e4 : l * (1 + u) + (2 + 2 * u) = (1 + u) + (l + 1) * (1 + u) := by ring
  rw [e3, e4, Function.iterate_add_apply m.next (1 + u) ((l + 1) * (1 + u)) S,
    chain_period m.next S (l + 1) e (1 + u)] at h3
  have e5 : 2 + 2 * u = (1 + u) + (1 + u) := by ring
  rw [e5, Function.iterate_add_apply m.next (1 + u) (1 + u) S, ← h3, ← h3]

/-- On a list whose chain does not come back to the sentinel and takes finitely
many values the loop of `detect_cycles` returns a node of the chain, and the
node is on a cycle. -/
theorem detect_cycles_list_bad (m : Memory) (S : Ptr)
    (hn : ∀ k, 0 < k → m.next^[k] S ≠ S)
    (hfin : ∃ a b, a < b ∧ m.next^[a] S = m.next^[b] S) :
    ∃ F T, (∀ fuel, F ≤ fuel →
        detect_cycles_list m S fuel (m.next S) (m.next (m.next S))
          = some (some (m.next^[1 + T] S))) ∧
      m.next^[1 + T] (m.next^[1 + T] S) = m.next^[1 + T] S := by
  classical
  obtain ⟨a, b, hab, e⟩ := hfin
  obtain ⟨p, rfl⟩ : ∃ p, b = a + (p + 1) := ⟨b - a - 1, by omega⟩
  have hstep : ∀ j, m.next^[a + j + (p + 1)] S = m.next^[a + j] S := by
    intro j
    have e1 : a + j + (p + 1) = j + (a + (p + 1)) := by omega
    have e2 : a + j = j + a := by omega
    rw [e1, e2, Function.iterate_add_apply, ← e, ← Function.iterate_add_apply]
  have hmul : ∀ c j, m.next^[a + j + (p + 1) * c] S = m.next^[a + j] S := by
    intro c
    induction c with
    | zero => intro j; rfl
    | succ c ih =>
      intro j
      have e1 : a + j + (p + 1) * (c + 1) = a + (j + (p + 1) * c) + (p + 1) := by ring
      rw [e1, hstep, ← Nat.add_assoc, ih]
  have hex : ∃ T, m.next^[1 + T] S = m.next^[2 + 2 * T] S := by
    refine ⟨(p + 1) * (a + 1) - 1, ?_⟩
    have hpos : 1 ≤ (p + 1) * (a + 1) := Nat.mul_pos (by omega) (by omega)
    have hge : a ≤ (p + 1) * (a + 1) := by
      have : 1 * (a + 1) ≤ (p + 1) * (a + 1) := Nat.mul_le_mul_right _ (by omega)
      omega
    obtain ⟨j, hj⟩ : ∃ j, (p + 1) * (a + 1) = a + j := ⟨(p + 1) * (a + 1) - a, by omega⟩
    have e1 : 1 + ((p + 1) * (a + 1) - 1) = a + j := by omega
    have e2 : 2 + 2 * ((p + 1) * (a + 1) - 1) = a + j + (p + 1) * (a + 1) := by omega
    rw [e1, e2, hmul]
  have hfast : ∀ u, m.next^[2 + 2 * u] S ≠ S := fun u => hn _ (by omega)
  refine ⟨Nat.find hex + 1, Nat.find hex, fun fuel hf => ?_, ?_⟩
  · exact detect_cycles_list_some m S (Nat.find hex)
      (fun u hu => ⟨hfast u, Nat.find_min hex hu⟩) (hfast _) (Nat.find_spec hex) fuel hf
  · have h1 := Nat.find_spec hex
    have e5 : 2 + 2 * Nat.find hex = (1 + Nat.find hex) + (1 + Nat.find hex) := by ring
    rw [e5, Function.iterate_add_apply m.next (1 + Nat.find hex) (1 + Nat.find hex) S] at h1
    exact h1.symm

/-- The outer loop of `detect_cycles` over the lists `i, ..., i + cnt - 1`. -/
theorem detect_cycles_from_spec (m : Memory) (cnt i : Nat)
    (hfin : ∀ j, i ≤ j → j < i + cnt →
      ∃ a b, a < b ∧ m.next^[a] (Ptr.sentinel j) = m.next^[b] (Ptr.sentinel j))
    (hnn : ∀ j, i ≤ j → j < i + cnt → ∀ k, m.next^[k] (Ptr.sentinel j) ≠ Ptr.null) :
    ∃ F r, (∀ fuel, F ≤ fuel → detect_cycles_from m fuel cnt i = some r) ∧
      (r = Ptr.null ↔ ∀ j, i ≤ j → j < i + cnt →
        ∃ k, 0 < k ∧ m.next^[k] (Ptr.sentinel j) = Ptr.sentinel j) ∧
      (r ≠ Ptr.null → ∃ j, i ≤ j ∧ j < i + cnt ∧
        (∃ a, r = m.next^[a] (Ptr.sentinel j)) ∧ (∃ l, 0 < l ∧ m.next^[l] r = r) ∧
        ∀ k, 0 < k → m.next^[k] (Ptr.sentinel j) ≠ Ptr.sentinel j) := by
  induction cnt generalizing i with
  | zero =>
    refine ⟨0, Ptr.null, fun fuel _ => rfl, ?_, fun h => absurd rfl h⟩
    constructor
    · intro _ j h1 h2
      omega
    · intro _
      rfl
  | succ cnt ih =>
    by_cases hg : ∃ k, 0 < k ∧ m.next^[k] (Ptr.sentinel i) = Ptr.sentinel i
    · obtain ⟨F1, h1⟩ := detect_cycles_list_good m (Ptr.sentinel i) hg
      obtain ⟨F2, r, h2, h3, h4⟩ := ih (i + 1)
        (fun j hj1 hj2 => hfin j (by omega) (by omega))
        (fun j hj1 hj2 => hnn j (by omega) (by omega))
      refine ⟨max F1 F2, r, fun fuel hf => ?_, ?_, ?_⟩
      · unfold detect_cycles_from
        dsimp only
        rw [h1 fuel (le_trans (le_max_left _ _) hf)]
        exact h2 fuel (le_trans (le_max_right _ _) hf)
      · rw [h3]
        constructor
        · intro h j hj1 hj2
          by_cases e : j = i
          · rw [e]; exact hg
          · exact h j (by omega) (by omega)
        · intro h j hj1 hj2
          exact h j (by omega) (by omega)
      · intro hr
        obtain ⟨j, j1, j2, j3⟩ := h4 hr
        exact ⟨j, by omega, by omega, j3⟩
    · have hn : ∀ k, 0 < k → m.next^[k] (Ptr.sentinel i) ≠ Ptr.sentinel i :=
        fun k hk e => hg ⟨k, hk, e⟩
      obtain ⟨F1, T, h1, h2⟩ := detect_cycles_list_bad m (Ptr.sentinel i) hn
        (hfin i (le_refl _) (by omega))
      have hr : m.next^[1 + T] (Ptr.sentinel i) ≠ Ptr.null := hnn i (le_refl _) (by omega) _
      refine ⟨F1, m.next^[1 + T] (Ptr.sentinel i), fun fuel hf => ?_, ?_, ?_⟩
      · unfold detect_cycles_from
        dsimp only
        rw [h1 fuel hf]
      · constructor
        · intro e
          exact absurd e hr
        · intro h
          exact absurd (h i (le_refl _) (by omega)) hg
      · intro _
        exact ⟨i, le_refl _, by omega, ⟨1 + T, rfl⟩, ⟨1 + T, by omega, h2⟩, hn⟩

/-- C24: cycle detection is exact. For every memory in which, for each of the
`N_LISTS` lists, the chain of `next` pointers from the sentinel takes finitely
many values (some node of it comes again) and never is `NULL`, `detect_cycles`
terminates: from some amount of fuel on it returns one pointer `r`. `r` is
`NULL` if and only if the chain of every list comes back to its sentinel,
whatever the number of nodes; and if `r` is not `NULL` it is a node of the chain
of a list whose chain does not come back to its sentinel, and `r` is on a cycle
(`next` applied `l > 0` times to `r` gives `r`). -/
theorem detect_cycles_exact (cfg : Config) (m : Memory)
    (hfin : ∀ i, i < cfg.N_LISTS →
      ∃ a b, a < b ∧ m.next^[a] (Ptr.sentinel i) = m.next^[b] (Ptr.sentinel i))
    (hnn : ∀ i, i < cfg.N_LISTS → ∀ k, m.next^[k] (Ptr.sentinel i) ≠ Ptr.null) :
    ∃ F r, (∀ fuel, F ≤ fuel → detect_cycles cfg m fuel = some r) ∧
      (r = Ptr.null ↔ ∀ i, i < cfg.N_LISTS →
        ∃ k, 0 < k ∧ m.next^[k] (Ptr.sentinel i) = Ptr.sentinel i) ∧
      (r ≠ Ptr.null → ∃ i, i < cfg.N_LISTS ∧
        (∃ a, r = m.next^[a] (Ptr.sentinel i)) ∧ (∃ l, 0 < l ∧ m.next^[l] r = r) ∧
        ∀ k, 0 < k → m.next^[k] (Ptr.sentinel i) ≠ Ptr.sentinel i) := by
  obtain ⟨F, r, h1, h2, h3⟩ := detect_cycles_from_spec m cfg.N_LISTS 0
    (fun j _ hj => hfin j (by omega)) (fun j _ hj => hnn j (by omega))
  refine ⟨F, r, h1, ?_, ?_⟩
  · rw [h2]
    constructor
    · intro h i hi
      exact h i (Nat.zero_le _) (by omega)
    · intro h j _ hj
      exact h j (by omega)
  · intro hr
    obtain ⟨j, -, j2, j3⟩ := h3 hr
    exact ⟨j, by omega, j3⟩

/-- The lists of the initialised heap: every chain comes back to its sentinel,
and `detect_cycles` returns `NULL`. -/
theorem detect_cycles_exact_witness :
    (∀ i, i < cfg16.N_LISTS → ∃ a b, a < b ∧
      (init cfg16 4096).mem.next^[a] (Ptr.sentinel i)
        = (init cfg16 4096).mem.next^[b] (Ptr.sentinel i)) ∧
    (∀ i, i < cfg16.N_LISTS → ∀ k,
      (init cfg16 4096).mem.next^[k] (Ptr.sentinel i) ≠ Ptr.null) ∧
    detect_cycles cfg16 (init cfg16 4096).mem 4 = some Ptr.null ∧
    ∃ F r, (∀ fuel, F ≤ fuel → detect_cycles cfg16 (init cfg16 4096).mem fuel = some r) ∧
      (r = Ptr.null ↔ ∀ i, i < cfg16.N_LISTS →
        ∃ k, 0 < k ∧ (init cfg16 4096).mem.next^[k] (Ptr.sentinel i) = Ptr.sentinel i) ∧
      (r ≠ Ptr.null → ∃ i, i < cfg16.N_LISTS ∧
        (∃ a, r = (init cfg16 4096).mem.next^[a] (Ptr.sentinel i)) ∧
        (∃ l, 0 < l ∧ (init cfg16 4096).mem.next^[l] r = r) ∧
        ∀ k, 0 < k →
          (init cfg16 4096).mem.next^[k] (Ptr.sentinel i) ≠ Ptr.sentinel i) := by
  have hw := init_wf cfg16 cfg16_wf 4096
  have h1 : ∀ i, i < cfg16.N_LISTS → ∃ a b, a < b ∧
      (init cfg16 4096).mem.next^[a] (Ptr.sentinel i)
        = (init cfg16 4096).mem.next^[b] (Ptr.sentinel i) := by
    intro i hi
    obtain ⟨-, k, hk, e, -⟩ := hw.list_orbit cfg16_wf hi
    exact ⟨0, k, hk, e.symm⟩
  have h2 : ∀ i, i < cfg16.N_LISTS → ∀ k,
      (init cfg16 4096).mem.next^[k] (Ptr.sentinel i) ≠ Ptr.null := by
    intro i hi k
    exact isNode_ne_null ((hw.list_orbit cfg16_wf hi).1 k)
  exact ⟨h1, h2, by decide, detect_cycles_exact cfg16 (init cfg16 4096).mem h1 h2⟩

end MeMALC
